import Mathlib

/-!
# Edit-config reconciliation engine (`server/edit-config.c`)

A shallow embedding of the tree matcher, the equivalence lookup, the
operation resolver, the hierarchy and precondition checks, the compaction of
operations, the appliers and the driver `edit_operations` of
`server/edit-config.c`, with the properties of the specification that concern
them.

Conventions of the embedding.

* A libxml2 tree is a value of `xmlNode`; the document is the node of type
  `XML_DOCUMENT_NODE` at the top, as in libxml2 where `xmlDoc` shares the
  header of `xmlNode`.
* A node pointer into a document is the route from the node back to the
  document: the head is the position of the node among the children of its
  parent, the tail is the pointer of the parent, `[]` is the document itself.
  `node->parent` is the tail and a `NULL` pointer is `none`.
* A function that can dereference `NULL` returns an `Option`; `none` is that
  fault. A function with a loop that has no bound of its own takes a fuel and
  returns an `outcome`: a result, a fault, or the fuel used up.
* A `char` is a `Char`; a cell of a C buffer is `some c` or the terminating
  NUL, `none`.
-/

set_option autoImplicit false

/-! ## libxml2 data model -/

/-- The node kinds of libxml2 that occur in configuration documents. -/
inductive xmlElementType where
  | XML_ELEMENT_NODE
  | XML_TEXT_NODE
  | XML_COMMENT_NODE
  | XML_DOCUMENT_NODE
deriving DecidableEq, Repr

/-- A namespace declaration: `href` and the bound prefix (`pfx`). -/
structure xmlNs where
  href : String
  pfx : Option String
deriving DecidableEq, Repr

/-- An attribute with its namespace and its string value. -/
structure xmlAttr where
  name : String
  ns : Option xmlNs
  value : String
deriving DecidableEq, Repr

/-- A node of a libxml2 tree. The document node has no name (`NULL`), a text
node carries `content`. -/
structure xmlNode where
  type : xmlElementType
  name : Option String
  ns : Option xmlNs
  nsDef : List xmlNs
  properties : List xmlAttr
  content : Option String
  children : List xmlNode

/-- A pointer to a node of a document: child position first, then the pointer
of the parent; `[]` is the document node. -/
abbrev xmlNodePtr := List Nat

/-- The node a pointer names in `doc`, `none` for a pointer that names nothing. -/
def deref (doc : xmlNode) : xmlNodePtr → Option xmlNode
  | [] => some doc
  | k :: parent =>
    match deref doc parent with
    | some p => p.children.get? k
    | none => none

/-- The field `node->parent`, `NULL` for the document node. -/
def parent_ptr : xmlNodePtr → Option xmlNodePtr
  | [] => none
  | _ :: parent => some parent

/-- The field `node->name` read through a pointer; the read fails through `NULL`. -/
def name_at (doc : xmlNode) : Option xmlNodePtr → Option (Option String)
  | none => none
  | some p =>
    match deref doc p with
    | some n => some n.name
    | none => none

/-- The pointer `node->children` (the first child), `NULL` when there is none. -/
def children_ptr (p : xmlNodePtr) (n : xmlNode) : Option xmlNodePtr :=
  match n.children with
  | [] => none
  | _ :: _ => some (0 :: p)

/-- The test `node->children != NULL && node->children->type == XML_TEXT_NODE`. -/
def first_child_is_text (n : xmlNode) : Bool :=
  match n.children with
  | [] => false
  | c :: _ => decide (c.type = xmlElementType.XML_TEXT_NODE)

/-- The libxml2 string equality: two `NULL`s are equal, `NULL` equals no string. -/
def xmlStrEqual : Option String → Option String → Bool
  | none, none => true
  | none, some _ => false
  | some _, none => false
  | some a, some b => decide (a = b)

/-- The C library comparison on the characters of two strings, by sign. -/
def strcmp_chars : List Char → List Char → Int
  | [], [] => 0
  | [], _ :: _ => -1
  | _ :: _, [] => 1
  | a :: s1, b :: s2 =>
    if a = b then strcmp_chars s1 s2 else if a.toNat < b.toNat then -1 else 1

/-- The C library comparison of two strings, by sign. -/
def strcmp (a b : String) : Int := strcmp_chars a.data b.data

/-- The libxml2 string comparison, `NULL` ordered below every string. -/
def xmlStrcmp : Option String → Option String → Int
  | none, none => 0
  | none, some _ => -1
  | some _, none => 1
  | some a, some b => strcmp a b

/-- Short-circuit conjunction whose right operand may fault. -/
def c_and (a : Bool) (b : Option Bool) : Option Bool :=
  if a then b else some false

/-- Short-circuit disjunction whose right operand may fault. -/
def c_or (a : Bool) (b : Option Bool) : Option Bool :=
  if a then some true else b

/-- The attribute lookup of libxml2 by name and namespace: the value of the
first attribute of an element with that name in a namespace of that href. -/
def xmlGetNsProp (node : xmlNode) (name : String) (nameSpace : String) : Option String :=
  if node.type ≠ xmlElementType.XML_ELEMENT_NODE then none
  else
    match node.properties.find? (fun prop =>
        match prop.ns with
        | some ns => decide (prop.name = name) && decide (ns.href = nameSpace)
        | none => false) with
    | some prop => some prop.value
    | none => none

/-! ## Constants of libnetconf used by the engine -/

/-- The NETCONF base namespace. -/
def NC_NS_BASE10 : String := "urn:ietf:params:xml:ns:netconf:base:1.0"

/-- Codes of `NC_EDIT_OP_TYPE` and `NC_EDIT_DEFOP_TYPE`, as C integers. -/
abbrev NC_EDIT_OP_TYPE := Int

/-- Code of the error value of an operation. -/
def NC_EDIT_OP_ERROR : NC_EDIT_OP_TYPE := -1
/-- Code of the absent operation. -/
def NC_EDIT_OP_NOTSET : NC_EDIT_OP_TYPE := 0
/-- Code of `merge`. -/
def NC_EDIT_OP_MERGE : NC_EDIT_OP_TYPE := 1
/-- Code of `replace`. -/
def NC_EDIT_OP_REPLACE : NC_EDIT_OP_TYPE := 2
/-- Code of `create`. -/
def NC_EDIT_OP_CREATE : NC_EDIT_OP_TYPE := 3
/-- Code of `delete`. -/
def NC_EDIT_OP_DELETE : NC_EDIT_OP_TYPE := 4
/-- Code of `remove`. -/
def NC_EDIT_OP_REMOVE : NC_EDIT_OP_TYPE := 5
/-- Code of the default operation that is not set. -/
def NC_EDIT_DEFOP_NOTSET : NC_EDIT_OP_TYPE := 0
/-- Code of the default operation `merge`. -/
def NC_EDIT_DEFOP_MERGE : NC_EDIT_OP_TYPE := 1
/-- Code of the default operation `replace`. -/
def NC_EDIT_DEFOP_REPLACE : NC_EDIT_OP_TYPE := 2
/-- Code of the default operation `none`. -/
def NC_EDIT_DEFOP_NONE : NC_EDIT_OP_TYPE := 3

/-- The NETCONF error identifiers the engine raises. -/
inductive NC_ERR where
  | NC_ERR_BAD_ATTR
  | NC_ERR_OP_FAILED
  | NC_ERR_DATA_MISSING
  | NC_ERR_DATA_EXISTS
deriving DecidableEq, Repr

/-- An error structure: its identifier and the `bad-attribute` info, if set. -/
structure nc_err where
  tag : NC_ERR
  info_badattr : Option String
deriving DecidableEq, Repr

/-- The constructor `nc_err_new`. -/
def nc_err_new (tag : NC_ERR) : nc_err := { tag := tag, info_badattr := none }

/-- The setter `nc_err_set (e, NC_ERR_PARAM_INFO_BADATTR, value)`. -/
def nc_err_set_badattr (e : nc_err) (value : String) : nc_err :=
  { e with info_badattr := some value }

/-! ## `nc_clrwspace` -/

/-- The C classification `isspace` in the C locale. -/
def isspace (c : Char) : Bool :=
  c = ' ' || c = '\t' || c = '\n' || c = Char.ofNat 11 || c = Char.ofNat 12 || c = '\r'

/-- A character buffer; `none` is the NUL character. -/
abbrev CBuf := List (Option Char)

/-- The read `retval[i]`. -/
def CBuf.at (retval : CBuf) (i : Nat) : Option Char := retval.getD i none

/-- The test `isspace(c)` on a buffer cell; NUL is no white space. -/
def cell_isspace : Option Char → Bool
  | some c => isspace c
  | none => false

/-- The copy `strdup(in)`: the characters and the terminating NUL. -/
def strdup (s : String) : CBuf := s.data.map some ++ [none]

/-- The C string held by a buffer: the characters before the first NUL. -/
def CBuf.toString (retval : CBuf) : String :=
  String.mk ((retval.takeWhile Option.isSome).filterMap id)

/-- The inner loop `while (retval[i] != 0 && isspace(retval[i])) i++`; the
result is the final `i`. The buffer length is enough fuel. -/
def skip_isspace (retval : CBuf) : Nat → Nat → Nat
  | 0, i => i
  | fuel + 1, i => if cell_isspace (retval.at i) then skip_isspace retval fuel (i + 1) else i

/-- The loop `for (i = 0, j = 0; i < len; i++, j++)` of `nc_clrwspace`; the
result is the buffer and the final `j`. `len` is enough fuel. -/
def leading_loop (len : Nat) : Nat → CBuf → Nat → Nat → CBuf × Nat
  | 0, retval, _, j => (retval, j)
  | fuel + 1, retval, i, j =>
    if i < len then
      let i1 := skip_isspace retval retval.length i
      leading_loop len fuel (retval.set j (retval.at i1)) (i1 + 1) (j + 1)
    else (retval, j)

/-- The loop `while (j >= 0 && isspace(retval[j]))` of `nc_clrwspace`, which
writes NUL and steps `j` down. -/
def trailing_loop : Nat → CBuf → Int → CBuf
  | 0, retval, _ => retval
  | fuel + 1, retval, j =>
    if 0 ≤ j ∧ cell_isspace (retval.at j.toNat) = true then
      trailing_loop fuel (retval.set j.toNat none) (j - 1)
    else retval

/-- The function `nc_clrwspace`: the leading loop runs only when the first
character is white space, the trailing loop starts at the `j` the leading loop
left (0 when it did not run). -/
def nc_clrwspace (s : String) : String :=
  let len := s.length
  let retval := strdup s
  let st := if cell_isspace (retval.at 0) then leading_loop len len retval 0 0 else (retval, 0)
  (trailing_loop (st.1.length + 1) st.1 st.2).toString

/-! ## `nc_nscmp`, `go2node`, `get_operation` -/

/-- The function `nc_nscmp`: 0 when `node` is in the namespace of `reference`
(or `reference` is a wildcard), 1 otherwise. -/
def nc_nscmp (reference node : xmlNode) : Int :=
  match reference.ns with
  | none => 0
  | some rns =>
    if strcmp rns.href NC_NS_BASE10 = 0 ∨ (nc_clrwspace rns.href).length = 0 then 0
    else
      let in_ns : Int :=
        match node.ns with
        | some nns => if strcmp rns.href nns.href = 0 then 1 else 0
        | none => 0
      if in_ns = 1 then 0 else 1

/-- The loop of `go2node` over the children from position `i` on: the position
of the first element child with the given name. -/
def go2node_loop (name : String) : List xmlNode → Nat → Option Nat
  | [], _ => none
  | child :: rest, i =>
    if child.type ≠ xmlElementType.XML_ELEMENT_NODE then go2node_loop name rest (i + 1)
    else if xmlStrEqual child.name (some name) then some i
    else go2node_loop name rest (i + 1)

/-- The function `go2node`: the first element child of `parent` with the given
name, `NULL` when `parent` is `NULL` or has none. -/
def go2node (doc : xmlNode) (parent : Option xmlNodePtr) (name : String) :
    Option (Option xmlNodePtr) :=
  match parent with
  | none => some none
  | some p =>
    match deref doc p with
    | none => none
    | some n =>
      match go2node_loop name n.children 0 with
      | some i => some (some (i :: p))
      | none => some none

/-- The function `get_operation`: the operation code and the error stored
through `error`, if one is stored. -/
def get_operation (node : xmlNode) (defop : NC_EDIT_OP_TYPE) : NC_EDIT_OP_TYPE × Option nc_err :=
  match xmlGetNsProp node "operation" NC_NS_BASE10 with
  | some operation =>
    if xmlStrEqual (some operation) (some "merge") then (NC_EDIT_OP_MERGE, none)
    else if xmlStrEqual (some operation) (some "replace") then (NC_EDIT_OP_REPLACE, none)
    else if xmlStrEqual (some operation) (some "create") then (NC_EDIT_OP_CREATE, none)
    else if xmlStrEqual (some operation) (some "delete") then (NC_EDIT_OP_DELETE, none)
    else if xmlStrEqual (some operation) (some "remove") then (NC_EDIT_OP_REMOVE, none)
    else
      (NC_EDIT_OP_ERROR,
        some (nc_err_set_badattr (nc_err_new NC_ERR.NC_ERR_BAD_ATTR) "operation"))
  | none => (defop, none)

/-! ## `matching_elements` and `find_element_equiv` -/

/-- The body of `matching_elements` with a bound on the depth of its
recursion. `node1` points into `doc1`, `node2` into `doc2`. The result is
`some 1` (match), `some 0` (no match), `some (-1)` (error), or `none` for a
read through `NULL` (and for exhausted fuel). -/
def matching_elements_fuel :
    Nat → xmlNode → Option xmlNodePtr → xmlNode → Option xmlNodePtr → Option Int
  | 0, _, _, _, _ => none
  | fuel + 1, doc1, node1, doc2, node2 =>
    match node1, node2 with
    | some p1, some p2 =>
      match deref doc1 p1, deref doc2 p2 with
      | some n1, some n2 =>
        if n1.type = xmlElementType.XML_TEXT_NODE ∧ n2.type = xmlElementType.XML_TEXT_NODE then
          match n1.content, n2.content with
          | some c1, some c2 =>
            if strcmp (nc_clrwspace c1) (nc_clrwspace c2) = 0 then some 1 else some 0
          | _, _ => none
        else if n1.type ≠ xmlElementType.XML_ELEMENT_NODE
            ∨ n2.type ≠ xmlElementType.XML_ELEMENT_NODE then some 0
        else if xmlStrcmp n1.name n2.name ≠ 0 then some 0
        else if nc_nscmp n1 n2 ≠ 0 then some 0
        else
          match c_or (xmlStrEqual n2.name (some "queue") || xmlStrEqual n2.name (some "flow-table")
                || xmlStrEqual n2.name (some "rate") || xmlStrEqual n2.name (some "medium"))
              (c_and (xmlStrEqual n2.name (some "port"))
                ((name_at doc2 (parent_ptr p2)).map (fun pn => xmlStrEqual pn (some "resources")))) with
          | none => none
          | some leaf =>
            if leaf = true ∧ first_child_is_text n1 = true ∧ first_child_is_text n2 = true then
              matching_elements_fuel fuel doc1 (children_ptr p1 n1) doc2 (children_ptr p2 n2)
            else if (xmlStrEqual n2.name (some "controller")
                || xmlStrEqual n2.name (some "switch")) = true then
              match go2node doc1 (some p1) "id", go2node doc2 (some p2) "id" with
              | some k1, some k2 => matching_elements_fuel fuel doc1 k1 doc2 k2
              | _, _ => none
            else
              match c_and (xmlStrEqual n2.name (some "port"))
                  ((name_at doc2 ((parent_ptr p2).bind parent_ptr)).map
                    (fun gn => xmlStrEqual gn (some "capable-switch"))) with
              | none => none
              | some true =>
                match go2node doc1 (some p1) "name", go2node doc2 (some p2) "name" with
                | some k1, some k2 => matching_elements_fuel fuel doc1 k1 doc2 k2
                | _, _ => none
              | some false =>
                match c_and (xmlStrEqual n2.name (some "flow-table"))
                    ((name_at doc2 ((parent_ptr p2).bind parent_ptr)).map
                      (fun gn => xmlStrEqual gn (some "capable-switch"))) with
                | none => none
                | some true =>
                  match go2node doc1 (some p1) "table-id", go2node doc2 (some p2) "table-id" with
                  | some k1, some k2 => matching_elements_fuel fuel doc1 k1 doc2 k2
                  | _, _ => none
                | some false =>
                  match c_and (xmlStrEqual n2.name (some "queue")
                        || xmlStrEqual n2.name (some "owned-certificate")
                        || xmlStrEqual n2.name (some "external-certificate"))
                      ((name_at doc2 ((parent_ptr p2).bind parent_ptr)).map
                        (fun gn => xmlStrEqual gn (some "capable-switch"))) with
                  | none => none
                  | some true =>
                    match go2node doc1 (some p1) "resource-id",
                        go2node doc2 (some p2) "resource-id" with
                    | some k1, some k2 => matching_elements_fuel fuel doc1 k1 doc2 k2
                    | _, _ => none
                  | some false => some 1
      | _, _ => none
    | _, _ => some (-1)

/-- The function `matching_elements`. Its recursion goes from an element to a
first text child or to a key child and stops there, so a depth of two is
enough (`matching_elements_fuel_stable`). -/
def matching_elements (doc1 : xmlNode) (node1 : Option xmlNodePtr) (doc2 : xmlNode)
    (node2 : Option xmlNodePtr) : Option Int :=
  matching_elements_fuel 2 doc1 node1 doc2 node2

/-- The loop `while (node != NULL)` of `find_element_equiv` over the children
of `orig_parent`, from the child at position `i` on. -/
def find_element_equiv_scan (orig_doc edit_doc : xmlNode) (edit orig_parent : xmlNodePtr) :
    List xmlNode → Nat → Option (Option xmlNodePtr)
  | [], _ => some none
  | _ :: rest, i =>
    match matching_elements edit_doc (some edit) orig_doc (some (i :: orig_parent)) with
    | none => none
    | some r =>
      if r = 0 then find_element_equiv_scan orig_doc edit_doc edit orig_parent rest (i + 1)
      else some (some (i :: orig_parent))

/-- The function `find_element_equiv` for a non-`NULL` edit pointer. -/
def find_element_equiv_ptr (orig_doc edit_doc : xmlNode) :
    xmlNodePtr → Option (Option xmlNodePtr)
  | [] => none
  | k :: parent =>
    match deref edit_doc parent with
    | none => none
    | some pn =>
      match (if pn.type ≠ xmlElementType.XML_DOCUMENT_NODE then
              find_element_equiv_ptr orig_doc edit_doc parent
            else if orig_doc.children.isEmpty = true then some none
            else some (some [])) with
      | none => none
      | some none => some none
      | some (some orig_parent) =>
        match deref orig_doc orig_parent with
        | none => none
        | some opn =>
          find_element_equiv_scan orig_doc edit_doc (k :: parent) orig_parent opn.children 0

/-- The function `find_element_equiv`: the equivalent in `orig_doc` of the node
`edit` of `edit_doc`, `NULL` when there is none. -/
def find_element_equiv (orig_doc edit_doc : xmlNode) (edit : Option xmlNodePtr) :
    Option (Option xmlNodePtr) :=
  match edit with
  | none => some none
  | some p => find_element_equiv_ptr orig_doc edit_doc p

/-! ## Documents used in the examples -/

/-- A text node. -/
def mk_text (content : String) : xmlNode :=
  { type := xmlElementType.XML_TEXT_NODE, name := some "text", ns := none, nsDef := [],
    properties := [], content := some content, children := [] }

/-- An element without attributes. -/
def mk_element (name : String) (ns : Option xmlNs) (children : List xmlNode) : xmlNode :=
  { type := xmlElementType.XML_ELEMENT_NODE, name := some name, ns := ns, nsDef := [],
    properties := [], content := none, children := children }

/-- A document. -/
def mk_doc (children : List xmlNode) : xmlNode :=
  { type := xmlElementType.XML_DOCUMENT_NODE, name := none, ns := none, nsDef := [],
    properties := [], content := none, children := children }

/-- The namespace of the OF-CONFIG data model. -/
def ofc_ns : xmlNs := { href := "urn:onf:config:yang", pfx := none }

/-- The element `<switch><id>` id `</id></switch>`. -/
def switch_with_id (id : String) : xmlNode :=
  mk_element "switch" (some ofc_ns) [mk_element "id" (some ofc_ns) [mk_text id]]

/-! ## Specification-side notions -/

/-- The first element child with the given name in a list of children. -/
def first_named (name : String) (l : List xmlNode) : Option xmlNode :=
  l.find? (fun c => decide (c.type = xmlElementType.XML_ELEMENT_NODE)
    && xmlStrEqual c.name (some name))

/-- The key children of a node for a key name: its element children with that
name, in document order. -/
def key_children (name : String) (n : xmlNode) : List xmlNode :=
  n.children.filter (fun c => decide (c.type = xmlElementType.XML_ELEMENT_NODE)
    && xmlStrEqual c.name (some name))

/-- An edit document `<capable-switch><logical-switches><switch><id>` id
`</id></switch></logical-switches></capable-switch>`; the switch is at `[0, 0, 0]`. -/
def doc_with_switch (id : String) : xmlNode :=
  mk_doc [mk_element "capable-switch" (some ofc_ns)
    [mk_element "logical-switches" (some ofc_ns) [switch_with_id id]]]

/-- A document whose root element is a `port` without children. -/
def doc_root_port : xmlNode := mk_doc [mk_element "port" (some ofc_ns) []]

/-- A stored configuration with two switches, the first of which has no `id`
child: `<capable-switch><logical-switches><switch/><switch><id>br0</id></switch>`. -/
def doc_switch_without_id : xmlNode :=
  mk_doc [mk_element "capable-switch" (some ofc_ns)
    [mk_element "logical-switches" (some ofc_ns)
      [mk_element "switch" (some ofc_ns) [], switch_with_id "br0"]]]

/-- A stored configuration with a port under `resources` only. -/
def doc_resources_port : xmlNode :=
  mk_doc [mk_element "capable-switch" (some ofc_ns)
    [mk_element "resources" (some ofc_ns)
      [mk_element "port" (some ofc_ns) [mk_element "name" (some ofc_ns) [mk_text "eth0"]]]]]

/-- An edit document with the same port under `logical-switches`, at `[0, 0, 0]`. -/
def doc_misplaced_port : xmlNode :=
  mk_doc [mk_element "capable-switch" (some ofc_ns)
    [mk_element "logical-switches" (some ofc_ns)
      [mk_element "port" (some ofc_ns) [mk_element "name" (some ofc_ns) [mk_text "eth0"]]]]]

/-- The element `<switch nc:operation=` value `/>`. -/
def switch_with_operation (value : String) : xmlNode :=
  { type := xmlElementType.XML_ELEMENT_NODE, name := some "switch", ns := some ofc_ns,
    nsDef := [],
    properties := [xmlAttr.mk "operation" (some (xmlNs.mk NC_NS_BASE10 (some "nc"))) value],
    content := none, children := [] }

/-! ## `get_default_value` and `check_edit_ops_hierarchy` -/

/-- The exit code of success. -/
def EXIT_SUCCESS : Int := 0
/-- The exit code of failure. -/
def EXIT_FAILURE : Int := 1

/-- The basic modes of the with-defaults capability, the result of
`ncdflt_get_basic_mode` of libnetconf. -/
inductive NCWD_MODE where
  | NCWD_MODE_NOTSET
  | NCWD_MODE_ALL
  | NCWD_MODE_TRIM
  | NCWD_MODE_EXPLICIT
  | NCWD_MODE_ALL_TAGGED
deriving DecidableEq, Repr

/-- The store `*error = e` when a call stores an error, the old value of
`*error` when it stores none. -/
def store_error (stored error : Option nc_err) : Option nc_err :=
  match stored with
  | some e => some e
  | none => error

/-- The function `get_default_value`: the default value of the data model for
the node, `NULL` when it has none. The values returned are string constants of
the program. -/
def get_default_value (doc : xmlNode) (node : Option xmlNodePtr) : Option (Option String) :=
  match node with
  | none => some none
  | some p =>
    match deref doc p with
    | none => none
    | some n =>
      if xmlStrEqual n.name (some "lost-connection-behavior") = true then
        some (some "failSecureMode")
      else
        match c_and (xmlStrEqual n.name (some "port"))
            ((name_at doc (parent_ptr p)).map (fun pn => xmlStrEqual pn (some "controller"))) with
        | none => none
        | some true => some (some "6633")
        | some false =>
          if xmlStrEqual n.name (some "protocol") = true then some (some "tls")
          else if (xmlStrEqual n.name (some "checksum-present")
              || xmlStrEqual n.name (some "key-present")
              || xmlStrEqual n.name (some "auto-negotiate")) = true then some (some "true")
          else if (xmlStrEqual n.name (some "no-receive")
              || xmlStrEqual n.name (some "no-forward")
              || xmlStrEqual n.name (some "no-packet-in")) = true then some (some "false")
          else if xmlStrEqual n.name (some "admin-state") = true then some (some "up")
          else some none

/-- One round of the walk of `check_edit_ops_hierarchy` over the parents, for
the parent `n`: `some r` when the round returns `r`, `none` when the walk goes
on to the next parent. `bad1` and `bad2` are the two operations a parent must
not carry. -/
def check_parent_round (n : xmlNode) (bad1 bad2 : NC_EDIT_OP_TYPE) (error : Option nc_err) :
    Option (Int × Option nc_err) :=
  if (get_operation n NC_EDIT_DEFOP_NOTSET).1 = NC_EDIT_OP_ERROR then
    some (EXIT_FAILURE, store_error (get_operation n NC_EDIT_DEFOP_NOTSET).2 error)
  else if (get_operation n NC_EDIT_DEFOP_NOTSET).1 = bad1
      ∨ (get_operation n NC_EDIT_DEFOP_NOTSET).1 = bad2 then
    some (EXIT_FAILURE, some (nc_err_new NC_ERR.NC_ERR_OP_FAILED))
  else none

/-- The loop `while (parent->type != XML_DOCUMENT_NODE)` of
`check_edit_ops_hierarchy`, started at the pointer `parent`; it ends with
`EXIT_SUCCESS` at the document node. -/
def check_parents (doc : xmlNode) (bad1 bad2 : NC_EDIT_OP_TYPE) (error : Option nc_err) :
    xmlNodePtr → Option (Int × Option nc_err)
  | [] =>
    if doc.type = xmlElementType.XML_DOCUMENT_NODE then some (EXIT_SUCCESS, error)
    else
      match check_parent_round doc bad1 bad2 error with
      | some r => some r
      | none => none
  | k :: parent =>
    match deref doc (k :: parent) with
    | none => none
    | some n =>
      if n.type = xmlElementType.XML_DOCUMENT_NODE then some (EXIT_SUCCESS, error)
      else
        match check_parent_round n bad1 bad2 error with
        | some r => some r
        | none => check_parents doc bad1 bad2 error parent

/-- The function `check_edit_ops_hierarchy` on the node `edit` of the edit
document `doc`; `error` is the value of `*error` at the call, the result is
the exit code and the value of `*error` at the return. -/
def check_edit_ops_hierarchy (doc : xmlNode) (edit : xmlNodePtr) (defop : NC_EDIT_OP_TYPE)
    (error : Option nc_err) : Option (Int × Option nc_err) :=
  match deref doc edit with
  | none => none
  | some n =>
    if (get_operation n NC_EDIT_DEFOP_NOTSET).1 = NC_EDIT_DEFOP_NOTSET then
      some (EXIT_SUCCESS, store_error (get_operation n NC_EDIT_DEFOP_NOTSET).2 error)
    else if (get_operation n NC_EDIT_DEFOP_NOTSET).1 = NC_EDIT_OP_ERROR then
      some (EXIT_FAILURE, store_error (get_operation n NC_EDIT_DEFOP_NOTSET).2 error)
    else if (get_operation n NC_EDIT_DEFOP_NOTSET).1 = NC_EDIT_OP_DELETE
        ∨ (get_operation n NC_EDIT_DEFOP_NOTSET).1 = NC_EDIT_OP_REMOVE then
      if defop = NC_EDIT_DEFOP_REPLACE then
        some (EXIT_FAILURE, some (nc_err_new NC_ERR.NC_ERR_OP_FAILED))
      else
        match parent_ptr edit with
        | none => none
        | some parent =>
          check_parents doc NC_EDIT_OP_CREATE NC_EDIT_OP_REPLACE
            (store_error (get_operation n NC_EDIT_DEFOP_NOTSET).2 error) parent
    else if (get_operation n NC_EDIT_DEFOP_NOTSET).1 = NC_EDIT_OP_CREATE
        ∨ (get_operation n NC_EDIT_DEFOP_NOTSET).1 = NC_EDIT_OP_REPLACE then
      match parent_ptr edit with
      | none => none
      | some parent =>
        check_parents doc NC_EDIT_OP_DELETE NC_EDIT_OP_REMOVE
          (store_error (get_operation n NC_EDIT_DEFOP_NOTSET).2 error) parent
    else some (EXIT_SUCCESS, store_error (get_operation n NC_EDIT_DEFOP_NOTSET).2 error)

/-- The ancestors of a node below the document node, nearest first: the nodes
the walk of `check_edit_ops_hierarchy` visits in a well-formed document. -/
def element_ancestors (doc : xmlNode) : xmlNodePtr → List xmlNode
  | [] => []
  | _ :: [] => []
  | _ :: k :: parent =>
    (match deref doc (k :: parent) with
      | some n => [n]
      | none => []) ++ element_ancestors doc (k :: parent)

/-! ## Tree primitives of libxml2 -/

/-- The document with the node at the pointer replaced by `n`; `none` for a
pointer that names nothing. -/
def replace_node (doc : xmlNode) : xmlNodePtr → xmlNode → Option xmlNode
  | [], n => some n
  | k :: parent, n =>
    match deref doc parent with
    | none => none
    | some pn =>
      if k < pn.children.length then
        replace_node doc parent { pn with children := pn.children.set k n }
      else none

/-- The calls `xmlUnlinkNode (node); xmlFreeNode (node)`: the document without
the node and its subtree. -/
def xmlUnlinkNode (doc : xmlNode) : xmlNodePtr → Option xmlNode
  | [] => none
  | k :: parent =>
    match deref doc parent with
    | none => none
    | some pn =>
      if k < pn.children.length then
        replace_node doc parent { pn with children := pn.children.eraseIdx k }
      else none

/-- Where the pointer `q` points once the node at `p` has been unlinked and
freed: `none` when `q` pointed to that node or into its subtree, one position
down when `q` passes through a later sibling of it. -/
def ptr_after_unlink (p : xmlNodePtr) : xmlNodePtr → Option xmlNodePtr
  | [] => some []
  | j :: q =>
    if j :: q = p then none
    else
      match p with
      | [] => none
      | k :: parent =>
        if q = parent then (if k < j then some ((j - 1) :: q) else some (j :: q))
        else
          match ptr_after_unlink p q with
          | some q2 => some (j :: q2)
          | none => none

/-- Where the pointer `q`, taken before a sequence of nodes was unlinked and
freed, points afterwards; `unlinked` lists the pointers of those nodes in the
order of the calls, each as it was at its call. `none`: the node of `q` has
been freed. -/
def ptr_after_unlinks (unlinked : List xmlNodePtr) (q : xmlNodePtr) : Option xmlNodePtr :=
  unlinked.foldl (fun cur p =>
    match cur with
    | some q1 => ptr_after_unlink p q1
    | none => none) (some q)

mutual
/-- The text of a subtree as `xmlNodeGetContent` collects it: the contents of
the text nodes in document order. -/
def subtree_text : xmlNode → String
  | ⟨type, _, _, _, _, content, children⟩ =>
    (if type = xmlElementType.XML_TEXT_NODE then
      (match content with
        | some c => c
        | none => "")
    else "") ++ subtree_text_list children
/-- The text of a list of subtrees. -/
def subtree_text_list : List xmlNode → String
  | [] => ""
  | c :: rest => subtree_text c ++ subtree_text_list rest
end

/-- The function `xmlNodeGetContent`: the text below an element or a document,
the content of a text or comment node (`NULL` when it has none). -/
def xmlNodeGetContent (n : xmlNode) : Option String :=
  match n.type with
  | xmlElementType.XML_ELEMENT_NODE => some (subtree_text_list n.children)
  | xmlElementType.XML_DOCUMENT_NODE => some (subtree_text_list n.children)
  | xmlElementType.XML_TEXT_NODE => n.content
  | xmlElementType.XML_COMMENT_NODE => n.content

/-- The XPath test `@nc:operation = opstring`: some attribute `operation` of
the NETCONF base namespace has that value. -/
def has_operation_attr (opstring : String) (n : xmlNode) : Bool :=
  n.properties.any (fun prop =>
    match prop.ns with
    | some ns => decide (prop.name = "operation") && decide (ns.href = NC_NS_BASE10)
        && decide (prop.value = opstring)
    | none => false)

mutual
/-- The elements of a subtree that pass the test `@nc:operation = opstring`, in
document order; `p` is the pointer of the root of the subtree. -/
def xpath_operation (opstring : String) : xmlNode → xmlNodePtr → List xmlNodePtr
  | ⟨type, name, ns, nsDef, properties, content, children⟩, p =>
    (if type = xmlElementType.XML_ELEMENT_NODE
        ∧ has_operation_attr opstring ⟨type, name, ns, nsDef, properties, content, children⟩
          = true then [p]
      else []) ++ xpath_operation_list opstring children p 0
/-- The same for the children of the node at `p`, from the child at position `i` on. -/
def xpath_operation_list (opstring : String) : List xmlNode → xmlNodePtr → Nat → List xmlNodePtr
  | [], _, _ => []
  | c :: rest, p, i =>
    xpath_operation opstring c (i :: p) ++ xpath_operation_list opstring rest p (i + 1)
end

/-- The function `get_operation_elements`: the result of the XPath query
`//*[@nc:operation='...']` on the edit document, `NULL` (`none`) for an
operation code it does not support. -/
def get_operation_elements (op : NC_EDIT_OP_TYPE) (edit : xmlNode) : Option (List xmlNodePtr) :=
  if op = NC_EDIT_OP_MERGE then some (xpath_operation "merge" edit [])
  else if op = NC_EDIT_OP_REPLACE then some (xpath_operation "replace" edit [])
  else if op = NC_EDIT_OP_CREATE then some (xpath_operation "create" edit [])
  else if op = NC_EDIT_OP_DELETE then some (xpath_operation "delete" edit [])
  else if op = NC_EDIT_OP_REMOVE then some (xpath_operation "remove" edit [])
  else none

/-! ## `check_edit_ops` -/

/-- The call `xmlFree (defval)` of `check_edit_ops`. `defval` is what
`get_default_value` returned, a string constant of the program and no
allocated block: freeing it is undefined behaviour, a fault of the model. -/
def xmlFree_defval (_defval : String) : Option Unit := none

/-- The state of `check_edit_ops` at its return: the exit code, `*error`, the
original document and the edit document. -/
structure check_result where
  code : Int
  error : Option nc_err
  orig : xmlNode
  edit : xmlNode

/-- The loop of `check_edit_ops` over the node set, with the statements after
the loop. The node set holds the pointers as the XPath query gave them;
`unlinked` lists the edit nodes unlinked since. `*error` is `NULL` whenever a
round starts: every store to it is followed by `break` or `return`. -/
def check_edit_ops_loop (op defop : NC_EDIT_OP_TYPE) (mode : NCWD_MODE) :
    xmlNode → xmlNode → List xmlNodePtr → List xmlNodePtr → Option check_result
  | orig, edit, _, [] => some ⟨EXIT_SUCCESS, none, orig, edit⟩
  | orig, edit, unlinked, entry :: rest =>
    match ptr_after_unlinks unlinked entry with
    | none => none
    | some node_to_process =>
      match check_edit_ops_hierarchy edit node_to_process defop none with
      | none => none
      | some (code, error) =>
        if code ≠ EXIT_SUCCESS then some ⟨EXIT_FAILURE, error, orig, edit⟩
        else
          match find_element_equiv orig edit (some node_to_process),
              deref edit node_to_process with
          | some n, some node =>
            if op = NC_EDIT_OP_DELETE ∧ n = none then
              if mode = NCWD_MODE.NCWD_MODE_ALL then
                match get_default_value edit (some node_to_process) with
                | none => none
                | some none =>
                  some ⟨EXIT_FAILURE, some (nc_err_new NC_ERR.NC_ERR_DATA_MISSING), orig, edit⟩
                | some (some defval) =>
                  match xmlNodeGetContent node with
                  | none =>
                    (xmlFree_defval defval).bind (fun _ =>
                      some ⟨EXIT_FAILURE, some (nc_err_new NC_ERR.NC_ERR_DATA_MISSING),
                        orig, edit⟩)
                  | some value =>
                    if xmlStrcmp (some defval) (some value) ≠ 0 then
                      (xmlFree_defval defval).bind (fun _ =>
                        some ⟨EXIT_FAILURE, some (nc_err_new NC_ERR.NC_ERR_DATA_MISSING),
                          orig, edit⟩)
                    else
                      match xmlUnlinkNode edit node_to_process with
                      | none => none
                      | some edit2 =>
                        (xmlFree_defval defval).bind (fun _ =>
                          check_edit_ops_loop op defop mode orig edit2
                            (unlinked ++ [node_to_process]) rest)
              else
                some ⟨EXIT_FAILURE, some (nc_err_new NC_ERR.NC_ERR_DATA_MISSING), orig, edit⟩
            else if op = NC_EDIT_OP_CREATE ∧ n ≠ none then
              if mode = NCWD_MODE.NCWD_MODE_TRIM then
                match get_default_value edit (some node_to_process) with
                | none => none
                | some none =>
                  some ⟨EXIT_FAILURE, some (nc_err_new NC_ERR.NC_ERR_DATA_EXISTS), orig, edit⟩
                | some (some defval) =>
                  match xmlNodeGetContent node with
                  | none =>
                    (xmlFree_defval defval).bind (fun _ =>
                      some ⟨EXIT_FAILURE, some (nc_err_new NC_ERR.NC_ERR_DATA_EXISTS),
                        orig, edit⟩)
                  | some value =>
                    if xmlStrcmp (some defval) (some value) ≠ 0 then
                      (xmlFree_defval defval).bind (fun _ =>
                        some ⟨EXIT_FAILURE, some (nc_err_new NC_ERR.NC_ERR_DATA_MISSING),
                          orig, edit⟩)
                    else
                      match n.bind (xmlUnlinkNode orig) with
                      | none => none
                      | some orig2 =>
                        (xmlFree_defval defval).bind (fun _ =>
                          check_edit_ops_loop op defop mode orig2 edit unlinked rest)
              else
                some ⟨EXIT_FAILURE, some (nc_err_new NC_ERR.NC_ERR_DATA_EXISTS), orig, edit⟩
            else check_edit_ops_loop op defop mode orig edit unlinked rest
          | _, _ => none

/-- The function `check_edit_ops`; `mode` is the result of
`ncdflt_get_basic_mode ()`, `error` the value of `*error` at the call. -/
def check_edit_ops (op defop : NC_EDIT_OP_TYPE) (mode : NCWD_MODE) (orig edit : xmlNode)
    (error : Option nc_err) : Option check_result :=
  match get_operation_elements op edit with
  | none => some ⟨EXIT_FAILURE, some (nc_err_new NC_ERR.NC_ERR_OP_FAILED), orig, edit⟩
  | some [] => some ⟨EXIT_SUCCESS, error, orig, edit⟩
  | some (entry :: rest) => check_edit_ops_loop op defop mode orig edit [] (entry :: rest)

/-! ## `compact_edit_operations` -/

/-- The test of the attribute lookup of libxml2: the attribute has the name
and a namespace of the href. -/
def attr_is (name nameSpace : String) (prop : xmlAttr) : Bool :=
  match prop.ns with
  | some ns => decide (prop.name = name) && decide (ns.href = nameSpace)
  | none => false

/-- The function `xmlHasNsProp`: the first attribute of an element with the
name and namespace, `NULL` when there is none. -/
def xmlHasNsProp (node : xmlNode) (name nameSpace : String) : Option xmlAttr :=
  if node.type ≠ xmlElementType.XML_ELEMENT_NODE then none
  else node.properties.find? (attr_is name nameSpace)

/-- The call `xmlRemoveProp (xmlHasNsProp (node, name, nameSpace))`: the node
without the attribute that `xmlHasNsProp` finds. -/
def remove_ns_prop (node : xmlNode) (name nameSpace : String) : xmlNode :=
  if node.type ≠ xmlElementType.XML_ELEMENT_NODE then node
  else { node with properties := node.properties.eraseP (attr_is name nameSpace) }

mutual
/-- The function `nc_find_namespace_usage`: the namespace is the namespace of
the node, of one of its attributes, or is used in an element child. The
declaration a node refers to is identified by its value, where the code
compares the addresses of the declarations: a declaration that a descendant
repeats counts as used here, and the code finds it unused. The difference
shows only in which of its own declarations `nc_clear_namespaces` leaves on
the node it cleans; statements about stored copies leave these open
(`deep_copy_of`). -/
def nc_find_namespace_usage : xmlNode → xmlNs → Bool
  | ⟨_, _, ns, _, properties, _, children⟩, d =>
    if ns = some d then true
    else if properties.any (fun prop => decide (prop.ns = some d)) = true then true
    else nc_find_namespace_usage_children children d
/-- The loop of `nc_find_namespace_usage` over the children. -/
def nc_find_namespace_usage_children : List xmlNode → xmlNs → Bool
  | [], _ => false
  | child :: rest, d =>
    if child.type = xmlElementType.XML_ELEMENT_NODE ∧ nc_find_namespace_usage child d = true
    then true
    else nc_find_namespace_usage_children rest d
end

/-- The function `nc_clear_namespaces`: the element without the namespace
declarations that nothing in its subtree uses. -/
def nc_clear_namespaces (node : xmlNode) : xmlNode :=
  if node.type ≠ xmlElementType.XML_ELEMENT_NODE then node
  else { node with nsDef := node.nsDef.filter (fun d => nc_find_namespace_usage node d) }

/-- The node with its list of children replaced. -/
def set_children (n : xmlNode) (children : List xmlNode) : xmlNode :=
  { n with children := children }

mutual
/-- The function `compact_edit_operations_recursively`, called with
`error == NULL`: the exit code and the compacted subtree. A store through
`error` by `get_operation` is a fault. -/
def compact_edit_operations_recursively : xmlNode → NC_EDIT_OP_TYPE → Option (Int × xmlNode)
  | ⟨type, name, ns, nsDef, properties, content, children⟩, supreme_op =>
    match (get_operation ⟨type, name, ns, nsDef, properties, content, children⟩
        NC_EDIT_DEFOP_NOTSET).2 with
    | some _ => none
    | none =>
      if (get_operation ⟨type, name, ns, nsDef, properties, content, children⟩
          NC_EDIT_DEFOP_NOTSET).1 = NC_EDIT_OP_ERROR then
        some (EXIT_FAILURE, ⟨type, name, ns, nsDef, properties, content, children⟩)
      else
        match compact_children children
            (if (get_operation ⟨type, name, ns, nsDef, properties, content, children⟩
                NC_EDIT_DEFOP_NOTSET).1 = 0 then supreme_op
              else (get_operation ⟨type, name, ns, nsDef, properties, content, children⟩
                NC_EDIT_DEFOP_NOTSET).1) with
        | none => none
        | some (ret, children2) =>
          some (ret,
            set_children
              (if (get_operation ⟨type, name, ns, nsDef, properties, content, children⟩
                    NC_EDIT_DEFOP_NOTSET).1 ≠ 0
                  ∧ (get_operation ⟨type, name, ns, nsDef, properties, content, children⟩
                    NC_EDIT_DEFOP_NOTSET).1 = supreme_op then
                nc_clear_namespaces
                  (remove_ns_prop ⟨type, name, ns, nsDef, properties, content, children⟩
                    "operation" NC_NS_BASE10)
              else ⟨type, name, ns, nsDef, properties, content, children⟩)
              children2)
/-- The loop of `compact_edit_operations_recursively` over the children. -/
def compact_children : List xmlNode → NC_EDIT_OP_TYPE → Option (Int × List xmlNode)
  | [], _ => some (EXIT_SUCCESS, [])
  | child :: rest, op =>
    match compact_edit_operations_recursively child op with
    | none => none
    | some (ret, child2) =>
      if ret = EXIT_FAILURE then some (EXIT_FAILURE, child2 :: rest)
      else
        match compact_children rest op with
        | none => none
        | some (ret2, rest2) => some (ret2, child2 :: rest2)
end

/-- The loop of `compact_edit_operations` over the top-level nodes of the edit
document: only elements are compacted. -/
def compact_roots : List xmlNode → NC_EDIT_OP_TYPE → Option (Int × List xmlNode)
  | [], _ => some (EXIT_SUCCESS, [])
  | root :: rest, defop =>
    if root.type ≠ xmlElementType.XML_ELEMENT_NODE then
      match compact_roots rest defop with
      | none => none
      | some (ret, rest2) => some (ret, root :: rest2)
    else
      match compact_edit_operations_recursively root defop with
      | none => none
      | some (ret, root2) =>
        if ret ≠ EXIT_SUCCESS then some (EXIT_FAILURE, root2 :: rest)
        else
          match compact_roots rest defop with
          | none => none
          | some (ret2, rest2) => some (ret2, root2 :: rest2)

/-- The function `compact_edit_operations`: the exit code and the compacted
edit document. -/
def compact_edit_operations (edit_doc : xmlNode) (defop : NC_EDIT_OP_TYPE) :
    Option (Int × xmlNode) :=
  match compact_roots edit_doc.children defop with
  | none => none
  | some (ret, roots) => some (ret, set_children edit_doc roots)

/-! ### Specification-side notions for the compaction -/

/-- The inherited operation of the node at a pointer: the explicit operation
of its nearest annotated proper ancestor, the default operation when no
ancestor is annotated. -/
def inherited_operation (doc : xmlNode) (defop : NC_EDIT_OP_TYPE) :
    xmlNodePtr → NC_EDIT_OP_TYPE
  | [] => defop
  | _ :: parent =>
    match deref doc parent with
    | some pn =>
      if (get_operation pn NC_EDIT_DEFOP_NOTSET).1 ≠ NC_EDIT_OP_NOTSET then
        (get_operation pn NC_EDIT_DEFOP_NOTSET).1
      else inherited_operation doc defop parent
    | none => defop

mutual
/-- A subtree is compacted for an inherited operation: no node carries an
unrecognized operation or an explicit operation equal to the operation it
inherits. -/
def compacted : xmlNode → NC_EDIT_OP_TYPE → Bool
  | ⟨type, name, ns, nsDef, properties, content, children⟩, inherited =>
    decide ((get_operation ⟨type, name, ns, nsDef, properties, content, children⟩
        NC_EDIT_DEFOP_NOTSET).1 ≠ NC_EDIT_OP_ERROR)
    && (decide ((get_operation ⟨type, name, ns, nsDef, properties, content, children⟩
          NC_EDIT_DEFOP_NOTSET).1 = NC_EDIT_OP_NOTSET)
      || decide ((get_operation ⟨type, name, ns, nsDef, properties, content, children⟩
          NC_EDIT_DEFOP_NOTSET).1 ≠ inherited))
    && compacted_list children
        (if (get_operation ⟨type, name, ns, nsDef, properties, content, children⟩
            NC_EDIT_DEFOP_NOTSET).1 = NC_EDIT_OP_NOTSET then inherited
          else (get_operation ⟨type, name, ns, nsDef, properties, content, children⟩
            NC_EDIT_DEFOP_NOTSET).1)
/-- The same for a list of subtrees. -/
def compacted_list : List xmlNode → NC_EDIT_OP_TYPE → Bool
  | [], _ => true
  | c :: rest, inherited => compacted c inherited && compacted_list rest inherited
end

mutual
/-- Every node of a subtree passes a test. -/
def all_nodes (P : xmlNode → Bool) : xmlNode → Bool
  | ⟨type, name, ns, nsDef, properties, content, children⟩ =>
    P ⟨type, name, ns, nsDef, properties, content, children⟩ && all_nodes_list P children
/-- Every node of a list of subtrees passes a test. -/
def all_nodes_list (P : xmlNode → Bool) : List xmlNode → Bool
  | [] => true
  | c :: rest => all_nodes P c && all_nodes_list P rest
end

/-- A node has at most one attribute `operation` of the NETCONF base
namespace, as in every well-formed XML document. -/
def unique_operation_attr (n : xmlNode) : Bool :=
  (xmlGetNsProp (remove_ns_prop n "operation" NC_NS_BASE10) "operation" NC_NS_BASE10).isNone

/-! ## The appliers and `edit_operations` -/

/-- The result of a run with a bound on the rounds of its loops: it returned,
it ran into undefined behaviour, or the bound was reached. -/
inductive outcome (α : Type) where
  | done (a : α)
  | fault
  | out_of_fuel

/-- A result of a function without loops as an outcome. -/
def outcome.of_option {α : Type} : Option α → outcome α
  | some a => outcome.done a
  | none => outcome.fault

/-- The calls the appliers issue to the live backing store. -/
inductive store_call where
  | txn_del_all
  | ofc_set_switchid (node : Option xmlNode)
  | txn_del_port (name : Option String)
  | txn_del_bridge_port (bridge : Option String) (port : Option String)
  | txn_del_bridge (bridge : Option String)
  | txn_mod_bridge_datapath (bridge : Option String) (value : Option String)
  | txn_mod_port_reqnumber (port : Option String) (value : Option String)
  | txn_add_port (node : xmlNode)
  | txn_add_bridge_port (bridge : Option String) (port : Option String)
  | txn_add_bridge (node : xmlNode)

/-- The state the appliers work on: the original document, the edit document,
the store calls issued so far, `*error`, and the edit nodes unlinked since the
current node set was computed. -/
structure edit_state where
  orig_doc : xmlNode
  edit_doc : xmlNode
  calls : List store_call
  error : Option nc_err
  unlinked : List xmlNodePtr

/-- The read `node->children->content`. -/
def first_child_content (doc : xmlNode) (node : Option xmlNodePtr) : Option (Option String) :=
  match node with
  | none => none
  | some p =>
    match deref doc p with
    | none => none
    | some n =>
      match n.children with
      | [] => none
      | c :: _ => some c.content

/-- The function `xmlCopyNode (node, 0)`: type, name and content only. -/
def xmlCopyNode_shallow (node : xmlNode) : xmlNode :=
  { type := node.type, name := node.name, ns := none, nsDef := [], properties := [],
    content := if node.type ≠ xmlElementType.XML_ELEMENT_NODE then node.content else none,
    children := [] }

/-- The function `xmlCopyNode (node, 1)`: the subtree itself. Namespaces are
held by value, so the copy refers to the same namespaces; the declarations
libxml2 adds to the root of the copy for namespaces in use that are declared
above the copied node are not modelled. The difference shows only in the
declarations the root of the copy holds itself; statements about stored
copies leave these open (`deep_copy_of`). -/
def xmlCopyNode_deep (node : xmlNode) : xmlNode := node

/-- The function `xmlNodeAddContent` on a text node. -/
def xmlNodeAddContent (n : xmlNode) (content : Option String) : xmlNode :=
  match content with
  | none => n
  | some c =>
    { n with content := some ((match n.content with
        | some old => old
        | none => "") ++ c) }

/-- The function `xmlAddChild (parent, cur)` for a fresh node `cur`: the new
document and the pointer returned. A text node is merged into a text parent
or into a last text child of the same name. -/
def xmlAddChild (doc : xmlNode) (parent : xmlNodePtr) (cur : xmlNode) :
    Option (xmlNode × xmlNodePtr) :=
  match deref doc parent with
  | none => none
  | some pn =>
    if cur.type = xmlElementType.XML_TEXT_NODE ∧ pn.type = xmlElementType.XML_TEXT_NODE
        ∧ pn.content ≠ none ∧ pn.name = cur.name then
      (replace_node doc parent (xmlNodeAddContent pn cur.content)).map (fun d => (d, parent))
    else
      match (if cur.type = xmlElementType.XML_TEXT_NODE then pn.children.getLast? else none) with
      | some last =>
        if last.type = xmlElementType.XML_TEXT_NODE ∧ last.name = cur.name then
          (replace_node doc ((pn.children.length - 1) :: parent)
            (xmlNodeAddContent last cur.content)).map
              (fun d => (d, (pn.children.length - 1) :: parent))
        else
          (replace_node doc parent (set_children pn (pn.children ++ [cur]))).map
            (fun d => (d, pn.children.length :: parent))
      | none =>
        if pn.type = xmlElementType.XML_TEXT_NODE ∧ pn.content ≠ none then
          (replace_node doc parent (xmlNodeAddContent pn cur.content)).map (fun d => (d, parent))
        else
          (replace_node doc parent (set_children pn (pn.children ++ [cur]))).map
            (fun d => (d, pn.children.length :: parent))

/-- The position of the first element in a list of top-level nodes. -/
def first_element_index : List xmlNode → Nat → Option Nat
  | [], _ => none
  | c :: rest, i =>
    if c.type = xmlElementType.XML_ELEMENT_NODE then some i else first_element_index rest (i + 1)

/-- The function `xmlDocSetRootElement (doc, root)` for a fresh node `root`:
`root` replaces the first top-level element, or is added after the last
top-level node when there is no element. The result is the new document and
the pointer of `root`. -/
def xmlDocSetRootElement (doc : xmlNode) (root : xmlNode) : xmlNode × xmlNodePtr :=
  match first_element_index doc.children 0 with
  | some i => (set_children doc (doc.children.set i root), [i])
  | none =>
    match doc.children with
    | [] => (set_children doc [root], [0])
    | c :: rest =>
      if c.type = xmlElementType.XML_TEXT_NODE ∧ root.type = xmlElementType.XML_TEXT_NODE
          ∧ c.name = root.name then
        (set_children doc (xmlNodeAddContent c root.content :: rest), [0])
      else (set_children doc (c :: rest ++ [root]), [(c :: rest).length])

/-- The function `is_key`. -/
def is_key (doc : xmlNode) (node : xmlNodePtr) : Option Bool :=
  match deref doc node with
  | none => none
  | some n =>
    if xmlStrEqual n.name (some "id") = true then
      match name_at doc (parent_ptr node) with
      | none => none
      | some pname =>
        some (xmlStrEqual pname (some "switch") || xmlStrEqual pname (some "controller"))
    else
      match c_and (xmlStrEqual n.name (some "name"))
          ((name_at doc (parent_ptr node)).map
            (fun pname => !xmlStrEqual pname (some "flow-table"))) with
      | none => none
      | some true => some true
      | some false =>
        if xmlStrEqual n.name (some "table-id") = true then some true
        else
          c_and (xmlStrEqual n.name (some "resource-id"))
            ((name_at doc (parent_ptr node)).map
              (fun pname => !xmlStrEqual pname (some "flow-table")))

/-- The store calls of `edit_delete (node, running)` with `running` set; the
tree is not touched. -/
def edit_delete_running (doc : xmlNode) (node : xmlNodePtr) : Option (List store_call) :=
  match deref doc node, parent_ptr node with
  | some n, some parent =>
    match deref doc parent with
    | none => none
    | some pn =>
      if pn.type = xmlElementType.XML_DOCUMENT_NODE then some [store_call.txn_del_all]
      else if xmlStrEqual pn.name (some "capable-switch") = true then
        if xmlStrEqual n.name (some "id") = true then some [store_call.ofc_set_switchid none]
        else some []
      else if xmlStrEqual pn.name (some "resources") = true then
        match name_at doc (parent_ptr parent) with
        | none => none
        | some gname =>
          if xmlStrEqual gname (some "capable-switch") = true then
            if xmlStrEqual n.name (some "port") = true then
              match go2node doc (some node) "name" with
              | none => none
              | some key =>
                match first_child_content doc key with
                | none => none
                | some c => some [store_call.txn_del_port c]
            else some []
          else
            match go2node doc (parent_ptr parent) "id" with
            | none => none
            | some key =>
              if xmlStrEqual n.name (some "port") = true then
                match first_child_content doc key, first_child_content doc (some node) with
                | some b, some c => some [store_call.txn_del_bridge_port b c]
                | _, _ => none
              else some []
      else if xmlStrEqual n.name (some "switch") = true then
        match go2node doc (some node) "id" with
        | none => none
        | some key =>
          match first_child_content doc key with
          | none => none
          | some c => some [store_call.txn_del_bridge c]
      else if xmlStrEqual pn.name (some "switch") = true then
        match go2node doc (some parent) "id" with
        | none => none
        | some key =>
          if xmlStrEqual n.name (some "datapath-id") = true then
            match first_child_content doc key, first_child_content doc (some node) with
            | some b, some c => some [store_call.txn_mod_bridge_datapath b c]
            | _, _ => none
          else some []
      else if xmlStrEqual n.name (some "requested-number") = true then
        match go2node doc (some parent) "name" with
        | none => none
        | some key =>
          match first_child_content doc key, first_child_content doc (some node) with
          | some b, some c => some [store_call.txn_mod_port_reqnumber b c]
          | _, _ => none
      else some []
  | _, _ => none

/-- The function `edit_delete` on a node of the original document; it always
returns `EXIT_SUCCESS`. -/
def edit_delete_orig (st : edit_state) (node : Option xmlNodePtr) (running : Bool) :
    Option (Int × edit_state) :=
  match node with
  | none => some (EXIT_SUCCESS, st)
  | some p =>
    if running = true then
      match edit_delete_running st.orig_doc p with
      | none => none
      | some calls => some (EXIT_SUCCESS, { st with calls := st.calls ++ calls })
    else
      match xmlUnlinkNode st.orig_doc p with
      | none => none
      | some orig2 => some (EXIT_SUCCESS, { st with orig_doc := orig2 })

/-- The function `edit_delete` on a node of the edit document; it always
returns `EXIT_SUCCESS`. -/
def edit_delete_edit (st : edit_state) (node : Option xmlNodePtr) (running : Bool) :
    Option (Int × edit_state) :=
  match node with
  | none => some (EXIT_SUCCESS, st)
  | some p =>
    if running = true then
      match edit_delete_running st.edit_doc p with
      | none => none
      | some calls => some (EXIT_SUCCESS, { st with calls := st.calls ++ calls })
    else
      match xmlUnlinkNode st.edit_doc p with
      | none => none
      | some edit2 =>
        some (EXIT_SUCCESS, { st with edit_doc := edit2, unlinked := st.unlinked ++ [p] })

/-- The function `edit_remove`. -/
def edit_remove (st : edit_state) (edit_node : xmlNodePtr) (running : Bool) :
    Option (Int × edit_state) :=
  match find_element_equiv st.orig_doc st.edit_doc (some edit_node) with
  | none => none
  | some old =>
    match edit_delete_edit st (some edit_node) false with
    | none => none
    | some (_, st2) =>
      match old with
      | some o =>
        match edit_delete_orig st2 (some o) running with
        | none => none
        | some (_, st3) => some (EXIT_SUCCESS, st3)
      | none => some (EXIT_SUCCESS, st2)

/-- The namespace `edit_create_r` gives to the node it has created under
`parent`: the namespace of the parent when the hrefs agree, else a new default
namespace declaration on the node. -/
def create_r_set_ns (retval : xmlNode) (edit_ns parent_ns : Option xmlNs) : xmlNode :=
  match edit_ns with
  | none => retval
  | some ens =>
    match parent_ns with
    | some pns =>
      if xmlStrcmp (some ens.href) (some pns.href) = 0 then { retval with ns := some pns }
      else
        { retval with
            nsDef := retval.nsDef ++ [xmlNs.mk ens.href none],
            ns := some (xmlNs.mk ens.href none) }
    | none =>
      { retval with
          nsDef := retval.nsDef ++ [xmlNs.mk ens.href none],
          ns := some (xmlNs.mk ens.href none) }

/-- The function `edit_create_r`: the equivalent of the edit node in the
original document, created together with its missing ancestors when there is
none. The result is the new original document and the pointer returned. -/
def edit_create_r (edit_doc : xmlNode) :
    xmlNode → xmlNodePtr → Option (xmlNode × Option xmlNodePtr)
  | _, [] => none
  | orig, k :: parent =>
    match find_element_equiv orig edit_doc (some (k :: parent)) with
    | none => none
    | some (some retval) => some (orig, some retval)
    | some none =>
      match deref edit_doc (k :: parent), deref edit_doc parent with
      | some e, some pn =>
        if pn.type = xmlElementType.XML_DOCUMENT_NODE then
          some ((xmlDocSetRootElement orig
              (create_r_set_ns (xmlCopyNode_shallow e) e.ns none)).1,
            some (xmlDocSetRootElement orig
              (create_r_set_ns (xmlCopyNode_shallow e) e.ns none)).2)
        else
          match edit_create_r edit_doc orig parent with
          | none => none
          | some (orig2, none) => some (orig2, none)
          | some (orig2, some par) =>
            match xmlAddChild orig2 par (xmlCopyNode_shallow e), deref orig2 par with
            | some (orig3, retval), some parn =>
              match deref orig3 retval with
              | none => none
              | some rn =>
                match replace_node orig3 retval (create_r_set_ns rn e.ns parn.ns) with
                | none => none
                | some orig4 => some (orig4, some retval)
            | _, _ => none
      | _, _ => none

/-- The store calls of `edit_create` with `running` set for a node that is not
a child of the document and is not descended into: `none` is a fault. -/
def edit_create_running_calls (doc : xmlNode) (edit : xmlNodePtr) (n pn : xmlNode)
    (parent : xmlNodePtr) : Option (List store_call) :=
  if xmlStrEqual pn.name (some "resources") = true then
    match name_at doc (parent_ptr parent) with
    | none => none
    | some gname =>
      if xmlStrEqual gname (some "capable-switch") = true then
        if xmlStrEqual n.name (some "port") = true then some [store_call.txn_add_port n]
        else some []
      else
        match go2node doc (parent_ptr parent) "id" with
        | none => none
        | some key =>
          if xmlStrEqual n.name (some "port") = true then
            match first_child_content doc key, first_child_content doc (some edit) with
            | some b, some c => some [store_call.txn_add_bridge_port b c]
            | _, _ => none
          else some []
  else if xmlStrEqual n.name (some "switch") = true then some [store_call.txn_add_bridge n]
  else if xmlStrEqual pn.name (some "switch") = true then
    match go2node doc (some parent) "id" with
    | none => none
    | some key =>
      if xmlStrEqual n.name (some "datapath-id") = true then
        match first_child_content doc key, first_child_content doc (some edit) with
        | some b, some c => some [store_call.txn_mod_bridge_datapath b c]
        | _, _ => none
      else some []
  else if xmlStrEqual n.name (some "requested-number") = true then
    match go2node doc (some parent) "name" with
    | none => none
    | some key =>
      match first_child_content doc key, first_child_content doc (some edit) with
      | some b, some c => some [store_call.txn_mod_port_reqnumber b c]
      | _, _ => none
  else some []

/-- The end of `edit_create`: `edit_delete (edit, 0); return EXIT_SUCCESS`. -/
def edit_create_finish (st : edit_state) (edit : xmlNodePtr) : outcome (Int × edit_state) :=
  match edit_delete_edit st (some edit) false with
  | none => outcome.fault
  | some (_, st2) => outcome.done (EXIT_SUCCESS, st2)

mutual
/-- The function `edit_create`. The fuel bounds the depth of the recursion and
the rounds of the loops `while (edit->children)` of the live mode. -/
def edit_create : Nat → edit_state → xmlNodePtr → Bool → outcome (Int × edit_state)
  | 0, _, _, _ => outcome.out_of_fuel
  | fuel + 1, st, edit, running =>
    match deref st.edit_doc edit, parent_ptr edit with
    | some n0, some parent =>
      match replace_node st.edit_doc edit
          (nc_clear_namespaces (remove_ns_prop n0 "operation" NC_NS_BASE10)),
        deref st.edit_doc parent with
      | some edit2, some pn =>
        if running = true then
          if pn.type = xmlElementType.XML_DOCUMENT_NODE then
            edit_create_children fuel { st with edit_doc := edit2 } edit
          else if xmlStrEqual pn.name (some "capable-switch") = true then
            if xmlStrEqual n0.name (some "id") = true then
              edit_create_finish
                { st with
                    edit_doc := edit2,
                    calls := st.calls ++ [store_call.ofc_set_switchid
                      (some (nc_clear_namespaces (remove_ns_prop n0 "operation" NC_NS_BASE10)))] }
                edit
            else
              match edit_create_children fuel { st with edit_doc := edit2 } edit with
              | outcome.done (code, st2) =>
                if code ≠ EXIT_SUCCESS then outcome.done (EXIT_FAILURE, st2)
                else edit_create_finish st2 edit
              | outcome.fault => outcome.fault
              | outcome.out_of_fuel => outcome.out_of_fuel
          else
            match edit_create_running_calls edit2 edit
                (nc_clear_namespaces (remove_ns_prop n0 "operation" NC_NS_BASE10)) pn parent with
            | none => outcome.fault
            | some calls =>
              edit_create_finish { st with edit_doc := edit2, calls := st.calls ++ calls } edit
        else
          if pn.type ≠ xmlElementType.XML_DOCUMENT_NODE then
            match edit_create_r edit2 st.orig_doc parent with
            | none => outcome.fault
            | some (orig2, none) =>
              outcome.done (EXIT_FAILURE, { st with edit_doc := edit2, orig_doc := orig2 })
            | some (orig2, some par) =>
              match deref orig2 par with
              | none => outcome.fault
              | some parn =>
                if parn.type = xmlElementType.XML_DOCUMENT_NODE then
                  edit_create_finish
                    { st with
                        edit_doc := edit2,
                        orig_doc := (xmlDocSetRootElement orig2 (xmlCopyNode_deep
                          (nc_clear_namespaces
                            (remove_ns_prop n0 "operation" NC_NS_BASE10)))).1 } edit
                else
                  match xmlAddChild orig2 par (xmlCopyNode_deep
                      (nc_clear_namespaces (remove_ns_prop n0 "operation" NC_NS_BASE10))) with
                  | none => outcome.fault
                  | some (orig3, _) =>
                    edit_create_finish { st with edit_doc := edit2, orig_doc := orig3 } edit
          else
            if st.orig_doc.type = xmlElementType.XML_DOCUMENT_NODE then
              edit_create_finish
                { st with
                    edit_doc := edit2,
                    orig_doc := (xmlDocSetRootElement st.orig_doc (xmlCopyNode_deep
                      (nc_clear_namespaces (remove_ns_prop n0 "operation" NC_NS_BASE10)))).1 }
                edit
            else
              match xmlAddChild st.orig_doc [] (xmlCopyNode_deep
                  (nc_clear_namespaces (remove_ns_prop n0 "operation" NC_NS_BASE10))) with
              | none => outcome.fault
              | some (orig3, _) =>
                edit_create_finish { st with edit_doc := edit2, orig_doc := orig3 } edit
      | _, _ => outcome.fault
    | _, _ => outcome.fault
/-- The loop `while (edit->children) edit_create (orig_doc, edit->children, ...)`
of the live mode. -/
def edit_create_children : Nat → edit_state → xmlNodePtr → outcome (Int × edit_state)
  | 0, _, _ => outcome.out_of_fuel
  | fuel + 1, st, edit =>
    match deref st.edit_doc edit with
    | none => outcome.fault
    | some n =>
      if n.children.isEmpty = true then outcome.done (EXIT_SUCCESS, st)
      else
        match edit_create fuel st (0 :: edit) true with
        | outcome.done (code, st2) =>
          if code ≠ EXIT_SUCCESS then outcome.done (EXIT_FAILURE, st2)
          else edit_create_children fuel st2 edit
        | outcome.fault => outcome.fault
        | outcome.out_of_fuel => outcome.out_of_fuel
end

/-- The function `edit_replace`. A `NULL` edit node deletes the first
top-level node of the original document, or clears the store when there is
none. The equivalent is unlinked from the original document in both modes. -/
def edit_replace (fuel : Nat) (st : edit_state) (edit_node : Option xmlNodePtr)
    (running : Bool) : outcome (Int × edit_state) :=
  match edit_node with
  | none =>
    if st.orig_doc.children.isEmpty = true then
      outcome.done (EXIT_SUCCESS, { st with calls := st.calls ++ [store_call.txn_del_all] })
    else outcome.of_option (edit_delete_orig st (some [0]) running)
  | some p =>
    match find_element_equiv st.orig_doc st.edit_doc (some p) with
    | none => outcome.fault
    | some none => edit_create fuel st p running
    | some (some old) =>
      match xmlUnlinkNode st.orig_doc old with
      | none => outcome.fault
      | some orig2 => edit_create fuel { st with orig_doc := orig2 } p running

/-- The loop of `edit_merge` over the children of the edit node, from the child
at position `i` on: a child that is no key and has no equivalent is copied
under `orig_node`, except in the live mode. The result is the new original
document. -/
def edit_merge_children (running : Bool) (edit_doc : xmlNode) (edit_node orig_node : xmlNodePtr) :
    xmlNode → List xmlNode → Nat → Option xmlNode
  | orig, [], _ => some orig
  | orig, child :: rest, i =>
    match is_key edit_doc (i :: edit_node) with
    | none => none
    | some true => edit_merge_children running edit_doc edit_node orig_node orig rest (i + 1)
    | some false =>
      match find_element_equiv orig edit_doc (some (i :: edit_node)) with
      | none => none
      | some (some _) =>
        edit_merge_children running edit_doc edit_node orig_node orig rest (i + 1)
      | some none =>
        if running = true then
          edit_merge_children running edit_doc edit_node orig_node orig rest (i + 1)
        else
          match xmlAddChild orig orig_node (xmlCopyNode_deep child) with
          | none => none
          | some (orig2, _) =>
            edit_merge_children running edit_doc edit_node orig_node orig2 rest (i + 1)

/-- The function `edit_merge`. -/
def edit_merge (fuel : Nat) (st : edit_state) (edit_node : xmlNodePtr) (running : Bool) :
    outcome (Int × edit_state) :=
  match find_element_equiv st.orig_doc st.edit_doc (some edit_node) with
  | none => outcome.fault
  | some none => edit_create fuel st edit_node running
  | some (some orig_node) =>
    match deref st.edit_doc edit_node with
    | none => outcome.fault
    | some n =>
      match edit_merge_children running st.edit_doc edit_node orig_node st.orig_doc
          n.children 0 with
      | none => outcome.fault
      | some orig2 =>
        outcome.of_option (edit_delete_edit { st with orig_doc := orig2 } (some edit_node) false)

/-- The loop `for (; orig_node != NULL; orig_node = find_element_equiv (...))`
of the delete phase. -/
def delete_equivalents : Nat → edit_state → xmlNodePtr → Bool → outcome edit_state
  | 0, _, _, _ => outcome.out_of_fuel
  | fuel + 1, st, edit_node, running =>
    match find_element_equiv st.orig_doc st.edit_doc (some edit_node) with
    | none => outcome.fault
    | some none => outcome.done st
    | some (some orig_node) =>
      match edit_delete_orig st (some orig_node) running with
      | none => outcome.fault
      | some (_, st2) => delete_equivalents fuel st2 edit_node running

/-- The body of the delete phase of `edit_operations` for one entry of the
node set; `EXIT_FAILURE` stands for the jump to the label `error`. -/
def edit_operations_delete (fuel : Nat) (running : Bool) (st : edit_state)
    (edit_node : xmlNodePtr) : outcome (Int × edit_state) :=
  match find_element_equiv st.orig_doc st.edit_doc (some edit_node) with
  | none => outcome.fault
  | some none =>
    outcome.done (EXIT_FAILURE,
      { st with error := some (nc_err_new NC_ERR.NC_ERR_DATA_MISSING) })
  | some (some _) =>
    match delete_equivalents fuel st edit_node running with
    | outcome.done st2 => outcome.of_option (edit_delete_edit st2 (some edit_node) running)
    | outcome.fault => outcome.fault
    | outcome.out_of_fuel => outcome.out_of_fuel

/-- The loop of a phase over the entries of its node set. An entry is a pointer
taken when the set was computed; it is followed through the nodes unlinked
since, and an entry whose node has been freed is a fault. A body that does not
return `EXIT_SUCCESS` ends the loop (`goto error`). -/
def phase_loop (body : edit_state → xmlNodePtr → outcome (Int × edit_state)) :
    edit_state → List xmlNodePtr → outcome (Int × edit_state)
  | st, [] => outcome.done (EXIT_SUCCESS, st)
  | st, entry :: rest =>
    match ptr_after_unlinks st.unlinked entry with
    | none => outcome.fault
    | some node =>
      match body st node with
      | outcome.done (code, st2) =>
        if code ≠ EXIT_SUCCESS then outcome.done (EXIT_FAILURE, st2)
        else phase_loop body st2 rest
      | outcome.fault => outcome.fault
      | outcome.out_of_fuel => outcome.out_of_fuel

/-- One phase of `edit_operations`: the node set of the operation is computed
on the edit document as it is now and the body is run on its entries. -/
def run_phase (op : NC_EDIT_OP_TYPE)
    (body : edit_state → xmlNodePtr → outcome (Int × edit_state)) (st : edit_state) :
    outcome (Int × edit_state) :=
  match get_operation_elements op st.edit_doc with
  | none => outcome.done (EXIT_SUCCESS, st)
  | some nodes => phase_loop body { st with unlinked := [] } nodes

/-- The label `error` of `edit_operations`. -/
def edit_operations_error (st : edit_state) : Int × edit_state :=
  (EXIT_FAILURE,
    { st with error := match st.error with
        | none => some (nc_err_new NC_ERR.NC_ERR_OP_FAILED)
        | some e => some e })

/-- Sequencing of the phases: a phase that fails jumps to the label `error`. -/
def phase_then (r : outcome (Int × edit_state))
    (next : edit_state → outcome (Int × edit_state)) : outcome (Int × edit_state) :=
  match r with
  | outcome.done (code, st) =>
    if code ≠ EXIT_SUCCESS then outcome.done (edit_operations_error st) else next st
  | outcome.fault => outcome.fault
  | outcome.out_of_fuel => outcome.out_of_fuel

/-- The loop of the default operation replace: `edit_replace` on the first
top-level node of the edit document until there is none; its return value is
not read. -/
def replace_all : Nat → edit_state → Bool → outcome (Int × edit_state)
  | 0, _, _ => outcome.out_of_fuel
  | fuel + 1, st, running =>
    if st.edit_doc.children.isEmpty = true then outcome.done (EXIT_SUCCESS, st)
    else
      match edit_replace (fuel + 1) st (some [0]) running with
      | outcome.done (_, st2) => replace_all fuel st2 running
      | outcome.fault => outcome.fault
      | outcome.out_of_fuel => outcome.out_of_fuel

/-- The loop of the default operation merge: `edit_merge` on the first
top-level node of the edit document until there is none. -/
def merge_all : Nat → edit_state → Bool → outcome (Int × edit_state)
  | 0, _, _ => outcome.out_of_fuel
  | fuel + 1, st, running =>
    if st.edit_doc.children.isEmpty = true then outcome.done (EXIT_SUCCESS, st)
    else
      match edit_merge (fuel + 1) st [0] running with
      | outcome.done (code, st2) =>
        if code ≠ EXIT_SUCCESS then outcome.done (EXIT_FAILURE, st2)
        else merge_all fuel st2 running
      | outcome.fault => outcome.fault
      | outcome.out_of_fuel => outcome.out_of_fuel

/-- The function `edit_operations`. The fuel bounds the rounds of each of its
loops that has no bound of its own and the depth of the recursion of
`edit_create`. The result is the return value and the final state, with
`*error` in the field `error`. -/
def edit_operations (fuel : Nat) (orig_doc edit_doc : xmlNode) (defop : NC_EDIT_OP_TYPE)
    (running : Bool) : outcome (Int × edit_state) :=
  match (if defop = NC_EDIT_DEFOP_REPLACE then
          replace_all fuel ⟨orig_doc, edit_doc, [], none, []⟩ running
        else outcome.done (EXIT_SUCCESS, ⟨orig_doc, edit_doc, [], none, []⟩)) with
  | outcome.done (_, st1) =>
    phase_then (run_phase NC_EDIT_OP_DELETE (edit_operations_delete fuel running) st1)
      fun st2 =>
    phase_then (run_phase NC_EDIT_OP_REMOVE
        (fun st node => outcome.of_option (edit_remove st node running)) st2)
      fun st3 =>
    phase_then (run_phase NC_EDIT_OP_REPLACE
        (fun st node => edit_replace fuel st (some node) running) st3)
      fun st4 =>
    phase_then (run_phase NC_EDIT_OP_CREATE
        (fun st node => edit_create fuel st node running) st4)
      fun st5 =>
    phase_then (run_phase NC_EDIT_OP_MERGE
        (fun st node => edit_merge fuel st node running) st5)
      fun st6 =>
    phase_then (if defop = NC_EDIT_DEFOP_MERGE ∨ defop = NC_EDIT_DEFOP_NOTSET then
          merge_all fuel st6 running
        else outcome.done (EXIT_SUCCESS, st6))
      fun st7 => outcome.done (EXIT_SUCCESS, st7)
  | outcome.fault => outcome.fault
  | outcome.out_of_fuel => outcome.out_of_fuel

/-! ## Further documents used in the examples -/

/-- The namespace declaration `xmlns:nc` of the NETCONF base namespace. -/
def nc_ns : xmlNs := xmlNs.mk NC_NS_BASE10 (some "nc")

/-- An element of the data model with the attribute `nc:operation=` value. -/
def element_with_operation (name value : String) (children : List xmlNode) : xmlNode :=
  { type := xmlElementType.XML_ELEMENT_NODE, name := some name, ns := some ofc_ns,
    nsDef := [],
    properties := [xmlAttr.mk "operation" (some nc_ns) value],
    content := none, children := children }

/-- The edit document `<switch nc:operation="replace"><port nc:operation="delete">`
`<name>eth0</name></port></switch>`. -/
def doc_delete_under_replace : xmlNode :=
  mk_doc [element_with_operation "switch" "replace"
    [element_with_operation "port" "delete" [mk_element "name" (some ofc_ns) [mk_text "eth0"]]]]

/-- A port `eth0` of the data model with the given children of its
`configuration`, under `capable-switch/resources`; the first child of the
configuration is at `[0, 1, 0, 0, 0]`. -/
def doc_port_configuration (configuration : List xmlNode) : xmlNode :=
  mk_doc [mk_element "capable-switch" (some ofc_ns)
    [mk_element "resources" (some ofc_ns)
      [mk_element "port" (some ofc_ns)
        [mk_element "name" (some ofc_ns) [mk_text "eth0"],
          mk_element "configuration" (some ofc_ns) configuration]]]]

/-- The edit document `<switch nc:operation="create"><id>br0</id></switch>`. -/
def doc_create_switch : xmlNode :=
  mk_doc [element_with_operation "switch" "create"
    [mk_element "id" (some ofc_ns) [mk_text "br0"]]]

/-- The edit document that carries `<admin-state nc:operation=` op `>` text
`</admin-state>` in the configuration of port `eth0`, at `[0, 1, 0, 0, 0]`. -/
def doc_admin_state_edit (op text : String) : xmlNode :=
  doc_port_configuration [element_with_operation "admin-state" op [mk_text text]]

/-- The stored configuration of port `eth0` with `<admin-state>` text `</admin-state>`. -/
def doc_admin_state (text : String) : xmlNode :=
  doc_port_configuration [mk_element "admin-state" (some ofc_ns) [mk_text text]]

/-- An edit document with redundant annotations: a `switch` annotated `merge`
(the default operation of the example) with a child `id` annotated `merge`
and a child `resources` annotated `replace` over a `port` annotated `replace`. -/
def doc_redundant : xmlNode :=
  mk_doc [element_with_operation "switch" "merge"
    [element_with_operation "id" "merge" [mk_text "br0"],
      element_with_operation "resources" "replace"
        [element_with_operation "port" "replace" [mk_text "eth0"]]]]

/-- The element `<capable-switch xmlns="urn:onf:config:yang" xmlns:nc="..."`
`nc:operation="replace"><id>sw1</id></capable-switch>`: the root of an edit
document that declares both namespaces itself. -/
def capable_switch_declaring_nc : xmlNode :=
  { type := xmlElementType.XML_ELEMENT_NODE, name := some "capable-switch", ns := some ofc_ns,
    nsDef := [ofc_ns, nc_ns],
    properties := [xmlAttr.mk "operation" (some nc_ns) "replace"],
    content := none, children := [mk_element "id" (some ofc_ns) [mk_text "sw1"]] }

/-- A comment node. -/
def mk_comment (content : String) : xmlNode :=
  { type := xmlElementType.XML_COMMENT_NODE, name := some "comment", ns := none, nsDef := [],
    properties := [], content := some content, children := [] }

/-- The document `doc_redundant` after compaction with the default operation
`merge`: only the annotation `replace` of `resources` is left. -/
def doc_redundant_compacted : xmlNode :=
  mk_doc [mk_element "switch" (some ofc_ns)
    [mk_element "id" (some ofc_ns) [mk_text "br0"],
      element_with_operation "resources" "replace"
        [mk_element "port" (some ofc_ns) [mk_text "eth0"]]]]

/-- A stored configuration with a comment before its root element:
`<!--old--><capable-switch><id>sw0</id></capable-switch>`. -/
def doc_comment_and_root : xmlNode :=
  mk_doc [mk_comment "old",
    mk_element "capable-switch" (some ofc_ns) [mk_element "id" (some ofc_ns) [mk_text "sw0"]]]

/-! ## Documents used in the examples of `edit_operations` -/

/-- The stored configuration `<capable-switch><id>sw0</id></capable-switch>`. -/
def doc_capable_switch_id : xmlNode :=
  mk_doc [mk_element "capable-switch" (some ofc_ns)
    [mk_element "id" (some ofc_ns) [mk_text "sw0"]]]

/-- The stored configuration `<capable-switch/>`. -/
def doc_capable_switch_empty : xmlNode :=
  mk_doc [mk_element "capable-switch" (some ofc_ns) []]

/-- The element `<config-version nc:operation="delete">1.2</config-version>`. -/
def config_version_delete : xmlNode :=
  element_with_operation "config-version" "delete" [mk_text "1.2"]

/-- The edit document `<capable-switch><id nc:operation="delete">sw0</id>`
`<config-version nc:operation="delete">1.2</config-version></capable-switch>`:
the first annotated node has an equivalent in `doc_capable_switch_id`, the
second has none. -/
def doc_two_deletes : xmlNode :=
  mk_doc [mk_element "capable-switch" (some ofc_ns)
    [element_with_operation "id" "delete" [mk_text "sw0"], config_version_delete]]

/-! ## Specification-side notions for the appliers -/

mutual
/-- The number of nodes of a subtree. -/
def node_count : xmlNode → Nat
  | ⟨_, _, _, _, _, _, children⟩ => 1 + node_count_list children
/-- The number of nodes of a list of subtrees. -/
def node_count_list : List xmlNode → Nat
  | [] => 0
  | c :: rest => node_count c + node_count_list rest
end

/-- The original document after the nodes at `qs` have been unlinked one after
the other, each of them being, at its turn, the equivalent that
`find_element_equiv` returns for the edit node `e`; `none` when one of them is
not. -/
def unlink_equivalents (edit_doc : xmlNode) (e : xmlNodePtr) :
    xmlNode → List xmlNodePtr → Option xmlNode
  | orig, [] => some orig
  | orig, q :: qs =>
    if find_element_equiv orig edit_doc (some e) = some (some q) then
      match xmlUnlinkNode orig q with
      | some orig2 => unlink_equivalents edit_doc e orig2 qs
      | none => none
    else none

/-- The stored configuration `<capable-switch><note>a</note><id>sw0</id>`
`<note>b</note></capable-switch>`: two elements `note`, which the matcher
compares by name and namespace only. -/
def doc_two_notes : xmlNode :=
  mk_doc [mk_element "capable-switch" (some ofc_ns)
    [mk_element "note" (some ofc_ns) [mk_text "a"],
      mk_element "id" (some ofc_ns) [mk_text "sw0"],
      mk_element "note" (some ofc_ns) [mk_text "b"]]]

/-- The stored configuration `<capable-switch><id>sw0</id><note>b</note>`
`</capable-switch>`. -/
def doc_one_note : xmlNode :=
  mk_doc [mk_element "capable-switch" (some ofc_ns)
    [mk_element "id" (some ofc_ns) [mk_text "sw0"],
      mk_element "note" (some ofc_ns) [mk_text "b"]]]

/-- The edit document `<capable-switch><note nc:operation=` op `>a</note>`
`</capable-switch>`; the annotated node is at `[0, 0]`. -/
def doc_note_edit (op : String) : xmlNode :=
  mk_doc [mk_element "capable-switch" (some ofc_ns)
    [element_with_operation "note" op [mk_text "a"]]]

/-- What the matcher and the lookups read of a node of the edit document: its
type, name, namespace and content, and the types and names of its children. -/
def match_view (n : xmlNode) :
    xmlElementType × Option String × Option xmlNs × Option String
      × List (xmlElementType × Option String) :=
  (n.type, n.name, n.ns, n.content, n.children.map (fun c => (c.type, c.name)))

/-- Two documents that show the same to the matcher at every pointer. -/
def same_view (doc doc2 : xmlNode) : Prop :=
  ∀ p : xmlNodePtr, (deref doc p).map match_view = (deref doc2 p).map match_view

/-- The edit document `<capable-switch><id nc:operation="replace">sw1</id>`
`</capable-switch>`; the annotated node is at `[0, 0]`. -/
def doc_id_replace : xmlNode :=
  mk_doc [mk_element "capable-switch" (some ofc_ns)
    [element_with_operation "id" "replace" [mk_text "sw1"]]]

/-- The stored configuration `<capable-switch><resources><queue><x/>Z`
`<resource-id>q1</resource-id></queue></resources></capable-switch>`: a
`queue` with mixed content, whose first child is an element. -/
def doc_queue_mixed : xmlNode :=
  mk_doc [mk_element "capable-switch" (some ofc_ns)
    [mk_element "resources" (some ofc_ns)
      [mk_element "queue" (some ofc_ns)
        [mk_element "x" (some ofc_ns) [], mk_text "Z",
          mk_element "resource-id" (some ofc_ns) [mk_text "q1"]]]]]

/-- The edit document `<capable-switch><resources><queue>Q`
`<x nc:operation="replace"/><resource-id>q1</resource-id></queue></resources>`
`</capable-switch>`; the annotated node is at `[1, 0, 0, 0]`. -/
def doc_queue_mixed_edit : xmlNode :=
  mk_doc [mk_element "capable-switch" (some ofc_ns)
    [mk_element "resources" (some ofc_ns)
      [mk_element "queue" (some ofc_ns)
        [mk_text "Q", element_with_operation "x" "replace" [],
          mk_element "resource-id" (some ofc_ns) [mk_text "q1"]]]]]

/-- The names of the nodes on the way from the top-level node down to the node
at the pointer, both included; the document node is not listed. -/
def path_names (doc : xmlNode) : xmlNodePtr → List (Option String)
  | [] => []
  | k :: parent => path_names doc parent ++ [(deref doc (k :: parent)).bind (fun n => n.name)]

/-- The number of nodes, among the node at the pointer and its ancestors below
the document node, for which `find_element_equiv` finds no equivalent. By
`find_element_equiv_parent_absent` these are the lowest ones of the path. -/
def missing_ancestors (orig_doc edit_doc : xmlNode) : xmlNodePtr → Nat
  | [] => 0
  | k :: parent =>
    if find_element_equiv orig_doc edit_doc (some (k :: parent)) = some none then
      1 + missing_ancestors orig_doc edit_doc parent
    else 0

/-- The edit document `<capable-switch><resources><port nc:operation="create">`
`<name>eth0</name></port></resources></capable-switch>`; the annotated node is
at `[0, 0, 0]`. -/
def doc_create_port : xmlNode :=
  mk_doc [mk_element "capable-switch" (some ofc_ns)
    [mk_element "resources" (some ofc_ns)
      [element_with_operation "port" "create"
        [mk_element "name" (some ofc_ns) [mk_text "eth0"]]]]]

/-- The stored configuration `<capable-switch><id>sw0</id><resources><port>`
`<name>eth0</name></port></resources></capable-switch>`. -/
def doc_id_and_port : xmlNode :=
  mk_doc [mk_element "capable-switch" (some ofc_ns)
    [mk_element "id" (some ofc_ns) [mk_text "sw0"],
      mk_element "resources" (some ofc_ns)
        [mk_element "port" (some ofc_ns)
          [mk_element "name" (some ofc_ns) [mk_text "eth0"]]]]]

/-- The stored configuration `<capable-switch><id>sw0</id><note>` text
`</note></capable-switch>`. -/
def doc_id_and_note (text : String) : xmlNode :=
  mk_doc [mk_element "capable-switch" (some ofc_ns)
    [mk_element "id" (some ofc_ns) [mk_text "sw0"],
      mk_element "note" (some ofc_ns) [mk_text text]]]

/-- The edit document `<capable-switch><note nc:operation="delete">` a `</note>`
`<note nc:operation="create">` c `</note></capable-switch>`: the node to delete
comes first. -/
def doc_delete_then_create (a c : String) : xmlNode :=
  mk_doc [mk_element "capable-switch" (some ofc_ns)
    [element_with_operation "note" "delete" [mk_text a],
      element_with_operation "note" "create" [mk_text c]]]

/-- The edit document `<capable-switch><note nc:operation="create">` c `</note>`
`<note nc:operation="delete">` a `</note></capable-switch>`: the node to create
comes first. -/
def doc_create_then_delete (a c : String) : xmlNode :=
  mk_doc [mk_element "capable-switch" (some ofc_ns)
    [element_with_operation "note" "create" [mk_text c],
      element_with_operation "note" "delete" [mk_text a]]]

/-! ## Documents and notions for `is_key` and the live deletion -/

/-- The key children the data model declares, by the local names of the child
and of its parent: `id` of a switch or controller, `name` of a port,
`table-id` of a flow-table, `resource-id` of a queue, owned-certificate or
external-certificate. -/
def declared_key_child (name pname : Option String) : Bool :=
  (decide (name = some "id") && (decide (pname = some "switch")
      || decide (pname = some "controller")))
  || (decide (name = some "name") && decide (pname = some "port"))
  || (decide (name = some "table-id") && decide (pname = some "flow-table"))
  || (decide (name = some "resource-id") && (decide (pname = some "queue")
      || decide (pname = some "owned-certificate")
      || decide (pname = some "external-certificate")))

/-- A document `<capable-switch><resources><port><resource-id>p1</resource-id>
<name>eth0</name></port></resources></capable-switch>`; the port is at
`[0, 0, 0]`, its `resource-id` at `[0, 0, 0, 0]`. -/
def doc_port_resource_id : xmlNode :=
  mk_doc [mk_element "capable-switch" (some ofc_ns)
    [mk_element "resources" (some ofc_ns)
      [mk_element "port" (some ofc_ns)
        [mk_element "resource-id" (some ofc_ns) [mk_text "p1"],
         mk_element "name" (some ofc_ns) [mk_text "eth0"]]]]]

/-- A document `<capable-switch><logical-switches><switch><id>br0</id>
<name>x</name><table-id>1</table-id></switch></logical-switches>
</capable-switch>`; the switch is at `[0, 0, 0]`. -/
def doc_switch_name_table_id : xmlNode :=
  mk_doc [mk_element "capable-switch" (some ofc_ns)
    [mk_element "logical-switches" (some ofc_ns)
      [mk_element "switch" (some ofc_ns)
        [mk_element "id" (some ofc_ns) [mk_text "br0"],
         mk_element "name" (some ofc_ns) [mk_text "x"],
         mk_element "table-id" (some ofc_ns) [mk_text "1"]]]]]

/-- The read `n->children->content` on a node value; it fails on a node
without children. -/
def first_content (n : xmlNode) : Option (Option String) :=
  match n.children with
  | [] => none
  | c :: _ => some c.content

/-- The read `key->children->content` for the first element child `key` of `n`
with the given name; it fails when there is no such child or it is empty. -/
def key_content (name : String) (n : xmlNode) : Option (Option String) :=
  match first_named name n.children with
  | none => none
  | some key => first_content key

/-- The store calls of a live deletion as a table over the node `n`, its parent
`pn` and its grandparent `g`; `none` is a read through `NULL`. -/
def delete_store_calls (n pn : xmlNode) (g : Option xmlNode) : Option (List store_call) :=
  if pn.type = xmlElementType.XML_DOCUMENT_NODE then some [store_call.txn_del_all]
  else if pn.name = some "capable-switch" then
    if n.name = some "id" then some [store_call.ofc_set_switchid none] else some []
  else if pn.name = some "resources" then
    match g with
    | none => none
    | some gn =>
      if gn.name = some "capable-switch" then
        if n.name = some "port" then
          (key_content "name" n).map (fun c => [store_call.txn_del_port c])
        else some []
      else if n.name = some "port" then
        match key_content "id" gn, first_content n with
        | some b, some c => some [store_call.txn_del_bridge_port b c]
        | _, _ => none
      else some []
  else if n.name = some "switch" then
    (key_content "id" n).map (fun c => [store_call.txn_del_bridge c])
  else if pn.name = some "switch" then
    if n.name = some "datapath-id" then
      match key_content "id" pn, first_content n with
      | some b, some c => some [store_call.txn_mod_bridge_datapath b c]
      | _, _ => none
    else some []
  else if n.name = some "requested-number" then
    match key_content "name" pn, first_content n with
    | some b, some c => some [store_call.txn_mod_port_reqnumber b c]
    | _, _ => none
  else some []

/-- The node a pointer or `NULL` names. -/
def deref_opt (doc : xmlNode) : Option xmlNodePtr → Option xmlNode
  | none => none
  | some p => deref doc p

/-- A document `<capable-switch><logical-switches><switch><id>br0</id>
<datapath-id>01</datapath-id></switch><switch><datapath-id>02</datapath-id>
</switch></logical-switches></capable-switch>`; the switches are at
`[0, 0, 0]` and `[1, 0, 0]`, the second one has no `id`. -/
def doc_switch_datapath : xmlNode :=
  mk_doc [mk_element "capable-switch" (some ofc_ns)
    [mk_element "logical-switches" (some ofc_ns)
      [mk_element "switch" (some ofc_ns)
        [mk_element "id" (some ofc_ns) [mk_text "br0"],
         mk_element "datapath-id" (some ofc_ns) [mk_text "01"]],
       mk_element "switch" (some ofc_ns)
        [mk_element "datapath-id" (some ofc_ns) [mk_text "02"]]]]]

/-! ### The effective operation of a node, by name -/

/-- The operations by name: the five operations an annotation can name and the
two further values of the default operation, `none` and not set. -/
inductive operation_name where
  | merge
  | replace
  | create
  | delete
  | remove
  | default_none
  | not_set
  | unknown
deriving DecidableEq, Repr

/-- The operation a code of `NC_EDIT_OP_TYPE` names. -/
def operation_name_of_op (op : NC_EDIT_OP_TYPE) : operation_name :=
  if op = NC_EDIT_OP_MERGE then operation_name.merge
  else if op = NC_EDIT_OP_REPLACE then operation_name.replace
  else if op = NC_EDIT_OP_CREATE then operation_name.create
  else if op = NC_EDIT_OP_DELETE then operation_name.delete
  else if op = NC_EDIT_OP_REMOVE then operation_name.remove
  else if op = NC_EDIT_OP_NOTSET then operation_name.not_set
  else operation_name.unknown

/-- The operation a code of `NC_EDIT_DEFOP_TYPE` names. -/
def operation_name_of_defop (defop : NC_EDIT_OP_TYPE) : operation_name :=
  if defop = NC_EDIT_DEFOP_MERGE then operation_name.merge
  else if defop = NC_EDIT_DEFOP_REPLACE then operation_name.replace
  else if defop = NC_EDIT_DEFOP_NONE then operation_name.default_none
  else if defop = NC_EDIT_DEFOP_NOTSET then operation_name.not_set
  else operation_name.unknown

/-- The operation the node at a pointer inherits, by name: the explicit
operation of its nearest annotated proper ancestor, the default operation when
no ancestor is annotated. -/
def inherited_operation_name (doc : xmlNode) (defop : NC_EDIT_OP_TYPE) :
    xmlNodePtr → operation_name
  | [] => operation_name_of_defop defop
  | _ :: parent =>
    match deref doc parent with
    | some pn =>
      if (get_operation pn NC_EDIT_DEFOP_NOTSET).1 ≠ NC_EDIT_OP_NOTSET then
        operation_name_of_op (get_operation pn NC_EDIT_DEFOP_NOTSET).1
      else inherited_operation_name doc defop parent
    | none => operation_name_of_defop defop

/-- The effective operation of the node at a pointer, by name: its own explicit
operation, else the operation it inherits. -/
def effective_operation (doc : xmlNode) (defop : NC_EDIT_OP_TYPE) (p : xmlNodePtr) :
    Option operation_name :=
  match deref doc p with
  | none => none
  | some n =>
    if (get_operation n NC_EDIT_DEFOP_NOTSET).1 ≠ NC_EDIT_OP_NOTSET then
      some (operation_name_of_op (get_operation n NC_EDIT_DEFOP_NOTSET).1)
    else some (inherited_operation_name doc defop p)

/-- A node carries an attribute `operation` of the NETCONF base namespace. -/
def carries_operation (n : xmlNode) : Bool :=
  n.properties.any (attr_is "operation" NC_NS_BASE10)

/-- The edit document `<switch nc:operation="create"><id nc:operation="merge">`
`br0</id></switch>`. -/
def doc_create_with_merge : xmlNode :=
  mk_doc [element_with_operation "switch" "create"
    [element_with_operation "id" "merge" [mk_text "br0"]]]

/-- What a step on the node at `p` leaves of the edit document: the document
node keeps its type, it has no more top-level nodes than before, and one less
when `p` is a top-level node. -/
def edit_doc_consumed (before after : xmlNode) (p : xmlNodePtr) : Prop :=
  after.type = before.type ∧ after.children.length ≤ before.children.length
    ∧ (p.length = 1 → after.children.length + 1 = before.children.length)

/-! ## Notions and documents used for the stored copies and the order of the phases -/

/-- A stored copy of a subtree: `c` has the type, the name, the namespace, the
attributes, the content and the children of `n`. The namespace declarations
that the root of the copy holds itself are left open: `nc_clear_namespaces`
takes the unused ones off the node before it is copied, and `xmlCopyNode` adds
to the root of the copy the ones in use that are declared above the node. -/
def deep_copy_of (c n : xmlNode) : Prop :=
  c.type = n.type ∧ c.name = n.name ∧ c.ns = n.ns ∧ c.properties = n.properties
    ∧ c.content = n.content ∧ c.children = n.children

/-- The stored configuration `<capable-switch><switch><id>br0</id></switch>`
`</capable-switch>`. -/
def doc_capable_switch_br0 : xmlNode :=
  mk_doc [mk_element "capable-switch" (some ofc_ns) [switch_with_id "br0"]]

/-- The edit document `<capable-switch><resources nc:operation="delete">`
`<port nc:operation="create"><name>eth0</name></port></resources>`
`<switch nc:operation="create"><id>br0</id></switch></capable-switch>`: the
`port` to create, at `[0, 0, 0]`, is below a node to delete and comes before
the `switch` to create, at `[1, 0]`. -/
def doc_create_under_delete : xmlNode :=
  mk_doc [mk_element "capable-switch" (some ofc_ns)
    [element_with_operation "resources" "delete"
        [element_with_operation "port" "create"
          [mk_element "name" (some ofc_ns) [mk_text "eth0"]]],
      element_with_operation "switch" "create"
        [mk_element "id" (some ofc_ns) [mk_text "br0"]]]]

/-- The edit document `<capable-switch><note nc:operation="create">a</note>`
`<switch nc:operation="create"><id>br0</id></switch></capable-switch>`: the
`note` to create, at `[0, 0]`, comes before the `switch` to create, at
`[1, 0]`. -/
def doc_create_note_and_switch : xmlNode :=
  mk_doc [mk_element "capable-switch" (some ofc_ns)
    [element_with_operation "note" "create" [mk_text "a"],
      element_with_operation "switch" "create"
        [mk_element "id" (some ofc_ns) [mk_text "br0"]]]]

/-- A stored configuration with a comment after its root element:
`<capable-switch><id>sw0</id></capable-switch><!--end-->`. -/
def doc_root_and_comment : xmlNode :=
  mk_doc [mk_element "capable-switch" (some ofc_ns) [mk_element "id" (some ofc_ns) [mk_text "sw0"]],
    mk_comment "end"]

/-- The edit document `<a nc:operation="create"><b nc:operation="merge">`
`<c nc:operation="create"/></b></a>`: the node set of the create phase holds
`a`, at `[0]`, and `c`, at `[0, 0, 0]`, which is freed with `a`. -/
def doc_nested_create : xmlNode :=
  mk_doc [element_with_operation "a" "create"
    [element_with_operation "b" "merge" [element_with_operation "c" "create" []]]]

/-- The edit document `<capable-switch><note nc:operation=` op `>` text
`</note></capable-switch>`; the annotated node is at `[0, 0]`. -/
def doc_note_edit_text (op text : String) : xmlNode :=
  mk_doc [mk_element "capable-switch" (some ofc_ns)
    [element_with_operation "note" op [mk_text text]]]

/-- The edit document `<capable-switch><note nc:operation="create">c</note>`
`<note nc:operation="delete">a</note>`
`<config-version nc:operation="delete">1.2</config-version></capable-switch>`:
beside the two `note` siblings it holds a node to delete that the tree
`doc_id_and_note` has no equivalent of. -/
def doc_create_delete_and_missing : xmlNode :=
  mk_doc [mk_element "capable-switch" (some ofc_ns)
    [element_with_operation "note" "create" [mk_text "c"],
      element_with_operation "note" "delete" [mk_text "a"],
      config_version_delete]]

/-! ## Strings -/

theorem strcmp_chars_eq_zero_iff (a b : List Char) : strcmp_chars a b = 0 ↔ a = b := by
  induction a generalizing b with
  | nil => cases b <;> simp [strcmp_chars]
  | cons x xs ih =>
    cases b with
    | nil => simp [strcmp_chars]
    | cons y ys =>
      by_cases hxy : x = y
      · simp [strcmp_chars, hxy, ih]
      · by_cases hlt : x.toNat < y.toNat <;> simp [strcmp_chars, hxy, hlt]

theorem strcmp_eq_zero_iff (a b : String) : strcmp a b = 0 ↔ a = b := by
  unfold strcmp
  rw [strcmp_chars_eq_zero_iff]
  constructor
  · intro h
    cases a; cases b; simp_all
  · intro h
    rw [h]

theorem xmlStrcmp_eq_zero_iff (a b : Option String) : xmlStrcmp a b = 0 ↔ a = b := by
  cases a <;> cases b <;> simp [xmlStrcmp, strcmp_eq_zero_iff]

theorem xmlStrEqual_iff (a b : Option String) : xmlStrEqual a b = true ↔ a = b := by
  cases a <;> cases b <;> simp [xmlStrEqual]

theorem xmlStrEqual_eq_false_iff (a b : Option String) : xmlStrEqual a b = false ↔ a ≠ b := by
  cases a <;> cases b <;> simp [xmlStrEqual]

/-! ## The buffer of `nc_clrwspace` -/

theorem strdup_at (s : String) (k : Nat) : (strdup s).at k = s.data.get? k := by
  unfold strdup CBuf.at
  generalize s.data = l
  induction l generalizing k with
  | nil => cases k <;> simp
  | cons x xs ih =>
    cases k with
    | zero => simp
    | succ n => simpa using ih n

theorem skip_isspace_ge (r : CBuf) (fuel i : Nat) : i ≤ skip_isspace r fuel i := by
  induction fuel generalizing i with
  | zero => simp [skip_isspace]
  | succ n ih =>
    unfold skip_isspace
    split
    · exact Nat.le_trans (Nat.le_succ i) (ih (i + 1))
    · exact Nat.le_refl i

theorem skip_isspace_before (r : CBuf) (fuel i k : Nat) (hik : i ≤ k)
    (hk : k < skip_isspace r fuel i) : cell_isspace (r.at k) = true := by
  induction fuel generalizing i with
  | zero => simp [skip_isspace] at hk; omega
  | succ n ih =>
    unfold skip_isspace at hk
    split at hk
    · rename_i hws
      by_cases hki : k = i
      · rw [hki]; exact hws
      · exact ih (i + 1) (by omega) hk
    · omega

theorem skip_isspace_stop (r : CBuf) (fuel i : Nat) (hfuel : r.length ≤ i + fuel) :
    cell_isspace (r.at (skip_isspace r fuel i)) = false := by
  induction fuel generalizing i with
  | zero =>
    have : r.at i = none := by
      unfold CBuf.at
      exact List.getD_eq_default _ _ (by omega)
    simp [skip_isspace, this, cell_isspace]
  | succ n ih =>
    unfold skip_isspace
    split
    · exact ih (i + 1) (by omega)
    · rename_i hws
      simpa using hws

theorem CBuf.at_set_ne (r : CBuf) (j k : Nat) (v : Option Char) (h : j ≠ k) :
    CBuf.at (r.set j v) k = r.at k := by
  unfold CBuf.at
  simp [List.getD_eq_getElem?_getD, List.getElem?_set_ne h]

theorem leading_loop_at_zero (len fuel : Nat) (r : CBuf) (i j : Nat) (hj : 1 ≤ j) :
    (leading_loop len fuel r i j).1.at 0 = r.at 0 := by
  induction fuel generalizing r i j with
  | zero => simp [leading_loop]
  | succ n ih =>
    unfold leading_loop
    split
    · simp only []
      rw [ih _ _ _ (by omega)]
      exact CBuf.at_set_ne r j 0 _ (by omega)
    · rfl

theorem trailing_loop_at_zero (fuel : Nat) (r : CBuf) (j : Int)
    (h0 : cell_isspace (r.at 0) = false) : (trailing_loop fuel r j).at 0 = r.at 0 := by
  induction fuel generalizing r j with
  | zero => simp [trailing_loop]
  | succ n ih =>
    unfold trailing_loop
    split
    · rename_i hc
      have hne : j.toNat ≠ 0 := by
        intro hz
        rw [hz, h0] at hc
        simp at hc
      have hset : CBuf.at (r.set j.toNat none) 0 = r.at 0 := CBuf.at_set_ne r _ 0 _ hne
      rw [ih _ _ (by rw [hset]; exact h0), hset]
    · rfl

theorem CBuf.toString_length_eq_zero_iff (r : CBuf) :
    (CBuf.toString r).length = 0 ↔ r.at 0 = none := by
  unfold CBuf.toString CBuf.at
  cases r with
  | nil => simp
  | cons x xs =>
    cases x with
    | none => simp [List.takeWhile]
    | some c => simp [List.takeWhile, String.length]

theorem strdup_toString (s : String) : (strdup s).toString = s := by
  unfold strdup CBuf.toString
  have h : ∀ l : List Char,
      ((l.map some ++ [none]).takeWhile Option.isSome).filterMap id = l := by
    intro l
    induction l with
    | nil => simp [List.takeWhile]
    | cons x xs ih => simp [List.takeWhile, ih]
  rw [h]

/-- The cell the leading loop writes first: the first character that is no
white space, or NUL when there is none. -/
theorem skip_isspace_strdup_none_iff (s : String) :
    (strdup s).at (skip_isspace (strdup s) (strdup s).length 0) = none
      ↔ ∀ c ∈ s.data, isspace c = true := by
  have hstop := skip_isspace_stop (strdup s) (strdup s).length 0 (by omega)
  have hbefore := fun k => skip_isspace_before (strdup s) (strdup s).length 0 k (Nat.zero_le k)
  generalize skip_isspace (strdup s) (strdup s).length 0 = i1 at hstop hbefore
  constructor
  · intro hnone c hc
    obtain ⟨k, hk, hget⟩ := List.getElem_of_mem hc
    have hki : k < i1 := by
      by_contra hge
      have hi : i1 < s.data.length := by omega
      rw [strdup_at, List.get?_eq_get hi] at hnone
      simp at hnone
    have := hbefore k hki
    rw [strdup_at, List.get?_eq_get hk] at this
    simpa [cell_isspace, hget] using this
  · intro hall
    rw [strdup_at] at hstop ⊢
    cases hg : s.data.get? i1 with
    | none => rfl
    | some d =>
      rw [hg] at hstop
      have hmem : d ∈ s.data := List.get?_mem hg
      have := hall d hmem
      simp [cell_isspace, this] at hstop

theorem nc_clrwspace_length_eq_zero_iff (s : String) :
    (nc_clrwspace s).length = 0 ↔ ∀ c ∈ s.data, isspace c = true := by
  unfold nc_clrwspace
  simp only []
  rw [CBuf.toString_length_eq_zero_iff]
  by_cases hws : cell_isspace ((strdup s).at 0) = true
  · have hlen : 1 ≤ s.length := by
      rw [strdup_at] at hws
      cases hd : s.data with
      | nil => rw [hd] at hws; simp [cell_isspace] at hws
      | cons x xs => simp [String.length, hd]
    rw [if_pos hws]
    obtain ⟨n, hn⟩ : ∃ n, s.length = n + 1 := ⟨s.length - 1, by omega⟩
    have hfirst : (leading_loop s.length s.length (strdup s) 0 0).1.at 0
        = (strdup s).at (skip_isspace (strdup s) (strdup s).length 0) := by
      rw [hn]
      unfold leading_loop
      rw [if_pos (by omega)]
      simp only []
      rw [leading_loop_at_zero _ _ _ _ _ (Nat.le_refl 1)]
      unfold CBuf.at
      have hpos : 0 < (strdup s).length := by simp [strdup]
      simp [List.getD_eq_getElem?_getD, hpos]
    have hnot : cell_isspace ((leading_loop s.length s.length (strdup s) 0 0).1.at 0) = false := by
      rw [hfirst]
      exact skip_isspace_stop _ _ _ (by omega)
    rw [trailing_loop_at_zero _ _ _ hnot, hfirst]
    exact skip_isspace_strdup_none_iff s
  · have hws2 : cell_isspace ((strdup s).at 0) = false := by simpa using hws
    rw [if_neg hws]
    simp only []
    rw [trailing_loop_at_zero _ _ _ hws2, strdup_at]
    cases hd : s.data with
    | nil => simp
    | cons x xs =>
      rw [strdup_at, hd] at hws2
      simp [cell_isspace] at hws2
      simp [hws2]

/-! ### The fuel of the loops is enough -/

theorem leading_loop_length (len fuel : Nat) (r : CBuf) (i j : Nat) :
    (leading_loop len fuel r i j).1.length = r.length := by
  induction fuel generalizing r i j with
  | zero => simp [leading_loop]
  | succ n ih =>
    unfold leading_loop
    split
    · simp only []
      rw [ih]
      simp
    · rfl

theorem leading_loop_j_le (len fuel : Nat) (r : CBuf) (i j : Nat) :
    (leading_loop len fuel r i j).2 ≤ j + fuel := by
  induction fuel generalizing r i j with
  | zero => simp [leading_loop]
  | succ n ih =>
    unfold leading_loop
    split
    · simp only []
      have := ih (r.set j (r.at (skip_isspace r r.length i)))
        (skip_isspace r r.length i + 1) (j + 1)
      omega
    · simp

/-- The leading loop stops by its own test `i < len` within `len - i` rounds:
more fuel does not change its result. -/
theorem leading_loop_enough_fuel (len fuel extra : Nat) (r : CBuf) (i j : Nat)
    (h : len ≤ i + fuel) :
    leading_loop len (fuel + extra) r i j = leading_loop len fuel r i j := by
  induction fuel generalizing r i j with
  | zero =>
    have hi : ¬ i < len := by omega
    cases extra with
    | zero => rfl
    | succ e => simp [leading_loop, hi]
  | succ n ih =>
    have hfe : n + 1 + extra = (n + extra) + 1 := by omega
    rw [hfe]
    unfold leading_loop
    split
    · simp only []
      exact ih _ _ _ (by have := skip_isspace_ge r r.length i; omega)
    · rfl

/-- The trailing loop stops by its own test within `j + 1` rounds: more fuel
does not change its result. -/
theorem trailing_loop_enough_fuel (fuel extra : Nat) (r : CBuf) (j : Int)
    (h : j + 1 ≤ fuel) : trailing_loop (fuel + extra) r j = trailing_loop fuel r j := by
  induction fuel generalizing r j with
  | zero =>
    have hj : ¬ (0 ≤ j ∧ cell_isspace (r.at j.toNat) = true) := by
      intro hc
      have := hc.1
      omega
    cases extra with
    | zero => rfl
    | succ e =>
      have he : 0 + (e + 1) = e + 1 := by omega
      rw [he]
      simp only [trailing_loop]
      rw [if_neg hj]
  | succ n ih =>
    have hfe : n + 1 + extra = (n + extra) + 1 := by omega
    rw [hfe]
    unfold trailing_loop
    split
    · exact ih _ _ (by push_cast at h; omega)
    · rfl

/-- The fuel given to the loops of `nc_clrwspace` is enough: its result is the
result with any larger fuel. -/
theorem nc_clrwspace_enough_fuel (s : String) (e1 e2 : Nat) :
    (trailing_loop
        ((if cell_isspace ((strdup s).at 0) then
            leading_loop s.length (s.length + e1) (strdup s) 0 0 else (strdup s, 0)).1.length
          + 1 + e2)
        (if cell_isspace ((strdup s).at 0) then
          leading_loop s.length (s.length + e1) (strdup s) 0 0 else (strdup s, 0)).1
        (if cell_isspace ((strdup s).at 0) then
          leading_loop s.length (s.length + e1) (strdup s) 0 0 else (strdup s, 0)).2).toString
      = nc_clrwspace s := by
  unfold nc_clrwspace
  simp only []
  rw [leading_loop_enough_fuel s.length s.length e1 (strdup s) 0 0 (by omega)]
  rw [trailing_loop_enough_fuel]
  have hlen : (strdup s).length = s.length + 1 := by
    unfold strdup String.length
    rw [List.length_append, List.length_map]
    rfl
  split
  · have h1 := leading_loop_j_le s.length s.length (strdup s) 0 0
    have h2 := leading_loop_length s.length s.length (strdup s) 0 0
    rw [h2, hlen]
    push_cast
    omega
  · show ((0 : Nat) : Int) + 1 ≤ _
    push_cast
    omega

/-! ## `matching_elements` on text nodes and on elements of different names -/

theorem matching_elements_fuel_text (fuel : Nat) (doc1 doc2 : xmlNode) (p1 p2 : xmlNodePtr)
    (n1 n2 : xmlNode) (c1 c2 : String)
    (h1 : deref doc1 p1 = some n1) (h2 : deref doc2 p2 = some n2)
    (ht1 : n1.type = xmlElementType.XML_TEXT_NODE) (ht2 : n2.type = xmlElementType.XML_TEXT_NODE)
    (hc1 : n1.content = some c1) (hc2 : n2.content = some c2) :
    matching_elements_fuel (fuel + 1) doc1 (some p1) doc2 (some p2)
      = if nc_clrwspace c1 = nc_clrwspace c2 then some 1 else some 0 := by
  simp [matching_elements_fuel, h1, h2, ht1, ht2, hc1, hc2, strcmp_eq_zero_iff]

theorem matching_elements_fuel_names_differ (fuel : Nat) (doc1 doc2 : xmlNode)
    (p1 p2 : xmlNodePtr) (a b : xmlNode)
    (h1 : deref doc1 p1 = some a) (h2 : deref doc2 p2 = some b)
    (hta : a.type = xmlElementType.XML_ELEMENT_NODE)
    (htb : b.type = xmlElementType.XML_ELEMENT_NODE)
    (hne : a.name ≠ b.name) :
    matching_elements_fuel (fuel + 1) doc1 (some p1) doc2 (some p2) = some 0 := by
  simp [matching_elements_fuel, h1, h2, hta, htb, xmlStrcmp_eq_zero_iff, hne]

/-! ## `go2node` -/

theorem first_named_some (name : String) (l : List xmlNode) (c : xmlNode)
    (h : first_named name l = some c) :
    c.type = xmlElementType.XML_ELEMENT_NODE ∧ c.name = some name := by
  unfold first_named at h
  have := List.find?_some h
  simpa [xmlStrEqual_iff] using this

theorem first_named_eq_head_key_children (name : String) (n : xmlNode) :
    first_named name n.children = (key_children name n).head? := by
  unfold first_named key_children
  rw [List.filter_head?]

theorem go2node_loop_spec (name : String) (l : List xmlNode) (i : Nat) :
    (go2node_loop name l i = none ∧ first_named name l = none)
      ∨ ∃ j c, go2node_loop name l i = some (i + j) ∧ l.get? j = some c
          ∧ first_named name l = some c := by
  induction l generalizing i with
  | nil => left; simp [go2node_loop, first_named]
  | cons x xs ih =>
    by_cases ht : x.type = xmlElementType.XML_ELEMENT_NODE
    · by_cases hn : xmlStrEqual x.name (some name) = true
      · right
        exact ⟨0, x, by simp [go2node_loop, ht, hn], by simp, by simp [first_named, ht, hn]⟩
      · have hstep : go2node_loop name (x :: xs) i = go2node_loop name xs (i + 1) := by
          simp [go2node_loop, ht, hn]
        have hfirst : first_named name (x :: xs) = first_named name xs := by
          simp [first_named, List.find?, ht, hn]
        rcases ih (i + 1) with ⟨h1, h2⟩ | ⟨j, c, h1, h2, h3⟩
        · left; rw [hstep, hfirst]; exact ⟨h1, h2⟩
        · right
          refine ⟨j + 1, c, ?_, by simpa using h2, by rw [hfirst]; exact h3⟩
          rw [hstep, h1]; congr 1; omega
    · have hstep : go2node_loop name (x :: xs) i = go2node_loop name xs (i + 1) := by
        simp [go2node_loop, ht]
      have hfirst : first_named name (x :: xs) = first_named name xs := by
        simp [first_named, List.find?, ht]
      rcases ih (i + 1) with ⟨h1, h2⟩ | ⟨j, c, h1, h2, h3⟩
      · left; rw [hstep, hfirst]; exact ⟨h1, h2⟩
      · right
        refine ⟨j + 1, c, ?_, by simpa using h2, by rw [hfirst]; exact h3⟩
        rw [hstep, h1]; congr 1; omega

/-- The result of `go2node` on a valid pointer: `NULL` when the node has no
element child of that name, else a pointer to the first one. -/
theorem go2node_spec (doc : xmlNode) (p : xmlNodePtr) (n : xmlNode) (name : String)
    (h : deref doc p = some n) :
    (go2node doc (some p) name = some none ∧ first_named name n.children = none)
      ∨ ∃ k c, go2node doc (some p) name = some (some k) ∧ deref doc k = some c
          ∧ first_named name n.children = some c := by
  rcases go2node_loop_spec name n.children 0 with ⟨h1, h2⟩ | ⟨j, c, h1, h2, h3⟩
  · left
    simp [go2node, h, h1, h2]
  · right
    refine ⟨(0 + j) :: p, c, by simp [go2node, h, h1], ?_, h3⟩
    have h2b : n.children[j]? = some c := by simpa using h2
    simp [deref, h, h2b]

/-! ## `matching_elements` on elements -/

theorem deref_parent (doc : xmlNode) (k : Nat) (p : xmlNodePtr) (n : xmlNode)
    (h : deref doc (k :: p) = some n) :
    ∃ pn, deref doc p = some pn ∧ pn.children.get? k = some n := by
  cases hp : deref doc p with
  | none => simp [deref, hp] at h
  | some pn => exact ⟨pn, rfl, by simpa [deref, hp] using h⟩

/-- An element whose name is none of the names the matcher treats specially
matches every element of the same name in a compatible namespace. -/
theorem matching_elements_fuel_plain (fuel : Nat) (doc1 doc2 : xmlNode) (p1 p2 : xmlNodePtr)
    (a b : xmlNode) (h1 : deref doc1 p1 = some a) (h2 : deref doc2 p2 = some b)
    (hta : a.type = xmlElementType.XML_ELEMENT_NODE)
    (htb : b.type = xmlElementType.XML_ELEMENT_NODE)
    (hb : b.name ∉ [some "queue", some "flow-table", some "rate", some "medium", some "port",
      some "controller", some "switch", some "owned-certificate", some "external-certificate"]) :
    matching_elements_fuel (fuel + 1) doc1 (some p1) doc2 (some p2)
      = if a.name ≠ b.name then some 0 else if nc_nscmp a b ≠ 0 then some 0 else some 1 := by
  simp only [List.mem_cons, List.mem_singleton, not_or, List.not_mem_nil, not_false_eq_true,
    and_true] at hb
  obtain ⟨hq, hf, hr, hm, hp, hc, hs, ho, he⟩ := hb
  have eq : ∀ s : String, b.name ≠ some s → xmlStrEqual b.name (some s) = false :=
    fun s h => (xmlStrEqual_eq_false_iff _ _).2 h
  simp [matching_elements_fuel, h1, h2, hta, htb, xmlStrcmp_eq_zero_iff, eq _ hq, eq _ hf,
    eq _ hr, eq _ hm, eq _ hp, eq _ hc, eq _ hs, eq _ ho, eq _ he, c_or, c_and]

/-- The comparison of the key children found by `go2node`: only the presence
of the key children and their namespaces are looked at. -/
theorem matching_elements_fuel_keys (fuel : Nat) (doc1 doc2 : xmlNode) (p1 p2 : xmlNodePtr)
    (a b : xmlNode) (key : String) (h1 : deref doc1 p1 = some a) (h2 : deref doc2 p2 = some b)
    (hkey : some key ∉ [some "queue", some "flow-table", some "rate", some "medium",
      some "port", some "controller", some "switch", some "owned-certificate",
      some "external-certificate"]) :
    (match go2node doc1 (some p1) key, go2node doc2 (some p2) key with
      | some k1, some k2 => matching_elements_fuel (fuel + 1) doc1 k1 doc2 k2
      | _, _ => none)
      = (match first_named key a.children, first_named key b.children with
        | some ka, some kb => if nc_nscmp ka kb ≠ 0 then some 0 else some 1
        | _, _ => some (-1)) := by
  rcases go2node_spec doc1 p1 a key h1 with ⟨g1, f1⟩ | ⟨k1, ka, g1, d1, f1⟩
  · rcases go2node_spec doc2 p2 b key h2 with ⟨g2, f2⟩ | ⟨k2, kb, g2, d2, f2⟩
    · simp [g1, g2, f1, f2, matching_elements_fuel]
    · simp [g1, g2, f1, f2, matching_elements_fuel]
  · rcases go2node_spec doc2 p2 b key h2 with ⟨g2, f2⟩ | ⟨k2, kb, g2, d2, f2⟩
    · simp [g1, g2, f1, f2, matching_elements_fuel]
    · obtain ⟨ta, na⟩ := first_named_some key _ ka f1
      obtain ⟨tb, nb⟩ := first_named_some key _ kb f2
      simp only [g1, g2, f1, f2]
      rw [matching_elements_fuel_plain fuel doc1 doc2 k1 k2 ka kb d1 d2 ta tb (by rw [nb]; exact hkey)]
      simp [na, nb]

/-- The result of `matching_elements` on a candidate named `switch` or
`controller`, in closed form. -/
theorem matching_elements_fuel_switch (fuel : Nat) (doc1 doc2 : xmlNode) (p1 p2 : xmlNodePtr)
    (a b : xmlNode) (h1 : deref doc1 p1 = some a) (h2 : deref doc2 p2 = some b)
    (hta : a.type = xmlElementType.XML_ELEMENT_NODE)
    (htb : b.type = xmlElementType.XML_ELEMENT_NODE)
    (hb : b.name = some "switch" ∨ b.name = some "controller") :
    matching_elements_fuel (fuel + 2) doc1 (some p1) doc2 (some p2)
      = if a.name ≠ b.name then some 0
        else if nc_nscmp a b ≠ 0 then some 0
        else
          match first_named "id" a.children, first_named "id" b.children with
          | some ka, some kb => if nc_nscmp ka kb ≠ 0 then some 0 else some 1
          | _, _ => some (-1) := by
  rw [matching_elements_fuel]
  simp only [h1, h2, hta, htb]
  rw [matching_elements_fuel_keys fuel doc1 doc2 p1 p2 a b "id" h1 h2 (by decide)]
  rcases hb with hb | hb <;>
    simp [hb, xmlStrcmp_eq_zero_iff, xmlStrEqual, c_or, c_and]

theorem first_child_is_text_deref (doc : xmlNode) (p : xmlNodePtr) (n : xmlNode)
    (h : deref doc p = some n) (ht : first_child_is_text n = true) :
    ∃ c, children_ptr p n = some (0 :: p) ∧ deref doc (0 :: p) = some c
      ∧ c.type = xmlElementType.XML_TEXT_NODE := by
  unfold first_child_is_text at ht
  cases hc : n.children with
  | nil => rw [hc] at ht; simp at ht
  | cons c rest =>
    rw [hc] at ht
    exact ⟨c, by simp [children_ptr, hc], by simp [deref, h, hc], by simpa using ht⟩

theorem matching_elements_fuel_text_children (fuel : Nat) (doc1 doc2 : xmlNode)
    (p1 p2 : xmlNodePtr) (n1 n2 : xmlNode)
    (h1 : deref doc1 p1 = some n1) (h2 : deref doc2 p2 = some n2)
    (ht1 : first_child_is_text n1 = true) (ht2 : first_child_is_text n2 = true) :
    matching_elements_fuel (fuel + 1) doc1 (children_ptr p1 n1) doc2 (children_ptr p2 n2)
      = matching_elements_fuel 1 doc1 (children_ptr p1 n1) doc2 (children_ptr p2 n2) := by
  obtain ⟨c1, e1, d1, t1⟩ := first_child_is_text_deref doc1 p1 n1 h1 ht1
  obtain ⟨c2, e2, d2, t2⟩ := first_child_is_text_deref doc2 p2 n2 h2 ht2
  rw [e1, e2]
  simp [matching_elements_fuel, d1, d2, t1, t2]

/-- The recursion of `matching_elements` never goes deeper than two calls:
more fuel than two does not change the result. -/
theorem matching_elements_fuel_stable (fuel : Nat) (doc1 : xmlNode) (node1 : Option xmlNodePtr)
    (doc2 : xmlNode) (node2 : Option xmlNodePtr) :
    matching_elements_fuel (fuel + 2) doc1 node1 doc2 node2
      = matching_elements_fuel 2 doc1 node1 doc2 node2 := by
  cases node1 with
  | none => simp [matching_elements_fuel]
  | some p1 =>
    cases node2 with
    | none => simp [matching_elements_fuel]
    | some p2 =>
      cases h1 : deref doc1 p1 with
      | none => simp [matching_elements_fuel, h1]
      | some n1 =>
        cases h2 : deref doc2 p2 with
        | none => simp [matching_elements_fuel, h1, h2]
        | some n2 =>
          show matching_elements_fuel (fuel + 1 + 1) doc1 (some p1) doc2 (some p2)
            = matching_elements_fuel (0 + 1 + 1) doc1 (some p1) doc2 (some p2)
          conv_lhs => rw [matching_elements_fuel]
          conv_rhs => rw [matching_elements_fuel]
          simp only [h1, h2]
          rw [matching_elements_fuel_keys fuel doc1 doc2 p1 p2 n1 n2 "id" h1 h2 (by decide),
            matching_elements_fuel_keys fuel doc1 doc2 p1 p2 n1 n2 "name" h1 h2 (by decide),
            matching_elements_fuel_keys fuel doc1 doc2 p1 p2 n1 n2 "table-id" h1 h2 (by decide),
            matching_elements_fuel_keys fuel doc1 doc2 p1 p2 n1 n2 "resource-id" h1 h2
              (by decide),
            matching_elements_fuel_keys 0 doc1 doc2 p1 p2 n1 n2 "id" h1 h2 (by decide),
            matching_elements_fuel_keys 0 doc1 doc2 p1 p2 n1 n2 "name" h1 h2 (by decide),
            matching_elements_fuel_keys 0 doc1 doc2 p1 p2 n1 n2 "table-id" h1 h2 (by decide),
            matching_elements_fuel_keys 0 doc1 doc2 p1 p2 n1 n2 "resource-id" h1 h2
              (by decide)]
          by_cases ht : first_child_is_text n1 = true ∧ first_child_is_text n2 = true
          · rw [matching_elements_fuel_text_children fuel doc1 doc2 p1 p2 n1 n2 h1 h2 ht.1 ht.2]
          · have ht2 : ∀ leaf : Bool, ¬ (leaf = true ∧ first_child_is_text n1 = true
                ∧ first_child_is_text n2 = true) := fun leaf h => ht h.2
            simp only [ht2, if_false]

theorem xmlStrEqual_some (x y : String) : xmlStrEqual (some x) (some y) = decide (x = y) := rfl

theorem nc_nscmp_congr (a b a2 b2 : xmlNode) (ha : a2.ns = a.ns) (hb : b2.ns = b.ns) :
    nc_nscmp a2 b2 = nc_nscmp a b := by
  unfold nc_nscmp
  rw [ha, hb]

/-- An element that is neither compared by its first text child nor by a key
child matches every element of the same name in a compatible namespace. For
a candidate named `port`, `owned-certificate` or `external-certificate` the
name of its grandparent is read, so the candidate must have one. -/
theorem matching_elements_other (doc1 doc2 : xmlNode) (p1 p2 : xmlNodePtr) (a b : xmlNode)
    (h1 : deref doc1 p1 = some a) (h2 : deref doc2 p2 = some b)
    (hta : a.type = xmlElementType.XML_ELEMENT_NODE)
    (htb : b.type = xmlElementType.XML_ELEMENT_NODE)
    (hname : a.name = b.name) (hns : nc_nscmp a b = 0)
    (hsc : b.name ∉ [some "queue", some "flow-table", some "rate", some "medium"])
    (hkey : b.name ∉ [some "switch", some "controller"])
    (hres : b.name = some "port" → name_at doc2 (parent_ptr p2) ≠ some (some "resources"))
    (hcs : b.name ∈ [some "port", some "owned-certificate", some "external-certificate"] →
      ∃ g, name_at doc2 ((parent_ptr p2).bind parent_ptr) = some g
        ∧ g ≠ some "capable-switch") :
    matching_elements doc1 (some p1) doc2 (some p2) = some 1 := by
  unfold matching_elements
  by_cases hspecial : b.name ∈ [some "port", some "owned-certificate",
      some "external-certificate"]
  · obtain ⟨g, hg, hgne⟩ := hcs hspecial
    have hgf : xmlStrEqual g (some "capable-switch") = false :=
      (xmlStrEqual_eq_false_iff _ _).2 hgne
    cases p2 with
    | nil => simp [parent_ptr] at hg; simp [name_at] at hg
    | cons k parent =>
      obtain ⟨pn, hpn, -⟩ := deref_parent doc2 k parent b h2
      have hP : name_at doc2 (parent_ptr (k :: parent)) = some pn.name := by
        simp [parent_ptr, name_at, hpn]
      simp only [List.mem_cons, List.mem_singleton, List.not_mem_nil, or_false] at hspecial
      rw [matching_elements_fuel]
      rcases hspecial with hb | hb | hb
      · have hr : xmlStrEqual pn.name (some "resources") = false := by
          have := hres hb
          rw [hP] at this
          exact (xmlStrEqual_eq_false_iff _ _).2 (fun h => this (by rw [h]))
        simp [h1, h2, hta, htb, hname, hns, xmlStrcmp_eq_zero_iff, hb, xmlStrEqual_some,
          c_or, c_and, hP, hr, hg, hgf]
      · simp [h1, h2, hta, htb, hname, hns, xmlStrcmp_eq_zero_iff, hb, xmlStrEqual_some,
          c_or, c_and, hg, hgf]
      · simp [h1, h2, hta, htb, hname, hns, xmlStrcmp_eq_zero_iff, hb, xmlStrEqual_some,
          c_or, c_and, hg, hgf]
  · rw [matching_elements_fuel_plain 1 doc1 doc2 p1 p2 a b h1 h2 hta htb]
    · simp [hname, hns]
    · simp only [List.mem_cons, List.mem_singleton, List.not_mem_nil, or_false, not_or]
        at hsc hkey hspecial ⊢
      tauto

/-! ## `find_element_equiv` -/

/-- The scan of `find_element_equiv` returns the first child on which the
matcher does not return 0, provided the matcher returned 0 on all children
before it; it returns `NULL` when the matcher returns 0 on every child. -/
theorem find_element_equiv_scan_spec (orig_doc edit_doc : xmlNode) (edit orig_parent : xmlNodePtr)
    (l : List xmlNode) (i : Nat) (res : Option xmlNodePtr)
    (h : find_element_equiv_scan orig_doc edit_doc edit orig_parent l i = some res) :
    (res = none ∧ ∀ j, j < l.length →
        matching_elements edit_doc (some edit) orig_doc (some ((i + j) :: orig_parent)) = some 0)
      ∨ ∃ j r, j < l.length ∧ res = some ((i + j) :: orig_parent)
          ∧ matching_elements edit_doc (some edit) orig_doc (some ((i + j) :: orig_parent))
            = some r ∧ r ≠ 0
          ∧ ∀ j2, j2 < j →
            matching_elements edit_doc (some edit) orig_doc (some ((i + j2) :: orig_parent))
              = some 0 := by
  induction l generalizing i with
  | nil =>
    left
    simp only [find_element_equiv_scan, Option.some.injEq] at h
    exact ⟨h.symm, fun j hj => by simp at hj⟩
  | cons x xs ih =>
    simp only [find_element_equiv_scan] at h
    cases hm : matching_elements edit_doc (some edit) orig_doc (some (i :: orig_parent)) with
    | none => rw [hm] at h; simp at h
    | some r =>
      rw [hm] at h
      simp only [] at h
      by_cases hr : r = 0
      · rw [if_pos hr] at h
        have hstep : ∀ j, i + 1 + j = i + (j + 1) := fun j => by omega
        rcases ih (i + 1) h with ⟨h1, h2⟩ | ⟨j, r2, hj, h1, h2, h3, h4⟩
        · left
          refine ⟨h1, fun j hj => ?_⟩
          cases j with
          | zero => rw [Nat.add_zero, hm, hr]
          | succ n =>
            rw [← hstep n]
            exact h2 n (by simpa using hj)
        · right
          refine ⟨j + 1, r2, by simpa using hj, by rw [← hstep j]; exact h1,
            by rw [← hstep j]; exact h2, h3, fun j2 hj2 => ?_⟩
          cases j2 with
          | zero => rw [Nat.add_zero, hm, hr]
          | succ n =>
            rw [← hstep n]
            exact h4 n (by omega)
      · rw [if_neg hr] at h
        right
        refine ⟨0, r, by simp, ?_, by rw [Nat.add_zero]; exact hm, hr, fun j2 hj2 => by omega⟩
        simp only [Option.some.injEq] at h
        rw [Nat.add_zero]
        exact h.symm

/-! ## The claims -/

/-- C1 (the code does not do this): two switch elements whose `id` children
have different text, `br0` and `br1`, are reported as matching. The key
children found by `go2node` are compared as elements, by name and namespace,
and their text is never read. -/
theorem matching_elements_switch_ignores_id_text :
    nc_clrwspace "br0" ≠ nc_clrwspace "br1"
      ∧ matching_elements (doc_with_switch "br0") (some [0, 0, 0])
          (doc_with_switch "br1") (some [0, 0, 0]) = some 1 := by
  decide

/-- C2 (the code does not do this): text nodes that differ only in trailing
white space (`a ` and `a`), only in leading white space (` ab` and `ab`), or in
both around a text with an inner blank (` a b ` and `a b`) do not match. -/
theorem matching_elements_text_surrounding_space :
    matching_elements (mk_doc [mk_text "a "]) (some [0]) (mk_doc [mk_text "a"]) (some [0])
        = some 0
      ∧ matching_elements (mk_doc [mk_text " ab"]) (some [0]) (mk_doc [mk_text "ab"]) (some [0])
        = some 0
      ∧ matching_elements (mk_doc [mk_text " a b "]) (some [0]) (mk_doc [mk_text "a b"])
          (some [0]) = some 0 := by
  decide

/-- C3: a text node with content ` x ` and a text node with content `x` match,
wherever they stand in their documents. -/
theorem matching_elements_text_x (doc1 doc2 : xmlNode) (p1 p2 : xmlNodePtr) (n1 n2 : xmlNode)
    (h1 : deref doc1 p1 = some n1) (h2 : deref doc2 p2 = some n2)
    (ht1 : n1.type = xmlElementType.XML_TEXT_NODE) (ht2 : n2.type = xmlElementType.XML_TEXT_NODE)
    (hc1 : n1.content = some " x ") (hc2 : n2.content = some "x") :
    matching_elements doc1 (some p1) doc2 (some p2) = some 1 := by
  unfold matching_elements
  rw [matching_elements_fuel_text 1 doc1 doc2 p1 p2 n1 n2 " x " "x" h1 h2 ht1 ht2 hc1 hc2]
  decide

/-- An instance of C3: the text ` x ` of an `id` element against the text `x`. -/
theorem matching_elements_text_x_witness :
    matching_elements (mk_doc [mk_element "id" none [mk_text " x "]]) (some [0, 0])
      (mk_doc [mk_text "x"]) (some [0]) = some 1 :=
  matching_elements_text_x _ _ [0, 0] [0] (mk_text " x ") (mk_text "x") rfl rfl rfl rfl rfl rfl

/-- C4: two element nodes whose local names differ do not match, whatever
their namespaces, children and attributes are. -/
theorem matching_elements_names_differ (doc1 doc2 : xmlNode) (p1 p2 : xmlNodePtr)
    (a b : xmlNode) (h1 : deref doc1 p1 = some a) (h2 : deref doc2 p2 = some b)
    (hta : a.type = xmlElementType.XML_ELEMENT_NODE)
    (htb : b.type = xmlElementType.XML_ELEMENT_NODE) (hne : a.name ≠ b.name) :
    matching_elements doc1 (some p1) doc2 (some p2) = some 0 :=
  matching_elements_fuel_names_differ 1 doc1 doc2 p1 p2 a b h1 h2 hta htb hne

/-- An instance of C4: a `switch` against a `logical-switches` element. -/
theorem matching_elements_names_differ_witness :
    matching_elements (doc_with_switch "br0") (some [0, 0, 0])
      (doc_with_switch "br0") (some [0, 0]) = some 0 :=
  matching_elements_names_differ _ _ [0, 0, 0] [0, 0] (switch_with_id "br0")
    (mk_element "logical-switches" (some ofc_ns) [switch_with_id "br0"]) rfl rfl rfl rfl
    (by decide)

/-- C5: `nc_nscmp reference node` returns 0 exactly when `reference` has no
namespace, or its namespace is the NETCONF base namespace, or its namespace
consists of white space only (is empty once trimmed), or `node` has a
namespace with the same href. -/
theorem nc_nscmp_eq_zero_iff (reference node : xmlNode) :
    nc_nscmp reference node = 0 ↔
      (reference.ns = none
        ∨ (∃ rns, reference.ns = some rns ∧ rns.href = NC_NS_BASE10)
        ∨ (∃ rns, reference.ns = some rns ∧ ∀ c ∈ rns.href.data, isspace c = true)
        ∨ (∃ rns nns, reference.ns = some rns ∧ node.ns = some nns ∧ nns.href = rns.href)) := by
  unfold nc_nscmp
  cases hr : reference.ns with
  | none => simp
  | some rns =>
    simp only [strcmp_eq_zero_iff, nc_clrwspace_length_eq_zero_iff]
    by_cases hw : rns.href = NC_NS_BASE10 ∨ ∀ c ∈ rns.href.data, isspace c = true
    · rw [if_pos hw]
      rcases hw with hw | hw
      · simp [hw]
      · simp only [true_iff]
        exact Or.inr (Or.inr (Or.inl ⟨rns, rfl, hw⟩))
    · rw [if_neg hw]
      have hw1 : ¬ rns.href = NC_NS_BASE10 := fun h => hw (Or.inl h)
      have hw2 : ¬ ∀ c ∈ rns.href.data, isspace c = true := fun h => hw (Or.inr h)
      cases hn : node.ns with
      | none => simpa [hw1] using hw2
      | some nns =>
        by_cases he : rns.href = nns.href
        · simp [he]
        · have he2 : ¬ nns.href = rns.href := fun h => he h.symm
          simpa [he, he2, hw1] using hw2

/-- C6: for a candidate named `switch` or `controller` the result of
`matching_elements` is determined by the names and namespaces of the two
elements and by their `id` key children: two pairs of elements that agree in
these, and differ in any other child, attribute, namespace declaration,
content or position, give the same result. -/
theorem matching_elements_switch_depends_on_keys
    (doc1 doc2 doc3 doc4 : xmlNode) (p1 p2 p3 p4 : xmlNodePtr) (a b a2 b2 : xmlNode)
    (h1 : deref doc1 p1 = some a) (h2 : deref doc2 p2 = some b)
    (h3 : deref doc3 p3 = some a2) (h4 : deref doc4 p4 = some b2)
    (hta : a.type = xmlElementType.XML_ELEMENT_NODE)
    (htb : b.type = xmlElementType.XML_ELEMENT_NODE)
    (hta2 : a2.type = xmlElementType.XML_ELEMENT_NODE)
    (htb2 : b2.type = xmlElementType.XML_ELEMENT_NODE)
    (hb : b.name = some "switch" ∨ b.name = some "controller")
    (hna : a2.name = a.name) (hnb : b2.name = b.name)
    (hnsa : a2.ns = a.ns) (hnsb : b2.ns = b.ns)
    (hka : key_children "id" a2 = key_children "id" a)
    (hkb : key_children "id" b2 = key_children "id" b) :
    matching_elements doc3 (some p3) doc4 (some p4)
      = matching_elements doc1 (some p1) doc2 (some p2) := by
  unfold matching_elements
  rw [matching_elements_fuel_switch 0 doc1 doc2 p1 p2 a b h1 h2 hta htb hb,
    matching_elements_fuel_switch 0 doc3 doc4 p3 p4 a2 b2 h3 h4 hta2 htb2 (by rw [hnb]; exact hb),
    first_named_eq_head_key_children, first_named_eq_head_key_children,
    first_named_eq_head_key_children, first_named_eq_head_key_children,
    hna, hnb, hka, hkb, nc_nscmp_congr a b a2 b2 hnsa hnsb]

/-- An instance of C6: a switch with a further child and a candidate with an
attribute against the bare switch and candidate. -/
theorem matching_elements_switch_depends_on_keys_witness :
    matching_elements
        (mk_doc [mk_element "switch" (some ofc_ns)
          [mk_element "datapath-id" (some ofc_ns) [mk_text "00:01"],
            mk_element "id" (some ofc_ns) [mk_text "br0"]]]) (some [0])
        (mk_doc [switch_with_operation "merge"]) (some [0])
      = matching_elements (doc_with_switch "br0") (some [0, 0, 0])
          (mk_doc [mk_element "switch" (some ofc_ns) []]) (some [0]) :=
  matching_elements_switch_depends_on_keys (doc_with_switch "br0")
    (mk_doc [mk_element "switch" (some ofc_ns) []]) _ _ [0, 0, 0] [0] [0] [0]
    (switch_with_id "br0") (mk_element "switch" (some ofc_ns) [])
    (mk_element "switch" (some ofc_ns)
      [mk_element "datapath-id" (some ofc_ns) [mk_text "00:01"],
        mk_element "id" (some ofc_ns) [mk_text "br0"]])
    (switch_with_operation "merge")
    rfl rfl rfl rfl rfl rfl rfl rfl (Or.inl rfl) rfl rfl rfl rfl rfl rfl

/-- C7 (the code does not do this): for two top-level `port` elements of the
same name and namespace, a type that is neither compared by text (the parent
is not `resources`) nor keyed (there is no `capable-switch` above), the
matcher does not return true: it reads the name of the parent of the document
node, which is `NULL`. -/
theorem matching_elements_top_level_port :
    deref doc_root_port [0] = some (mk_element "port" (some ofc_ns) [])
      ∧ nc_nscmp (mk_element "port" (some ofc_ns) []) (mk_element "port" (some ofc_ns) []) = 0
      ∧ name_at doc_root_port (parent_ptr [0]) = some none
      ∧ name_at doc_root_port ((parent_ptr [0]).bind parent_ptr) = none
      ∧ matching_elements doc_root_port (some [0]) doc_root_port (some [0]) = none :=
  ⟨rfl, by decide, by decide, by decide, by decide⟩

/-- C8 (the code does not do this): the stored configuration has two
switches, the first without an `id` child. For the edit switch `br0` the
matcher returns the error value on the first and true on the second, and
`find_element_equiv` returns the first: a child for which the matcher is not
true, standing before the first child for which it is. -/
theorem find_element_equiv_returns_error_child :
    matching_elements (doc_with_switch "br0") (some [0, 0, 0])
        doc_switch_without_id (some [0, 0, 0]) = some (-1)
      ∧ matching_elements (doc_with_switch "br0") (some [0, 0, 0])
        doc_switch_without_id (some [1, 0, 0]) = some 1
      ∧ find_element_equiv doc_switch_without_id (doc_with_switch "br0") (some [0, 0, 0])
        = some (some [0, 0, 0]) := by
  decide

/-- C9: an edit node whose parent has no equivalent in the tree has none
itself. That is so when the parent is an element for which
`find_element_equiv` returns `NULL`, and for every node of an edit document
when the original document is empty; the children of other subtrees of the
tree are never compared. -/
theorem find_element_equiv_parent_absent (orig_doc edit_doc : xmlNode) (k : Nat)
    (parent : xmlNodePtr) (pn : xmlNode) (hp : deref edit_doc parent = some pn)
    (h : (pn.type ≠ xmlElementType.XML_DOCUMENT_NODE
          ∧ find_element_equiv orig_doc edit_doc (some parent) = some none)
        ∨ (edit_doc.type = xmlElementType.XML_DOCUMENT_NODE ∧ orig_doc.children = [])) :
    find_element_equiv orig_doc edit_doc (some (k :: parent)) = some none := by
  rcases h with ⟨hty, hnone⟩ | ⟨hdoc, hempty⟩
  · simp only [find_element_equiv] at hnone ⊢
    rw [find_element_equiv_ptr]
    simp [hp, hty, hnone]
  · simp only [find_element_equiv]
    induction parent generalizing k pn with
    | nil =>
      have hpn : pn = edit_doc := by simpa [deref] using hp.symm
      rw [find_element_equiv_ptr]
      simp [hp, hpn, hdoc, hempty]
    | cons k2 rest ih =>
      obtain ⟨gn, hgn, -⟩ := deref_parent edit_doc k2 rest pn hp
      have hrec := ih k2 gn hgn
      rw [find_element_equiv_ptr]
      by_cases hty : pn.type = xmlElementType.XML_DOCUMENT_NODE
      · simp [hp, hty, hempty]
      · simp [hp, hty, hrec]

/-- An instance of C9: the port under `logical-switches` matches the port
stored under `resources`, yet it has no equivalent, its parent having none;
and it has none in an empty document. -/
theorem find_element_equiv_parent_absent_witness :
    matching_elements doc_misplaced_port (some [0, 0, 0]) doc_resources_port (some [0, 0, 0])
        = some 1
      ∧ find_element_equiv doc_resources_port doc_misplaced_port (some [0, 0, 0]) = some none
      ∧ find_element_equiv (mk_doc []) doc_misplaced_port (some [0, 0, 0]) = some none :=
  ⟨by decide,
    find_element_equiv_parent_absent doc_resources_port doc_misplaced_port 0 [0, 0]
      (mk_element "logical-switches" (some ofc_ns)
        [mk_element "port" (some ofc_ns) [mk_element "name" (some ofc_ns) [mk_text "eth0"]]])
      rfl (Or.inl ⟨by decide, by decide⟩),
    find_element_equiv_parent_absent (mk_doc []) doc_misplaced_port 0 [0, 0]
      (mk_element "logical-switches" (some ofc_ns)
        [mk_element "port" (some ofc_ns) [mk_element "name" (some ofc_ns) [mk_text "eth0"]]])
      rfl (Or.inr ⟨rfl, rfl⟩)⟩

/-- C10: `get_operation` returns the operation named by the `operation`
attribute of the node when its value is `merge`, `replace`, `create`, `delete`
or `remove`; for any other value it returns the error value and stores a
`bad-attribute` error naming `operation`; without the attribute it returns the
fallback unchanged and stores no error. -/
theorem get_operation_spec (node : xmlNode) (defop : NC_EDIT_OP_TYPE) :
    (∀ v, xmlGetNsProp node "operation" NC_NS_BASE10 = some v →
      (v = "merge" → get_operation node defop = (NC_EDIT_OP_MERGE, none))
      ∧ (v = "replace" → get_operation node defop = (NC_EDIT_OP_REPLACE, none))
      ∧ (v = "create" → get_operation node defop = (NC_EDIT_OP_CREATE, none))
      ∧ (v = "delete" → get_operation node defop = (NC_EDIT_OP_DELETE, none))
      ∧ (v = "remove" → get_operation node defop = (NC_EDIT_OP_REMOVE, none))
      ∧ (v ∉ ["merge", "replace", "create", "delete", "remove"] →
          get_operation node defop
            = (NC_EDIT_OP_ERROR,
                some { tag := NC_ERR.NC_ERR_BAD_ATTR, info_badattr := some "operation" })))
    ∧ (xmlGetNsProp node "operation" NC_NS_BASE10 = none →
        get_operation node defop = (defop, none)) := by
  constructor
  · intro v hv
    unfold get_operation
    rw [hv]
    simp only [xmlStrEqual_some]
    refine ⟨?_, ?_, ?_, ?_, ?_, ?_⟩
    · intro h; subst h; simp
    · intro h; subst h; simp
    · intro h; subst h; simp
    · intro h; subst h; simp
    · intro h; subst h; simp
    · intro h
      simp only [List.mem_cons, List.mem_singleton, List.not_mem_nil, or_false, not_or] at h
      obtain ⟨h1, h2, h3, h4, h5⟩ := h
      simp [h1, h2, h3, h4, h5, nc_err_set_badattr, nc_err_new]
  · intro hv
    unfold get_operation
    rw [hv]

/-- An instance of C10 for the values `delete` and `insert` and for a node
without the attribute. -/
theorem get_operation_spec_witness :
    get_operation (switch_with_operation "delete") NC_EDIT_DEFOP_MERGE
        = (NC_EDIT_OP_DELETE, none)
      ∧ get_operation (switch_with_operation "insert") NC_EDIT_DEFOP_MERGE
        = (NC_EDIT_OP_ERROR,
            some { tag := NC_ERR.NC_ERR_BAD_ATTR, info_badattr := some "operation" })
      ∧ get_operation (switch_with_id "br0") NC_EDIT_DEFOP_MERGE = (NC_EDIT_DEFOP_MERGE, none) :=
  ⟨((get_operation_spec (switch_with_operation "delete") NC_EDIT_DEFOP_MERGE).1 "delete"
      (by decide)).2.2.2.1 rfl,
    ((get_operation_spec (switch_with_operation "insert") NC_EDIT_DEFOP_MERGE).1 "insert"
      (by decide)).2.2.2.2.2 (by decide),
    (get_operation_spec (switch_with_id "br0") NC_EDIT_DEFOP_MERGE).2 (by decide)⟩

/-! ## `get_default_value` -/

theorem get_default_value_unfold (doc : xmlNode) (k : Nat) (parent : xmlNodePtr) (n pn : xmlNode)
    (hn : deref doc (k :: parent) = some n) (hp : deref doc parent = some pn) :
    get_default_value doc (some (k :: parent))
      = if xmlStrEqual n.name (some "lost-connection-behavior") = true then
          some (some "failSecureMode")
        else if (xmlStrEqual n.name (some "port") && xmlStrEqual pn.name (some "controller"))
            = true then some (some "6633")
        else if xmlStrEqual n.name (some "protocol") = true then some (some "tls")
        else if (xmlStrEqual n.name (some "checksum-present")
            || xmlStrEqual n.name (some "key-present")
            || xmlStrEqual n.name (some "auto-negotiate")) = true then some (some "true")
        else if (xmlStrEqual n.name (some "no-receive")
            || xmlStrEqual n.name (some "no-forward")
            || xmlStrEqual n.name (some "no-packet-in")) = true then some (some "false")
        else if xmlStrEqual n.name (some "admin-state") = true then some (some "up")
        else some none := by
  unfold get_default_value
  simp only [hn, parent_ptr, name_at, hp, Option.map, c_and]
  by_cases h1 : xmlStrEqual n.name (some "lost-connection-behavior") = true
  · simp [h1]
  · by_cases h2 : xmlStrEqual n.name (some "port") = true
    · by_cases h3 : xmlStrEqual pn.name (some "controller") = true
      · simp [h1, h2, h3]
      · simp [h1, h2, h3]
    · simp [h1, h2]

/-- C17: the table of `get_default_value`, for a node below the document node
with parent `pn`: `failSecureMode` for `lost-connection-behavior`, `6633` for
`port` exactly when the parent is `controller`, `tls` for `protocol`, `true`
for `checksum-present`, `key-present` and `auto-negotiate`, `false` for
`no-receive`, `no-forward` and `no-packet-in`, `up` for `admin-state`, and no
default for every other name and for `port` under another parent. -/
theorem get_default_value_table (doc : xmlNode) (k : Nat) (parent : xmlNodePtr) (n pn : xmlNode)
    (hn : deref doc (k :: parent) = some n) (hp : deref doc parent = some pn) :
    (n.name = some "lost-connection-behavior" →
        get_default_value doc (some (k :: parent)) = some (some "failSecureMode"))
      ∧ (n.name = some "port" →
        (get_default_value doc (some (k :: parent)) = some (some "6633")
          ↔ pn.name = some "controller"))
      ∧ (n.name = some "port" → pn.name ≠ some "controller" →
        get_default_value doc (some (k :: parent)) = some none)
      ∧ (n.name = some "protocol" →
        get_default_value doc (some (k :: parent)) = some (some "tls"))
      ∧ (n.name ∈ [some "checksum-present", some "key-present", some "auto-negotiate"] →
        get_default_value doc (some (k :: parent)) = some (some "true"))
      ∧ (n.name ∈ [some "no-receive", some "no-forward", some "no-packet-in"] →
        get_default_value doc (some (k :: parent)) = some (some "false"))
      ∧ (n.name = some "admin-state" →
        get_default_value doc (some (k :: parent)) = some (some "up"))
      ∧ (n.name ∉ [some "lost-connection-behavior", some "port", some "protocol",
          some "checksum-present", some "key-present", some "auto-negotiate",
          some "no-receive", some "no-forward", some "no-packet-in", some "admin-state"] →
        get_default_value doc (some (k :: parent)) = some none) := by
  rw [get_default_value_unfold doc k parent n pn hn hp]
  refine ⟨?_, ?_, ?_, ?_, ?_, ?_, ?_, ?_⟩
  · intro h; simp [h, xmlStrEqual_some]
  · intro h
    by_cases hc : pn.name = some "controller"
    · simp [h, hc, xmlStrEqual_some]
    · have hf : xmlStrEqual pn.name (some "controller") = false :=
        (xmlStrEqual_eq_false_iff _ _).2 hc
      simp [h, hc, hf, xmlStrEqual_some]
  · intro h hc
    have hf : xmlStrEqual pn.name (some "controller") = false :=
      (xmlStrEqual_eq_false_iff _ _).2 hc
    simp [h, hf, xmlStrEqual_some]
  · intro h; simp [h, xmlStrEqual_some]
  · intro h
    simp only [List.mem_cons, List.mem_singleton, List.not_mem_nil, or_false] at h
    rcases h with h | h | h <;> simp [h, xmlStrEqual_some]
  · intro h
    simp only [List.mem_cons, List.mem_singleton, List.not_mem_nil, or_false] at h
    rcases h with h | h | h <;> simp [h, xmlStrEqual_some]
  · intro h; simp [h, xmlStrEqual_some]
  · intro h
    simp only [List.mem_cons, List.mem_singleton, List.not_mem_nil, or_false, not_or] at h
    obtain ⟨h1, h2, h3, h4, h5, h6, h7, h8, h9, h10⟩ := h
    have eq : ∀ s : String, n.name ≠ some s → xmlStrEqual n.name (some s) = false :=
      fun s h => (xmlStrEqual_eq_false_iff _ _).2 h
    simp [eq _ h1, eq _ h2, eq _ h3, eq _ h4, eq _ h5, eq _ h6, eq _ h7, eq _ h8, eq _ h9,
      eq _ h10]

/-! ## `check_edit_ops_hierarchy` -/

theorem get_operation_stored_none (n : xmlNode) (defop : NC_EDIT_OP_TYPE)
    (h : (get_operation n defop).1 ≠ NC_EDIT_OP_ERROR) : (get_operation n defop).2 = none := by
  unfold get_operation at h ⊢
  cases hv : xmlGetNsProp n "operation" NC_NS_BASE10 with
  | none => simp
  | some v =>
    rw [hv] at h
    simp only [] at h ⊢
    split_ifs at h ⊢ <;> first | rfl | exact absurd rfl h

theorem element_ancestors_cons (doc : xmlNode) (k k2 : Nat) (pp : xmlNodePtr) (n : xmlNode)
    (h : deref doc (k2 :: pp) = some n) :
    element_ancestors doc (k :: k2 :: pp) = n :: element_ancestors doc (k2 :: pp) := by
  simp [element_ancestors, h]

/-- The walk over the parents fails exactly when one of the ancestors below
the document node carries a forbidden or an unrecognized operation. -/
theorem check_parents_spec (doc : xmlNode) (bad1 bad2 : NC_EDIT_OP_TYPE) (error : Option nc_err)
    (k : Nat) (q : xmlNodePtr) (hdoc : doc.type = xmlElementType.XML_DOCUMENT_NODE)
    (hvalid : ∃ n, deref doc q = some n)
    (hwf : ∀ a ∈ element_ancestors doc (k :: q), a.type ≠ xmlElementType.XML_DOCUMENT_NODE) :
    ((∃ a ∈ element_ancestors doc (k :: q),
          (get_operation a NC_EDIT_DEFOP_NOTSET).1 = bad1
          ∨ (get_operation a NC_EDIT_DEFOP_NOTSET).1 = bad2
          ∨ (get_operation a NC_EDIT_DEFOP_NOTSET).1 = NC_EDIT_OP_ERROR) →
        ∃ e, check_parents doc bad1 bad2 error q = some (EXIT_FAILURE, e))
      ∧ ((¬ ∃ a ∈ element_ancestors doc (k :: q),
          (get_operation a NC_EDIT_DEFOP_NOTSET).1 = bad1
          ∨ (get_operation a NC_EDIT_DEFOP_NOTSET).1 = bad2
          ∨ (get_operation a NC_EDIT_DEFOP_NOTSET).1 = NC_EDIT_OP_ERROR) →
        check_parents doc bad1 bad2 error q = some (EXIT_SUCCESS, error)) := by
  induction q generalizing k with
  | nil =>
    constructor
    · intro h
      simp [element_ancestors] at h
    · intro _
      simp [check_parents, hdoc]
  | cons k2 pp ih =>
    obtain ⟨n, hn⟩ := hvalid
    obtain ⟨gn, hgn, -⟩ := deref_parent doc k2 pp n hn
    rw [element_ancestors_cons doc k k2 pp n hn] at hwf ⊢
    have hnt : n.type ≠ xmlElementType.XML_DOCUMENT_NODE := hwf n (by simp)
    have hwf2 : ∀ a ∈ element_ancestors doc (k2 :: pp),
        a.type ≠ xmlElementType.XML_DOCUMENT_NODE :=
      fun a ha => hwf a (List.mem_cons_of_mem _ ha)
    obtain ⟨ih1, ih2⟩ := ih k2 ⟨gn, hgn⟩ hwf2
    rw [check_parents]
    simp only [hn, hnt, if_false]
    by_cases hbad : (get_operation n NC_EDIT_DEFOP_NOTSET).1 = bad1
        ∨ (get_operation n NC_EDIT_DEFOP_NOTSET).1 = bad2
        ∨ (get_operation n NC_EDIT_DEFOP_NOTSET).1 = NC_EDIT_OP_ERROR
    · constructor
      · intro _
        unfold check_parent_round
        by_cases he : (get_operation n NC_EDIT_DEFOP_NOTSET).1 = NC_EDIT_OP_ERROR
        · simp [he]
        · have hb : (get_operation n NC_EDIT_DEFOP_NOTSET).1 = bad1
              ∨ (get_operation n NC_EDIT_DEFOP_NOTSET).1 = bad2 := by tauto
          simp [he, hb]
      · intro h
        exact absurd ⟨n, by simp, hbad⟩ h
    · have hround : check_parent_round n bad1 bad2 error = none := by
        unfold check_parent_round
        have he : ¬ (get_operation n NC_EDIT_DEFOP_NOTSET).1 = NC_EDIT_OP_ERROR := by tauto
        have hb : ¬ ((get_operation n NC_EDIT_DEFOP_NOTSET).1 = bad1
              ∨ (get_operation n NC_EDIT_DEFOP_NOTSET).1 = bad2) := by tauto
        simp [he, hb]
      simp only [hround]
      constructor
      · rintro ⟨a, ha, hop⟩
        rcases List.mem_cons.1 ha with rfl | ha2
        · exact absurd hop hbad
        · exact ih1 ⟨a, ha2, hop⟩
      · intro h
        exact ih2 (fun ⟨a, ha, hop⟩ => h ⟨a, List.mem_cons_of_mem _ ha, hop⟩)

/-- C11: for a node whose own operation is `delete` or `remove`, in a
well-formed edit document, `check_edit_ops_hierarchy` returns, and it fails
exactly when the default operation is `replace` or an ancestor carries an
explicit `create` or `replace` or an unrecognized operation; with the default
operation `replace` the error is `operation-failed`, whatever the ancestors. -/
theorem check_edit_ops_hierarchy_removal (doc : xmlNode) (k : Nat) (parent : xmlNodePtr)
    (n : xmlNode) (defop : NC_EDIT_OP_TYPE) (error : Option nc_err)
    (hdoc : doc.type = xmlElementType.XML_DOCUMENT_NODE)
    (hn : deref doc (k :: parent) = some n)
    (hwf : ∀ a ∈ element_ancestors doc (k :: parent),
      a.type ≠ xmlElementType.XML_DOCUMENT_NODE)
    (hop : (get_operation n NC_EDIT_DEFOP_NOTSET).1 = NC_EDIT_OP_DELETE
      ∨ (get_operation n NC_EDIT_DEFOP_NOTSET).1 = NC_EDIT_OP_REMOVE) :
    (∃ code e, check_edit_ops_hierarchy doc (k :: parent) defop error = some (code, e)
        ∧ (code = EXIT_SUCCESS ∨ code = EXIT_FAILURE)
        ∧ (code = EXIT_FAILURE ↔
            (defop = NC_EDIT_DEFOP_REPLACE
              ∨ ∃ a ∈ element_ancestors doc (k :: parent),
                  (get_operation a NC_EDIT_DEFOP_NOTSET).1 = NC_EDIT_OP_CREATE
                  ∨ (get_operation a NC_EDIT_DEFOP_NOTSET).1 = NC_EDIT_OP_REPLACE
                  ∨ (get_operation a NC_EDIT_DEFOP_NOTSET).1 = NC_EDIT_OP_ERROR)))
      ∧ (defop = NC_EDIT_DEFOP_REPLACE →
          check_edit_ops_hierarchy doc (k :: parent) defop error
            = some (EXIT_FAILURE, some (nc_err_new NC_ERR.NC_ERR_OP_FAILED))) := by
  obtain ⟨pn, hpn, -⟩ := deref_parent doc k parent n hn
  have h0 : (get_operation n NC_EDIT_DEFOP_NOTSET).1 ≠ NC_EDIT_DEFOP_NOTSET := by
    rcases hop with h | h <;> rw [h] <;> decide
  have h1 : (get_operation n NC_EDIT_DEFOP_NOTSET).1 ≠ NC_EDIT_OP_ERROR := by
    rcases hop with h | h <;> rw [h] <;> decide
  have hunf : check_edit_ops_hierarchy doc (k :: parent) defop error
      = if defop = NC_EDIT_DEFOP_REPLACE then
          some (EXIT_FAILURE, some (nc_err_new NC_ERR.NC_ERR_OP_FAILED))
        else check_parents doc NC_EDIT_OP_CREATE NC_EDIT_OP_REPLACE error parent := by
    unfold check_edit_ops_hierarchy
    simp only [hn, h0, h1, hop, if_false, if_true, parent_ptr,
      get_operation_stored_none n _ h1, store_error]
  obtain ⟨w1, w2⟩ := check_parents_spec doc NC_EDIT_OP_CREATE NC_EDIT_OP_REPLACE error k parent
    hdoc ⟨pn, hpn⟩ hwf
  rw [hunf]
  constructor
  · by_cases hd : defop = NC_EDIT_DEFOP_REPLACE
    · exact ⟨EXIT_FAILURE, _, by rw [if_pos hd], Or.inr rfl, by simp [hd]⟩
    · rw [if_neg hd]
      by_cases hex : ∃ a ∈ element_ancestors doc (k :: parent),
          (get_operation a NC_EDIT_DEFOP_NOTSET).1 = NC_EDIT_OP_CREATE
          ∨ (get_operation a NC_EDIT_DEFOP_NOTSET).1 = NC_EDIT_OP_REPLACE
          ∨ (get_operation a NC_EDIT_DEFOP_NOTSET).1 = NC_EDIT_OP_ERROR
      · obtain ⟨e, he⟩ := w1 hex
        exact ⟨EXIT_FAILURE, e, he, Or.inr rfl, by simp only [true_iff]; exact Or.inr hex⟩
      · refine ⟨EXIT_SUCCESS, error, w2 hex, Or.inl rfl, ?_⟩
        constructor
        · intro h; exact absurd h (by decide)
        · rintro (h | h)
          · exact absurd h hd
          · exact absurd h hex
  · intro hd
    rw [if_pos hd]

/-- C12: for a node whose own operation is `create` or `replace`, in a
well-formed edit document, `check_edit_ops_hierarchy` returns, and it fails
exactly when an ancestor carries an explicit `delete` or `remove` or an
unrecognized operation; the result is the same for every default operation. -/
theorem check_edit_ops_hierarchy_creation (doc : xmlNode) (k : Nat) (parent : xmlNodePtr)
    (n : xmlNode) (defop : NC_EDIT_OP_TYPE) (error : Option nc_err)
    (hdoc : doc.type = xmlElementType.XML_DOCUMENT_NODE)
    (hn : deref doc (k :: parent) = some n)
    (hwf : ∀ a ∈ element_ancestors doc (k :: parent),
      a.type ≠ xmlElementType.XML_DOCUMENT_NODE)
    (hop : (get_operation n NC_EDIT_DEFOP_NOTSET).1 = NC_EDIT_OP_CREATE
      ∨ (get_operation n NC_EDIT_DEFOP_NOTSET).1 = NC_EDIT_OP_REPLACE) :
    (∃ code e, check_edit_ops_hierarchy doc (k :: parent) defop error = some (code, e)
        ∧ (code = EXIT_SUCCESS ∨ code = EXIT_FAILURE)
        ∧ (code = EXIT_FAILURE ↔
            ∃ a ∈ element_ancestors doc (k :: parent),
              (get_operation a NC_EDIT_DEFOP_NOTSET).1 = NC_EDIT_OP_DELETE
              ∨ (get_operation a NC_EDIT_DEFOP_NOTSET).1 = NC_EDIT_OP_REMOVE
              ∨ (get_operation a NC_EDIT_DEFOP_NOTSET).1 = NC_EDIT_OP_ERROR))
      ∧ (∀ defop2, check_edit_ops_hierarchy doc (k :: parent) defop2 error
          = check_edit_ops_hierarchy doc (k :: parent) defop error) := by
  obtain ⟨pn, hpn, -⟩ := deref_parent doc k parent n hn
  have h0 : (get_operation n NC_EDIT_DEFOP_NOTSET).1 ≠ NC_EDIT_DEFOP_NOTSET := by
    rcases hop with h | h <;> rw [h] <;> decide
  have h1 : (get_operation n NC_EDIT_DEFOP_NOTSET).1 ≠ NC_EDIT_OP_ERROR := by
    rcases hop with h | h <;> rw [h] <;> decide
  have h2 : ¬ ((get_operation n NC_EDIT_DEFOP_NOTSET).1 = NC_EDIT_OP_DELETE
      ∨ (get_operation n NC_EDIT_DEFOP_NOTSET).1 = NC_EDIT_OP_REMOVE) := by
    rcases hop with h | h <;> rw [h] <;> decide
  have hunf : ∀ d, check_edit_ops_hierarchy doc (k :: parent) d error
      = check_parents doc NC_EDIT_OP_DELETE NC_EDIT_OP_REMOVE error parent := by
    intro d
    unfold check_edit_ops_hierarchy
    simp only [hn, h0, h1, h2, hop, if_false, if_true, parent_ptr,
      get_operation_stored_none n _ h1, store_error]
  obtain ⟨w1, w2⟩ := check_parents_spec doc NC_EDIT_OP_DELETE NC_EDIT_OP_REMOVE error k parent
    hdoc ⟨pn, hpn⟩ hwf
  constructor
  · rw [hunf]
    by_cases hex : ∃ a ∈ element_ancestors doc (k :: parent),
        (get_operation a NC_EDIT_DEFOP_NOTSET).1 = NC_EDIT_OP_DELETE
        ∨ (get_operation a NC_EDIT_DEFOP_NOTSET).1 = NC_EDIT_OP_REMOVE
        ∨ (get_operation a NC_EDIT_DEFOP_NOTSET).1 = NC_EDIT_OP_ERROR
    · obtain ⟨e, he⟩ := w1 hex
      exact ⟨EXIT_FAILURE, e, he, Or.inr rfl, by simp only [true_iff]; exact hex⟩
    · refine ⟨EXIT_SUCCESS, error, w2 hex, Or.inl rfl, ?_⟩
      constructor
      · intro h; exact absurd h (by decide)
      · intro h; exact absurd h hex
  · intro d
    rw [hunf, hunf]

/-! ## `check_edit_ops` -/

theorem check_edit_ops_loop_hierarchy_failure (op defop : NC_EDIT_OP_TYPE) (mode : NCWD_MODE)
    (orig edit : xmlNode) (entry : xmlNodePtr) (rest : List xmlNodePtr) (e : Option nc_err)
    (h : check_edit_ops_hierarchy edit entry defop none = some (EXIT_FAILURE, e)) :
    check_edit_ops_loop op defop mode orig edit [] (entry :: rest)
      = some ⟨EXIT_FAILURE, e, orig, edit⟩ := by
  rw [check_edit_ops_loop]
  simp [ptr_after_unlinks, h, EXIT_FAILURE, EXIT_SUCCESS]

/-- C13: for the edit document with a `port` annotated `delete` under the root
`switch` annotated `replace`, the `delete` pass of `check_edit_ops` fails with
`operation-failed` for every default operation, with-defaults mode and
original document, and returns both documents as they were. -/
theorem check_edit_ops_delete_under_replace (defop : NC_EDIT_OP_TYPE) (mode : NCWD_MODE)
    (orig : xmlNode) (error : Option nc_err) :
    check_edit_ops NC_EDIT_OP_DELETE defop mode orig doc_delete_under_replace error
      = some ⟨EXIT_FAILURE, some (nc_err_new NC_ERR.NC_ERR_OP_FAILED), orig,
          doc_delete_under_replace⟩ := by
  have hset : get_operation_elements NC_EDIT_OP_DELETE doc_delete_under_replace
      = some [[0, 0]] := by decide
  have hh : check_edit_ops_hierarchy doc_delete_under_replace [0, 0] defop none
      = some (EXIT_FAILURE, some (nc_err_new NC_ERR.NC_ERR_OP_FAILED)) := by
    have hn : deref doc_delete_under_replace [0, 0]
        = some (element_with_operation "port" "delete"
            [mk_element "name" (some ofc_ns) [mk_text "eth0"]]) := rfl
    have hop : get_operation (element_with_operation "port" "delete"
        [mk_element "name" (some ofc_ns) [mk_text "eth0"]]) NC_EDIT_DEFOP_NOTSET
        = (NC_EDIT_OP_DELETE, none) := by decide
    have hwalk : check_parents doc_delete_under_replace NC_EDIT_OP_CREATE NC_EDIT_OP_REPLACE
        none [0] = some (EXIT_FAILURE, some (nc_err_new NC_ERR.NC_ERR_OP_FAILED)) := by
      decide
    unfold check_edit_ops_hierarchy
    rw [hn]
    simp only [hop, parent_ptr, store_error, hwalk]
    by_cases hd : defop = NC_EDIT_DEFOP_REPLACE
    · simp [hd, NC_EDIT_OP_DELETE, NC_EDIT_DEFOP_NOTSET, NC_EDIT_OP_ERROR]
    · simp [hd, NC_EDIT_OP_DELETE, NC_EDIT_DEFOP_NOTSET, NC_EDIT_OP_ERROR]
  unfold check_edit_ops
  rw [hset]
  exact check_edit_ops_loop_hierarchy_failure _ _ _ _ _ _ _ _ hh

/-- C14 (the code does not do this): the edit node
`<admin-state nc:operation="delete">up</admin-state>` passes the hierarchy
check, has no equivalent in the tree and carries its registered default `up`;
in mode report-all `check_edit_ops` does not return success: after unlinking
the node it frees the string constant that `get_default_value` returned. With
the content `down` it does not return the `data-missing` failure either, for
the same reason. In another mode, and for an element without default, it
fails with `data-missing`. -/
theorem check_edit_ops_delete_default_faults :
    find_element_equiv (doc_port_configuration []) (doc_admin_state_edit "delete" "up")
        (some [0, 1, 0, 0, 0]) = some none
      ∧ check_edit_ops_hierarchy (doc_admin_state_edit "delete" "up") [0, 1, 0, 0, 0]
        NC_EDIT_DEFOP_MERGE none = some (EXIT_SUCCESS, none)
      ∧ get_default_value (doc_admin_state_edit "delete" "up") (some [0, 1, 0, 0, 0])
        = some (some "up")
      ∧ xmlNodeGetContent (element_with_operation "admin-state" "delete" [mk_text "up"])
        = some "up"
      ∧ check_edit_ops NC_EDIT_OP_DELETE NC_EDIT_DEFOP_MERGE NCWD_MODE.NCWD_MODE_ALL
        (doc_port_configuration []) (doc_admin_state_edit "delete" "up") none = none
      ∧ check_edit_ops NC_EDIT_OP_DELETE NC_EDIT_DEFOP_MERGE NCWD_MODE.NCWD_MODE_ALL
        (doc_port_configuration []) (doc_admin_state_edit "delete" "down") none = none
      ∧ check_edit_ops NC_EDIT_OP_DELETE NC_EDIT_DEFOP_MERGE NCWD_MODE.NCWD_MODE_TRIM
        (doc_port_configuration []) (doc_admin_state_edit "delete" "up") none
        = some ⟨EXIT_FAILURE, some (nc_err_new NC_ERR.NC_ERR_DATA_MISSING),
            doc_port_configuration [], doc_admin_state_edit "delete" "up"⟩ :=
  ⟨by decide, by decide, by decide, by decide, rfl, rfl, rfl⟩

/-- C16 (the code does not do this): the edit node
`<admin-state nc:operation="create">up</admin-state>` has an equivalent in the
tree and carries its registered default `up`; in mode trim `check_edit_ops`
does not return success: after unlinking the equivalent it frees the string
constant that `get_default_value` returned. With the content `down` it does
not return the `data-missing` failure either, for the same reason. -/
theorem check_edit_ops_create_default_faults :
    find_element_equiv (doc_admin_state "up") (doc_admin_state_edit "create" "up")
        (some [0, 1, 0, 0, 0]) = some (some [0, 1, 0, 0, 0])
      ∧ check_edit_ops_hierarchy (doc_admin_state_edit "create" "up") [0, 1, 0, 0, 0]
        NC_EDIT_DEFOP_MERGE none = some (EXIT_SUCCESS, none)
      ∧ get_default_value (doc_admin_state_edit "create" "up") (some [0, 1, 0, 0, 0])
        = some (some "up")
      ∧ xmlNodeGetContent (element_with_operation "admin-state" "create" [mk_text "up"])
        = some "up"
      ∧ check_edit_ops NC_EDIT_OP_CREATE NC_EDIT_DEFOP_MERGE NCWD_MODE.NCWD_MODE_TRIM
        (doc_admin_state "up") (doc_admin_state_edit "create" "up") none = none
      ∧ check_edit_ops NC_EDIT_OP_CREATE NC_EDIT_DEFOP_MERGE NCWD_MODE.NCWD_MODE_TRIM
        (doc_admin_state "up") (doc_admin_state_edit "create" "down") none = none :=
  ⟨by decide, by decide, by decide, by decide, rfl, rfl⟩

/-! ## `compact_edit_operations` -/

theorem get_operation_congr (a b : xmlNode) (d : NC_EDIT_OP_TYPE) (ht : a.type = b.type)
    (hp : a.properties = b.properties) : get_operation a d = get_operation b d := by
  unfold get_operation xmlGetNsProp
  rw [ht, hp]

theorem nc_clear_namespaces_type (n : xmlNode) : (nc_clear_namespaces n).type = n.type := by
  unfold nc_clear_namespaces
  split <;> rfl

theorem nc_clear_namespaces_properties (n : xmlNode) :
    (nc_clear_namespaces n).properties = n.properties := by
  unfold nc_clear_namespaces
  split <;> rfl

theorem nc_clear_namespaces_children (n : xmlNode) :
    (nc_clear_namespaces n).children = n.children := by
  unfold nc_clear_namespaces
  split <;> rfl

theorem remove_ns_prop_type (n : xmlNode) (name nameSpace : String) :
    (remove_ns_prop n name nameSpace).type = n.type := by
  unfold remove_ns_prop
  split <;> rfl

theorem remove_ns_prop_children (n : xmlNode) (name nameSpace : String) :
    (remove_ns_prop n name nameSpace).children = n.children := by
  unfold remove_ns_prop
  split <;> rfl

theorem get_operation_of_unique (n : xmlNode) (h : unique_operation_attr n = true) :
    get_operation (remove_ns_prop n "operation" NC_NS_BASE10) NC_EDIT_DEFOP_NOTSET
      = (NC_EDIT_DEFOP_NOTSET, none) := by
  unfold unique_operation_attr at h
  unfold get_operation
  cases hv : xmlGetNsProp (remove_ns_prop n "operation" NC_NS_BASE10) "operation" NC_NS_BASE10
      with
  | none => rfl
  | some v => rw [hv] at h; simp at h

theorem set_children_children (n : xmlNode) (cs : List xmlNode) :
    (set_children n cs).children = cs := rfl

theorem get_operation_set_children (n : xmlNode) (cs : List xmlNode) (d : NC_EDIT_OP_TYPE) :
    get_operation (set_children n cs) d = get_operation n d :=
  get_operation_congr _ _ _ rfl rfl

theorem compacted_eq (n : xmlNode) (s : NC_EDIT_OP_TYPE) :
    compacted n s
      = (decide ((get_operation n NC_EDIT_DEFOP_NOTSET).1 ≠ NC_EDIT_OP_ERROR)
        && (decide ((get_operation n NC_EDIT_DEFOP_NOTSET).1 = NC_EDIT_OP_NOTSET)
          || decide ((get_operation n NC_EDIT_DEFOP_NOTSET).1 ≠ s))
        && compacted_list n.children
            (if (get_operation n NC_EDIT_DEFOP_NOTSET).1 = NC_EDIT_OP_NOTSET then s
              else (get_operation n NC_EDIT_DEFOP_NOTSET).1)) := by
  cases n
  rw [compacted]

theorem compact_edit_operations_recursively_eq (n : xmlNode) (supreme_op : NC_EDIT_OP_TYPE) :
    compact_edit_operations_recursively n supreme_op
      = match (get_operation n NC_EDIT_DEFOP_NOTSET).2 with
        | some _ => none
        | none =>
          if (get_operation n NC_EDIT_DEFOP_NOTSET).1 = NC_EDIT_OP_ERROR then
            some (EXIT_FAILURE, n)
          else
            match compact_children n.children
                (if (get_operation n NC_EDIT_DEFOP_NOTSET).1 = 0 then supreme_op
                  else (get_operation n NC_EDIT_DEFOP_NOTSET).1) with
            | none => none
            | some (ret, children2) =>
              some (ret,
                set_children
                  (if (get_operation n NC_EDIT_DEFOP_NOTSET).1 ≠ 0
                      ∧ (get_operation n NC_EDIT_DEFOP_NOTSET).1 = supreme_op then
                    nc_clear_namespaces (remove_ns_prop n "operation" NC_NS_BASE10)
                  else n) children2) := by
  cases n
  rw [compact_edit_operations_recursively]

theorem all_nodes_eq (P : xmlNode → Bool) (n : xmlNode) :
    all_nodes P n = (P n && all_nodes_list P n.children) := by
  cases n
  rw [all_nodes]

mutual
/-- A successful compaction of a subtree leaves it compacted for the operation
it was called with. -/
theorem compacted_of_compact (n n2 : xmlNode) (s : NC_EDIT_OP_TYPE)
    (hu : all_nodes unique_operation_attr n = true)
    (h : compact_edit_operations_recursively n s = some (EXIT_SUCCESS, n2)) :
    compacted n2 s = true := by
  match n with
  | ⟨type, name, ns, nsDef, properties, content, children⟩ =>
    rw [compact_edit_operations_recursively_eq] at h
    rw [all_nodes_eq] at hu
    simp only [Bool.and_eq_true] at hu
    obtain ⟨hun, huc⟩ := hu
    generalize hnode : (⟨type, name, ns, nsDef, properties, content, children⟩ : xmlNode) = node
      at h hun
    have hch : node.children = children := by rw [← hnode]
    cases hst : (get_operation node NC_EDIT_DEFOP_NOTSET).2 with
    | some e => rw [hst] at h; simp at h
    | none =>
      rw [hst] at h
      simp only [] at h
      by_cases herr : (get_operation node NC_EDIT_DEFOP_NOTSET).1 = NC_EDIT_OP_ERROR
      · rw [if_pos herr] at h
        simp [EXIT_FAILURE, EXIT_SUCCESS] at h
      · rw [if_neg herr, hch] at h
        cases hc : compact_children children
            (if (get_operation node NC_EDIT_DEFOP_NOTSET).1 = 0 then s
              else (get_operation node NC_EDIT_DEFOP_NOTSET).1) with
        | none => rw [hc] at h; simp at h
        | some r =>
          obtain ⟨ret, children2⟩ := r
          rw [hc] at h
          simp only [Option.some.injEq, Prod.mk.injEq] at h
          obtain ⟨hret, hn2⟩ := h
          rw [hret] at hc
          have hcl := compacted_list_of_compact children children2 _ huc hc
          rw [compacted_eq, ← hn2, set_children_children,
            get_operation_set_children]
          by_cases hred : (get_operation node NC_EDIT_DEFOP_NOTSET).1 ≠ 0
              ∧ (get_operation node NC_EDIT_DEFOP_NOTSET).1 = s
          · have hop : get_operation
                (nc_clear_namespaces (remove_ns_prop node "operation" NC_NS_BASE10))
                NC_EDIT_DEFOP_NOTSET = (NC_EDIT_DEFOP_NOTSET, none) := by
              rw [← get_operation_of_unique node hun]
              exact get_operation_congr _ _ _ (nc_clear_namespaces_type _)
                (nc_clear_namespaces_properties _)
            rw [if_pos hred, hop]
            have h0 : ¬ (get_operation node NC_EDIT_DEFOP_NOTSET).1 = 0 := hred.1
            rw [if_neg h0, hred.2] at hcl
            simp [NC_EDIT_DEFOP_NOTSET, NC_EDIT_OP_NOTSET, NC_EDIT_OP_ERROR, hcl]
          · rw [if_neg hred]
            simp only [NC_EDIT_OP_NOTSET] at hcl ⊢
            simp only [hcl, Bool.and_true, Bool.and_eq_true, Bool.or_eq_true, decide_eq_true_eq]
            refine ⟨herr, ?_⟩
            by_cases h0 : (get_operation node NC_EDIT_DEFOP_NOTSET).1 = 0
            · exact Or.inl h0
            · exact Or.inr (fun hs => hred ⟨h0, hs⟩)
theorem compacted_list_of_compact (l l2 : List xmlNode) (s : NC_EDIT_OP_TYPE)
    (hu : all_nodes_list unique_operation_attr l = true)
    (h : compact_children l s = some (EXIT_SUCCESS, l2)) : compacted_list l2 s = true := by
  match l with
  | [] =>
    simp only [compact_children, Option.some.injEq, Prod.mk.injEq, true_and] at h
    rw [← h]
    rfl
  | c :: rest =>
    simp only [all_nodes_list, Bool.and_eq_true] at hu
    rw [compact_children] at h
    cases hc : compact_edit_operations_recursively c s with
    | none => rw [hc] at h; simp at h
    | some r =>
      obtain ⟨ret, c2⟩ := r
      rw [hc] at h
      simp only [] at h
      by_cases hf : ret = EXIT_FAILURE
      · rw [if_pos hf] at h
        simp [EXIT_FAILURE, EXIT_SUCCESS] at h
      · rw [if_neg hf] at h
        cases hr : compact_children rest s with
        | none => rw [hr] at h; simp at h
        | some r2 =>
          obtain ⟨ret2, rest2⟩ := r2
          rw [hr] at h
          simp only [Option.some.injEq, Prod.mk.injEq] at h
          obtain ⟨hret2, hl2⟩ := h
          rw [hret2] at hr
          have hrest := compacted_list_of_compact rest rest2 s hu.2 hr
          -- a compaction that does not fail returns `EXIT_SUCCESS`
          have hret : ret = EXIT_SUCCESS := compact_code c s ret c2 hc hf
          rw [hret] at hc
          have hc2 := compacted_of_compact c c2 s hu.1 hc
          rw [← hl2]
          simp [compacted_list, hc2, hrest]
theorem compact_code (n : xmlNode) (s : NC_EDIT_OP_TYPE) (ret : Int) (n2 : xmlNode)
    (h : compact_edit_operations_recursively n s = some (ret, n2)) (hf : ret ≠ EXIT_FAILURE) :
    ret = EXIT_SUCCESS := by
  match n with
  | ⟨type, name, ns, nsDef, properties, content, children⟩ =>
    rw [compact_edit_operations_recursively_eq] at h
    generalize hnode : (⟨type, name, ns, nsDef, properties, content, children⟩ : xmlNode) = node
      at h
    have hch : node.children = children := by rw [← hnode]
    cases hst : (get_operation node NC_EDIT_DEFOP_NOTSET).2 with
    | some e => rw [hst] at h; simp at h
    | none =>
      rw [hst] at h
      simp only [] at h
      by_cases herr : (get_operation node NC_EDIT_DEFOP_NOTSET).1 = NC_EDIT_OP_ERROR
      · rw [if_pos herr] at h
        simp only [Option.some.injEq, Prod.mk.injEq] at h
        exact absurd h.1.symm hf
      · rw [if_neg herr, hch] at h
        cases hc : compact_children children
            (if (get_operation node NC_EDIT_DEFOP_NOTSET).1 = 0 then s
              else (get_operation node NC_EDIT_DEFOP_NOTSET).1) with
        | none => rw [hc] at h; simp at h
        | some r =>
          obtain ⟨ret0, children2⟩ := r
          rw [hc] at h
          simp only [Option.some.injEq, Prod.mk.injEq] at h
          rw [h.1] at hc
          exact compact_children_code children _ ret children2 hc hf
theorem compact_children_code (l : List xmlNode) (s : NC_EDIT_OP_TYPE) (ret : Int)
    (l2 : List xmlNode) (h : compact_children l s = some (ret, l2)) (hf : ret ≠ EXIT_FAILURE) :
    ret = EXIT_SUCCESS := by
  match l with
  | [] =>
    simp only [compact_children, Option.some.injEq, Prod.mk.injEq] at h
    exact h.1.symm
  | c :: rest =>
    rw [compact_children] at h
    cases hc : compact_edit_operations_recursively c s with
    | none => rw [hc] at h; simp at h
    | some r =>
      obtain ⟨ret1, c2⟩ := r
      rw [hc] at h
      simp only [] at h
      by_cases hf1 : ret1 = EXIT_FAILURE
      · rw [if_pos hf1] at h
        simp only [Option.some.injEq, Prod.mk.injEq] at h
        exact absurd h.1.symm hf
      · rw [if_neg hf1] at h
        cases hr : compact_children rest s with
        | none => rw [hr] at h; simp at h
        | some r2 =>
          obtain ⟨ret2, rest2⟩ := r2
          rw [hr] at h
          simp only [Option.some.injEq, Prod.mk.injEq] at h
          rw [h.1] at hr
          exact compact_children_code rest s ret rest2 hr hf
end

theorem set_children_self (n : xmlNode) : set_children n n.children = n := by
  cases n
  rfl

mutual
/-- The compaction of a compacted subtree succeeds and changes nothing. -/
theorem compact_of_compacted (n : xmlNode) (s : NC_EDIT_OP_TYPE) (h : compacted n s = true) :
    compact_edit_operations_recursively n s = some (EXIT_SUCCESS, n) := by
  match n with
  | ⟨type, name, ns, nsDef, properties, content, children⟩ =>
    rw [compact_edit_operations_recursively_eq]
    rw [compacted_eq] at h
    generalize hnode : (⟨type, name, ns, nsDef, properties, content, children⟩ : xmlNode) = node
      at h
    have hch : node.children = children := by rw [← hnode]
    rw [hch] at h ⊢
    simp only [Bool.and_eq_true, Bool.or_eq_true, decide_eq_true_eq] at h
    obtain ⟨⟨herr, hor⟩, hcl⟩ := h
    have hcc := compact_children_of_compacted children _ hcl
    rw [get_operation_stored_none node _ herr]
    simp only [NC_EDIT_OP_NOTSET] at hcc hor
    simp only [herr, if_false, hcc]
    have hred : ¬ ((get_operation node NC_EDIT_DEFOP_NOTSET).1 ≠ 0
        ∧ (get_operation node NC_EDIT_DEFOP_NOTSET).1 = s) := by
      rintro ⟨h0, hs⟩
      rcases hor with h1 | h1
      · exact h0 h1
      · exact h1 hs
    rw [if_neg hred, ← hch, set_children_self]
theorem compact_children_of_compacted (l : List xmlNode) (s : NC_EDIT_OP_TYPE)
    (h : compacted_list l s = true) : compact_children l s = some (EXIT_SUCCESS, l) := by
  match l with
  | [] => rfl
  | c :: rest =>
    simp only [compacted_list, Bool.and_eq_true] at h
    rw [compact_children, compact_of_compacted c s h.1, compact_children_of_compacted rest s h.2]
    simp [EXIT_SUCCESS, EXIT_FAILURE]
end

theorem get_operation_of_not_element (n : xmlNode) (d : NC_EDIT_OP_TYPE)
    (h : n.type ≠ xmlElementType.XML_ELEMENT_NODE) : get_operation n d = (d, none) := by
  unfold get_operation xmlGetNsProp
  simp [h]

theorem compacted_of_not_element (n : xmlNode) (s : NC_EDIT_OP_TYPE)
    (h : n.type ≠ xmlElementType.XML_ELEMENT_NODE) (hc : n.children = []) :
    compacted n s = true := by
  rw [compacted_eq, get_operation_of_not_element n _ h, hc]
  simp [compacted_list, NC_EDIT_DEFOP_NOTSET, NC_EDIT_OP_NOTSET, NC_EDIT_OP_ERROR]

/-- The loop over the top-level nodes: a successful run leaves a list on which
a second run succeeds and changes nothing, and whose elements are compacted. -/
theorem compact_roots_spec (l l2 : List xmlNode) (d : NC_EDIT_OP_TYPE)
    (hu : all_nodes_list unique_operation_attr l = true)
    (h : compact_roots l d = some (EXIT_SUCCESS, l2)) :
    compact_roots l2 d = some (EXIT_SUCCESS, l2)
      ∧ ((∀ c ∈ l, c.type ≠ xmlElementType.XML_ELEMENT_NODE → c.children = []) →
          compacted_list l2 d = true) := by
  induction l generalizing l2 with
  | nil =>
    simp only [compact_roots, Option.some.injEq, Prod.mk.injEq, true_and] at h
    rw [← h]
    exact ⟨rfl, fun _ => rfl⟩
  | cons root rest ih =>
    simp only [all_nodes_list, Bool.and_eq_true] at hu
    rw [compact_roots] at h
    by_cases ht : root.type ≠ xmlElementType.XML_ELEMENT_NODE
    · rw [if_pos ht] at h
      cases hr : compact_roots rest d with
      | none => rw [hr] at h; simp at h
      | some r =>
        obtain ⟨ret, rest2⟩ := r
        rw [hr] at h
        simp only [Option.some.injEq, Prod.mk.injEq] at h
        obtain ⟨hret, hl2⟩ := h
        rw [hret] at hr
        obtain ⟨ih1, ih2⟩ := ih rest2 hu.2 hr
        rw [← hl2]
        constructor
        · rw [compact_roots, if_pos ht, ih1]
        · intro hwf
          simp only [compacted_list, Bool.and_eq_true]
          exact ⟨compacted_of_not_element root d ht (hwf root (by simp) ht),
            ih2 (fun c hc => hwf c (List.mem_cons_of_mem _ hc))⟩
    · rw [if_neg ht] at h
      cases hc : compact_edit_operations_recursively root d with
      | none => rw [hc] at h; simp at h
      | some r =>
        obtain ⟨ret, root2⟩ := r
        rw [hc] at h
        simp only [] at h
        by_cases hs : ret ≠ EXIT_SUCCESS
        · rw [if_pos hs] at h
          simp [EXIT_FAILURE, EXIT_SUCCESS] at h
        · rw [if_neg hs] at h
          have hs2 : ret = EXIT_SUCCESS := by simpa using hs
          rw [hs2] at hc
          cases hr : compact_roots rest d with
          | none => rw [hr] at h; simp at h
          | some r2 =>
            obtain ⟨ret2, rest2⟩ := r2
            rw [hr] at h
            simp only [Option.some.injEq, Prod.mk.injEq] at h
            obtain ⟨hret2, hl2⟩ := h
            rw [hret2] at hr
            obtain ⟨ih1, ih2⟩ := ih rest2 hu.2 hr
            have hcomp := compacted_of_compact root root2 d hu.1 hc
            rw [← hl2]
            constructor
            · rw [compact_roots]
              by_cases ht2 : root2.type ≠ xmlElementType.XML_ELEMENT_NODE
              · rw [if_pos ht2, ih1]
              · rw [if_neg ht2, compact_of_compacted root2 d hcomp, ih1]
                simp [EXIT_SUCCESS]
            · intro hwf
              simp only [compacted_list, Bool.and_eq_true]
              exact ⟨hcomp, ih2 (fun c hc => hwf c (List.mem_cons_of_mem _ hc))⟩

theorem compacted_list_get (l : List xmlNode) (s : NC_EDIT_OP_TYPE) (k : Nat) (n : xmlNode)
    (h : compacted_list l s = true) (hk : l.get? k = some n) : compacted n s = true := by
  induction l generalizing k with
  | nil => simp at hk
  | cons c rest ih =>
    simp only [compacted_list, Bool.and_eq_true] at h
    cases k with
    | zero =>
      simp only [List.get?_cons_zero, Option.some.injEq] at hk
      rw [← hk]
      exact h.1
    | succ j => exact ih j h.2 (by simpa using hk)

/-- In a compacted document every node is compacted for the operation it
inherits from its ancestors. -/
theorem compacted_deref (doc : xmlNode) (defop : NC_EDIT_OP_TYPE)
    (h : compacted doc defop = true) (p : xmlNodePtr) (n : xmlNode)
    (hn : deref doc p = some n) : compacted n (inherited_operation doc defop p) = true := by
  induction p generalizing n with
  | nil =>
    simp only [deref, Option.some.injEq] at hn
    rw [← hn]
    exact h
  | cons k parent ih =>
    obtain ⟨pn, hpn, hk⟩ := deref_parent doc k parent n hn
    have hp := ih pn hpn
    rw [compacted_eq] at hp
    simp only [Bool.and_eq_true] at hp
    have hcl := compacted_list_get _ _ k n hp.2 hk
    simp only [inherited_operation, hpn]
    by_cases h0 : (get_operation pn NC_EDIT_DEFOP_NOTSET).1 = NC_EDIT_OP_NOTSET
    · rw [if_pos h0] at hcl
      simp only [ne_eq, h0, not_true_eq_false, if_false]
      exact hcl
    · rw [if_neg h0] at hcl
      simp only [ne_eq, h0, not_false_eq_true, if_true]
      exact hcl

/-- C18: after a successful `compact_edit_operations` on a well-formed edit
document no node carries an explicit operation equal to the operation it
inherits: the explicit operation of its nearest annotated proper ancestor, or
the default operation when no ancestor is annotated. -/
theorem compact_edit_operations_no_redundant (edit_doc compact_doc : xmlNode)
    (defop : NC_EDIT_OP_TYPE)
    (hdoc : edit_doc.type = xmlElementType.XML_DOCUMENT_NODE)
    (hwf : ∀ c ∈ edit_doc.children,
      c.type ≠ xmlElementType.XML_ELEMENT_NODE → c.children = [])
    (hu : all_nodes unique_operation_attr edit_doc = true)
    (h : compact_edit_operations edit_doc defop = some (EXIT_SUCCESS, compact_doc))
    (p : xmlNodePtr) (n : xmlNode) (hn : deref compact_doc p = some n)
    (hop : (get_operation n NC_EDIT_DEFOP_NOTSET).1 ≠ NC_EDIT_OP_NOTSET) :
    (get_operation n NC_EDIT_DEFOP_NOTSET).1 ≠ inherited_operation compact_doc defop p := by
  unfold compact_edit_operations at h
  rw [all_nodes_eq] at hu
  simp only [Bool.and_eq_true] at hu
  cases hr : compact_roots edit_doc.children defop with
  | none => rw [hr] at h; simp at h
  | some r =>
    obtain ⟨ret, roots⟩ := r
    rw [hr] at h
    simp only [Option.some.injEq, Prod.mk.injEq] at h
    obtain ⟨hret, hdoc2⟩ := h
    rw [hret] at hr
    have hroots := (compact_roots_spec _ _ _ hu.2 hr).2 hwf
    have hne : edit_doc.type ≠ xmlElementType.XML_ELEMENT_NODE := by rw [hdoc]; decide
    have hcomp : compacted compact_doc defop = true := by
      rw [compacted_eq, ← hdoc2, get_operation_set_children,
        get_operation_of_not_element edit_doc _ hne, set_children_children]
      simp [NC_EDIT_DEFOP_NOTSET, NC_EDIT_OP_NOTSET, NC_EDIT_OP_ERROR, hroots]
    have hc := compacted_deref compact_doc defop hcomp p n hn
    rw [compacted_eq] at hc
    simp only [Bool.and_eq_true, Bool.or_eq_true, decide_eq_true_eq] at hc
    rcases hc.1.2 with h0 | h0
    · exact absurd h0 hop
    · exact h0

/-- C19: the compaction is idempotent: on a well-formed edit document on which
`compact_edit_operations` succeeds, a second run with the same default
operation succeeds and returns the document the first run left. -/
theorem compact_edit_operations_idempotent (edit_doc compact_doc : xmlNode)
    (defop : NC_EDIT_OP_TYPE)
    (hu : all_nodes unique_operation_attr edit_doc = true)
    (h : compact_edit_operations edit_doc defop = some (EXIT_SUCCESS, compact_doc)) :
    compact_edit_operations compact_doc defop = some (EXIT_SUCCESS, compact_doc) := by
  unfold compact_edit_operations at h ⊢
  rw [all_nodes_eq] at hu
  simp only [Bool.and_eq_true] at hu
  cases hr : compact_roots edit_doc.children defop with
  | none => rw [hr] at h; simp at h
  | some r =>
    obtain ⟨ret, roots⟩ := r
    rw [hr] at h
    simp only [Option.some.injEq, Prod.mk.injEq] at h
    obtain ⟨hret, hdoc2⟩ := h
    rw [hret] at hr
    have hroots := (compact_roots_spec _ _ _ hu.2 hr).1
    rw [← hdoc2, set_children_children, hroots]
    rfl

/-! ## The default operation replace -/

/-- The query for annotated elements finds nothing in a document without
top-level nodes. -/
theorem xpath_operation_empty_document (opstring : String) (doc : xmlNode)
    (ht : doc.type = xmlElementType.XML_DOCUMENT_NODE) (hc : doc.children = []) :
    xpath_operation opstring doc [] = [] := by
  obtain ⟨type, name, ns, nsDef, properties, content, children⟩ := doc
  simp only at ht hc
  subst ht hc
  simp [xpath_operation, xpath_operation_list]

/-- A phase on an edit document without top-level nodes does nothing. -/
theorem run_phase_empty_document (op : NC_EDIT_OP_TYPE)
    (body : edit_state → xmlNodePtr → outcome (Int × edit_state)) (st : edit_state)
    (ht : st.edit_doc.type = xmlElementType.XML_DOCUMENT_NODE) (hc : st.edit_doc.children = [])
    (hu : st.unlinked = []) :
    run_phase op body st = outcome.done (EXIT_SUCCESS, st) := by
  obtain ⟨orig, edit, calls, error, unlinked⟩ := st
  simp only at ht hc hu
  subst hu
  unfold run_phase get_operation_elements
  simp only [xpath_operation_empty_document _ edit ht hc]
  split_ifs <;> rfl

/-- In the canonical mode `edit_create` on the first top-level node `r` of the
edit document puts a copy of `r`, without the operation attribute and without
the namespace declarations nothing in it uses, at the place of the first
top-level element of the original document (after its top-level nodes when it
has no element) and unlinks `r` from the edit document. -/
theorem edit_create_top_level (fuel : Nat) (st : edit_state) (r : xmlNode) (rest : List xmlNode)
    (hEt : st.edit_doc.type = xmlElementType.XML_DOCUMENT_NODE)
    (hE : st.edit_doc.children = r :: rest)
    (hT : st.orig_doc.type = xmlElementType.XML_DOCUMENT_NODE) :
    edit_create (fuel + 1) st [0] false
      = outcome.done (EXIT_SUCCESS,
          ⟨(xmlDocSetRootElement st.orig_doc
              (nc_clear_namespaces (remove_ns_prop r "operation" NC_NS_BASE10))).1,
            set_children st.edit_doc rest, st.calls, st.error, st.unlinked ++ [[0]]⟩) := by
  obtain ⟨orig, edit, calls, error, unlinked⟩ := st
  simp only at hEt hE hT
  simp [edit_create, deref, parent_ptr, replace_node, hE, hEt, hT, edit_create_finish,
    edit_delete_edit, xmlUnlinkNode, xmlCopyNode_deep, set_children]

/-- The equivalent of a top-level edit node is a top-level node of the original
document. -/
theorem find_element_equiv_top_level (T E : xmlNode) (k : Nat) (o : xmlNodePtr)
    (hEt : E.type = xmlElementType.XML_DOCUMENT_NODE)
    (h : find_element_equiv T E (some [k]) = some (some o)) :
    ∃ i, o = [i] ∧ i < T.children.length := by
  simp only [find_element_equiv, find_element_equiv_ptr, deref, hEt, ne_eq, not_true_eq_false,
    if_false] at h
  by_cases hem : T.children.isEmpty = true
  · simp [hem] at h
  · simp only [hem] at h
    simp only [Bool.false_eq_true, if_false, deref] at h
    rcases find_element_equiv_scan_spec T E [k] [] T.children 0 (some o) h with
      ⟨h1, _⟩ | ⟨j, r, hj, h1, _⟩
    · simp at h1
    · refine ⟨j, ?_, hj⟩
      simpa using h1

/-- Unlinking a top-level node removes it from the children of the document. -/
theorem xmlUnlinkNode_top_level (T : xmlNode) (i : Nat) (hi : i < T.children.length) :
    xmlUnlinkNode T [i] = some (set_children T (T.children.eraseIdx i)) := by
  simp [xmlUnlinkNode, deref, hi, replace_node, set_children]

/-- With no element among the top-level nodes and none to replace, the new root
is the only top-level node of an empty document. -/
theorem xmlDocSetRootElement_empty (T root : xmlNode) (h : T.children = []) :
    (xmlDocSetRootElement T root).1.children = [root] := by
  simp [xmlDocSetRootElement, h, first_element_index, set_children]

/-- The new root takes the place of an only top-level element. -/
theorem xmlDocSetRootElement_single (T x root : xmlNode) (h : T.children = [x])
    (hx : x.type = xmlElementType.XML_ELEMENT_NODE) :
    (xmlDocSetRootElement T root).1.children = [root] := by
  simp [xmlDocSetRootElement, h, first_element_index, hx, set_children]

/-! ## Instances of the theorems with hypotheses -/

/-- An instance of C11: the `port` annotated `delete` under the `switch`
annotated `replace`, at `[0, 0]` of `doc_delete_under_replace`, is rejected
with `operation-failed` under the default operation `replace`, and under the
default operation `merge` the check returns. -/
theorem check_edit_ops_hierarchy_removal_witness :
    check_edit_ops_hierarchy doc_delete_under_replace [0, 0] NC_EDIT_DEFOP_REPLACE none
        = some (EXIT_FAILURE, some (nc_err_new NC_ERR.NC_ERR_OP_FAILED))
      ∧ ∃ code e, check_edit_ops_hierarchy doc_delete_under_replace [0, 0] NC_EDIT_DEFOP_MERGE
            none = some (code, e)
          ∧ (code = EXIT_SUCCESS ∨ code = EXIT_FAILURE)
          ∧ (code = EXIT_FAILURE ↔
              (NC_EDIT_DEFOP_MERGE = NC_EDIT_DEFOP_REPLACE
                ∨ ∃ a ∈ element_ancestors doc_delete_under_replace [0, 0],
                    (get_operation a NC_EDIT_DEFOP_NOTSET).1 = NC_EDIT_OP_CREATE
                    ∨ (get_operation a NC_EDIT_DEFOP_NOTSET).1 = NC_EDIT_OP_REPLACE
                    ∨ (get_operation a NC_EDIT_DEFOP_NOTSET).1 = NC_EDIT_OP_ERROR)) :=
  ⟨(check_edit_ops_hierarchy_removal doc_delete_under_replace 0 [0]
      (element_with_operation "port" "delete" [mk_element "name" (some ofc_ns) [mk_text "eth0"]])
      NC_EDIT_DEFOP_REPLACE none rfl rfl (by decide) (Or.inl (by decide))).2 rfl,
    (check_edit_ops_hierarchy_removal doc_delete_under_replace 0 [0]
      (element_with_operation "port" "delete" [mk_element "name" (some ofc_ns) [mk_text "eth0"]])
      NC_EDIT_DEFOP_MERGE none rfl rfl (by decide) (Or.inl (by decide))).1⟩

/-- An instance of C12: the `switch` annotated `create` at the top of
`doc_create_switch` has no ancestor element; the check returns and its result
does not depend on the default operation. -/
theorem check_edit_ops_hierarchy_creation_witness :
    (∃ code e, check_edit_ops_hierarchy doc_create_switch [0] NC_EDIT_DEFOP_MERGE none
          = some (code, e)
        ∧ (code = EXIT_SUCCESS ∨ code = EXIT_FAILURE)
        ∧ (code = EXIT_FAILURE ↔
            ∃ a ∈ element_ancestors doc_create_switch [0],
              (get_operation a NC_EDIT_DEFOP_NOTSET).1 = NC_EDIT_OP_DELETE
              ∨ (get_operation a NC_EDIT_DEFOP_NOTSET).1 = NC_EDIT_OP_REMOVE
              ∨ (get_operation a NC_EDIT_DEFOP_NOTSET).1 = NC_EDIT_OP_ERROR))
      ∧ (∀ defop2, check_edit_ops_hierarchy doc_create_switch [0] defop2 none
          = check_edit_ops_hierarchy doc_create_switch [0] NC_EDIT_DEFOP_MERGE none) :=
  check_edit_ops_hierarchy_creation doc_create_switch 0 []
    (element_with_operation "switch" "create" [mk_element "id" (some ofc_ns) [mk_text "br0"]])
    NC_EDIT_DEFOP_MERGE none rfl rfl (by decide) (Or.inl (by decide))

/-- An instance of C17: the default of the `admin-state` of port `eth0` is `up`. -/
theorem get_default_value_table_witness :
    get_default_value (doc_admin_state "down") (some [0, 1, 0, 0, 0]) = some (some "up") :=
  (get_default_value_table (doc_admin_state "down") 0 [1, 0, 0, 0]
    (mk_element "admin-state" (some ofc_ns) [mk_text "down"])
    (mk_element "configuration" (some ofc_ns)
      [mk_element "admin-state" (some ofc_ns) [mk_text "down"]])
    rfl rfl).2.2.2.2.2.2.1 rfl

/-- An instance of C18: compaction of `doc_redundant` with the default
operation `merge` leaves `doc_redundant_compacted`, where the annotation
`replace` of `resources`, at `[1, 0]`, differs from the operation it inherits. -/
theorem compact_edit_operations_no_redundant_witness :
    compact_edit_operations doc_redundant NC_EDIT_DEFOP_MERGE
        = some (EXIT_SUCCESS, doc_redundant_compacted)
      ∧ (get_operation (element_with_operation "resources" "replace"
            [mk_element "port" (some ofc_ns) [mk_text "eth0"]]) NC_EDIT_DEFOP_NOTSET).1
          ≠ inherited_operation doc_redundant_compacted NC_EDIT_DEFOP_MERGE [1, 0] :=
  ⟨rfl,
    compact_edit_operations_no_redundant doc_redundant doc_redundant_compacted
      NC_EDIT_DEFOP_MERGE rfl
      (by
        intro c hc
        simp only [doc_redundant, mk_doc, List.mem_singleton] at hc
        subst hc
        intro h
        exact absurd rfl h)
      (by decide) rfl [1, 0]
      (element_with_operation "resources" "replace"
        [mk_element "port" (some ofc_ns) [mk_text "eth0"]])
      rfl (by decide)⟩

/-- An instance of C19: a second compaction of `doc_redundant` with the default
operation `merge` returns the document the first one left. -/
theorem compact_edit_operations_idempotent_witness :
    compact_edit_operations doc_redundant NC_EDIT_DEFOP_MERGE
        = some (EXIT_SUCCESS, doc_redundant_compacted)
      ∧ compact_edit_operations doc_redundant_compacted NC_EDIT_DEFOP_MERGE
        = some (EXIT_SUCCESS, doc_redundant_compacted) :=
  ⟨rfl,
    compact_edit_operations_idempotent doc_redundant doc_redundant_compacted
      NC_EDIT_DEFOP_MERGE (by decide) rfl⟩

/-! ## Pointers and the tree primitives -/

/-- A pointer read from the top: the first step is its last component. -/
theorem deref_append (doc : xmlNode) (p : xmlNodePtr) (j : Nat) :
    deref doc (p ++ [j]) = (doc.children.get? j).bind (fun c => deref c p) := by
  induction p with
  | nil =>
    simp only [List.nil_append, deref]
    cases doc.children.get? j <;> rfl
  | cons k p ih =>
    rw [List.cons_append, deref, ih]
    cases doc.children.get? j with
    | none => rfl
    | some c => simp only [Option.some_bind, deref]

/-- Replacing a node that exists gives a document. -/
theorem replace_node_isSome (doc : xmlNode) (q : xmlNodePtr) (n m : xmlNode)
    (h : deref doc q = some n) : ∃ d, replace_node doc q m = some d := by
  induction q generalizing n m with
  | nil => exact ⟨m, rfl⟩
  | cons k parent ih =>
    obtain ⟨pn, hpn, hk⟩ := deref_parent doc k parent n h
    have hlt : k < pn.children.length := by
      rcases Nat.lt_or_ge k pn.children.length with h1 | h1
      · exact h1
      · rw [List.get?_eq_none.2 h1] at hk
        simp at hk
    simp only [replace_node, hpn, hlt, if_true]
    exact ih pn _ hpn

/-- Unlinking a node that exists below the document node gives a document. -/
theorem xmlUnlinkNode_isSome (doc : xmlNode) (k : Nat) (parent : xmlNodePtr) (n : xmlNode)
    (h : deref doc (k :: parent) = some n) : ∃ d, xmlUnlinkNode doc (k :: parent) = some d := by
  obtain ⟨pn, hpn, hk⟩ := deref_parent doc k parent n h
  have hlt : k < pn.children.length := by
    rcases Nat.lt_or_ge k pn.children.length with h1 | h1
    · exact h1
    · rw [List.get?_eq_none.2 h1] at hk
      simp at hk
  simp only [xmlUnlinkNode, hpn, hlt, if_true]
  exact replace_node_isSome doc parent pn _ hpn

/-- The number of nodes of a subtree, by its children. -/
theorem node_count_eq (n : xmlNode) : node_count n = 1 + node_count_list n.children := by
  obtain ⟨type, name, ns, nsDef, properties, content, children⟩ := n
  rw [node_count]

/-- A subtree has a node. -/
theorem node_count_pos (n : xmlNode) : 1 ≤ node_count n := by
  rw [node_count_eq]
  omega

/-- The count of a list of subtrees one of which is replaced. -/
theorem node_count_list_set (l : List xmlNode) (i : Nat) (c c2 : xmlNode)
    (h : l.get? i = some c) :
    node_count_list (l.set i c2) + node_count c = node_count_list l + node_count c2 := by
  induction l generalizing i with
  | nil => simp at h
  | cons x xs ih =>
    cases i with
    | zero =>
      simp only [List.get?_cons_zero, Option.some.injEq] at h
      subst h
      simp only [List.set_cons_zero, node_count_list]
      omega
    | succ i =>
      simp only [List.get?_cons_succ] at h
      have := ih i h
      simp only [List.set_cons_succ, node_count_list]
      omega

/-- The count of a list of subtrees one of which is taken out. -/
theorem node_count_list_eraseIdx (l : List xmlNode) (i : Nat) (c : xmlNode)
    (h : l.get? i = some c) :
    node_count_list (l.eraseIdx i) + node_count c = node_count_list l := by
  induction l generalizing i with
  | nil => simp at h
  | cons x xs ih =>
    cases i with
    | zero =>
      simp only [List.get?_cons_zero, Option.some.injEq] at h
      subst h
      simp only [List.eraseIdx_cons_zero, node_count_list]
      omega
    | succ i =>
      simp only [List.get?_cons_succ] at h
      have := ih i h
      simp only [List.eraseIdx_cons_succ, node_count_list]
      omega

/-- The count of a document in which the node `n` is replaced by `m`. -/
theorem replace_node_count (doc : xmlNode) (q : xmlNodePtr) (n m d : xmlNode)
    (hn : deref doc q = some n) (h : replace_node doc q m = some d) :
    node_count d + node_count n = node_count doc + node_count m := by
  induction q generalizing n m with
  | nil =>
    simp only [deref, Option.some.injEq] at hn
    simp only [replace_node, Option.some.injEq] at h
    subst hn h
    omega
  | cons k parent ih =>
    obtain ⟨pn, hpn, hk⟩ := deref_parent doc k parent n hn
    have hlt : k < pn.children.length := by
      rcases Nat.lt_or_ge k pn.children.length with h1 | h1
      · exact h1
      · rw [List.get?_eq_none.2 h1] at hk
        simp at hk
    simp only [replace_node, hpn, hlt, if_true] at h
    have h1 := ih pn _ hpn h
    have h2 := node_count_list_set pn.children k n m hk
    rw [node_count_eq pn] at h1
    rw [node_count_eq { pn with children := pn.children.set k m }] at h1
    simp only [] at h1
    omega

/-- Unlinking a node takes the nodes of its subtree out of the count. -/
theorem xmlUnlinkNode_count (doc : xmlNode) (q : xmlNodePtr) (n d : xmlNode)
    (hn : deref doc q = some n) (h : xmlUnlinkNode doc q = some d) :
    node_count d + node_count n = node_count doc := by
  cases q with
  | nil => simp [xmlUnlinkNode] at h
  | cons k parent =>
    obtain ⟨pn, hpn, hk⟩ := deref_parent doc k parent n hn
    have hlt : k < pn.children.length := by
      rcases Nat.lt_or_ge k pn.children.length with h1 | h1
      · exact h1
      · rw [List.get?_eq_none.2 h1] at hk
        simp at hk
    simp only [xmlUnlinkNode, hpn, hlt, if_true] at h
    have h1 := replace_node_count doc parent pn _ d hpn h
    have h2 := node_count_list_eraseIdx pn.children k n hk
    rw [node_count_eq pn] at h1
    rw [node_count_eq { pn with children := pn.children.eraseIdx k }] at h1
    simp only [] at h1
    omega

/-- The equivalent that `find_element_equiv` returns is a node of the original
document below the document node. -/
theorem find_element_equiv_deref (orig_doc edit_doc : xmlNode) (e q : xmlNodePtr)
    (h : find_element_equiv orig_doc edit_doc (some e) = some (some q)) :
    ∃ i parent n, q = i :: parent ∧ deref orig_doc q = some n := by
  cases e with
  | nil => simp [find_element_equiv, find_element_equiv_ptr] at h
  | cons k parent =>
    simp only [find_element_equiv] at h
    rw [find_element_equiv_ptr] at h
    cases hp : deref edit_doc parent with
    | none => rw [hp] at h; simp at h
    | some pn =>
      rw [hp] at h
      simp only [] at h
      generalize (if pn.type ≠ xmlElementType.XML_DOCUMENT_NODE then
              find_element_equiv_ptr orig_doc edit_doc parent
            else if orig_doc.children.isEmpty = true then some none
            else some (some [])) = r at h
      match r, h with
      | some (some orig_parent), h =>
        simp only [] at h
        cases ho : deref orig_doc orig_parent with
        | none => rw [ho] at h; simp at h
        | some opn =>
          rw [ho] at h
          simp only [] at h
          rcases find_element_equiv_scan_spec orig_doc edit_doc (k :: parent) orig_parent
            opn.children 0 (some q) h with ⟨h1, _⟩ | ⟨j, r2, hj, h1, _⟩
          · simp at h1
          · simp only [Nat.zero_add, Option.some.injEq] at h1
            subst h1
            refine ⟨j, orig_parent, opn.children.get ⟨j, hj⟩, rfl, ?_⟩
            simp only [deref, ho]
            exact List.get?_eq_get hj

/-- A child position that holds a node is within the list. -/
theorem get?_lt {α : Type} (l : List α) (k : Nat) (a : α) (h : l.get? k = some a) :
    k < l.length := by
  rcases Nat.lt_or_ge k l.length with h1 | h1
  · exact h1
  · rw [List.get?_eq_none.2 h1] at h
    simp at h

/-- The node at the pointer after `replace_node` is the new node. -/
theorem deref_replace_node_self (doc : xmlNode) (q : xmlNodePtr) (m d : xmlNode)
    (h : replace_node doc q m = some d) : deref d q = some m := by
  induction q generalizing m with
  | nil =>
    simp only [replace_node, Option.some.injEq] at h
    subst h
    rfl
  | cons k parent ih =>
    rw [replace_node] at h
    cases hp : deref doc parent with
    | none => rw [hp] at h; simp at h
    | some pn =>
      rw [hp] at h
      simp only [] at h
      by_cases hlt : k < pn.children.length
      · rw [if_pos hlt] at h
        have h1 := ih _ h
        simp only [deref, h1]
        simp [hlt]
      · rw [if_neg hlt] at h
        simp at h

/-- Replacing the node at a pointer twice is replacing it once, by the second node. -/
theorem replace_node_twice (doc : xmlNode) (q : xmlNodePtr) (a b d : xmlNode)
    (h : replace_node doc q a = some d) : replace_node d q b = replace_node doc q b := by
  induction q generalizing a b with
  | nil => rfl
  | cons k parent ih =>
    rw [replace_node] at h
    cases hp : deref doc parent with
    | none => rw [hp] at h; simp at h
    | some pn =>
      rw [hp] at h
      simp only [] at h
      by_cases hlt : k < pn.children.length
      · rw [if_pos hlt] at h
        have h1 := deref_replace_node_self doc parent _ d h
        rw [replace_node, replace_node, h1, hp]
        simp only [List.length_set, hlt, if_true, List.set_set]
        exact ih _ _ h
      · rw [if_neg hlt] at h
        simp at h

/-- Unlinking the node at a pointer after replacing it is unlinking it. -/
theorem xmlUnlinkNode_replace_node (doc : xmlNode) (q : xmlNodePtr) (a d : xmlNode)
    (h : replace_node doc q a = some d) (hq : q ≠ []) :
    xmlUnlinkNode d q = xmlUnlinkNode doc q := by
  cases q with
  | nil => exact absurd rfl hq
  | cons k parent =>
    rw [replace_node] at h
    cases hp : deref doc parent with
    | none => rw [hp] at h; simp at h
    | some pn =>
      rw [hp] at h
      simp only [] at h
      by_cases hlt : k < pn.children.length
      · rw [if_pos hlt] at h
        have h1 := deref_replace_node_self doc parent _ d h
        rw [xmlUnlinkNode, xmlUnlinkNode, h1, hp]
        simp only [List.length_set, hlt, if_true]
        have he : (pn.children.set k a).eraseIdx k = pn.children.eraseIdx k := by
          apply List.ext_get?
          intro j
          simp only [List.get?_eq_getElem?, List.getElem?_eraseIdx, List.getElem?_set]
          split_ifs <;> first | rfl | omega
        rw [he]
        exact replace_node_twice doc parent _ _ d h
      · rw [if_neg hlt] at h
        simp at h

/-- The node at the pointer after `xmlUnlinkNode` of one of its children. -/
theorem deref_xmlUnlinkNode_parent (doc : xmlNode) (k : Nat) (parent : xmlNodePtr)
    (pn d : xmlNode) (hp : deref doc parent = some pn)
    (h : xmlUnlinkNode doc (k :: parent) = some d) :
    deref d parent = some (set_children pn (pn.children.eraseIdx k))
      ∧ replace_node doc parent (set_children pn (pn.children.eraseIdx k)) = some d := by
  simp only [xmlUnlinkNode, hp] at h
  by_cases hlt : k < pn.children.length
  · rw [if_pos hlt] at h
    exact ⟨deref_replace_node_self doc parent _ d h, h⟩
  · rw [if_neg hlt] at h
    simp at h

/-! ## What the lookups read of the edit document -/

theorem same_view_symm (doc doc2 : xmlNode) (h : same_view doc doc2) : same_view doc2 doc :=
  fun p => (h p).symm

theorem same_view_some (doc doc2 : xmlNode) (h : same_view doc doc2) (p : xmlNodePtr)
    (n : xmlNode) (hn : deref doc p = some n) :
    ∃ m, deref doc2 p = some m ∧ match_view m = match_view n := by
  have hp := h p
  rw [hn] at hp
  cases h2 : deref doc2 p with
  | none => rw [h2] at hp; simp at hp
  | some m =>
    rw [h2] at hp
    simp only [Option.map_some', Option.some.injEq] at hp
    exact ⟨m, rfl, hp.symm⟩

theorem same_view_none (doc doc2 : xmlNode) (h : same_view doc doc2) (p : xmlNodePtr)
    (hn : deref doc p = none) : deref doc2 p = none := by
  have hp := h p
  rw [hn] at hp
  cases h2 : deref doc2 p with
  | none => rfl
  | some m => rw [h2] at hp; simp at hp

theorem match_view_fields (n m : xmlNode) (h : match_view m = match_view n) :
    m.type = n.type ∧ m.name = n.name ∧ m.ns = n.ns ∧ m.content = n.content
      ∧ m.children.map (fun c => (c.type, c.name))
        = n.children.map (fun c => (c.type, c.name)) := by
  simp only [match_view, Prod.mk.injEq] at h
  exact h

theorem go2node_loop_congr (name : String) (l l2 : List xmlNode) (i : Nat)
    (h : l2.map (fun c => (c.type, c.name)) = l.map (fun c => (c.type, c.name))) :
    go2node_loop name l2 i = go2node_loop name l i := by
  induction l generalizing l2 i with
  | nil =>
    cases l2 with
    | nil => rfl
    | cons x xs => simp at h
  | cons y ys ih =>
    cases l2 with
    | nil => simp at h
    | cons x xs =>
      simp only [List.map_cons, List.cons.injEq, Prod.mk.injEq] at h
      obtain ⟨⟨ht, hname⟩, hrest⟩ := h
      simp only [go2node_loop, ht, hname, ih xs (i + 1) hrest]

theorem first_child_is_text_congr (n m : xmlNode)
    (h : m.children.map (fun c => (c.type, c.name))
      = n.children.map (fun c => (c.type, c.name))) :
    first_child_is_text m = first_child_is_text n := by
  unfold first_child_is_text
  cases hn : n.children with
  | nil =>
    rw [hn] at h
    cases hm : m.children with
    | nil => rfl
    | cons x xs => rw [hm] at h; simp at h
  | cons y ys =>
    rw [hn] at h
    cases hm : m.children with
    | nil => rw [hm] at h; simp at h
    | cons x xs =>
      rw [hm] at h
      simp only [List.map_cons, List.cons.injEq, Prod.mk.injEq] at h
      simp only [h.1.1]

theorem children_ptr_congr (p : xmlNodePtr) (n m : xmlNode)
    (h : m.children.map (fun c => (c.type, c.name))
      = n.children.map (fun c => (c.type, c.name))) :
    children_ptr p m = children_ptr p n := by
  unfold children_ptr
  cases hn : n.children with
  | nil =>
    rw [hn] at h
    cases hm : m.children with
    | nil => rfl
    | cons x xs => rw [hm] at h; simp at h
  | cons y ys =>
    rw [hn] at h
    cases hm : m.children with
    | nil => rw [hm] at h; simp at h
    | cons x xs => rfl

theorem go2node_same_view (doc doc2 : xmlNode) (h : same_view doc doc2)
    (p : Option xmlNodePtr) (name : String) : go2node doc2 p name = go2node doc p name := by
  cases p with
  | none => rfl
  | some p =>
    unfold go2node
    simp only []
    cases hn : deref doc p with
    | none => simp only [same_view_none doc doc2 h p hn]
    | some n =>
      obtain ⟨m, hm, hv⟩ := same_view_some doc doc2 h p n hn
      simp only [hm,
        go2node_loop_congr name n.children m.children 0 (match_view_fields n m hv).2.2.2.2]

/-- The matcher gives the same result on edit documents that show the same. -/
theorem matching_elements_fuel_same_view (fuel : Nat) (doc1 doc1b doc2 : xmlNode)
    (h : same_view doc1 doc1b) (node1 node2 : Option xmlNodePtr) :
    matching_elements_fuel fuel doc1b node1 doc2 node2
      = matching_elements_fuel fuel doc1 node1 doc2 node2 := by
  induction fuel generalizing node1 node2 with
  | zero => simp [matching_elements_fuel]
  | succ fuel ih =>
    cases node1 with
    | none => simp [matching_elements_fuel]
    | some p1 =>
      cases node2 with
      | none => simp [matching_elements_fuel]
      | some p2 =>
        rw [matching_elements_fuel, matching_elements_fuel]
        cases hn : deref doc1 p1 with
        | none => simp only [same_view_none doc1 doc1b h p1 hn]
        | some n1 =>
          obtain ⟨m1, hm, hv⟩ := same_view_some doc1 doc1b h p1 n1 hn
          obtain ⟨ht, hname, hns, hc, hch⟩ := match_view_fields n1 m1 hv
          cases h2 : deref doc2 p2 with
          | none => simp only [hm]
          | some n2 =>
            simp only [hm]
            simp only [ht, hname, hc, nc_nscmp_congr n1 n2 m1 n2 hns rfl,
              first_child_is_text_congr n1 m1 hch, children_ptr_congr p1 n1 m1 hch,
              go2node_same_view doc1 doc1b h, ih]

theorem find_element_equiv_scan_same_view (orig_doc edit_doc edit_doc2 : xmlNode)
    (h : same_view edit_doc edit_doc2) (edit orig_parent : xmlNodePtr) (l : List xmlNode)
    (i : Nat) :
    find_element_equiv_scan orig_doc edit_doc2 edit orig_parent l i
      = find_element_equiv_scan orig_doc edit_doc edit orig_parent l i := by
  induction l generalizing i with
  | nil => rfl
  | cons x xs ih =>
    simp only [find_element_equiv_scan, matching_elements,
      matching_elements_fuel_same_view 2 edit_doc edit_doc2 orig_doc h, ih]

theorem find_element_equiv_ptr_same_view (orig_doc edit_doc edit_doc2 : xmlNode)
    (h : same_view edit_doc edit_doc2) (p : xmlNodePtr) :
    find_element_equiv_ptr orig_doc edit_doc2 p = find_element_equiv_ptr orig_doc edit_doc p := by
  induction p with
  | nil => rfl
  | cons k parent ih =>
    rw [find_element_equiv_ptr, find_element_equiv_ptr]
    cases hn : deref edit_doc parent with
    | none => simp only [same_view_none edit_doc edit_doc2 h parent hn]
    | some pn =>
      obtain ⟨pm, hm, hv⟩ := same_view_some edit_doc edit_doc2 h parent pn hn
      simp only [hm, (match_view_fields pn pm hv).1, ih,
        find_element_equiv_scan_same_view orig_doc edit_doc edit_doc2 h]

/-- The lookup gives the same result on edit documents that show the same. -/
theorem find_element_equiv_same_view (orig_doc edit_doc edit_doc2 : xmlNode)
    (h : same_view edit_doc edit_doc2) (p : Option xmlNodePtr) :
    find_element_equiv orig_doc edit_doc2 p = find_element_equiv orig_doc edit_doc p := by
  cases p with
  | none => rfl
  | some p => exact find_element_equiv_ptr_same_view orig_doc edit_doc edit_doc2 h p

theorem xmlCopyNode_shallow_congr (n m : xmlNode) (h : match_view m = match_view n) :
    xmlCopyNode_shallow m = xmlCopyNode_shallow n := by
  obtain ⟨ht, hname, hns, hc, hch⟩ := match_view_fields n m h
  simp only [xmlCopyNode_shallow, ht, hname, hc]

/-- The function `edit_create_r` gives the same result on edit documents that
show the same. -/
theorem edit_create_r_same_view (edit_doc edit_doc2 : xmlNode)
    (h : same_view edit_doc edit_doc2) (orig : xmlNode) (p : xmlNodePtr) :
    edit_create_r edit_doc2 orig p = edit_create_r edit_doc orig p := by
  induction p generalizing orig with
  | nil => rfl
  | cons k parent ih =>
    rw [edit_create_r, edit_create_r, find_element_equiv_same_view orig edit_doc edit_doc2 h]
    cases hf : find_element_equiv orig edit_doc (some (k :: parent)) with
    | none => rfl
    | some r =>
      cases r with
      | some q => rfl
      | none =>
        simp only []
        cases hn : deref edit_doc (k :: parent) with
        | none => simp only [same_view_none edit_doc edit_doc2 h _ hn]
        | some e =>
          obtain ⟨e2, he2, hve⟩ := same_view_some edit_doc edit_doc2 h _ e hn
          cases hp : deref edit_doc parent with
          | none => simp only [he2, same_view_none edit_doc edit_doc2 h _ hp]
          | some pn =>
            obtain ⟨pm, hpm, hvp⟩ := same_view_some edit_doc edit_doc2 h _ pn hp
            simp only [he2, hpm, (match_view_fields pn pm hvp).1,
              xmlCopyNode_shallow_congr e e2 hve, (match_view_fields e e2 hve).2.2.1, ih]

/-- A node that differs from another in attributes and namespace declarations
only shows the same at every pointer below it. -/
theorem same_view_of_fields (n m : xmlNode) (ht : m.type = n.type) (hname : m.name = n.name)
    (hns : m.ns = n.ns) (hc : m.content = n.content) (hch : m.children = n.children) :
    same_view m n := by
  intro p
  rcases List.eq_nil_or_concat p with rfl | ⟨p2, j, rfl⟩
  · simp only [deref, Option.map_some', match_view, ht, hname, hns, hc, hch]
  · rw [List.concat_eq_append, deref_append, deref_append, hch]

/-- Replacing a node of a document by one that shows the same gives a document
that shows the same. -/
theorem replace_node_same_view (doc : xmlNode) (q : xmlNodePtr) (n m d : xmlNode)
    (hn : deref doc q = some n) (h : replace_node doc q m = some d) (hv : same_view m n) :
    same_view d doc := by
  induction q generalizing n m with
  | nil =>
    simp only [deref, Option.some.injEq] at hn
    simp only [replace_node, Option.some.injEq] at h
    subst hn h
    exact hv
  | cons k parent ih =>
    obtain ⟨pn, hpn, hk⟩ := deref_parent doc k parent n hn
    have hlt := get?_lt _ _ _ hk
    simp only [replace_node, hpn, hlt, if_true] at h
    refine ih pn _ hpn h ?_
    intro p
    have h0 := hv []
    simp only [deref, Option.map_some', Option.some.injEq] at h0
    obtain ⟨ht, hname, -, -, -⟩ := match_view_fields n m h0
    rcases List.eq_nil_or_concat p with rfl | ⟨p2, j, rfl⟩
    · simp only [deref, Option.map_some', match_view, Option.some.injEq, Prod.mk.injEq,
        true_and]
      apply List.ext_get?
      intro i
      simp only [List.get?_eq_getElem?, List.getElem?_map, List.getElem?_set]
      have hk2 : pn.children[k]? = some n := by simpa using hk
      by_cases hik : k = i
      · subst hik
        simp [hlt, hk2, ht, hname]
      · simp [hik]
    · rw [List.concat_eq_append, deref_append, deref_append]
      simp only [List.get?_eq_getElem?, List.getElem?_set]
      have hk2 : pn.children[k]? = some n := by simpa using hk
      by_cases hjk : k = j
      · subst hjk
        simp only [hlt, if_true, hk2, Option.some_bind]
        exact hv p2
      · simp only [hjk, if_false]

/-- The edit document in which `edit_create` has stripped the operation
attribute and the unused namespace declarations of a node shows the same as
the document before. -/
theorem strip_same_view (doc : xmlNode) (q : xmlNodePtr) (n d : xmlNode)
    (hn : deref doc q = some n)
    (h : replace_node doc q (nc_clear_namespaces (remove_ns_prop n "operation" NC_NS_BASE10))
      = some d) :
    same_view doc d := by
  apply same_view_symm
  refine replace_node_same_view doc q n _ d hn h (same_view_of_fields _ _ ?_ ?_ ?_ ?_ ?_)
  · rw [nc_clear_namespaces_type, remove_ns_prop_type]
  · unfold nc_clear_namespaces remove_ns_prop
    split_ifs <;> rfl
  · unfold nc_clear_namespaces remove_ns_prop
    split_ifs <;> rfl
  · unfold nc_clear_namespaces remove_ns_prop
    split_ifs <;> rfl
  · rw [nc_clear_namespaces_children, remove_ns_prop_children]

/-! ## The phases of `edit_operations` -/

/-- The loop of a phase over a node set whose first part passes goes on with
the rest in the state the first part left. -/
theorem phase_loop_append (body : edit_state → xmlNodePtr → outcome (Int × edit_state))
    (pre rest : List xmlNodePtr) (st st2 : edit_state)
    (h : phase_loop body st pre = outcome.done (EXIT_SUCCESS, st2)) :
    phase_loop body st (pre ++ rest) = phase_loop body st2 rest := by
  induction pre generalizing st with
  | nil =>
    simp only [phase_loop, outcome.done.injEq, Prod.mk.injEq, true_and] at h
    rw [h, List.nil_append]
  | cons e pre ih =>
    rw [List.cons_append, phase_loop]
    rw [phase_loop] at h
    cases hp : ptr_after_unlinks st.unlinked e with
    | none => rw [hp] at h; simp at h
    | some node =>
      rw [hp] at h
      simp only [] at h ⊢
      cases hb : body st node with
      | fault => rw [hb] at h; simp at h
      | out_of_fuel => rw [hb] at h; simp at h
      | done r =>
        obtain ⟨code, st3⟩ := r
        rw [hb] at h
        simp only [] at h ⊢
        by_cases hc : code = EXIT_SUCCESS
        · simp only [hc, ne_eq, not_true_eq_false, if_false] at h ⊢
          exact ih st3 h
        · simp only [ne_eq, hc, not_false_eq_true, if_true, outcome.done.injEq,
            Prod.mk.injEq] at h
          exact absurd h.1 (by decide)

/-- C21: when the delete phase of `edit_operations` reaches an entry of its
node set whose node has no equivalent in the original document, the entries
before it having passed, `edit_operations` returns `EXIT_FAILURE` with the
error `data-missing`, and the state it returns is the state in which the
delete phase reached the node: the documents and the store calls are as they
were then, so no later phase (remove, replace, create, merge, default merge)
has run. `st1` is the state after the loop of the default operation replace. -/
theorem edit_operations_delete_missing (fuel : Nat) (orig_doc edit_doc : xmlNode)
    (defop : NC_EDIT_OP_TYPE) (running : Bool) (c : Int) (st1 st2 : edit_state)
    (pre rest : List xmlNodePtr) (p node : xmlNodePtr)
    (h1 : (if defop = NC_EDIT_DEFOP_REPLACE then
            replace_all fuel ⟨orig_doc, edit_doc, [], none, []⟩ running
          else outcome.done (EXIT_SUCCESS, ⟨orig_doc, edit_doc, [], none, []⟩))
        = outcome.done (c, st1))
    (hset : get_operation_elements NC_EDIT_OP_DELETE st1.edit_doc = some (pre ++ p :: rest))
    (hpre : phase_loop (edit_operations_delete fuel running)
        ⟨st1.orig_doc, st1.edit_doc, st1.calls, st1.error, []⟩ pre
      = outcome.done (EXIT_SUCCESS, st2))
    (hp : ptr_after_unlinks st2.unlinked p = some node)
    (hfind : find_element_equiv st2.orig_doc st2.edit_doc (some node) = some none) :
    edit_operations fuel orig_doc edit_doc defop running
      = outcome.done (EXIT_FAILURE,
          ⟨st2.orig_doc, st2.edit_doc, st2.calls,
            some (nc_err_new NC_ERR.NC_ERR_DATA_MISSING), st2.unlinked⟩) := by
  have hphase : run_phase NC_EDIT_OP_DELETE (edit_operations_delete fuel running) st1
      = outcome.done (EXIT_FAILURE,
          ⟨st2.orig_doc, st2.edit_doc, st2.calls,
            some (nc_err_new NC_ERR.NC_ERR_DATA_MISSING), st2.unlinked⟩) := by
    unfold run_phase
    rw [hset]
    simp only []
    rw [phase_loop_append _ pre (p :: rest) _ st2 hpre, phase_loop, hp]
    simp only [edit_operations_delete, hfind]
    rfl
  unfold edit_operations
  rw [h1]
  simp only [hphase, phase_then]
  rfl

/-- An instance of C21: `doc_two_deletes` applied to `doc_capable_switch_id`.
The `id` is deleted, the `config-version` has no equivalent; the run fails
with `data-missing`, and the edit document still holds the `config-version`,
which the default operation merge would have consumed. -/
theorem edit_operations_delete_missing_witness :
    edit_operations 2 doc_capable_switch_id doc_two_deletes NC_EDIT_DEFOP_MERGE false
      = outcome.done (EXIT_FAILURE,
          ⟨doc_capable_switch_empty,
            mk_doc [mk_element "capable-switch" (some ofc_ns) [config_version_delete]], [],
            some (nc_err_new NC_ERR.NC_ERR_DATA_MISSING), [[0, 0]]⟩) :=
  edit_operations_delete_missing 2 doc_capable_switch_id doc_two_deletes NC_EDIT_DEFOP_MERGE
    false EXIT_SUCCESS ⟨doc_capable_switch_id, doc_two_deletes, [], none, []⟩
    ⟨doc_capable_switch_empty,
      mk_doc [mk_element "capable-switch" (some ofc_ns) [config_version_delete]], [], none,
      [[0, 0]]⟩
    [[0, 0]] [] [1, 0] [0, 0] rfl rfl rfl rfl rfl

/-- C29: there is no rollback. `doc_two_deletes` applied to
`doc_capable_switch_id` on the canonical tree: the first annotated node has an
equivalent and the second has none. `edit_operations` returns `EXIT_FAILURE`
with `data-missing`, and the tree it leaves is `doc_capable_switch_empty`, not
the tree it was given: the `id` deleted before the failure stays deleted. -/
theorem edit_operations_no_rollback :
    edit_operations 2 doc_capable_switch_id doc_two_deletes NC_EDIT_DEFOP_MERGE false
      = outcome.done (EXIT_FAILURE,
          ⟨doc_capable_switch_empty,
            mk_doc [mk_element "capable-switch" (some ofc_ns) [config_version_delete]], [],
            some (nc_err_new NC_ERR.NC_ERR_DATA_MISSING), [[0, 0]]⟩)
      ∧ doc_capable_switch_empty ≠ doc_capable_switch_id
      ∧ find_element_equiv doc_capable_switch_id doc_two_deletes (some [0, 0])
        = some (some [0, 0])
      ∧ find_element_equiv doc_capable_switch_empty
          (mk_doc [mk_element "capable-switch" (some ofc_ns) [config_version_delete]])
          (some [0, 0]) = some none := by
  refine ⟨rfl, ?_, by decide, by decide⟩
  intro h
  have h2 := congrArg (fun d => d.children.map (fun c => c.children.length)) h
  simp [doc_capable_switch_empty, doc_capable_switch_id, mk_doc, mk_element] at h2

/-- A phase whose node set is empty does nothing. -/
theorem run_phase_nil (op : NC_EDIT_OP_TYPE)
    (body : edit_state → xmlNodePtr → outcome (Int × edit_state)) (st : edit_state)
    (h : get_operation_elements op st.edit_doc = some []) :
    run_phase op body st
      = outcome.done (EXIT_SUCCESS, ⟨st.orig_doc, st.edit_doc, st.calls, st.error, []⟩) := by
  unfold run_phase
  rw [h]
  rfl

/-- A phase whose node set has one entry runs its body on that entry. -/
theorem run_phase_singleton (op : NC_EDIT_OP_TYPE)
    (body : edit_state → xmlNodePtr → outcome (Int × edit_state)) (st st2 : edit_state)
    (p : xmlNodePtr)
    (h : get_operation_elements op st.edit_doc = some [p])
    (hb : body ⟨st.orig_doc, st.edit_doc, st.calls, st.error, []⟩ p
      = outcome.done (EXIT_SUCCESS, st2)) :
    run_phase op body st = outcome.done (EXIT_SUCCESS, st2) := by
  unfold run_phase
  rw [h]
  simp only [phase_loop, ptr_after_unlinks, List.foldl, hb]
  rfl

/-- The scenario of C26 for a default operation that is not `replace`: the
phases before the create phase find nothing, the create phase stores the
switch, and the edit document is empty afterwards. -/
theorem edit_operations_create_switch (fuel : Nat) (defop : NC_EDIT_OP_TYPE)
    (hd : defop ≠ NC_EDIT_DEFOP_REPLACE) :
    edit_operations (fuel + 1) (mk_doc []) doc_create_switch defop false
      = outcome.done (EXIT_SUCCESS,
          ⟨mk_doc [switch_with_id "br0"], mk_doc [], [], none, []⟩) := by
  have hcreate : edit_create (fuel + 1) ⟨mk_doc [], doc_create_switch, [], none, []⟩ [0] false
      = outcome.done (EXIT_SUCCESS,
          ⟨mk_doc [switch_with_id "br0"], mk_doc [], [], none, [[0]]⟩) := by
    rw [edit_create_top_level fuel ⟨mk_doc [], doc_create_switch, [], none, []⟩
      (element_with_operation "switch" "create" [mk_element "id" (some ofc_ns) [mk_text "br0"]])
      [] rfl rfl rfl]
    rfl
  unfold edit_operations
  rw [if_neg hd]
  simp only []
  rw [run_phase_nil NC_EDIT_OP_DELETE _ _ (by decide)]
  simp only [phase_then, ne_eq, not_true_eq_false, if_false]
  rw [run_phase_nil NC_EDIT_OP_REMOVE _ _ (by decide)]
  simp only [phase_then, ne_eq, not_true_eq_false, if_false]
  rw [run_phase_nil NC_EDIT_OP_REPLACE _ _ (by decide)]
  simp only [phase_then, ne_eq, not_true_eq_false, if_false]
  rw [run_phase_singleton NC_EDIT_OP_CREATE _ _ _ [0] (by decide) hcreate]
  simp only [phase_then, ne_eq, not_true_eq_false, if_false]
  rw [run_phase_nil NC_EDIT_OP_MERGE _ _ (by decide)]
  simp only [phase_then, ne_eq, not_true_eq_false, if_false]
  have hmerge : merge_all (fuel + 1) ⟨mk_doc [switch_with_id "br0"], mk_doc [], [], none, []⟩
      false
      = outcome.done (EXIT_SUCCESS,
          ⟨mk_doc [switch_with_id "br0"], mk_doc [], [], none, []⟩) := by
    rw [merge_all]
    rfl
  split_ifs
  · rw [hmerge]
    rfl
  · rfl

/-- C26: the edit document `<switch nc:operation="create"><id>br0</id></switch>`
applied to an empty canonical tree, with the default operation `merge` and with
the default operation not set, with any fuel but none: `edit_operations`
returns `EXIT_SUCCESS` with no error, the edit document is used up, and the
tree is `<switch><id>br0</id></switch>`: one top-level node, the element
`switch`, without attributes, whose only child is the element `id` with the
text `br0`. -/
theorem edit_operations_create_switch_in_empty_tree (fuel : Nat) :
    edit_operations (fuel + 1) (mk_doc []) doc_create_switch NC_EDIT_DEFOP_MERGE false
        = outcome.done (EXIT_SUCCESS,
            ⟨mk_doc [switch_with_id "br0"], mk_doc [], [], none, []⟩)
      ∧ edit_operations (fuel + 1) (mk_doc []) doc_create_switch NC_EDIT_DEFOP_NOTSET false
        = outcome.done (EXIT_SUCCESS,
            ⟨mk_doc [switch_with_id "br0"], mk_doc [], [], none, []⟩)
      ∧ (switch_with_id "br0").name = some "switch"
      ∧ (switch_with_id "br0").properties = []
      ∧ (switch_with_id "br0").children.map (fun c => (c.name, c.properties, subtree_text c))
        = [(some "id", [], "br0")] :=
  ⟨edit_operations_create_switch fuel NC_EDIT_DEFOP_MERGE (by decide),
    edit_operations_create_switch fuel NC_EDIT_DEFOP_NOTSET (by decide),
    rfl, rfl, by decide⟩

/-! ## `edit_remove` -/

/-- The return value of `edit_remove` is `EXIT_SUCCESS` whenever it returns. -/
theorem edit_remove_code (st st2 : edit_state) (edit_node : xmlNodePtr) (running : Bool)
    (code : Int) (h : edit_remove st edit_node running = some (code, st2)) :
    code = EXIT_SUCCESS := by
  unfold edit_remove at h
  cases hf : find_element_equiv st.orig_doc st.edit_doc (some edit_node) with
  | none => rw [hf] at h; simp at h
  | some old =>
    rw [hf] at h
    simp only [] at h
    cases hd : edit_delete_edit st (some edit_node) false with
    | none => rw [hd] at h; simp at h
    | some r =>
      obtain ⟨c1, st1⟩ := r
      rw [hd] at h
      simp only [] at h
      cases old with
      | none =>
        simp only [Option.some.injEq, Prod.mk.injEq] at h
        exact h.1.symm
      | some o =>
        simp only [] at h
        cases ho : edit_delete_orig st1 (some o) running with
        | none => rw [ho] at h; simp at h
        | some r2 =>
          obtain ⟨c2, st3⟩ := r2
          rw [ho] at h
          simp only [Option.some.injEq, Prod.mk.injEq] at h
          exact h.1.symm

/-- C23: `edit_remove` on an edit node that has no equivalent in the original
document, in either mode: it returns `EXIT_SUCCESS`, the node is unlinked from
the edit document, and the original document, the store calls and `*error`
are as they were. And whenever `edit_remove` returns, with or without an
equivalent, its return value is `EXIT_SUCCESS`. -/
theorem edit_remove_no_equivalent (st : edit_state) (k : Nat) (parent : xmlNodePtr)
    (n : xmlNode) (running : Bool)
    (hn : deref st.edit_doc (k :: parent) = some n)
    (hfind : find_element_equiv st.orig_doc st.edit_doc (some (k :: parent)) = some none) :
    (∃ edit2, xmlUnlinkNode st.edit_doc (k :: parent) = some edit2
        ∧ edit_remove st (k :: parent) running
          = some (EXIT_SUCCESS,
              ⟨st.orig_doc, edit2, st.calls, st.error, st.unlinked ++ [k :: parent]⟩))
      ∧ ∀ (st1 st2 : edit_state) (e : xmlNodePtr) (r : Bool) (code : Int),
          edit_remove st1 e r = some (code, st2) → code = EXIT_SUCCESS := by
  refine ⟨?_, fun st1 st2 e r code h => edit_remove_code st1 st2 e r code h⟩
  obtain ⟨edit2, h2⟩ := xmlUnlinkNode_isSome st.edit_doc k parent n hn
  refine ⟨edit2, h2, ?_⟩
  simp only [edit_remove, hfind, edit_delete_edit, h2]
  rfl

/-- An instance of C23: the edit node `<note nc:operation="remove">a</note>`
and the tree `doc_capable_switch_id`, which holds no `note`. In both modes the
node is unlinked from the edit document and the tree stays as it is. -/
theorem edit_remove_no_equivalent_witness :
    edit_remove ⟨doc_capable_switch_id, doc_note_edit "remove", [], none, []⟩ [0, 0] false
        = some (EXIT_SUCCESS,
            ⟨doc_capable_switch_id, doc_capable_switch_empty, [], none, [[0, 0]]⟩)
      ∧ edit_remove ⟨doc_capable_switch_id, doc_note_edit "remove", [], none, []⟩ [0, 0] true
        = some (EXIT_SUCCESS,
            ⟨doc_capable_switch_id, doc_capable_switch_empty, [], none, [[0, 0]]⟩)
      ∧ ∃ edit2, xmlUnlinkNode (doc_note_edit "remove") [0, 0] = some edit2
        ∧ edit_remove ⟨doc_capable_switch_id, doc_note_edit "remove", [], none, []⟩ [0, 0] true
          = some (EXIT_SUCCESS, ⟨doc_capable_switch_id, edit2, [], none, [] ++ [[0, 0]]⟩) :=
  ⟨rfl, rfl,
    (edit_remove_no_equivalent ⟨doc_capable_switch_id, doc_note_edit "remove", [], none, []⟩
      0 [0] (element_with_operation "note" "remove" [mk_text "a"]) true rfl
      (by decide)).1⟩

/-! ## The delete phase -/

/-- The loop of the delete phase on the canonical tree, with fuel for as many
rounds as the original document has nodes: it unlinks one after the other the
nodes that `find_element_equiv` returns for the edit node and ends when the
lookup returns `NULL`, or faults when the lookup faults. -/
theorem delete_equivalents_spec (fuel : Nat) (st : edit_state) (e : xmlNodePtr)
    (hfuel : node_count st.orig_doc ≤ fuel) :
    (∃ qs orig2, unlink_equivalents st.edit_doc e st.orig_doc qs = some orig2
        ∧ find_element_equiv orig2 st.edit_doc (some e) = some none
        ∧ delete_equivalents fuel st e false
          = outcome.done ⟨orig2, st.edit_doc, st.calls, st.error, st.unlinked⟩)
      ∨ (∃ qs orig2, unlink_equivalents st.edit_doc e st.orig_doc qs = some orig2
        ∧ find_element_equiv orig2 st.edit_doc (some e) = none
        ∧ delete_equivalents fuel st e false = outcome.fault) := by
  induction fuel generalizing st with
  | zero =>
    have := node_count_pos st.orig_doc
    omega
  | succ fuel ih =>
    rw [delete_equivalents]
    cases hf : find_element_equiv st.orig_doc st.edit_doc (some e) with
    | none => exact Or.inr ⟨[], st.orig_doc, rfl, hf, rfl⟩
    | some r =>
      cases r with
      | none => exact Or.inl ⟨[], st.orig_doc, rfl, hf, rfl⟩
      | some q =>
        obtain ⟨i, parent, n, hq, hn⟩ := find_element_equiv_deref _ _ _ _ hf
        subst hq
        obtain ⟨orig1, h1⟩ := xmlUnlinkNode_isSome st.orig_doc i parent n hn
        have hc := xmlUnlinkNode_count st.orig_doc (i :: parent) n orig1 hn h1
        have hpos := node_count_pos n
        simp only [edit_delete_orig, h1, Bool.false_eq_true, if_false]
        have hstep : ∀ qs orig2,
            unlink_equivalents st.edit_doc e orig1 qs = some orig2 →
            unlink_equivalents st.edit_doc e st.orig_doc ((i :: parent) :: qs) = some orig2 := by
          intro qs orig2 h
          simp only [unlink_equivalents, hf, if_true, h1]
          exact h
        rcases ih ⟨orig1, st.edit_doc, st.calls, st.error, st.unlinked⟩ (by simp only; omega)
          with ⟨qs, orig2, h2, h3, h4⟩ | ⟨qs, orig2, h2, h3, h4⟩
        · exact Or.inl ⟨(i :: parent) :: qs, orig2, hstep qs orig2 h2, h3, h4⟩
        · exact Or.inr ⟨(i :: parent) :: qs, orig2, hstep qs orig2 h2, h3, h4⟩

/-- C22: the loop of the delete phase for a delete-annotated edit node `e` on
the canonical tree, with fuel for as many rounds as the tree has nodes. The
loop ends. Unless a lookup faults on the way, it returns, and the tree it
leaves has no equivalent of `e`: `find_element_equiv` returns `NULL`. That
tree is the tree given with the nodes at `qs` unlinked one after the other,
each of which was, at its turn, the equivalent `find_element_equiv` returned
for `e`; an unlink takes one child out of the children of its parent and keeps
the others in their order, so every other node stays in place. The edit
document, the store calls and `*error` are untouched. The loop faults only
when, after such unlinks, the lookup itself faults. -/
theorem delete_equivalents_removes_all (fuel : Nat) (st : edit_state) (e : xmlNodePtr)
    (hfuel : node_count st.orig_doc ≤ fuel) :
    delete_equivalents fuel st e false ≠ outcome.out_of_fuel
      ∧ (delete_equivalents fuel st e false ≠ outcome.fault →
        ∃ qs orig2, unlink_equivalents st.edit_doc e st.orig_doc qs = some orig2
          ∧ find_element_equiv orig2 st.edit_doc (some e) = some none
          ∧ delete_equivalents fuel st e false
            = outcome.done ⟨orig2, st.edit_doc, st.calls, st.error, st.unlinked⟩)
      ∧ (delete_equivalents fuel st e false = outcome.fault →
        ∃ qs orig2, unlink_equivalents st.edit_doc e st.orig_doc qs = some orig2
          ∧ find_element_equiv orig2 st.edit_doc (some e) = none) := by
  rcases delete_equivalents_spec fuel st e hfuel with
    ⟨qs, orig2, h2, h3, h4⟩ | ⟨qs, orig2, h2, h3, h4⟩
  · refine ⟨?_, fun _ => ⟨qs, orig2, h2, h3, h4⟩, fun h => ?_⟩
    · rw [h4]
      exact fun h => nomatch h
    · rw [h4] at h
      exact nomatch h
  · refine ⟨?_, fun h => absurd h4 h, fun _ => ⟨qs, orig2, h2, h3⟩⟩
    rw [h4]
    exact fun h => nomatch h

/-- An instance of C22: the edit node `<note nc:operation="delete">a</note>`
and the tree `doc_two_notes`, which holds two elements `note`. Both are
unlinked, the first at `[0, 0]` and then the second, by then at `[1, 0]`; the
`id` between them stays, and no equivalent is left. -/
theorem delete_equivalents_removes_all_witness :
    unlink_equivalents (doc_note_edit "delete") [0, 0] doc_two_notes [[0, 0], [1, 0]]
        = some doc_capable_switch_id
      ∧ ∃ qs orig2, unlink_equivalents (doc_note_edit "delete") [0, 0] doc_two_notes qs
            = some orig2
          ∧ find_element_equiv orig2 (doc_note_edit "delete") (some [0, 0]) = some none
          ∧ delete_equivalents 8 ⟨doc_two_notes, doc_note_edit "delete", [], none, []⟩ [0, 0]
              false
            = outcome.done ⟨orig2, doc_note_edit "delete", [], none, []⟩ :=
  ⟨rfl,
    (delete_equivalents_removes_all 8 ⟨doc_two_notes, doc_note_edit "delete", [], none, []⟩
      [0, 0] (by decide)).2.1
      (by
        rw [show delete_equivalents 8 ⟨doc_two_notes, doc_note_edit "delete", [], none, []⟩
            [0, 0] false
          = outcome.done ⟨doc_capable_switch_id, doc_note_edit "delete", [], none, []⟩
          from rfl]
        exact fun h => nomatch h)⟩

/-- The original document after `edit_remove` on the canonical tree: the tree
given when the edit node has no equivalent, else the tree without the
equivalent that `find_element_equiv` returns, which has fewer nodes. -/
theorem edit_remove_orig (st st2 : edit_state) (e : xmlNodePtr) (code : Int)
    (h : edit_remove st e false = some (code, st2)) :
    (find_element_equiv st.orig_doc st.edit_doc (some e) = some none
        ∧ st2.orig_doc = st.orig_doc)
      ∨ (∃ q, find_element_equiv st.orig_doc st.edit_doc (some e) = some (some q)
        ∧ xmlUnlinkNode st.orig_doc q = some st2.orig_doc
        ∧ node_count st2.orig_doc < node_count st.orig_doc) := by
  unfold edit_remove at h
  cases hf : find_element_equiv st.orig_doc st.edit_doc (some e) with
  | none => rw [hf] at h; simp at h
  | some old =>
    rw [hf] at h
    simp only [] at h
    cases hd : edit_delete_edit st (some e) false with
    | none => rw [hd] at h; simp at h
    | some r =>
      obtain ⟨c1, st1⟩ := r
      rw [hd] at h
      simp only [] at h
      have ho1 : st1.orig_doc = st.orig_doc := by
        simp only [edit_delete_edit, Bool.false_eq_true, if_false] at hd
        cases hu : xmlUnlinkNode st.edit_doc e with
        | none => rw [hu] at hd; simp at hd
        | some e2 =>
          rw [hu] at hd
          simp only [Option.some.injEq, Prod.mk.injEq] at hd
          rw [← hd.2]
      cases old with
      | none =>
        simp only [Option.some.injEq, Prod.mk.injEq] at h
        left
        exact ⟨rfl, by rw [← h.2, ho1]⟩
      | some q =>
        right
        simp only [edit_delete_orig, Bool.false_eq_true, if_false] at h
        cases hu : xmlUnlinkNode st1.orig_doc q with
        | none => rw [hu] at h; simp at h
        | some o2 =>
          rw [hu] at h
          simp only [Option.some.injEq, Prod.mk.injEq] at h
          have ho2 : st2.orig_doc = o2 := by rw [← h.2]
          rw [ho1] at hu
          obtain ⟨i, parent, n, hq, hn⟩ := find_element_equiv_deref _ _ _ _ hf
          have hc := xmlUnlinkNode_count st.orig_doc q n o2 hn hu
          have hpos := node_count_pos n
          refine ⟨q, rfl, by rw [ho2]; exact hu, by rw [ho2]; omega⟩

/-- C24 (refuted as stated): the remove of `<note nc:operation="remove">a</note>`
applied to the tree `doc_two_notes`, and then the remove of an identical edit
node applied to the result. The first run unlinks the first `note` and leaves
`doc_one_note`; the second run unlinks the `note` that was left and leaves
`doc_capable_switch_id`, which is not the tree the first run left. -/
theorem edit_remove_twice_differs :
    edit_remove ⟨doc_two_notes, doc_note_edit "remove", [], none, []⟩ [0, 0] false
        = some (EXIT_SUCCESS,
            ⟨doc_one_note, doc_capable_switch_empty, [], none, [[0, 0]]⟩)
      ∧ edit_remove ⟨doc_one_note, doc_note_edit "remove", [], none, []⟩ [0, 0] false
        = some (EXIT_SUCCESS,
            ⟨doc_capable_switch_id, doc_capable_switch_empty, [], none, [[0, 0]]⟩)
      ∧ doc_capable_switch_id ≠ doc_one_note := by
  refine ⟨rfl, rfl, ?_⟩
  intro h
  have h2 := congrArg node_count h
  revert h2
  decide

/-- C24 (amended): remove on the canonical tree is idempotent exactly when the
first run leaves no equivalent. For an edit node `e` of the edit document `E`,
let the first `edit_remove` turn the tree `T` into `st1.orig_doc`, and let
`edit_remove` of the same node of a fresh copy of `E` run on that tree. The
second run leaves the tree as the first left it if and only if that tree holds
no equivalent of `e`; otherwise it unlinks one more node. Each run unlinks the
first equivalent only, so with two equivalents in `T` the second run differs. -/
theorem edit_remove_idempotent_iff (T E : xmlNode) (e : xmlNodePtr) (st1 st2 : edit_state)
    (code1 code2 : Int)
    (h1 : edit_remove ⟨T, E, [], none, []⟩ e false = some (code1, st1))
    (h2 : edit_remove ⟨st1.orig_doc, E, [], none, []⟩ e false = some (code2, st2)) :
    (st2.orig_doc = st1.orig_doc ↔ find_element_equiv st1.orig_doc E (some e) = some none)
      ∧ (find_element_equiv T E (some e) = some none → st1.orig_doc = T)
      ∧ (∀ q, find_element_equiv T E (some e) = some (some q) →
          xmlUnlinkNode T q = some st1.orig_doc) := by
  refine ⟨?_, ?_, ?_⟩
  · rcases edit_remove_orig _ _ _ _ h2 with ⟨hf, ho⟩ | ⟨q, hf, hu, hc⟩
    · exact ⟨fun _ => hf, fun _ => ho⟩
    · simp only [] at hf hc
      constructor
      · intro heq
        rw [heq] at hc
        omega
      · intro hnone
        rw [hnone] at hf
        simp at hf
  · intro hnone
    rcases edit_remove_orig _ _ _ _ h1 with ⟨hf, ho⟩ | ⟨q, hf, hu, hc⟩
    · exact ho
    · simp only [] at hf
      rw [hnone] at hf
      simp at hf
  · intro q hq
    rcases edit_remove_orig _ _ _ _ h1 with ⟨hf, ho⟩ | ⟨q2, hf, hu, hc⟩
    · simp only [] at hf
      rw [hq] at hf
      simp at hf
    · simp only [] at hf hu
      rw [hq] at hf
      simp only [Option.some.injEq] at hf
      rw [hf]
      exact hu

/-- An instance of the amended C24: the tree `doc_one_note` holds one `note`.
The first remove leaves `doc_capable_switch_id`, which holds no equivalent,
and the second remove leaves that tree as it is. -/
theorem edit_remove_idempotent_iff_witness :
    edit_remove ⟨doc_one_note, doc_note_edit "remove", [], none, []⟩ [0, 0] false
        = some (EXIT_SUCCESS,
            ⟨doc_capable_switch_id, doc_capable_switch_empty, [], none, [[0, 0]]⟩)
      ∧ edit_remove ⟨doc_capable_switch_id, doc_note_edit "remove", [], none, []⟩ [0, 0] false
        = some (EXIT_SUCCESS,
            ⟨doc_capable_switch_id, doc_capable_switch_empty, [], none, [[0, 0]]⟩)
      ∧ find_element_equiv doc_capable_switch_id (doc_note_edit "remove") (some [0, 0])
        = some none :=
  ⟨rfl, rfl,
    (edit_remove_idempotent_iff doc_one_note (doc_note_edit "remove") [0, 0]
      ⟨doc_capable_switch_id, doc_capable_switch_empty, [], none, [[0, 0]]⟩
      ⟨doc_capable_switch_id, doc_capable_switch_empty, [], none, [[0, 0]]⟩
      EXIT_SUCCESS EXIT_SUCCESS rfl rfl).1.1 rfl⟩

/-! ## `edit_create` and `edit_replace` on the canonical tree -/

/-- Adding an element under an element puts it after the children there are. -/
theorem xmlAddChild_element (doc : xmlNode) (parent : xmlNodePtr) (pn cur : xmlNode)
    (hp : deref doc parent = some pn) (hpt : pn.type = xmlElementType.XML_ELEMENT_NODE)
    (hc : cur.type = xmlElementType.XML_ELEMENT_NODE) :
    xmlAddChild doc parent cur
      = (replace_node doc parent (set_children pn (pn.children ++ [cur]))).map
          (fun d => (d, pn.children.length :: parent)) := by
  unfold xmlAddChild
  simp [hp, hpt, hc]

/-- In the canonical mode `edit_create` on an element `n0` below an element of
the edit document: when `edit_create_r` resolves the parent to the element at
`par`, a copy of `n0`, without the operation attribute and without the
namespace declarations nothing in it uses, becomes the last child of that
element, and `n0` is unlinked from the edit document. -/
theorem edit_create_canonical (fuel : Nat) (st : edit_state) (k : Nat) (parent : xmlNodePtr)
    (n0 pn orig2 parn : xmlNode) (par : xmlNodePtr)
    (hn : deref st.edit_doc (k :: parent) = some n0)
    (hne : n0.type = xmlElementType.XML_ELEMENT_NODE)
    (hpn : deref st.edit_doc parent = some pn)
    (hpt : pn.type ≠ xmlElementType.XML_DOCUMENT_NODE)
    (hr : edit_create_r st.edit_doc st.orig_doc parent = some (orig2, some par))
    (hpar : deref orig2 par = some parn)
    (hparn : parn.type = xmlElementType.XML_ELEMENT_NODE) :
    ∃ orig3 edit3,
      replace_node orig2 par (set_children parn (parn.children ++
          [xmlCopyNode_deep (nc_clear_namespaces (remove_ns_prop n0 "operation" NC_NS_BASE10))]))
        = some orig3
      ∧ xmlUnlinkNode st.edit_doc (k :: parent) = some edit3
      ∧ edit_create (fuel + 1) st (k :: parent) false
        = outcome.done (EXIT_SUCCESS,
            ⟨orig3, edit3, st.calls, st.error, st.unlinked ++ [k :: parent]⟩) := by
  obtain ⟨edit2, he2⟩ := replace_node_isSome st.edit_doc (k :: parent) n0
    (nc_clear_namespaces (remove_ns_prop n0 "operation" NC_NS_BASE10)) hn
  obtain ⟨orig3, ho3⟩ := replace_node_isSome orig2 par parn
    (set_children parn (parn.children ++
      [xmlCopyNode_deep (nc_clear_namespaces (remove_ns_prop n0 "operation" NC_NS_BASE10))]))
    hpar
  obtain ⟨edit3, he3⟩ := xmlUnlinkNode_isSome st.edit_doc k parent n0 hn
  have hview := strip_same_view st.edit_doc (k :: parent) n0 edit2 hn he2
  have hr2 : edit_create_r edit2 st.orig_doc parent = some (orig2, some par) := by
    rw [edit_create_r_same_view st.edit_doc edit2 hview, hr]
  have hu2 : xmlUnlinkNode edit2 (k :: parent) = some edit3 := by
    rw [xmlUnlinkNode_replace_node st.edit_doc (k :: parent) _ edit2 he2 (by simp), he3]
  have hct : (xmlCopyNode_deep
      (nc_clear_namespaces (remove_ns_prop n0 "operation" NC_NS_BASE10))).type
      = xmlElementType.XML_ELEMENT_NODE := by
    rw [xmlCopyNode_deep, nc_clear_namespaces_type, remove_ns_prop_type, hne]
  have hadd := xmlAddChild_element orig2 par parn _ hpar hparn hct
  rw [ho3] at hadd
  have hpd : parn.type ≠ xmlElementType.XML_DOCUMENT_NODE := by rw [hparn]; decide
  refine ⟨orig3, edit3, ho3, he3, ?_⟩
  rw [edit_create]
  simp only [hn, parent_ptr, he2, hpn, Bool.false_eq_true, if_false, ne_eq, hpt,
    not_false_eq_true, if_true, hr2, hpar, hpd, hadd, Option.map_some', edit_create_finish,
    edit_delete_edit, hu2]

/-- The function `edit_create_r` returns the equivalent of the node when there
is one, and leaves the original document as it is. -/
theorem edit_create_r_found (edit_doc orig : xmlNode) (p q : xmlNodePtr)
    (h : find_element_equiv orig edit_doc (some p) = some (some q)) :
    edit_create_r edit_doc orig p = some (orig, some q) := by
  cases p with
  | nil => simp [find_element_equiv, find_element_equiv_ptr] at h
  | cons k parent =>
    rw [edit_create_r, h]

/-! ## The path `edit_create_r` resolves -/

/-- A match of an element of the edit document is an element of the same name. -/
theorem matching_elements_nonzero_element (doc1 doc2 : xmlNode) (p1 p2 : xmlNodePtr)
    (n1 n2 : xmlNode) (r : Int) (h1 : deref doc1 p1 = some n1) (h2 : deref doc2 p2 = some n2)
    (ht : n1.type = xmlElementType.XML_ELEMENT_NODE)
    (h : matching_elements doc1 (some p1) doc2 (some p2) = some r) (hr : r ≠ 0) :
    n2.type = xmlElementType.XML_ELEMENT_NODE ∧ n2.name = n1.name := by
  unfold matching_elements at h
  rw [matching_elements_fuel] at h
  simp only [h1, h2, ht] at h
  have hnt : ¬ (xmlElementType.XML_ELEMENT_NODE = xmlElementType.XML_TEXT_NODE) := by decide
  simp only [hnt, false_and, if_false, ne_eq, not_true_eq_false, false_or] at h
  by_cases ht2 : n2.type = xmlElementType.XML_ELEMENT_NODE
  · refine ⟨ht2, ?_⟩
    simp only [ht2, not_true_eq_false, if_false] at h
    by_cases hname : xmlStrcmp n1.name n2.name = 0
    · exact ((xmlStrcmp_eq_zero_iff _ _).1 hname).symm
    · simp only [hname, not_false_eq_true, if_true, Option.some.injEq] at h
      exact absurd h.symm hr
  · simp only [ht2, not_false_eq_true, if_true, Option.some.injEq] at h
    exact absurd h.symm hr

/-- The equivalent of an edit node is a child of the equivalent of its parent
(a top-level node when the parent is the document node) on which the matcher
does not return 0. -/
theorem find_element_equiv_cons_inv (orig_doc edit_doc : xmlNode) (k : Nat)
    (parent q : xmlNodePtr) (pn : xmlNode) (hp : deref edit_doc parent = some pn)
    (h : find_element_equiv orig_doc edit_doc (some (k :: parent)) = some (some q)) :
    ∃ i P Pn r, q = i :: P ∧ deref orig_doc P = some Pn ∧ i < Pn.children.length
      ∧ matching_elements edit_doc (some (k :: parent)) orig_doc (some (i :: P)) = some r
      ∧ r ≠ 0
      ∧ (pn.type ≠ xmlElementType.XML_DOCUMENT_NODE →
          find_element_equiv orig_doc edit_doc (some parent) = some (some P))
      ∧ (pn.type = xmlElementType.XML_DOCUMENT_NODE → P = []) := by
  simp only [find_element_equiv] at h ⊢
  rw [find_element_equiv_ptr] at h
  simp only [hp] at h
  by_cases hd : pn.type = xmlElementType.XML_DOCUMENT_NODE
  · simp only [hd, ne_eq, not_true_eq_false, if_false] at h
    by_cases hem : orig_doc.children.isEmpty = true
    · simp [hem] at h
    · simp only [hem, Bool.false_eq_true, if_false, deref] at h
      rcases find_element_equiv_scan_spec orig_doc edit_doc (k :: parent) [] orig_doc.children 0
        (some q) h with ⟨h1, _⟩ | ⟨j, r, hj, h1, h2, h3, _⟩
      · simp at h1
      · simp only [Nat.zero_add, Option.some.injEq] at h1 h2
        exact ⟨j, [], orig_doc, r, h1, rfl, hj, h2, h3, fun hne => absurd hd hne, fun _ => rfl⟩
  · simp only [ne_eq, hd, not_false_eq_true, if_true] at h
    cases hf : find_element_equiv_ptr orig_doc edit_doc parent with
    | none => rw [hf] at h; simp at h
    | some r0 =>
      cases r0 with
      | none => rw [hf] at h; simp at h
      | some P =>
        rw [hf] at h
        simp only [] at h
        cases hP : deref orig_doc P with
        | none => rw [hP] at h; simp at h
        | some Pn =>
          rw [hP] at h
          simp only [] at h
          rcases find_element_equiv_scan_spec orig_doc edit_doc (k :: parent) P Pn.children 0
            (some q) h with ⟨h1, _⟩ | ⟨j, r, hj, h1, h2, h3, _⟩
          · simp at h1
          · simp only [Nat.zero_add, Option.some.injEq] at h1 h2
            exact ⟨j, P, Pn, r, h1, hP, hj, h2, h3, fun _ => rfl, fun hdd => absurd hdd hd⟩

/-- The nodes of `element_ancestors` of a pointer with a parent below the
document node. -/
theorem element_ancestors_mem (doc : xmlNode) (k k2 : Nat) (pp : xmlNodePtr) (n : xmlNode)
    (h : deref doc (k2 :: pp) = some n) :
    n ∈ element_ancestors doc (k :: k2 :: pp)
      ∧ ∀ a ∈ element_ancestors doc (k2 :: pp), a ∈ element_ancestors doc (k :: k2 :: pp) := by
  rw [element_ancestors_cons doc k k2 pp n h]
  exact ⟨List.mem_cons_self _ _, fun a ha => List.mem_cons_of_mem _ ha⟩

/-- The equivalent of an element of a well-formed edit document is an element
of the same name, and the names on the way to it are the names on the way to
the edit node. -/
theorem find_element_equiv_path (orig_doc edit_doc : xmlNode) (p q : xmlNodePtr) (a : xmlNode)
    (hE : edit_doc.type = xmlElementType.XML_DOCUMENT_NODE)
    (ha : deref edit_doc p = some a) (hat : a.type = xmlElementType.XML_ELEMENT_NODE)
    (hanc : ∀ b ∈ element_ancestors edit_doc p, b.type = xmlElementType.XML_ELEMENT_NODE)
    (h : find_element_equiv orig_doc edit_doc (some p) = some (some q)) :
    ∃ qn, deref orig_doc q = some qn ∧ qn.type = xmlElementType.XML_ELEMENT_NODE
      ∧ qn.name = a.name ∧ path_names orig_doc q = path_names edit_doc p := by
  induction p generalizing q a with
  | nil => simp [find_element_equiv, find_element_equiv_ptr] at h
  | cons k parent ih =>
    obtain ⟨pn, hpn, hk⟩ := deref_parent edit_doc k parent a ha
    obtain ⟨i, P, Pn, r, hq, hP, hi, hm, hr, hnd, hd⟩ :=
      find_element_equiv_cons_inv orig_doc edit_doc k parent q pn hpn h
    subst hq
    have hqn : deref orig_doc (i :: P) = some (Pn.children.get ⟨i, hi⟩) := by
      simp only [deref, hP]
      exact List.get?_eq_get hi
    obtain ⟨ht2, hname⟩ := matching_elements_nonzero_element edit_doc orig_doc (k :: parent)
      (i :: P) a _ r ha hqn hat hm hr
    refine ⟨_, hqn, ht2, hname, ?_⟩
    simp only [path_names, ha, hqn, Option.some_bind, hname]
    congr 1
    cases parent with
    | nil =>
      simp only [deref, Option.some.injEq] at hpn
      subst hpn
      rw [hd hE]
      rfl
    | cons k2 pp =>
      have hmem := element_ancestors_mem edit_doc k k2 pp pn hpn
      have hpt : pn.type = xmlElementType.XML_ELEMENT_NODE := hanc pn hmem.1
      have hpnd : pn.type ≠ xmlElementType.XML_DOCUMENT_NODE := by rw [hpt]; decide
      obtain ⟨_, _, _, _, hpath⟩ := ih P pn hpn hpt (fun b hb => hanc b (hmem.2 b hb)) (hnd hpnd)
      exact hpath

/-- Replacing a node by a node of the same name keeps the names on the way. -/
theorem path_names_replace_node (doc : xmlNode) (q : xmlNodePtr) (n m d : xmlNode)
    (hn : deref doc q = some n) (h : replace_node doc q m = some d) (hname : m.name = n.name) :
    path_names d q = path_names doc q := by
  induction q generalizing n m with
  | nil => rfl
  | cons k parent ih =>
    obtain ⟨pn, hpn, hk⟩ := deref_parent doc k parent n hn
    have hlt := get?_lt _ _ _ hk
    have hself := deref_replace_node_self doc (k :: parent) m d h
    simp only [replace_node, hpn, hlt, if_true] at h
    simp only [path_names, hself, hn, Option.some_bind, hname]
    rw [ih pn _ hpn h rfl]

theorem node_count_list_append (l l2 : List xmlNode) :
    node_count_list (l ++ l2) = node_count_list l + node_count_list l2 := by
  induction l with
  | nil => simp [node_count_list]
  | cons x xs ih =>
    rw [List.cons_append, node_count_list, node_count_list, ih]
    omega

theorem node_count_set_children (n : xmlNode) (l : List xmlNode) :
    node_count (set_children n l) = 1 + node_count_list l := by
  rw [node_count_eq, set_children_children]

theorem create_r_set_ns_fields (n : xmlNode) (a b : Option xmlNs) :
    (create_r_set_ns n a b).type = n.type ∧ (create_r_set_ns n a b).name = n.name
      ∧ (create_r_set_ns n a b).children = n.children := by
  unfold create_r_set_ns
  cases a with
  | none => exact ⟨rfl, rfl, rfl⟩
  | some ens =>
    cases b with
    | none => exact ⟨rfl, rfl, rfl⟩
    | some pns =>
      simp only []
      split_ifs <;> exact ⟨rfl, rfl, rfl⟩

theorem xmlCopyNode_shallow_fields (n : xmlNode) :
    (xmlCopyNode_shallow n).type = n.type ∧ (xmlCopyNode_shallow n).name = n.name
      ∧ (xmlCopyNode_shallow n).children = [] :=
  ⟨rfl, rfl, rfl⟩

/-- The position `first_element_index` returns is the position of an element. -/
theorem first_element_index_spec (l : List xmlNode) (s i : Nat)
    (h : first_element_index l s = some i) :
    s ≤ i ∧ i - s < l.length := by
  induction l generalizing s with
  | nil => simp [first_element_index] at h
  | cons x xs ih =>
    rw [first_element_index] at h
    by_cases hx : x.type = xmlElementType.XML_ELEMENT_NODE
    · simp only [hx, if_true, Option.some.injEq] at h
      subst h
      simp
    · simp only [hx, if_false] at h
      have := ih (s + 1) h
      simp only [List.length_cons]
      omega

/-- The document after `xmlDocSetRootElement` with a new root that is an
element: the new root is at the pointer returned, and the document has at most
one node more, exactly one more when it had no top-level element. -/
theorem xmlDocSetRootElement_element (T c : xmlNode)
    (hc : c.type = xmlElementType.XML_ELEMENT_NODE) (hcc : c.children = []) :
    deref (xmlDocSetRootElement T c).1 (xmlDocSetRootElement T c).2 = some c
      ∧ (∃ i, (xmlDocSetRootElement T c).2 = [i])
      ∧ node_count (xmlDocSetRootElement T c).1 ≤ node_count T + 1
      ∧ (first_element_index T.children 0 = none →
          node_count (xmlDocSetRootElement T c).1 = node_count T + 1) := by
  have hc1 : node_count c = 1 := by
    rw [node_count_eq, hcc]
    rfl
  unfold xmlDocSetRootElement
  cases hf : first_element_index T.children 0 with
  | some i =>
    have hi := first_element_index_spec T.children 0 i hf
    simp only [Nat.sub_zero] at hi
    have hget : T.children.get? i = some (T.children.get ⟨i, hi.2⟩) := List.get?_eq_get hi.2
    have hcount := node_count_list_set T.children i _ c hget
    have hpos := node_count_pos (T.children.get ⟨i, hi.2⟩)
    simp only []
    refine ⟨?_, ⟨i, rfl⟩, ?_, fun h => by simp at h⟩
    · simp [deref, set_children, hi.2]
    · rw [node_count_set_children, node_count_eq T]
      omega
  | none =>
    simp only []
    cases hch : T.children with
    | nil =>
      simp only []
      refine ⟨by simp [deref, set_children], ⟨0, rfl⟩, ?_, fun _ => ?_⟩
      · rw [node_count_set_children, node_count_eq T, hch]
        simp only [node_count_list]
        omega
      · rw [node_count_set_children, node_count_eq T, hch]
        simp only [node_count_list]
        omega
    | cons c0 rest =>
      have hnt : ¬ (c0.type = xmlElementType.XML_TEXT_NODE
          ∧ c.type = xmlElementType.XML_TEXT_NODE ∧ c0.name = c.name) := by
        rw [hc]
        intro h
        exact absurd h.2.1 (by decide)
      simp only [hnt, if_false]
      refine ⟨?_, ⟨(c0 :: rest).length, rfl⟩, ?_, fun _ => ?_⟩
      · simp [deref, set_children]
      · rw [node_count_set_children, node_count_eq T, hch, List.cons_append, node_count_list,
          node_count_list, node_count_list_append, node_count_list, node_count_list]
        omega
      · rw [node_count_set_children, node_count_eq T, hch, List.cons_append, node_count_list,
          node_count_list, node_count_list_append, node_count_list, node_count_list]
        omega

/-- The function `edit_create_r` on an element of a well-formed edit document:
unless a lookup faults, it returns an element of the original document, as it
has become, with the name of the edit node, and the names on the way to it are
the names on the way to the edit node. The document has one node more for each
node of the path without equivalent, unless the new top-level element has
taken the place of a top-level element, and it is unchanged when the edit node
has an equivalent. -/
theorem edit_create_r_spec (E T : xmlNode) (p : xmlNodePtr) (a : xmlNode)
    (hE : E.type = xmlElementType.XML_DOCUMENT_NODE)
    (ha : deref E p = some a) (hat : a.type = xmlElementType.XML_ELEMENT_NODE)
    (hanc : ∀ b ∈ element_ancestors E p, b.type = xmlElementType.XML_ELEMENT_NODE) :
    edit_create_r E T p = none
      ∨ ∃ T2 par parn, edit_create_r E T p = some (T2, some par)
        ∧ deref T2 par = some parn ∧ parn.type = xmlElementType.XML_ELEMENT_NODE
        ∧ parn.name = a.name ∧ path_names T2 par = path_names E p
        ∧ node_count T2 ≤ node_count T + missing_ancestors T E p
        ∧ ((missing_ancestors T E p < p.length ∨ first_element_index T.children 0 = none) →
            node_count T2 = node_count T + missing_ancestors T E p)
        ∧ (missing_ancestors T E p = 0 → T2 = T) := by
  induction p generalizing a with
  | nil =>
    left
    rfl
  | cons k parent ih =>
    cases hf : find_element_equiv T E (some (k :: parent)) with
    | none =>
      left
      rw [edit_create_r, hf]
    | some r =>
      cases r with
      | some q =>
        right
        obtain ⟨qn, hqn, hqt, hqname, hpath⟩ :=
          find_element_equiv_path T E (k :: parent) q a hE ha hat hanc hf
        have hm : missing_ancestors T E (k :: parent) = 0 := by
          simp [missing_ancestors, hf]
        exact ⟨T, q, qn, edit_create_r_found E T _ q hf, hqn, hqt, hqname, hpath,
          by omega, fun _ => by omega, fun _ => rfl⟩
      | none =>
        obtain ⟨pn, hpn, hk⟩ := deref_parent E k parent a ha
        have hm : missing_ancestors T E (k :: parent) = 1 + missing_ancestors T E parent := by
          simp [missing_ancestors, hf]
        have hsh := xmlCopyNode_shallow_fields a
        cases parent with
        | nil =>
          right
          simp only [deref, Option.some.injEq] at hpn
          subst hpn
          have hcf := create_r_set_ns_fields (xmlCopyNode_shallow a) a.ns none
          obtain ⟨h1, ⟨i, h2⟩, h3, h4⟩ := xmlDocSetRootElement_element T
            (create_r_set_ns (xmlCopyNode_shallow a) a.ns none)
            (by rw [hcf.1, hsh.1, hat]) (by rw [hcf.2.2, hsh.2.2])
          have hm1 : missing_ancestors T E [k] = 1 := by
            rw [hm]
            rfl
          refine ⟨_, _, _, ?_, h1, by rw [hcf.1, hsh.1, hat], by rw [hcf.2.1, hsh.2.1], ?_,
            by omega, ?_, fun h => by omega⟩
          · rw [edit_create_r, hf]
            simp only [deref, hk, hE, if_true]
          · rw [h2] at h1 ⊢
            simp only [path_names, h1, ha, Option.some_bind, hcf.2.1, hsh.2.1]
          · intro h
            rcases h with h | h
            · simp only [List.length_singleton] at h
              omega
            · rw [h4 h]
              omega
        | cons k2 pp =>
          have hmem := element_ancestors_mem E k k2 pp pn hpn
          have hpt : pn.type = xmlElementType.XML_ELEMENT_NODE := hanc pn hmem.1
          have hpnd : pn.type ≠ xmlElementType.XML_DOCUMENT_NODE := by rw [hpt]; decide
          rcases ih pn hpn hpt (fun b hb => hanc b (hmem.2 b hb)) with hnone |
            ⟨T1, par1, parn1, hr, hd1, ht1, hname1, hpath1, hle1, heq1, hzero1⟩
          · left
            rw [edit_create_r, hf]
            simp only [ha, hpn, hpnd, if_false, hnone]
          · right
            have hst : (xmlCopyNode_shallow a).type = xmlElementType.XML_ELEMENT_NODE := by
              rw [hsh.1, hat]
            have hadd := xmlAddChild_element T1 par1 parn1 (xmlCopyNode_shallow a) hd1 ht1 hst
            obtain ⟨T3, hT3⟩ := replace_node_isSome T1 par1 parn1
              (set_children parn1 (parn1.children ++ [xmlCopyNode_shallow a])) hd1
            rw [hT3, Option.map_some'] at hadd
            have hdpar := deref_replace_node_self T1 par1 _ T3 hT3
            have hdret : deref T3 (parn1.children.length :: par1)
                = some (xmlCopyNode_shallow a) := by
              simp [deref, hdpar, set_children]
            have hcf := create_r_set_ns_fields (xmlCopyNode_shallow a) a.ns parn1.ns
            obtain ⟨T4, hT4⟩ := replace_node_isSome T3 (parn1.children.length :: par1)
              (xmlCopyNode_shallow a)
              (create_r_set_ns (xmlCopyNode_shallow a) a.ns parn1.ns) hdret
            have hd4 := deref_replace_node_self T3 _ _ T4 hT4
            have hc3 := replace_node_count T1 par1 parn1 _ T3 hd1 hT3
            have hc4 := replace_node_count T3 _ (xmlCopyNode_shallow a) _ T4 hdret hT4
            have hcount : node_count T4 = node_count T1 + 1 := by
              rw [node_count_set_children, node_count_list_append, node_count_eq parn1] at hc3
              rw [node_count_eq (create_r_set_ns _ _ _), hcf.2.2,
                node_count_eq (xmlCopyNode_shallow a)] at hc4
              simp only [node_count_list, hsh.2.2] at hc3 hc4
              rw [node_count_eq (xmlCopyNode_shallow a), hsh.2.2] at hc3
              simp only [node_count_list] at hc3
              omega
            have hp3 : path_names T3 par1 = path_names T1 par1 :=
              path_names_replace_node T1 par1 parn1 _ T3 hd1 hT3 rfl
            have hp4 : path_names T4 (parn1.children.length :: par1)
                = path_names T3 (parn1.children.length :: par1) :=
              path_names_replace_node T3 _ (xmlCopyNode_shallow a) _ T4 hdret hT4 hcf.2.1
            refine ⟨T4, parn1.children.length :: par1, _, ?_, hd4, by rw [hcf.1, hst],
              by rw [hcf.2.1, hsh.2.1], ?_, by omega, ?_, fun h => by omega⟩
            · rw [edit_create_r, hf]
              simp only [ha, hpn, hpnd, if_false, hr, hadd, hd1, hdret, hT4]
            · rw [hp4]
              simp only [path_names] at hpath1 ⊢
              rw [hdret, ha]
              simp only [Option.some_bind, hsh.2.1]
              rw [← hpath1]
              congr 1
            · intro h
              have h1 : node_count T1 = node_count T + missing_ancestors T E (k2 :: pp) := by
                apply heq1
                rcases h with h | h
                · left
                  simp only [List.length_cons] at h ⊢
                  omega
                · exact Or.inr h
              omega

/-! ## `edit_merge` -/

/-- C28 (the code does not do this): the edit node
`<admin-state nc:operation="merge">down</admin-state>` of port `eth0` has the
equivalent `<admin-state>up</admin-state>` in the tree. Its child, the text
`down`, is no key and has no equivalent, the text `up` being different.
`edit_merge` returns `EXIT_SUCCESS`, but it neither leaves the child of the
equivalent as it was nor adds a child: `xmlAddChild` merges the copy of the
text into the text node there is, and the tree holds
`<admin-state>updown</admin-state>`, still with one child. -/
theorem edit_merge_concatenates_text :
    find_element_equiv (doc_admin_state "up") (doc_admin_state_edit "merge" "down")
        (some [0, 1, 0, 0, 0]) = some (some [0, 1, 0, 0, 0])
      ∧ is_key (doc_admin_state_edit "merge" "down") [0, 0, 1, 0, 0, 0] = some false
      ∧ find_element_equiv (doc_admin_state "up") (doc_admin_state_edit "merge" "down")
        (some [0, 0, 1, 0, 0, 0]) = some none
      ∧ edit_merge 1
          ⟨doc_admin_state "up", doc_admin_state_edit "merge" "down", [], none, []⟩
          [0, 1, 0, 0, 0] false
        = outcome.done (EXIT_SUCCESS,
            ⟨doc_admin_state "updown", doc_port_configuration [], [], none,
              [[0, 1, 0, 0, 0]]⟩)
      ∧ deref (doc_admin_state "updown") [0, 1, 0, 0, 0]
        = some (mk_element "admin-state" (some ofc_ns) [mk_text "updown"])
      ∧ deref (doc_admin_state "up") [0, 1, 0, 0, 0]
        = some (mk_element "admin-state" (some ofc_ns) [mk_text "up"]) :=
  ⟨by decide, by decide, by decide, rfl, rfl, rfl⟩

/-! ## The order of the phases -/

/-- The delete phase of the scenario of C30 on an edit node at `d`, the `note`
of the tree being its only equivalent. -/
theorem edit_operations_delete_note (fuel : Nat) (x : String) (E E2 : xmlNode)
    (d : xmlNodePtr)
    (hfind : find_element_equiv (doc_id_and_note x) E (some d) = some (some [1, 0]))
    (hnone : find_element_equiv doc_capable_switch_id E (some d) = some none)
    (hu : xmlUnlinkNode E d = some E2) :
    edit_operations_delete (fuel + 2) false ⟨doc_id_and_note x, E, [], none, []⟩ d
      = outcome.done (EXIT_SUCCESS, ⟨doc_capable_switch_id, E2, [], none, [d]⟩) := by
  have hdel : delete_equivalents (fuel + 2) ⟨doc_id_and_note x, E, [], none, []⟩ d false
      = outcome.done ⟨doc_capable_switch_id, E, [], none, []⟩ := by
    rw [delete_equivalents]
    simp only [hfind, edit_delete_orig, Bool.false_eq_true, if_false]
    rw [show xmlUnlinkNode (doc_id_and_note x) [1, 0] = some doc_capable_switch_id from rfl]
    simp only []
    rw [delete_equivalents]
    simp only [hnone]
  simp only [edit_operations_delete, hfind, hdel, edit_delete_edit, Bool.false_eq_true,
    if_false, hu, outcome.of_option]
  rfl

/-- The scenario of C30 from the create phase on: the tree holds no `note`, the
edit document holds the `note` to create only. -/
theorem edit_operations_create_note (fuel : Nat) (c : String) :
    edit_create (fuel + 1)
        ⟨doc_capable_switch_id,
          mk_doc [mk_element "capable-switch" (some ofc_ns)
            [element_with_operation "note" "create" [mk_text c]]], [], none, []⟩ [0, 0] false
      = outcome.done (EXIT_SUCCESS,
          ⟨doc_id_and_note c, doc_capable_switch_empty, [], none, [[0, 0]]⟩) := by
  rw [edit_create]
  rfl

/-- The rest of `edit_operations` in the scenario of C30 once the delete phase
is over, for a default operation that is not `replace`: the create phase
stores the `note`, and the default operation merge, when it runs, finds
nothing to add. -/
theorem edit_operations_after_delete (fuel : Nat) (c : String) (defop : NC_EDIT_OP_TYPE)
    (u : List xmlNodePtr) :
    ∃ E3 u3,
      (phase_then (run_phase NC_EDIT_OP_REMOVE
          (fun st node => outcome.of_option (edit_remove st node false))
          ⟨doc_capable_switch_id,
            mk_doc [mk_element "capable-switch" (some ofc_ns)
              [element_with_operation "note" "create" [mk_text c]]], [], none, u⟩)
        fun st3 =>
      phase_then (run_phase NC_EDIT_OP_REPLACE
          (fun st node => edit_replace (fuel + 2) st (some node) false) st3)
        fun st4 =>
      phase_then (run_phase NC_EDIT_OP_CREATE
          (fun st node => edit_create (fuel + 2) st node false) st4)
        fun st5 =>
      phase_then (run_phase NC_EDIT_OP_MERGE
          (fun st node => edit_merge (fuel + 2) st node false) st5)
        fun st6 =>
      phase_then (if defop = NC_EDIT_DEFOP_MERGE ∨ defop = NC_EDIT_DEFOP_NOTSET then
            merge_all (fuel + 2) st6 false
          else outcome.done (EXIT_SUCCESS, st6))
        fun st7 => outcome.done (EXIT_SUCCESS, st7))
      = outcome.done (EXIT_SUCCESS, ⟨doc_id_and_note c, E3, [], none, u3⟩) := by
  rw [run_phase_nil NC_EDIT_OP_REMOVE _ _ (by rfl)]
  simp only [phase_then, ne_eq, not_true_eq_false, if_false]
  rw [run_phase_nil NC_EDIT_OP_REPLACE _ _ (by rfl)]
  simp only [phase_then, ne_eq, not_true_eq_false, if_false]
  rw [run_phase_singleton NC_EDIT_OP_CREATE _ _ _ [0, 0] (by rfl)
    (edit_operations_create_note (fuel + 1) c)]
  simp only [phase_then, ne_eq, not_true_eq_false, if_false]
  rw [run_phase_nil NC_EDIT_OP_MERGE _ _ (by rfl)]
  simp only [phase_then, ne_eq, not_true_eq_false, if_false]
  split_ifs
  · have hmerge : merge_all (fuel + 2)
        ⟨doc_id_and_note c, doc_capable_switch_empty, [], none, []⟩ false
        = outcome.done (EXIT_SUCCESS, ⟨doc_id_and_note c, mk_doc [], [], none, [[0]]⟩) := by
      rw [merge_all]
      rw [show edit_merge (fuel + 1 + 1)
          ⟨doc_id_and_note c, doc_capable_switch_empty, [], none, []⟩ [0] false
        = outcome.done (EXIT_SUCCESS, ⟨doc_id_and_note c, mk_doc [], [], none, [[0]]⟩)
        from rfl]
      simp only [doc_capable_switch_empty, mk_doc, List.isEmpty_cons, Bool.false_eq_true,
        if_false, ne_eq, not_true_eq_false]
      rw [merge_all]
      rfl
    rw [hmerge]
    exact ⟨_, _, rfl⟩
  · exact ⟨_, _, rfl⟩

/-! ## `is_key` -/

theorem xmlStrEqual_eq_decide (a b : Option String) : xmlStrEqual a b = decide (a = b) := by
  cases a <;> cases b <;> simp [xmlStrEqual]

/-- C31, the code against the claim. `is_key` is true on the `resource-id`
child of a port, on a `name` child of a switch and on a `table-id` child of a
switch, none of which is a declared key child. -/
theorem is_key_not_declared :
    is_key doc_port_resource_id [0, 0, 0, 0] = some true
    ∧ declared_key_child (some "resource-id") (some "port") = false
    ∧ is_key doc_switch_name_table_id [1, 0, 0, 0] = some true
    ∧ declared_key_child (some "name") (some "switch") = false
    ∧ is_key doc_switch_name_table_id [2, 0, 0, 0] = some true
    ∧ declared_key_child (some "table-id") (some "switch") = false := by
  refine ⟨by decide, by decide, by decide, by decide, by decide, by decide⟩

/-- C31, amended. For a node `n` with parent `pn`, `is_key` returns true
exactly when `n` is named `id` and `pn` is named `switch` or `controller`, or
`n` is named `name` or `resource-id` and `pn` is not named `flow-table`, or `n`
is named `table-id`; in particular it is true on every declared key child. -/
theorem is_key_by_names (doc : xmlNode) (k : Nat) (parent : xmlNodePtr) (n pn : xmlNode)
    (hn : deref doc (k :: parent) = some n) (hp : deref doc parent = some pn) :
    is_key doc (k :: parent)
      = some (decide ((n.name = some "id"
            ∧ (pn.name = some "switch" ∨ pn.name = some "controller"))
          ∨ (n.name = some "name" ∧ pn.name ≠ some "flow-table")
          ∨ n.name = some "table-id"
          ∨ (n.name = some "resource-id" ∧ pn.name ≠ some "flow-table")))
    ∧ (declared_key_child n.name pn.name = true → is_key doc (k :: parent) = some true) := by
  have hkey : is_key doc (k :: parent)
      = some (decide ((n.name = some "id"
            ∧ (pn.name = some "switch" ∨ pn.name = some "controller"))
          ∨ (n.name = some "name" ∧ pn.name ≠ some "flow-table")
          ∨ n.name = some "table-id"
          ∨ (n.name = some "resource-id" ∧ pn.name ≠ some "flow-table"))) := by
    unfold is_key
    simp only [hn, parent_ptr, name_at, hp, Option.map_some', xmlStrEqual_eq_decide, c_and]
    by_cases h1 : n.name = some "id"
    · simp [h1]
    · by_cases h2 : n.name = some "name"
      · by_cases h3 : pn.name = some "flow-table"
        · simp [h2, h3]
        · simp [h2, h3]
      · by_cases h4 : n.name = some "table-id"
        · simp [h1, h2, h4]
        · by_cases h5 : n.name = some "resource-id"
          · by_cases h3 : pn.name = some "flow-table"
            · simp [h5, h3]
            · simp [h5, h3]
          · simp [h1, h2, h4, h5]
  refine ⟨hkey, fun hd => ?_⟩
  rw [hkey]
  unfold declared_key_child at hd
  simp only [Bool.or_eq_true, Bool.and_eq_true, decide_eq_true_eq] at hd
  congr 1
  rw [decide_eq_true_eq]
  rcases hd with ((⟨h1, h2⟩ | ⟨h1, h2⟩) | ⟨h1, h2⟩) | ⟨h1, h2⟩
  · exact Or.inl ⟨h1, h2⟩
  · exact Or.inr (Or.inl ⟨h1, by rw [h2]; decide⟩)
  · exact Or.inr (Or.inr (Or.inl h1))
  · refine Or.inr (Or.inr (Or.inr ⟨h1, ?_⟩))
    rcases h2 with (h2 | h2) | h2 <;> rw [h2] <;> decide

theorem is_key_by_names_witness :
    is_key doc_port_resource_id [1, 0, 0, 0]
      = some (decide (((some "name" : Option String) = some "id"
            ∧ ((some "port" : Option String) = some "switch"
              ∨ (some "port" : Option String) = some "controller"))
          ∨ ((some "name" : Option String) = some "name"
            ∧ (some "port" : Option String) ≠ some "flow-table")
          ∨ (some "name" : Option String) = some "table-id"
          ∨ ((some "name" : Option String) = some "resource-id"
            ∧ (some "port" : Option String) ≠ some "flow-table")))
    ∧ (declared_key_child (some "name") (some "port") = true
        → is_key doc_port_resource_id [1, 0, 0, 0] = some true) :=
  is_key_by_names doc_port_resource_id 1 [0, 0, 0]
    (mk_element "name" (some ofc_ns) [mk_text "eth0"])
    (mk_element "port" (some ofc_ns)
      [mk_element "resource-id" (some ofc_ns) [mk_text "p1"],
       mk_element "name" (some ofc_ns) [mk_text "eth0"]]) rfl rfl

/-! ## `edit_delete` on the live store -/

theorem first_child_content_some (doc : xmlNode) (p : xmlNodePtr) (n : xmlNode)
    (h : deref doc p = some n) : first_child_content doc (some p) = first_content n := by
  simp only [first_child_content, h, first_content]

theorem go2node_key_content (doc : xmlNode) (p : xmlNodePtr) (n : xmlNode) (name : String)
    (h : deref doc p = some n) :
    ∃ key, go2node doc (some p) name = some key
      ∧ first_child_content doc key = key_content name n := by
  rcases go2node_spec doc p n name h with ⟨h1, h2⟩ | ⟨q, c, h1, h2, h3⟩
  · exact ⟨none, h1, by simp [first_child_content, key_content, h2]⟩
  · refine ⟨some q, h1, ?_⟩
    rw [first_child_content_some doc q c h2]
    simp [key_content, h3]

theorem edit_delete_running_table (doc : xmlNode) (k : Nat) (parent : xmlNodePtr)
    (n pn : xmlNode) (hn : deref doc (k :: parent) = some n)
    (hp : deref doc parent = some pn) :
    edit_delete_running doc (k :: parent)
      = delete_store_calls n pn (deref_opt doc (parent_ptr parent)) := by
  unfold edit_delete_running delete_store_calls
  simp only [hn, parent_ptr, hp, xmlStrEqual_eq_decide, decide_eq_true_eq]
  by_cases h1 : pn.type = xmlElementType.XML_DOCUMENT_NODE
  · simp [h1]
  rw [if_neg h1, if_neg h1]
  by_cases h2 : pn.name = some "capable-switch"
  · simp [h2]
  rw [if_neg h2, if_neg h2]
  by_cases h3 : pn.name = some "resources"
  · rw [if_pos h3, if_pos h3]
    cases parent with
    | nil => rfl
    | cons k2 gp =>
      obtain ⟨gn, hg, _⟩ := deref_parent doc k2 gp pn hp
      simp only [parent_ptr, name_at, hg, deref_opt]
      by_cases h4 : gn.name = some "capable-switch"
      · rw [if_pos h4, if_pos h4]
        by_cases h5 : n.name = some "port"
        · rw [if_pos h5, if_pos h5]
          obtain ⟨key, hk1, hk2⟩ := go2node_key_content doc (k :: k2 :: gp) n "name" hn
          rw [hk1]
          simp only [hk2]
          cases key_content "name" n <;> rfl
        · rw [if_neg h5, if_neg h5]
      · rw [if_neg h4, if_neg h4]
        obtain ⟨key, hk1, hk2⟩ := go2node_key_content doc gp gn "id" hg
        rw [hk1]
        simp only [hk2, first_child_content_some doc (k :: k2 :: gp) n hn]
  rw [if_neg h3, if_neg h3]
  by_cases h4 : n.name = some "switch"
  · rw [if_pos h4, if_pos h4]
    obtain ⟨key, hk1, hk2⟩ := go2node_key_content doc (k :: parent) n "id" hn
    rw [hk1]
    simp only [hk2]
    cases key_content "id" n <;> rfl
  rw [if_neg h4, if_neg h4]
  by_cases h5 : pn.name = some "switch"
  · rw [if_pos h5, if_pos h5]
    obtain ⟨key, hk1, hk2⟩ := go2node_key_content doc parent pn "id" hp
    rw [hk1]
    simp only [hk2, first_child_content_some doc (k :: parent) n hn]
  rw [if_neg h5, if_neg h5]
  by_cases h6 : n.name = some "requested-number"
  · rw [if_pos h6, if_pos h6]
    obtain ⟨key, hk1, hk2⟩ := go2node_key_content doc parent pn "name" hp
    rw [hk1]
    simp only [hk2, first_child_content_some doc (k :: parent) n hn]
  rw [if_neg h6, if_neg h6]

/-- The live deletion of a switch without an `id` child reads the content of
the key through `NULL` instead of returning. -/
theorem edit_delete_running_switch_without_id :
    edit_delete_running doc_switch_datapath [1, 0, 0] = none
    ∧ edit_delete_orig ⟨doc_switch_datapath, mk_doc [], [], none, []⟩ (some [1, 0, 0]) true
        = none :=
  ⟨rfl, rfl⟩

/-- C32, the code against the claim. A live deletion of the `datapath-id` of a
switch, a combination of node and parent that is not among the listed ones,
issues a store call, `txn_mod_bridge_datapath`. -/
theorem edit_delete_running_not_as_claimed :
    edit_delete_orig ⟨doc_switch_datapath, mk_doc [], [], none, []⟩ (some [1, 0, 0, 0]) true
      = some (EXIT_SUCCESS, ⟨doc_switch_datapath, mk_doc [],
          [store_call.txn_mod_bridge_datapath (some "br0") (some "01")], none, []⟩) :=
  rfl

/-- C32, amended. In live mode `edit_delete` on a node `n` with parent `pn`
issues the calls of the table `delete_store_calls`, which has the listed rows
and two more, `txn_mod_bridge_datapath` for a `datapath-id` of a switch and
`txn_mod_port_reqnumber` for a `requested-number`; wherever the table gives
calls, `edit_delete` returns `EXIT_SUCCESS` and leaves both documents as they
are. -/
theorem edit_delete_live_calls (st : edit_state) (k : Nat) (parent : xmlNodePtr)
    (n pn : xmlNode) (calls : List store_call)
    (hn : deref st.orig_doc (k :: parent) = some n)
    (hp : deref st.orig_doc parent = some pn)
    (hcalls : delete_store_calls n pn (deref_opt st.orig_doc (parent_ptr parent))
      = some calls) :
    edit_delete_orig st (some (k :: parent)) true
      = some (EXIT_SUCCESS,
          ⟨st.orig_doc, st.edit_doc, st.calls ++ calls, st.error, st.unlinked⟩) := by
  unfold edit_delete_orig
  simp only [if_true]
  rw [edit_delete_running_table st.orig_doc k parent n pn hn hp, hcalls]

theorem edit_delete_live_calls_witness :
    edit_delete_orig ⟨doc_port_resource_id, mk_doc [], [], none, []⟩ (some [0, 0, 0]) true
      = some (EXIT_SUCCESS, ⟨doc_port_resource_id, mk_doc [],
          [] ++ [store_call.txn_del_port (some "eth0")], none, []⟩) :=
  edit_delete_live_calls ⟨doc_port_resource_id, mk_doc [], [], none, []⟩ 0 [0, 0]
    (mk_element "port" (some ofc_ns)
      [mk_element "resource-id" (some ofc_ns) [mk_text "p1"],
       mk_element "name" (some ofc_ns) [mk_text "eth0"]])
    (mk_element "resources" (some ofc_ns)
      [mk_element "port" (some ofc_ns)
        [mk_element "resource-id" (some ofc_ns) [mk_text "p1"],
         mk_element "name" (some ofc_ns) [mk_text "eth0"]]])
    [store_call.txn_del_port (some "eth0")] rfl rfl rfl

/-! ## The compaction under the default operation `none` -/

/-- A run of `edit_operations` with the default operation `none` on an edit
document without operation attributes changes nothing. -/
theorem edit_operations_plain_switch (fuel : Nat) :
    edit_operations (fuel + 1) (mk_doc []) (mk_doc [switch_with_id "br0"])
        NC_EDIT_DEFOP_NONE false
      = outcome.done (EXIT_SUCCESS,
          ⟨mk_doc [], mk_doc [switch_with_id "br0"], [], none, []⟩) := by
  unfold edit_operations
  rw [if_neg (by decide)]
  simp only []
  rw [run_phase_nil NC_EDIT_OP_DELETE _ _ (by decide)]
  simp only [phase_then, ne_eq, not_true_eq_false, if_false]
  rw [run_phase_nil NC_EDIT_OP_REMOVE _ _ (by decide)]
  simp only [phase_then, ne_eq, not_true_eq_false, if_false]
  rw [run_phase_nil NC_EDIT_OP_REPLACE _ _ (by decide)]
  simp only [phase_then, ne_eq, not_true_eq_false, if_false]
  rw [run_phase_nil NC_EDIT_OP_CREATE _ _ (by decide)]
  simp only [phase_then, ne_eq, not_true_eq_false, if_false]
  rw [run_phase_nil NC_EDIT_OP_MERGE _ _ (by decide)]
  simp only [phase_then, ne_eq, not_true_eq_false, if_false]
  rw [if_neg (by decide)]
  rfl

/-- C33 (the code does not do this). With the default operation `none`, whose
code is the code of `create`, the compaction removes the annotation `create`
of the top-level element of `<switch nc:operation="create"><id>br0</id></switch>`:
the effective operation of the switch is `create` before and `none` after, and
`edit_operations` stores the switch for the document as it was and nothing for
the compacted one. -/
theorem compact_edit_operations_default_none (fuel : Nat) :
    NC_EDIT_DEFOP_NONE = NC_EDIT_OP_CREATE
    ∧ compact_edit_operations doc_create_switch NC_EDIT_DEFOP_NONE
        = some (EXIT_SUCCESS, mk_doc [switch_with_id "br0"])
    ∧ effective_operation doc_create_switch NC_EDIT_DEFOP_NONE [0]
        = some operation_name.create
    ∧ effective_operation (mk_doc [switch_with_id "br0"]) NC_EDIT_DEFOP_NONE [0]
        = some operation_name.default_none
    ∧ edit_operations (fuel + 1) (mk_doc []) doc_create_switch NC_EDIT_DEFOP_NONE false
        = outcome.done (EXIT_SUCCESS,
            ⟨mk_doc [switch_with_id "br0"], mk_doc [], [], none, []⟩)
    ∧ edit_operations (fuel + 1) (mk_doc []) (mk_doc [switch_with_id "br0"])
          NC_EDIT_DEFOP_NONE false
        = outcome.done (EXIT_SUCCESS,
            ⟨mk_doc [], mk_doc [switch_with_id "br0"], [], none, []⟩) :=
  ⟨rfl, rfl, by decide, by decide, edit_operations_create_switch fuel NC_EDIT_DEFOP_NONE (by decide),
    edit_operations_plain_switch fuel⟩

/-! ## The compaction under the other default operations -/

theorem compact_children_get (l l2 : List xmlNode) (s : NC_EDIT_OP_TYPE)
    (h : compact_children l s = some (EXIT_SUCCESS, l2)) :
    l2.length = l.length
      ∧ ∀ k c, l.get? k = some c →
        ∃ c2, l2.get? k = some c2
          ∧ compact_edit_operations_recursively c s = some (EXIT_SUCCESS, c2) := by
  induction l generalizing l2 with
  | nil =>
    simp only [compact_children, Option.some.injEq, Prod.mk.injEq, true_and] at h
    subst h
    exact ⟨rfl, fun k c hk => by simp at hk⟩
  | cons x xs ih =>
    rw [compact_children] at h
    cases hc : compact_edit_operations_recursively x s with
    | none => rw [hc] at h; simp at h
    | some r =>
      obtain ⟨ret, x2⟩ := r
      rw [hc] at h
      simp only [] at h
      by_cases hf : ret = EXIT_FAILURE
      · rw [if_pos hf] at h
        simp [EXIT_FAILURE, EXIT_SUCCESS] at h
      · rw [if_neg hf] at h
        cases hr : compact_children xs s with
        | none => rw [hr] at h; simp at h
        | some r2 =>
          obtain ⟨ret2, xs2⟩ := r2
          rw [hr] at h
          simp only [Option.some.injEq, Prod.mk.injEq] at h
          obtain ⟨hret2, hl2⟩ := h
          subst hret2 hl2
          have hret : ret = EXIT_SUCCESS := compact_code x s ret x2 hc hf
          subst hret
          obtain ⟨ih1, ih2⟩ := ih xs2 hr
          refine ⟨by simp [ih1], fun k c hk => ?_⟩
          cases k with
          | zero =>
            simp only [List.get?_cons_zero, Option.some.injEq] at hk
            subst hk
            exact ⟨x2, rfl, hc⟩
          | succ j => exact ih2 j c (by simpa using hk)

theorem compact_roots_get (l l2 : List xmlNode) (d : NC_EDIT_OP_TYPE)
    (h : compact_roots l d = some (EXIT_SUCCESS, l2)) :
    l2.length = l.length
      ∧ ∀ k c, l.get? k = some c →
        ∃ c2, l2.get? k = some c2
          ∧ (c2 = c ∨ compact_edit_operations_recursively c d = some (EXIT_SUCCESS, c2)) := by
  induction l generalizing l2 with
  | nil =>
    simp only [compact_roots, Option.some.injEq, Prod.mk.injEq, true_and] at h
    subst h
    exact ⟨rfl, fun k c hk => by simp at hk⟩
  | cons x xs ih =>
    rw [compact_roots] at h
    by_cases ht : x.type ≠ xmlElementType.XML_ELEMENT_NODE
    · rw [if_pos ht] at h
      cases hr : compact_roots xs d with
      | none => rw [hr] at h; simp at h
      | some r =>
        obtain ⟨ret, xs2⟩ := r
        rw [hr] at h
        simp only [Option.some.injEq, Prod.mk.injEq] at h
        obtain ⟨hret, hl2⟩ := h
        subst hret hl2
        obtain ⟨ih1, ih2⟩ := ih xs2 hr
        refine ⟨by simp [ih1], fun k c hk => ?_⟩
        cases k with
        | zero =>
          simp only [List.get?_cons_zero, Option.some.injEq] at hk
          subst hk
          exact ⟨x, rfl, Or.inl rfl⟩
        | succ j => exact ih2 j c (by simpa using hk)
    · rw [if_neg ht] at h
      cases hc : compact_edit_operations_recursively x d with
      | none => rw [hc] at h; simp at h
      | some r =>
        obtain ⟨ret, x2⟩ := r
        rw [hc] at h
        simp only [] at h
        by_cases hs : ret ≠ EXIT_SUCCESS
        · rw [if_pos hs] at h
          simp [EXIT_FAILURE, EXIT_SUCCESS] at h
        · rw [if_neg hs] at h
          have hs2 : ret = EXIT_SUCCESS := by simpa using hs
          subst hs2
          cases hr : compact_roots xs d with
          | none => rw [hr] at h; simp at h
          | some r2 =>
            obtain ⟨ret2, xs2⟩ := r2
            rw [hr] at h
            simp only [Option.some.injEq, Prod.mk.injEq] at h
            obtain ⟨hret2, hl2⟩ := h
            subst hret2 hl2
            obtain ⟨ih1, ih2⟩ := ih xs2 hr
            refine ⟨by simp [ih1], fun k c hk => ?_⟩
            cases k with
            | zero =>
              simp only [List.get?_cons_zero, Option.some.injEq] at hk
              subst hk
              exact ⟨x2, rfl, Or.inr hc⟩
            | succ j => exact ih2 j c (by simpa using hk)

/-- What a successful compaction of a node returns. -/
theorem compact_node_inv (n n2 : xmlNode) (s : NC_EDIT_OP_TYPE)
    (h : compact_edit_operations_recursively n s = some (EXIT_SUCCESS, n2)) :
    ∃ children2,
      compact_children n.children
          (if (get_operation n NC_EDIT_DEFOP_NOTSET).1 = 0 then s
            else (get_operation n NC_EDIT_DEFOP_NOTSET).1) = some (EXIT_SUCCESS, children2)
      ∧ n2 = set_children
          (if (get_operation n NC_EDIT_DEFOP_NOTSET).1 ≠ 0
              ∧ (get_operation n NC_EDIT_DEFOP_NOTSET).1 = s then
            nc_clear_namespaces (remove_ns_prop n "operation" NC_NS_BASE10)
          else n) children2 := by
  rw [compact_edit_operations_recursively_eq] at h
  cases hst : (get_operation n NC_EDIT_DEFOP_NOTSET).2 with
  | some e => rw [hst] at h; simp at h
  | none =>
    rw [hst] at h
    simp only [] at h
    by_cases herr : (get_operation n NC_EDIT_DEFOP_NOTSET).1 = NC_EDIT_OP_ERROR
    · rw [if_pos herr] at h
      simp [EXIT_FAILURE, EXIT_SUCCESS] at h
    · rw [if_neg herr] at h
      cases hc : compact_children n.children
          (if (get_operation n NC_EDIT_DEFOP_NOTSET).1 = 0 then s
            else (get_operation n NC_EDIT_DEFOP_NOTSET).1) with
      | none => rw [hc] at h; simp at h
      | some r =>
        obtain ⟨ret, children2⟩ := r
        rw [hc] at h
        simp only [Option.some.injEq, Prod.mk.injEq] at h
        obtain ⟨hret, hn2⟩ := h
        subst hret
        exact ⟨children2, rfl, hn2.symm⟩

/-- The children of a node and of its compaction, position by position. -/
theorem compact_child (pn pn2 : xmlNode) (s : NC_EDIT_OP_TYPE) (k : Nat) (c : xmlNode)
    (h : pn2 = pn ∨ compact_edit_operations_recursively pn s = some (EXIT_SUCCESS, pn2))
    (hk : pn.children.get? k = some c) :
    ∃ c2, pn2.children.get? k = some c2
      ∧ (c2 = c ∨ compact_edit_operations_recursively c
          (if (get_operation pn NC_EDIT_DEFOP_NOTSET).1 = 0 then s
            else (get_operation pn NC_EDIT_DEFOP_NOTSET).1) = some (EXIT_SUCCESS, c2)) := by
  rcases h with h | h
  · subst h
    exact ⟨c, hk, Or.inl rfl⟩
  · obtain ⟨children2, hc, hn2⟩ := compact_node_inv pn pn2 s h
    obtain ⟨c2, h1, h2⟩ := (compact_children_get _ _ _ hc).2 k c hk
    refine ⟨c2, ?_, Or.inr h2⟩
    rw [hn2, set_children_children]
    exact h1

/-- The operation in effect at a node, as a code, is the same for the node and
for its compaction. -/
theorem compact_effective_code (n n2 : xmlNode) (s : NC_EDIT_OP_TYPE)
    (hu : unique_operation_attr n = true)
    (h : n2 = n ∨ compact_edit_operations_recursively n s = some (EXIT_SUCCESS, n2)) :
    (if (get_operation n2 NC_EDIT_DEFOP_NOTSET).1 ≠ NC_EDIT_OP_NOTSET then
        (get_operation n2 NC_EDIT_DEFOP_NOTSET).1 else s)
      = (if (get_operation n NC_EDIT_DEFOP_NOTSET).1 ≠ NC_EDIT_OP_NOTSET then
          (get_operation n NC_EDIT_DEFOP_NOTSET).1 else s) := by
  rcases h with h | h
  · subst h
    rfl
  · obtain ⟨children2, _, hn2⟩ := compact_node_inv n n2 s h
    rw [hn2, get_operation_set_children]
    by_cases hred : (get_operation n NC_EDIT_DEFOP_NOTSET).1 ≠ 0
        ∧ (get_operation n NC_EDIT_DEFOP_NOTSET).1 = s
    · have hop : get_operation
          (nc_clear_namespaces (remove_ns_prop n "operation" NC_NS_BASE10))
          NC_EDIT_DEFOP_NOTSET = (NC_EDIT_DEFOP_NOTSET, none) := by
        rw [← get_operation_of_unique n hu]
        exact get_operation_congr _ _ _ (nc_clear_namespaces_type _)
          (nc_clear_namespaces_properties _)
      rw [if_pos hred, hop]
      have h0 : (get_operation n NC_EDIT_DEFOP_NOTSET).1 ≠ NC_EDIT_OP_NOTSET := hred.1
      rw [if_pos h0, hred.2]
      simp [NC_EDIT_DEFOP_NOTSET, NC_EDIT_OP_NOTSET]
    · rw [if_neg hred]

/-- A compaction changes of a node nothing but its attribute `operation`, its
namespace declarations and the same of its descendants. -/
theorem compact_fields (n n2 : xmlNode) (s : NC_EDIT_OP_TYPE)
    (h : n2 = n ∨ compact_edit_operations_recursively n s = some (EXIT_SUCCESS, n2)) :
    n2.type = n.type ∧ n2.name = n.name ∧ n2.ns = n.ns ∧ n2.content = n.content
      ∧ n2.children.length = n.children.length
      ∧ (n2.properties = n.properties
        ∨ n2.properties = n.properties.eraseP (attr_is "operation" NC_NS_BASE10))
      ∧ (∀ x ∈ n2.nsDef, x ∈ n.nsDef) := by
  rcases h with h | h
  · subst h
    exact ⟨rfl, rfl, rfl, rfl, rfl, Or.inl rfl, fun x hx => hx⟩
  · obtain ⟨children2, hc, hn2⟩ := compact_node_inv n n2 s h
    have hlen := (compact_children_get _ _ _ hc).1
    subst hn2
    by_cases hred : (get_operation n NC_EDIT_DEFOP_NOTSET).1 ≠ 0
        ∧ (get_operation n NC_EDIT_DEFOP_NOTSET).1 = s
    · rw [if_pos hred]
      unfold nc_clear_namespaces remove_ns_prop
      by_cases ht : n.type ≠ xmlElementType.XML_ELEMENT_NODE
      · simp only [ht, if_true, ne_eq, not_false_eq_true, set_children]
        exact ⟨trivial, trivial, trivial, trivial, hlen, Or.inl trivial, fun x hx => hx⟩
      · simp only [ht, if_false, set_children]
        refine ⟨trivial, trivial, trivial, trivial, hlen, Or.inr trivial, fun x hx => ?_⟩
        exact (List.mem_filter.1 hx).1
    · rw [if_neg hred]
      exact ⟨rfl, rfl, rfl, rfl, hlen, Or.inl rfl, fun x hx => hx⟩

theorem all_nodes_list_get (P : xmlNode → Bool) (l : List xmlNode) (k : Nat) (c : xmlNode)
    (h : all_nodes_list P l = true) (hk : l.get? k = some c) : all_nodes P c = true := by
  induction l generalizing k with
  | nil => simp at hk
  | cons x xs ih =>
    simp only [all_nodes_list, Bool.and_eq_true] at h
    cases k with
    | zero =>
      simp only [List.get?_cons_zero, Option.some.injEq] at hk
      subst hk
      exact h.1
    | succ j => exact ih j h.2 (by simpa using hk)

theorem all_nodes_deref (P : xmlNode → Bool) (doc : xmlNode) (h : all_nodes P doc = true)
    (p : xmlNodePtr) (n : xmlNode) (hn : deref doc p = some n) :
    all_nodes P n = true ∧ P n = true := by
  have hall : all_nodes P n = true := by
    induction p generalizing n with
    | nil =>
      simp only [deref, Option.some.injEq] at hn
      subst hn
      exact h
    | cons k parent ih =>
      obtain ⟨pn, hpn, hk⟩ := deref_parent doc k parent n hn
      have hp := ih pn hpn
      rw [all_nodes_eq] at hp
      simp only [Bool.and_eq_true] at hp
      exact all_nodes_list_get P _ k n hp.2 hk
  refine ⟨hall, ?_⟩
  rw [all_nodes_eq] at hall
  simp only [Bool.and_eq_true] at hall
  exact hall.1

/-- The nodes of an edit document and of its compaction, pointer by pointer:
below the document node each node of the result is the compaction of the node
at the same place, for the operation that node inherits, which is also the
operation inherited in the result. -/
theorem compact_deref (E E2 : xmlNode) (d : NC_EDIT_OP_TYPE)
    (hdoc : E.type = xmlElementType.XML_DOCUMENT_NODE)
    (hu : all_nodes unique_operation_attr E = true)
    (h : compact_edit_operations E d = some (EXIT_SUCCESS, E2))
    (k : Nat) (parent : xmlNodePtr) (n : xmlNode) (hn : deref E (k :: parent) = some n) :
    ∃ n2, deref E2 (k :: parent) = some n2
      ∧ (n2 = n ∨ compact_edit_operations_recursively n (inherited_operation E d (k :: parent))
          = some (EXIT_SUCCESS, n2))
      ∧ inherited_operation E2 d (k :: parent) = inherited_operation E d (k :: parent) := by
  unfold compact_edit_operations at h
  cases hr : compact_roots E.children d with
  | none => rw [hr] at h; simp at h
  | some r =>
    obtain ⟨ret, roots⟩ := r
    rw [hr] at h
    simp only [Option.some.injEq, Prod.mk.injEq] at h
    obtain ⟨hret, hE2⟩ := h
    subst hret
    have hne : E.type ≠ xmlElementType.XML_ELEMENT_NODE := by rw [hdoc]; decide
    have hopE : (get_operation E NC_EDIT_DEFOP_NOTSET).1 = NC_EDIT_OP_NOTSET := by
      rw [get_operation_of_not_element E _ hne]
      rfl
    have hopE2 : (get_operation E2 NC_EDIT_DEFOP_NOTSET).1 = NC_EDIT_OP_NOTSET := by
      rw [← hE2, get_operation_set_children]
      exact hopE
    induction parent generalizing k n with
    | nil =>
      have hk : E.children.get? k = some n := by simpa [deref] using hn
      obtain ⟨c2, h1, h2⟩ := (compact_roots_get _ _ _ hr).2 k n hk
      have hi1 : inherited_operation E d [k] = d := by
        simp [inherited_operation, deref, hopE]
      have hi2 : inherited_operation E2 d [k] = d := by
        simp [inherited_operation, deref, hopE2]
      refine ⟨c2, ?_, ?_, by rw [hi1, hi2]⟩
      · rw [← hE2]
        simpa [deref, set_children] using h1
      · rw [hi1]
        exact h2
    | cons k2 pp ih =>
      obtain ⟨pn, hpn, hk⟩ := deref_parent E k (k2 :: pp) n hn
      obtain ⟨pn2, hpn2, hrel, hinh⟩ := ih k2 pn hpn
      obtain ⟨c2, h1, h2⟩ := compact_child pn pn2 _ k n hrel hk
      have hupn := (all_nodes_deref unique_operation_attr E hu (k2 :: pp) pn hpn).2
      have heff := compact_effective_code pn pn2 (inherited_operation E d (k2 :: pp)) hupn hrel
      have hi1 : inherited_operation E d (k :: k2 :: pp)
          = if (get_operation pn NC_EDIT_DEFOP_NOTSET).1 ≠ NC_EDIT_OP_NOTSET then
              (get_operation pn NC_EDIT_DEFOP_NOTSET).1
            else inherited_operation E d (k2 :: pp) := by
        rw [inherited_operation]
        simp only [hpn]
      have hi2 : inherited_operation E2 d (k :: k2 :: pp)
          = if (get_operation pn2 NC_EDIT_DEFOP_NOTSET).1 ≠ NC_EDIT_OP_NOTSET then
              (get_operation pn2 NC_EDIT_DEFOP_NOTSET).1
            else inherited_operation E2 d (k2 :: pp) := by
        rw [inherited_operation]
        simp only [hpn2]
      have hs : (if (get_operation pn NC_EDIT_DEFOP_NOTSET).1 = 0 then
            inherited_operation E d (k2 :: pp)
          else (get_operation pn NC_EDIT_DEFOP_NOTSET).1)
          = inherited_operation E d (k :: k2 :: pp) := by
        rw [hi1]
        by_cases h0 : (get_operation pn NC_EDIT_DEFOP_NOTSET).1 = 0
        · have h1 : ¬ (get_operation pn NC_EDIT_DEFOP_NOTSET).1 ≠ NC_EDIT_OP_NOTSET := by
            simpa [NC_EDIT_OP_NOTSET] using h0
          rw [if_pos h0, if_neg h1]
        · have h1 : (get_operation pn NC_EDIT_DEFOP_NOTSET).1 ≠ NC_EDIT_OP_NOTSET := by
            simpa [NC_EDIT_OP_NOTSET] using h0
          rw [if_neg h0, if_pos h1]
      refine ⟨c2, ?_, ?_, ?_⟩
      · rw [deref, hpn2]
        exact h1
      · rw [← hs]
        exact h2
      · rw [hi2, hinh, heff, ← hi1]

/-- With a default operation whose code names the same operation as a default
and as an annotation, the inherited operation by name is the name of the
inherited code. -/
theorem inherited_operation_name_eq (doc : xmlNode) (d : NC_EDIT_OP_TYPE)
    (hd : operation_name_of_defop d = operation_name_of_op d) (p : xmlNodePtr) :
    inherited_operation_name doc d p = operation_name_of_op (inherited_operation doc d p) := by
  induction p with
  | nil => exact hd
  | cons k parent ih =>
    rw [inherited_operation_name, inherited_operation]
    cases deref doc parent with
    | none => exact hd
    | some pn =>
      simp only []
      split_ifs
      · rfl
      · exact ih

/-- The compaction under a default operation `merge`, `replace` or not set, on
a well-formed edit document, when it succeeds: the result has a node at every
pointer the document has one, which differs from it at most in the attribute
`operation`, of which the first is removed, in the namespace declarations, of
which some are removed, and in its descendants; and the effective operation at
every pointer is the one before. -/
theorem compact_edit_operations_preserves (E E2 : xmlNode) (d : NC_EDIT_OP_TYPE)
    (hdoc : E.type = xmlElementType.XML_DOCUMENT_NODE)
    (hu : all_nodes unique_operation_attr E = true)
    (hd : d = NC_EDIT_DEFOP_MERGE ∨ d = NC_EDIT_DEFOP_REPLACE ∨ d = NC_EDIT_DEFOP_NOTSET)
    (h : compact_edit_operations E d = some (EXIT_SUCCESS, E2))
    (p : xmlNodePtr) (n : xmlNode) (hn : deref E p = some n) :
    ∃ n2, deref E2 p = some n2
      ∧ n2.type = n.type ∧ n2.name = n.name ∧ n2.ns = n.ns ∧ n2.content = n.content
      ∧ n2.children.length = n.children.length
      ∧ (n2.properties = n.properties
        ∨ n2.properties = n.properties.eraseP (attr_is "operation" NC_NS_BASE10))
      ∧ (∀ x ∈ n2.nsDef, x ∈ n.nsDef)
      ∧ effective_operation E2 d p = effective_operation E d p := by
  have hnames : operation_name_of_defop d = operation_name_of_op d := by
    rcases hd with hd | hd | hd <;> subst hd <;> rfl
  cases p with
  | nil =>
    simp only [deref, Option.some.injEq] at hn
    have hnE : n = E := hn.symm
    subst hnE
    unfold compact_edit_operations at h
    cases hr : compact_roots n.children d with
    | none => rw [hr] at h; simp at h
    | some r =>
      obtain ⟨ret, roots⟩ := r
      rw [hr] at h
      simp only [Option.some.injEq, Prod.mk.injEq] at h
      obtain ⟨hret, hE2⟩ := h
      subst hret hE2
      refine ⟨_, rfl, rfl, rfl, rfl, rfl, (compact_roots_get _ _ _ hr).1, Or.inl rfl,
        fun x hx => hx, ?_⟩
      simp only [effective_operation, deref, get_operation_set_children]
      rfl
  | cons k parent =>
    obtain ⟨n2, hn2, hrel, hinh⟩ := compact_deref E E2 d hdoc hu h k parent n hn
    obtain ⟨f1, f2, f3, f4, f5, f6, f7⟩ := compact_fields n n2 _ hrel
    refine ⟨n2, hn2, f1, f2, f3, f4, f5, f6, f7, ?_⟩
    have hun := (all_nodes_deref unique_operation_attr E hu (k :: parent) n hn).2
    have heff := compact_effective_code n n2 (inherited_operation E d (k :: parent)) hun hrel
    simp only [effective_operation, hn, hn2]
    rw [inherited_operation_name_eq E2 d hnames, inherited_operation_name_eq E d hnames, hinh]
    by_cases h2 : (get_operation n2 NC_EDIT_DEFOP_NOTSET).1 ≠ NC_EDIT_OP_NOTSET
    · by_cases h1 : (get_operation n NC_EDIT_DEFOP_NOTSET).1 ≠ NC_EDIT_OP_NOTSET
      · rw [if_pos h2, if_pos h1] at heff
        rw [if_pos h2, if_pos h1, heff]
      · rw [if_pos h2, if_neg h1] at heff
        rw [if_pos h2, if_neg h1, heff]
    · by_cases h1 : (get_operation n NC_EDIT_DEFOP_NOTSET).1 ≠ NC_EDIT_OP_NOTSET
      · rw [if_neg h2, if_pos h1] at heff
        rw [if_neg h2, if_pos h1, heff]
      · rw [if_neg h2, if_neg h1]

/-- An instance: the document `doc_redundant` and the default operation
`merge`, at the `port` under the `resources` annotated `replace`. -/
theorem compact_edit_operations_preserves_example :
    effective_operation doc_redundant_compacted NC_EDIT_DEFOP_MERGE [0, 1, 0]
        = effective_operation doc_redundant NC_EDIT_DEFOP_MERGE [0, 1, 0]
    ∧ effective_operation doc_redundant NC_EDIT_DEFOP_MERGE [0, 1, 0]
        = some operation_name.replace := by
  obtain ⟨n2, _, _, _, _, _, _, _, _, h⟩ :=
    compact_edit_operations_preserves doc_redundant doc_redundant_compacted NC_EDIT_DEFOP_MERGE
      rfl (by decide) (Or.inl rfl) rfl [0, 1, 0]
      (element_with_operation "port" "replace" [mk_text "eth0"]) rfl
  exact ⟨h, by decide⟩

/-! ## `find_element_equiv` and the error value of the matcher -/

theorem find_element_equiv_scan_first (orig_doc edit_doc : xmlNode)
    (edit orig_parent : xmlNodePtr) (l : List xmlNode) (i j : Nat) (r : Int)
    (hj : j < l.length)
    (hr : matching_elements edit_doc (some edit) orig_doc (some ((i + j) :: orig_parent))
      = some r) (hne : r ≠ 0)
    (hbefore : ∀ j2, j2 < j →
      matching_elements edit_doc (some edit) orig_doc (some ((i + j2) :: orig_parent))
        = some 0) :
    find_element_equiv_scan orig_doc edit_doc edit orig_parent l i
      = some (some ((i + j) :: orig_parent)) := by
  induction l generalizing i j with
  | nil => simp at hj
  | cons x xs ih =>
    cases j with
    | zero =>
      rw [Nat.add_zero] at hr ⊢
      simp only [find_element_equiv_scan, hr, if_neg hne]
    | succ j2 =>
      have h0 := hbefore 0 (by omega)
      rw [Nat.add_zero] at h0
      simp only [find_element_equiv_scan, h0, if_true]
      have e : ∀ m, i + (m + 1) = i + 1 + m := fun m => by omega
      rw [e j2] at hr ⊢
      refine ih (i + 1) j2 (by simpa using hj) hr (fun j3 hj3 => ?_)
      rw [← e j3]
      exact hbefore (j3 + 1) (by omega)

/-- C34. When the matcher returns the error value -1 for the child at position
`j` of the resolved parent and 0 for every earlier child, `find_element_equiv`
returns that child; and the matcher returns -1 for two `switch` elements in
compatible namespaces of which one has no `id` element child. -/
theorem find_element_equiv_error_as_match (orig_doc edit_doc : xmlNode) (k : Nat)
    (parent : xmlNodePtr) (pn : xmlNode) (orig_parent : xmlNodePtr) (opn : xmlNode) (j : Nat)
    (hp : deref edit_doc parent = some pn)
    (hparent : (pn.type ≠ xmlElementType.XML_DOCUMENT_NODE
          ∧ find_element_equiv orig_doc edit_doc (some parent) = some (some orig_parent))
        ∨ (pn.type = xmlElementType.XML_DOCUMENT_NODE ∧ orig_doc.children ≠ []
          ∧ orig_parent = []))
    (ho : deref orig_doc orig_parent = some opn) (hj : j < opn.children.length)
    (herr : matching_elements edit_doc (some (k :: parent)) orig_doc (some (j :: orig_parent))
      = some (-1))
    (hbefore : ∀ j2, j2 < j →
      matching_elements edit_doc (some (k :: parent)) orig_doc (some (j2 :: orig_parent))
        = some 0) :
    find_element_equiv orig_doc edit_doc (some (k :: parent)) = some (some (j :: orig_parent))
    ∧ ∀ (doc1 doc2 : xmlNode) (p1 p2 : xmlNodePtr) (a b : xmlNode),
        deref doc1 p1 = some a → deref doc2 p2 = some b →
        a.type = xmlElementType.XML_ELEMENT_NODE → b.type = xmlElementType.XML_ELEMENT_NODE →
        a.name = some "switch" → b.name = some "switch" → nc_nscmp a b = 0 →
        (first_named "id" a.children = none ∨ first_named "id" b.children = none) →
        matching_elements doc1 (some p1) doc2 (some p2) = some (-1) := by
  constructor
  · have hres : (if pn.type ≠ xmlElementType.XML_DOCUMENT_NODE then
          find_element_equiv_ptr orig_doc edit_doc parent
        else if orig_doc.children.isEmpty = true then some none
        else some (some [])) = some (some orig_parent) := by
      rcases hparent with ⟨hty, hfind⟩ | ⟨hty, hne, hnil⟩
      · rw [if_pos hty]
        exact hfind
      · have hemp : ¬ orig_doc.children.isEmpty = true := by
          rw [List.isEmpty_iff]
          exact hne
        rw [if_neg (by simp [hty]), if_neg hemp, hnil]
    show find_element_equiv_ptr orig_doc edit_doc (k :: parent) = _
    rw [find_element_equiv_ptr]
    simp only [hp, hres, ho]
    have h := find_element_equiv_scan_first orig_doc edit_doc (k :: parent) orig_parent
      opn.children 0 j (-1) hj (by rw [Nat.zero_add]; exact herr) (by decide)
      (fun j2 hj2 => by rw [Nat.zero_add]; exact hbefore j2 hj2)
    rw [Nat.zero_add] at h
    exact h
  · intro doc1 doc2 p1 p2 a b h1 h2 hta htb hna hnb hns hid
    unfold matching_elements
    rw [matching_elements_fuel_switch 0 doc1 doc2 p1 p2 a b h1 h2 hta htb (Or.inl hnb)]
    rw [if_neg (by rw [hna, hnb]; simp), if_neg (by simp [hns])]
    rcases hid with hid | hid
    · rw [hid]
    · rw [hid]
      cases first_named "id" a.children <;> rfl

theorem find_element_equiv_error_as_match_witness :
    find_element_equiv doc_switch_without_id (doc_with_switch "br0") (some [0, 0, 0])
      = some (some [0, 0, 0])
    ∧ matching_elements (doc_with_switch "br0") (some [0, 0, 0])
        doc_switch_without_id (some [0, 0, 0]) = some (-1) :=
  ⟨(find_element_equiv_error_as_match doc_switch_without_id (doc_with_switch "br0") 0 [0, 0]
      (mk_element "logical-switches" (some ofc_ns) [switch_with_id "br0"]) [0, 0]
      (mk_element "logical-switches" (some ofc_ns)
        [mk_element "switch" (some ofc_ns) [], switch_with_id "br0"]) 0
      rfl (Or.inl ⟨by decide, by decide⟩) rfl (by decide) (by decide)
      (fun j2 hj2 => absurd hj2 (Nat.not_lt_zero j2))).1,
    (find_element_equiv_error_as_match doc_switch_without_id (doc_with_switch "br0") 0 [0, 0]
      (mk_element "logical-switches" (some ofc_ns) [switch_with_id "br0"]) [0, 0]
      (mk_element "logical-switches" (some ofc_ns)
        [mk_element "switch" (some ofc_ns) [], switch_with_id "br0"]) 0
      rfl (Or.inl ⟨by decide, by decide⟩) rfl (by decide) (by decide)
      (fun j2 hj2 => absurd hj2 (Nat.not_lt_zero j2))).2
      (doc_with_switch "br0") doc_switch_without_id [0, 0, 0] [0, 0, 0]
      (switch_with_id "br0") (mk_element "switch" (some ofc_ns) [])
      rfl rfl rfl rfl rfl rfl (by decide) (Or.inr rfl)⟩

/-! ## The place of the equivalent -/

theorem path_names_length (doc : xmlNode) (p : xmlNodePtr) :
    (path_names doc p).length = p.length := by
  induction p with
  | nil => rfl
  | cons k parent ih => simp [path_names, ih]

/-- C35. In an edit document whose nodes below the document node are elements,
the node `find_element_equiv` returns for an element `e` is an element of the
same local name, at the depth of `e`, and the local names on the way from the
top-level node to it are those on the way to `e`. -/
theorem find_element_equiv_same_path (orig_doc edit_doc : xmlNode) (p q : xmlNodePtr)
    (a : xmlNode) (hE : edit_doc.type = xmlElementType.XML_DOCUMENT_NODE)
    (ha : deref edit_doc p = some a) (hat : a.type = xmlElementType.XML_ELEMENT_NODE)
    (hanc : ∀ b ∈ element_ancestors edit_doc p, b.type = xmlElementType.XML_ELEMENT_NODE)
    (h : find_element_equiv orig_doc edit_doc (some p) = some (some q)) :
    ∃ qn, deref orig_doc q = some qn ∧ qn.type = xmlElementType.XML_ELEMENT_NODE
      ∧ qn.name = a.name ∧ q.length = p.length
      ∧ path_names orig_doc q = path_names edit_doc p := by
  obtain ⟨qn, hq, hqt, hqn, hpath⟩ :=
    find_element_equiv_path orig_doc edit_doc p q a hE ha hat hanc h
  refine ⟨qn, hq, hqt, hqn, ?_, hpath⟩
  rw [← path_names_length orig_doc q, ← path_names_length edit_doc p, hpath]

theorem find_element_equiv_same_path_witness :
    ∃ qn, deref (doc_with_switch "br0") [0, 0, 0] = some qn
      ∧ qn.type = xmlElementType.XML_ELEMENT_NODE
      ∧ qn.name = (switch_with_id "br1").name ∧ [0, 0, 0].length = [0, 0, 0].length
      ∧ path_names (doc_with_switch "br0") [0, 0, 0]
        = path_names (doc_with_switch "br1") [0, 0, 0] :=
  find_element_equiv_same_path (doc_with_switch "br0") (doc_with_switch "br1") [0, 0, 0]
    [0, 0, 0] (switch_with_id "br1") rfl rfl rfl (by decide) (by decide)

/-! ## The canonical run: return codes, measures and fuel -/

theorem replace_node_top (doc : xmlNode) (q : xmlNodePtr) (m d : xmlNode) (hq : q ≠ [])
    (h : replace_node doc q m = some d) :
    d.type = doc.type ∧ d.children.length = doc.children.length := by
  induction q generalizing m with
  | nil => exact absurd rfl hq
  | cons k parent ih =>
    rw [replace_node] at h
    cases hp : deref doc parent with
    | none => rw [hp] at h; simp at h
    | some pn =>
      rw [hp] at h
      simp only [] at h
      by_cases hk : k < pn.children.length
      · rw [if_pos hk] at h
        cases parent with
        | nil =>
          simp only [deref, Option.some.injEq] at hp
          subst hp
          simp only [replace_node, Option.some.injEq] at h
          subst h
          simp
        | cons k2 pp => exact ih _ (by simp) h
      · rw [if_neg hk] at h
        simp at h

theorem xmlUnlinkNode_top (doc : xmlNode) (q : xmlNodePtr) (d : xmlNode)
    (h : xmlUnlinkNode doc q = some d) : edit_doc_consumed doc d q := by
  cases q with
  | nil => simp [xmlUnlinkNode] at h
  | cons k parent =>
    rw [xmlUnlinkNode] at h
    cases hp : deref doc parent with
    | none => rw [hp] at h; simp at h
    | some pn =>
      rw [hp] at h
      simp only [] at h
      by_cases hk : k < pn.children.length
      · rw [if_pos hk] at h
        cases parent with
        | nil =>
          simp only [deref, Option.some.injEq] at hp
          subst hp
          simp only [replace_node, Option.some.injEq] at h
          subst h
          refine ⟨rfl, ?_, fun _ => ?_⟩
          · simp only [List.length_eraseIdx, hk, if_true]
            omega
          · simp only [List.length_eraseIdx, hk, if_true]
            omega
        | cons k2 pp =>
          obtain ⟨h1, h2⟩ := replace_node_top doc (k2 :: pp) _ d (by simp) h
          refine ⟨h1, by omega, fun hl => ?_⟩
          simp at hl
      · rw [if_neg hk] at h
        simp at h

theorem edit_doc_consumed_strip (doc edit2 d : xmlNode) (p : xmlNodePtr) (e2 : xmlNode)
    (h1 : replace_node doc p e2 = some edit2) (h2 : xmlUnlinkNode edit2 p = some d) :
    edit_doc_consumed doc d p := by
  have hp : p ≠ [] := by
    intro hnil
    rw [hnil] at h2
    simp [xmlUnlinkNode] at h2
  obtain ⟨t1, l1⟩ := replace_node_top doc p e2 edit2 hp h1
  obtain ⟨t2, l2, l3⟩ := xmlUnlinkNode_top edit2 p d h2
  exact ⟨by rw [t2, t1], by omega, fun hl => by have := l3 hl; omega⟩

theorem edit_delete_edit_canonical (st st2 : edit_state) (p : xmlNodePtr) (code : Int)
    (h : edit_delete_edit st (some p) false = some (code, st2)) :
    code = EXIT_SUCCESS ∧ st2.orig_doc = st.orig_doc ∧ st2.error = st.error
      ∧ st2.calls = st.calls ∧ xmlUnlinkNode st.edit_doc p = some st2.edit_doc := by
  unfold edit_delete_edit at h
  simp only [Bool.false_eq_true, if_false] at h
  cases hu : xmlUnlinkNode st.edit_doc p with
  | none => rw [hu] at h; simp at h
  | some edit2 =>
    rw [hu] at h
    simp only [Option.some.injEq, Prod.mk.injEq] at h
    obtain ⟨hc, hs⟩ := h
    subst hs
    exact ⟨hc.symm, rfl, rfl, rfl, rfl⟩

theorem edit_create_finish_done (st st2 : edit_state) (p : xmlNodePtr) (code : Int)
    (h : edit_create_finish st p = outcome.done (code, st2)) :
    code = EXIT_SUCCESS ∧ st2.orig_doc = st.orig_doc ∧ st2.error = st.error
      ∧ st2.calls = st.calls ∧ xmlUnlinkNode st.edit_doc p = some st2.edit_doc := by
  unfold edit_create_finish at h
  cases hd : edit_delete_edit st (some p) false with
  | none => rw [hd] at h; simp at h
  | some r =>
    obtain ⟨c, st3⟩ := r
    rw [hd] at h
    simp only [outcome.done.injEq, Prod.mk.injEq] at h
    obtain ⟨hc, hs⟩ := h
    subst hs
    obtain ⟨_, h2, h3, h4, h5⟩ := edit_delete_edit_canonical st st3 p c hd
    exact ⟨hc.symm, h2, h3, h4, h5⟩

theorem edit_create_finish_fuel (st : edit_state) (p : xmlNodePtr) :
    edit_create_finish st p ≠ outcome.out_of_fuel := by
  unfold edit_create_finish
  cases edit_delete_edit st (some p) false with
  | none => simp
  | some r => simp

/-- The function `edit_create_r` never returns `NULL`. -/
theorem edit_create_r_ne_null (E T : xmlNode) (p : xmlNodePtr) (T2 : xmlNode) :
    edit_create_r E T p ≠ some (T2, none) := by
  induction p generalizing T2 with
  | nil => simp [edit_create_r]
  | cons k parent ih =>
    rw [edit_create_r]
    cases hf : find_element_equiv T E (some (k :: parent)) with
    | none => simp
    | some r =>
      cases r with
      | some q => simp
      | none =>
        simp only []
        cases he : deref E (k :: parent) with
        | none => simp
        | some e =>
          cases hp : deref E parent with
          | none => simp
          | some pn =>
            simp only []
            by_cases hd : pn.type = xmlElementType.XML_DOCUMENT_NODE
            · rw [if_pos hd]
              simp
            · rw [if_neg hd]
              cases hr : edit_create_r E T parent with
              | none => simp
              | some r2 =>
                obtain ⟨orig2, par⟩ := r2
                cases par with
                | none => exact absurd hr (ih orig2)
                | some par =>
                  simp only []
                  cases ha : xmlAddChild orig2 par (xmlCopyNode_shallow e) with
                  | none => simp
                  | some r3 =>
                    obtain ⟨orig3, retval⟩ := r3
                    cases hpar : deref orig2 par with
                    | none => simp
                    | some parn =>
                      simp only []
                      cases hrn : deref orig3 retval with
                      | none => simp
                      | some rn =>
                        simp only []
                        cases replace_node orig3 retval (create_r_set_ns rn e.ns parn.ns) with
                        | none => simp
                        | some orig4 => simp

/-- In the canonical mode `edit_create` returns `EXIT_SUCCESS` whenever it
returns, leaves `*error` as it is, issues no store call, and unlinks the edit
node from the edit document. -/
theorem edit_create_canonical_done (fuel : Nat) (st st2 : edit_state) (p : xmlNodePtr)
    (code : Int) (h : edit_create fuel st p false = outcome.done (code, st2)) :
    code = EXIT_SUCCESS ∧ st2.error = st.error ∧ st2.calls = st.calls
      ∧ edit_doc_consumed st.edit_doc st2.edit_doc p := by
  cases fuel with
  | zero => simp [edit_create] at h
  | succ fuel =>
    rw [edit_create] at h
    cases hn : deref st.edit_doc p with
    | none => rw [hn] at h; simp at h
    | some n0 =>
      cases hpp : parent_ptr p with
      | none => rw [hn, hpp] at h; simp at h
      | some parent =>
        rw [hn, hpp] at h
        simp only [] at h
        cases hr : replace_node st.edit_doc p
            (nc_clear_namespaces (remove_ns_prop n0 "operation" NC_NS_BASE10)) with
        | none => rw [hr] at h; simp at h
        | some edit2 =>
          cases hpn : deref st.edit_doc parent with
          | none => rw [hr, hpn] at h; simp at h
          | some pn =>
            rw [hr, hpn] at h
            simp only [Bool.false_eq_true, if_false] at h
            have hfin : ∀ (orig : xmlNode),
                edit_create_finish
                    ⟨orig, edit2, st.calls, st.error, st.unlinked⟩ p
                  = outcome.done (code, st2) →
                code = EXIT_SUCCESS ∧ st2.error = st.error ∧ st2.calls = st.calls
                  ∧ edit_doc_consumed st.edit_doc st2.edit_doc p := by
              intro orig hf
              obtain ⟨h1, _, h3, h4, h5⟩ := edit_create_finish_done _ st2 p code hf
              exact ⟨h1, h3, h4, edit_doc_consumed_strip st.edit_doc edit2 st2.edit_doc p _ hr h5⟩
            by_cases hd : pn.type ≠ xmlElementType.XML_DOCUMENT_NODE
            · rw [if_pos hd] at h
              cases hcr : edit_create_r edit2 st.orig_doc parent with
              | none => rw [hcr] at h; simp at h
              | some r =>
                obtain ⟨orig2, par⟩ := r
                cases par with
                | none => exact absurd hcr (edit_create_r_ne_null _ _ _ _)
                | some par =>
                  rw [hcr] at h
                  simp only [] at h
                  cases hpar : deref orig2 par with
                  | none => rw [hpar] at h; simp at h
                  | some parn =>
                    rw [hpar] at h
                    simp only [] at h
                    by_cases hpd : parn.type = xmlElementType.XML_DOCUMENT_NODE
                    · rw [if_pos hpd] at h
                      exact hfin _ h
                    · rw [if_neg hpd] at h
                      cases ha : xmlAddChild orig2 par (xmlCopyNode_deep
                          (nc_clear_namespaces (remove_ns_prop n0 "operation" NC_NS_BASE10)))
                          with
                      | none => rw [ha] at h; simp at h
                      | some r3 =>
                        obtain ⟨orig3, q3⟩ := r3
                        rw [ha] at h
                        exact hfin _ h
            · rw [if_neg hd] at h
              by_cases hT : st.orig_doc.type = xmlElementType.XML_DOCUMENT_NODE
              · rw [if_pos hT] at h
                exact hfin _ h
              · rw [if_neg hT] at h
                cases ha : xmlAddChild st.orig_doc [] (xmlCopyNode_deep
                    (nc_clear_namespaces (remove_ns_prop n0 "operation" NC_NS_BASE10))) with
                | none => rw [ha] at h; simp at h
                | some r3 =>
                  obtain ⟨orig3, q3⟩ := r3
                  rw [ha] at h
                  exact hfin _ h

/-- In the canonical mode `edit_create` has no loop: one unit of fuel is
enough. -/
theorem edit_create_canonical_fuel (fuel : Nat) (st : edit_state) (p : xmlNodePtr) :
    edit_create (fuel + 1) st p false ≠ outcome.out_of_fuel := by
  rw [edit_create]
  cases hn : deref st.edit_doc p with
  | none => simp
  | some n0 =>
    cases hpp : parent_ptr p with
    | none => simp
    | some parent =>
      simp only []
      cases hr : replace_node st.edit_doc p
          (nc_clear_namespaces (remove_ns_prop n0 "operation" NC_NS_BASE10)) with
      | none => simp
      | some edit2 =>
        cases hpn : deref st.edit_doc parent with
        | none => simp
        | some pn =>
          simp only [Bool.false_eq_true, if_false]
          by_cases hd : pn.type ≠ xmlElementType.XML_DOCUMENT_NODE
          · rw [if_pos hd]
            cases hcr : edit_create_r edit2 st.orig_doc parent with
            | none => simp
            | some r =>
              obtain ⟨orig2, par⟩ := r
              cases par with
              | none => simp
              | some par =>
                simp only []
                cases hpar : deref orig2 par with
                | none => simp
                | some parn =>
                  simp only []
                  by_cases hpd : parn.type = xmlElementType.XML_DOCUMENT_NODE
                  · rw [if_pos hpd]
                    exact edit_create_finish_fuel _ _
                  · rw [if_neg hpd]
                    cases ha : xmlAddChild orig2 par (xmlCopyNode_deep
                        (nc_clear_namespaces (remove_ns_prop n0 "operation" NC_NS_BASE10)))
                        with
                    | none => simp
                    | some r3 =>
                      obtain ⟨orig3, q3⟩ := r3
                      exact edit_create_finish_fuel _ _
          · rw [if_neg hd]
            by_cases hT : st.orig_doc.type = xmlElementType.XML_DOCUMENT_NODE
            · rw [if_pos hT]
              exact edit_create_finish_fuel _ _
            · rw [if_neg hT]
              cases ha : xmlAddChild st.orig_doc [] (xmlCopyNode_deep
                  (nc_clear_namespaces (remove_ns_prop n0 "operation" NC_NS_BASE10))) with
              | none => simp
              | some r3 =>
                obtain ⟨orig3, q3⟩ := r3
                exact edit_create_finish_fuel _ _

theorem edit_replace_canonical_done (fuel : Nat) (st st2 : edit_state) (p : xmlNodePtr)
    (code : Int) (h : edit_replace fuel st (some p) false = outcome.done (code, st2)) :
    code = EXIT_SUCCESS ∧ st2.error = st.error ∧ st2.calls = st.calls
      ∧ edit_doc_consumed st.edit_doc st2.edit_doc p := by
  unfold edit_replace at h
  simp only [] at h
  cases hf : find_element_equiv st.orig_doc st.edit_doc (some p) with
  | none => rw [hf] at h; simp at h
  | some r =>
    rw [hf] at h
    cases r with
    | none => exact edit_create_canonical_done fuel st st2 p code h
    | some old =>
      simp only [] at h
      cases hu : xmlUnlinkNode st.orig_doc old with
      | none => rw [hu] at h; simp at h
      | some orig2 =>
        rw [hu] at h
        simp only [] at h
        exact edit_create_canonical_done fuel
          ⟨orig2, st.edit_doc, st.calls, st.error, st.unlinked⟩ st2 p code h

theorem edit_replace_canonical_fuel (fuel : Nat) (st : edit_state) (p : xmlNodePtr) :
    edit_replace (fuel + 1) st (some p) false ≠ outcome.out_of_fuel := by
  unfold edit_replace
  simp only []
  cases hf : find_element_equiv st.orig_doc st.edit_doc (some p) with
  | none => simp
  | some r =>
    cases r with
    | none => exact edit_create_canonical_fuel fuel st p
    | some old =>
      simp only []
      cases hu : xmlUnlinkNode st.orig_doc old with
      | none => simp
      | some orig2 => exact edit_create_canonical_fuel fuel _ p

theorem edit_merge_canonical_done (fuel : Nat) (st st2 : edit_state) (p : xmlNodePtr)
    (code : Int) (h : edit_merge fuel st p false = outcome.done (code, st2)) :
    code = EXIT_SUCCESS ∧ st2.error = st.error ∧ st2.calls = st.calls
      ∧ edit_doc_consumed st.edit_doc st2.edit_doc p := by
  unfold edit_merge at h
  cases hf : find_element_equiv st.orig_doc st.edit_doc (some p) with
  | none => rw [hf] at h; simp at h
  | some r =>
    rw [hf] at h
    cases r with
    | none => exact edit_create_canonical_done fuel st st2 p code h
    | some orig_node =>
      simp only [] at h
      cases hn : deref st.edit_doc p with
      | none => rw [hn] at h; simp at h
      | some n =>
        rw [hn] at h
        simp only [] at h
        cases hm : edit_merge_children false st.edit_doc p orig_node st.orig_doc n.children 0
            with
        | none => rw [hm] at h; simp at h
        | some orig2 =>
          rw [hm] at h
          simp only [] at h
          cases hd : edit_delete_edit ⟨orig2, st.edit_doc, st.calls, st.error, st.unlinked⟩
              (some p) false with
          | none => rw [hd] at h; simp [outcome.of_option] at h
          | some r2 =>
            obtain ⟨c, st3⟩ := r2
            rw [hd] at h
            simp only [outcome.of_option, outcome.done.injEq, Prod.mk.injEq] at h
            obtain ⟨hc, hs⟩ := h
            subst hc hs
            obtain ⟨h1, _, h3, h4, h5⟩ := edit_delete_edit_canonical _ st3 p c hd
            exact ⟨h1, h3, h4, xmlUnlinkNode_top _ p _ h5⟩

theorem edit_merge_canonical_fuel (fuel : Nat) (st : edit_state) (p : xmlNodePtr) :
    edit_merge (fuel + 1) st p false ≠ outcome.out_of_fuel := by
  unfold edit_merge
  cases hf : find_element_equiv st.orig_doc st.edit_doc (some p) with
  | none => simp
  | some r =>
    cases r with
    | none => exact edit_create_canonical_fuel fuel st p
    | some orig_node =>
      simp only []
      cases hn : deref st.edit_doc p with
      | none => simp
      | some n =>
        simp only []
        cases hm : edit_merge_children false st.edit_doc p orig_node st.orig_doc n.children 0
            with
        | none => simp
        | some orig2 =>
          simp only []
          cases hd : edit_delete_edit ⟨orig2, st.edit_doc, st.calls, st.error, st.unlinked⟩
              (some p) false with
          | none => simp [outcome.of_option]
          | some r2 => simp [outcome.of_option]

theorem edit_delete_orig_canonical (st st2 : edit_state) (q : xmlNodePtr) (code : Int)
    (h : edit_delete_orig st (some q) false = some (code, st2)) :
    code = EXIT_SUCCESS ∧ st2.edit_doc = st.edit_doc ∧ st2.error = st.error
      ∧ st2.calls = st.calls ∧ st2.unlinked = st.unlinked
      ∧ xmlUnlinkNode st.orig_doc q = some st2.orig_doc := by
  unfold edit_delete_orig at h
  simp only [Bool.false_eq_true, if_false] at h
  cases hu : xmlUnlinkNode st.orig_doc q with
  | none => rw [hu] at h; simp at h
  | some orig2 =>
    rw [hu] at h
    simp only [Option.some.injEq, Prod.mk.injEq] at h
    obtain ⟨hc, hs⟩ := h
    subst hs
    exact ⟨hc.symm, rfl, rfl, rfl, rfl, rfl⟩

/-- Unlinking a node of a document takes at least one node away. -/
theorem xmlUnlinkNode_count_lt (doc : xmlNode) (q : xmlNodePtr) (n d : xmlNode)
    (hn : deref doc q = some n) (h : xmlUnlinkNode doc q = some d) :
    node_count d < node_count doc := by
  have h1 := xmlUnlinkNode_count doc q n d hn h
  have h2 := node_count_pos n
  omega

theorem edit_remove_canonical_done (st st2 : edit_state) (p : xmlNodePtr) (code : Int)
    (h : edit_remove st p false = some (code, st2)) :
    code = EXIT_SUCCESS ∧ st2.error = st.error ∧ st2.calls = st.calls
      ∧ edit_doc_consumed st.edit_doc st2.edit_doc p := by
  unfold edit_remove at h
  cases hf : find_element_equiv st.orig_doc st.edit_doc (some p) with
  | none => rw [hf] at h; simp at h
  | some old =>
    rw [hf] at h
    simp only [] at h
    cases hd : edit_delete_edit st (some p) false with
    | none => rw [hd] at h; simp at h
    | some r =>
      obtain ⟨c1, st1⟩ := r
      rw [hd] at h
      simp only [] at h
      obtain ⟨_, _, e3, e4, e5⟩ := edit_delete_edit_canonical st st1 p c1 hd
      have hcons := xmlUnlinkNode_top _ p _ e5
      cases old with
      | none =>
        simp only [Option.some.injEq, Prod.mk.injEq] at h
        obtain ⟨hc, hs⟩ := h
        subst hs
        exact ⟨hc.symm, e3, e4, hcons⟩
      | some o =>
        simp only [] at h
        cases ho : edit_delete_orig st1 (some o) false with
        | none => rw [ho] at h; simp at h
        | some r2 =>
          obtain ⟨c2, st3⟩ := r2
          rw [ho] at h
          simp only [Option.some.injEq, Prod.mk.injEq] at h
          obtain ⟨hc, hs⟩ := h
          subst hs
          obtain ⟨_, o2, o3, o4, _, _⟩ := edit_delete_orig_canonical st1 st3 o c2 ho
          refine ⟨hc.symm, by rw [o3, e3], by rw [o4, e4], ?_⟩
          rw [o2]
          exact hcons

/-- The loop of the delete phase changes the original document only, and does
not make it larger. -/
theorem delete_equivalents_done (fuel : Nat) (st st2 : edit_state) (e : xmlNodePtr)
    (h : delete_equivalents fuel st e false = outcome.done st2) :
    st2.edit_doc = st.edit_doc ∧ st2.error = st.error ∧ st2.calls = st.calls
      ∧ st2.unlinked = st.unlinked
      ∧ node_count st2.orig_doc ≤ node_count st.orig_doc := by
  induction fuel generalizing st with
  | zero => simp [delete_equivalents] at h
  | succ fuel ih =>
    rw [delete_equivalents] at h
    cases hf : find_element_equiv st.orig_doc st.edit_doc (some e) with
    | none => rw [hf] at h; simp at h
    | some r =>
      rw [hf] at h
      cases r with
      | none =>
        simp only [outcome.done.injEq] at h
        subst h
        exact ⟨rfl, rfl, rfl, rfl, Nat.le_refl _⟩
      | some q =>
        simp only [] at h
        cases hd : edit_delete_orig st (some q) false with
        | none => rw [hd] at h; simp at h
        | some r2 =>
          obtain ⟨c, st1⟩ := r2
          rw [hd] at h
          simp only [] at h
          obtain ⟨_, o2, o3, o4, o5, o6⟩ := edit_delete_orig_canonical st st1 q c hd
          obtain ⟨i1, i2, i3, i4, i5⟩ := ih st1 h
          obtain ⟨_, _, n, _, hq⟩ := find_element_equiv_deref _ _ _ _ hf
          have hlt := xmlUnlinkNode_count_lt _ q n _ hq o6
          exact ⟨by rw [i1, o2], by rw [i2, o3], by rw [i3, o4], by rw [i4, o5], by omega⟩

theorem delete_equivalents_fuel (fuel : Nat) (st : edit_state) (e : xmlNodePtr)
    (hfuel : node_count st.orig_doc ≤ fuel) :
    delete_equivalents fuel st e false ≠ outcome.out_of_fuel := by
  rcases delete_equivalents_spec fuel st e hfuel with ⟨_, _, _, _, h⟩ | ⟨_, _, _, _, h⟩
  · rw [h]
    simp
  · rw [h]
    simp

/-- The body of the delete phase in the canonical mode: it succeeds, with the
edit node unlinked and the original document not larger, or it fails with the
error `data-missing` because the edit node has no equivalent, the documents
being as they were. -/
theorem edit_operations_delete_done (fuel : Nat) (st st2 : edit_state) (p : xmlNodePtr)
    (code : Int) (h : edit_operations_delete fuel false st p = outcome.done (code, st2)) :
    (code = EXIT_SUCCESS ∧ st2.error = st.error ∧ st2.calls = st.calls
        ∧ edit_doc_consumed st.edit_doc st2.edit_doc p
        ∧ node_count st2.orig_doc ≤ node_count st.orig_doc)
      ∨ (code = EXIT_FAILURE
        ∧ find_element_equiv st.orig_doc st.edit_doc (some p) = some none
        ∧ st2 = ⟨st.orig_doc, st.edit_doc, st.calls,
            some (nc_err_new NC_ERR.NC_ERR_DATA_MISSING), st.unlinked⟩) := by
  unfold edit_operations_delete at h
  cases hf : find_element_equiv st.orig_doc st.edit_doc (some p) with
  | none => rw [hf] at h; simp at h
  | some r =>
    rw [hf] at h
    cases r with
    | none =>
      simp only [outcome.done.injEq, Prod.mk.injEq] at h
      obtain ⟨hc, hs⟩ := h
      right
      exact ⟨hc.symm, rfl, hs.symm⟩
    | some q =>
      simp only [] at h
      left
      cases hd : delete_equivalents fuel st p false with
      | fault => rw [hd] at h; simp at h
      | out_of_fuel => rw [hd] at h; simp at h
      | done st1 =>
        rw [hd] at h
        simp only [] at h
        obtain ⟨d1, d2, d3, d4, d5⟩ := delete_equivalents_done fuel st st1 p hd
        cases he : edit_delete_edit st1 (some p) false with
        | none => rw [he] at h; simp [outcome.of_option] at h
        | some r2 =>
          obtain ⟨c, st3⟩ := r2
          rw [he] at h
          simp only [outcome.of_option, outcome.done.injEq, Prod.mk.injEq] at h
          obtain ⟨hc, hs⟩ := h
          subst hc hs
          obtain ⟨e1, e2, e3, e4, e5⟩ := edit_delete_edit_canonical st1 st3 p c he
          refine ⟨e1, by rw [e3, d2], by rw [e4, d3], ?_, by rw [e2]; exact d5⟩
          rw [← d1]
          exact xmlUnlinkNode_top _ p _ e5

theorem edit_operations_delete_fuel (fuel : Nat) (st : edit_state) (p : xmlNodePtr)
    (hfuel : node_count st.orig_doc ≤ fuel) :
    edit_operations_delete fuel false st p ≠ outcome.out_of_fuel := by
  unfold edit_operations_delete
  cases hf : find_element_equiv st.orig_doc st.edit_doc (some p) with
  | none => simp
  | some r =>
    cases r with
    | none => simp
    | some q =>
      simp only []
      cases hd : delete_equivalents fuel st p false with
      | fault => simp
      | out_of_fuel => exact absurd hd (delete_equivalents_fuel fuel st p hfuel)
      | done st1 =>
        simp only []
        cases edit_delete_edit st1 (some p) false with
        | none => simp [outcome.of_option]
        | some r2 => simp [outcome.of_option]

/-! ### The phases -/

theorem phase_loop_invariant (body : edit_state → xmlNodePtr → outcome (Int × edit_state))
    (Inv Fail : edit_state → Prop)
    (hbody : ∀ st p c st2, Inv st → body st p = outcome.done (c, st2) →
      (c = EXIT_SUCCESS ∧ Inv st2) ∨ (c ≠ EXIT_SUCCESS ∧ Fail st2))
    (l : List xmlNodePtr) (st st2 : edit_state) (c : Int) (hinv : Inv st)
    (h : phase_loop body st l = outcome.done (c, st2)) :
    (c = EXIT_SUCCESS ∧ Inv st2) ∨ (c = EXIT_FAILURE ∧ Fail st2) := by
  induction l generalizing st with
  | nil =>
    simp only [phase_loop, outcome.done.injEq, Prod.mk.injEq] at h
    obtain ⟨hc, hs⟩ := h
    subst hs
    exact Or.inl ⟨hc.symm, hinv⟩
  | cons e rest ih =>
    rw [phase_loop] at h
    cases hp : ptr_after_unlinks st.unlinked e with
    | none => rw [hp] at h; simp at h
    | some node =>
      rw [hp] at h
      simp only [] at h
      cases hb : body st node with
      | fault => rw [hb] at h; simp at h
      | out_of_fuel => rw [hb] at h; simp at h
      | done r =>
        obtain ⟨c1, st1⟩ := r
        rw [hb] at h
        simp only [] at h
        rcases hbody st node c1 st1 hinv hb with ⟨hc1, hi1⟩ | ⟨hc1, hf1⟩
        · rw [if_neg (by simp [hc1])] at h
          exact ih st1 hi1 h
        · rw [if_pos hc1] at h
          simp only [outcome.done.injEq, Prod.mk.injEq] at h
          obtain ⟨hc, hs⟩ := h
          subst hs
          exact Or.inr ⟨hc.symm, hf1⟩

theorem phase_loop_fuel (body : edit_state → xmlNodePtr → outcome (Int × edit_state))
    (Inv Fail : edit_state → Prop)
    (hbody : ∀ st p c st2, Inv st → body st p = outcome.done (c, st2) →
      (c = EXIT_SUCCESS ∧ Inv st2) ∨ (c ≠ EXIT_SUCCESS ∧ Fail st2))
    (hfuel : ∀ st p, Inv st → body st p ≠ outcome.out_of_fuel)
    (l : List xmlNodePtr) (st : edit_state) (hinv : Inv st) :
    phase_loop body st l ≠ outcome.out_of_fuel := by
  induction l generalizing st with
  | nil => simp [phase_loop]
  | cons e rest ih =>
    rw [phase_loop]
    cases hp : ptr_after_unlinks st.unlinked e with
    | none => simp
    | some node =>
      simp only []
      cases hb : body st node with
      | fault => simp
      | out_of_fuel => exact absurd hb (hfuel st node hinv)
      | done r =>
        obtain ⟨c1, st1⟩ := r
        simp only []
        rcases hbody st node c1 st1 hinv hb with ⟨hc1, hi1⟩ | ⟨hc1, hf1⟩
        · rw [if_neg (by simp [hc1])]
          exact ih st1 hi1
        · rw [if_pos hc1]
          simp

theorem run_phase_invariant (op : NC_EDIT_OP_TYPE)
    (body : edit_state → xmlNodePtr → outcome (Int × edit_state))
    (Inv Fail : edit_state → Prop)
    (hreset : ∀ st, Inv st → Inv ⟨st.orig_doc, st.edit_doc, st.calls, st.error, []⟩)
    (hbody : ∀ st p c st2, Inv st → body st p = outcome.done (c, st2) →
      (c = EXIT_SUCCESS ∧ Inv st2) ∨ (c ≠ EXIT_SUCCESS ∧ Fail st2))
    (st st2 : edit_state) (c : Int) (hinv : Inv st)
    (h : run_phase op body st = outcome.done (c, st2)) :
    (c = EXIT_SUCCESS ∧ Inv st2) ∨ (c = EXIT_FAILURE ∧ Fail st2) := by
  unfold run_phase at h
  cases hg : get_operation_elements op st.edit_doc with
  | none =>
    rw [hg] at h
    simp only [outcome.done.injEq, Prod.mk.injEq] at h
    obtain ⟨hc, hs⟩ := h
    subst hs
    exact Or.inl ⟨hc.symm, hinv⟩
  | some nodes =>
    rw [hg] at h
    exact phase_loop_invariant body Inv Fail hbody nodes _ st2 c (hreset st hinv) h

theorem run_phase_fuel (op : NC_EDIT_OP_TYPE)
    (body : edit_state → xmlNodePtr → outcome (Int × edit_state))
    (Inv Fail : edit_state → Prop)
    (hreset : ∀ st, Inv st → Inv ⟨st.orig_doc, st.edit_doc, st.calls, st.error, []⟩)
    (hbody : ∀ st p c st2, Inv st → body st p = outcome.done (c, st2) →
      (c = EXIT_SUCCESS ∧ Inv st2) ∨ (c ≠ EXIT_SUCCESS ∧ Fail st2))
    (hfuel : ∀ st p, Inv st → body st p ≠ outcome.out_of_fuel)
    (st : edit_state) (hinv : Inv st) :
    run_phase op body st ≠ outcome.out_of_fuel := by
  unfold run_phase
  cases hg : get_operation_elements op st.edit_doc with
  | none => simp
  | some nodes => exact phase_loop_fuel body Inv Fail hbody hfuel nodes _ (hreset st hinv)

theorem phase_then_cases (r : outcome (Int × edit_state))
    (next : edit_state → outcome (Int × edit_state)) (x : Int × edit_state)
    (h : phase_then r next = outcome.done x) :
    (∃ c st, r = outcome.done (c, st) ∧ c ≠ EXIT_SUCCESS ∧ x = edit_operations_error st)
      ∨ (∃ st, r = outcome.done (EXIT_SUCCESS, st) ∧ next st = outcome.done x) := by
  unfold phase_then at h
  cases r with
  | fault => simp at h
  | out_of_fuel => simp at h
  | done a =>
    obtain ⟨c, st⟩ := a
    simp only [] at h
    by_cases hc : c ≠ EXIT_SUCCESS
    · rw [if_pos hc] at h
      simp only [outcome.done.injEq] at h
      exact Or.inl ⟨c, st, rfl, hc, h.symm⟩
    · rw [if_neg hc] at h
      have hc2 : c = EXIT_SUCCESS := by simpa using hc
      subst hc2
      exact Or.inr ⟨st, rfl, h⟩

theorem phase_then_fuel (r : outcome (Int × edit_state))
    (next : edit_state → outcome (Int × edit_state)) (hr : r ≠ outcome.out_of_fuel)
    (hn : ∀ st, r = outcome.done (EXIT_SUCCESS, st) → next st ≠ outcome.out_of_fuel) :
    phase_then r next ≠ outcome.out_of_fuel := by
  unfold phase_then
  cases r with
  | fault => simp
  | out_of_fuel => exact absurd rfl hr
  | done a =>
    obtain ⟨c, st⟩ := a
    simp only []
    by_cases hc : c ≠ EXIT_SUCCESS
    · rw [if_pos hc]
      simp
    · rw [if_neg hc]
      have hc2 : c = EXIT_SUCCESS := by simpa using hc
      subst hc2
      exact hn st rfl

/-! ### The loops of the default operations -/

theorem merge_all_done (fuel : Nat) (st st2 : edit_state) (c : Int)
    (h : merge_all fuel st false = outcome.done (c, st2)) :
    c = EXIT_SUCCESS ∧ st2.error = st.error ∧ st2.calls = st.calls
      ∧ st2.edit_doc.type = st.edit_doc.type ∧ st2.edit_doc.children = [] := by
  induction fuel generalizing st with
  | zero => simp [merge_all] at h
  | succ fuel ih =>
    rw [merge_all] at h
    by_cases he : st.edit_doc.children.isEmpty = true
    · rw [if_pos he] at h
      simp only [outcome.done.injEq, Prod.mk.injEq] at h
      obtain ⟨hc, hs⟩ := h
      subst hs
      exact ⟨hc.symm, rfl, rfl, rfl, List.isEmpty_iff.1 he⟩
    · rw [if_neg he] at h
      cases hm : edit_merge (fuel + 1) st [0] false with
      | fault => rw [hm] at h; simp at h
      | out_of_fuel => rw [hm] at h; simp at h
      | done r =>
        obtain ⟨c1, st1⟩ := r
        rw [hm] at h
        simp only [] at h
        obtain ⟨m1, m2, m3, m4, _, _⟩ := edit_merge_canonical_done _ st st1 [0] c1 hm
        rw [if_neg (by simp [m1])] at h
        obtain ⟨i1, i2, i3, i4, i5⟩ := ih st1 h
        exact ⟨i1, by rw [i2, m2], by rw [i3, m3], by rw [i4, m4], i5⟩

theorem merge_all_fuel (fuel : Nat) (st : edit_state)
    (hlen : st.edit_doc.children.length < fuel) :
    merge_all fuel st false ≠ outcome.out_of_fuel := by
  induction fuel generalizing st with
  | zero => omega
  | succ fuel ih =>
    rw [merge_all]
    by_cases he : st.edit_doc.children.isEmpty = true
    · rw [if_pos he]
      simp
    · rw [if_neg he]
      cases hm : edit_merge (fuel + 1) st [0] false with
      | fault => simp
      | out_of_fuel => exact absurd hm (edit_merge_canonical_fuel fuel st [0])
      | done r =>
        obtain ⟨c1, st1⟩ := r
        simp only []
        obtain ⟨m1, _, _, _, _, m6⟩ := edit_merge_canonical_done _ st st1 [0] c1 hm
        rw [if_neg (by simp [m1])]
        have := m6 rfl
        exact ih st1 (by omega)

theorem replace_all_done (fuel : Nat) (st st2 : edit_state) (c : Int)
    (h : replace_all fuel st false = outcome.done (c, st2)) :
    c = EXIT_SUCCESS ∧ st2.error = st.error ∧ st2.calls = st.calls
      ∧ st2.edit_doc.type = st.edit_doc.type ∧ st2.edit_doc.children = [] := by
  induction fuel generalizing st with
  | zero => simp [replace_all] at h
  | succ fuel ih =>
    rw [replace_all] at h
    by_cases he : st.edit_doc.children.isEmpty = true
    · rw [if_pos he] at h
      simp only [outcome.done.injEq, Prod.mk.injEq] at h
      obtain ⟨hc, hs⟩ := h
      subst hs
      exact ⟨hc.symm, rfl, rfl, rfl, List.isEmpty_iff.1 he⟩
    · rw [if_neg he] at h
      cases hm : edit_replace (fuel + 1) st (some [0]) false with
      | fault => rw [hm] at h; simp at h
      | out_of_fuel => rw [hm] at h; simp at h
      | done r =>
        obtain ⟨c1, st1⟩ := r
        rw [hm] at h
        simp only [] at h
        obtain ⟨_, m2, m3, m4, _, _⟩ := edit_replace_canonical_done _ st st1 [0] c1 hm
        obtain ⟨i1, i2, i3, i4, i5⟩ := ih st1 h
        exact ⟨i1, by rw [i2, m2], by rw [i3, m3], by rw [i4, m4], i5⟩

theorem replace_all_fuel (fuel : Nat) (st : edit_state)
    (hlen : st.edit_doc.children.length < fuel) :
    replace_all fuel st false ≠ outcome.out_of_fuel := by
  induction fuel generalizing st with
  | zero => omega
  | succ fuel ih =>
    rw [replace_all]
    by_cases he : st.edit_doc.children.isEmpty = true
    · rw [if_pos he]
      simp
    · rw [if_neg he]
      cases hm : edit_replace (fuel + 1) st (some [0]) false with
      | fault => simp
      | out_of_fuel => exact absurd hm (edit_replace_canonical_fuel fuel st [0])
      | done r =>
        obtain ⟨c1, st1⟩ := r
        simp only []
        obtain ⟨_, _, _, _, _, m6⟩ := edit_replace_canonical_done _ st st1 [0] c1 hm
        have := m6 rfl
        exact ih st1 (by omega)

/-! ### The whole run -/

theorem edit_operations_error_of_some (st : edit_state) (e : nc_err) (h : st.error = some e) :
    edit_operations_error st = (EXIT_FAILURE, st) := by
  obtain ⟨orig, edit, calls, error, unlinked⟩ := st
  simp only at h
  subst h
  rfl

/-- A run of `edit_operations` in the canonical mode with a default operation
other than `replace`, when it returns: it succeeded, with no error, no store
call, an edit document of the same type with no more top-level nodes, and
none at all under the default operations `merge` and not set; or the delete
phase found an edit node without equivalent and set the error `data-missing`. -/
theorem edit_operations_phases_done (fuel : Nat) (T E : xmlNode) (defop : NC_EDIT_OP_TYPE)
    (code : Int) (st : edit_state) (hd : defop ≠ NC_EDIT_DEFOP_REPLACE)
    (h : edit_operations fuel T E defop false = outcome.done (code, st)) :
    (code = EXIT_SUCCESS ∧ st.error = none ∧ st.calls = []
        ∧ st.edit_doc.type = E.type ∧ st.edit_doc.children.length ≤ E.children.length
        ∧ ((defop = NC_EDIT_DEFOP_MERGE ∨ defop = NC_EDIT_DEFOP_NOTSET) →
            st.edit_doc.children = []))
      ∨ (code = EXIT_FAILURE
        ∧ ∃ (st0 : edit_state) (p : xmlNodePtr), find_element_equiv st0.orig_doc st0.edit_doc (some p) = some none
          ∧ st = ⟨st0.orig_doc, st0.edit_doc, st0.calls,
              some (nc_err_new NC_ERR.NC_ERR_DATA_MISSING), st0.unlinked⟩) := by
  let Inv : edit_state → Prop := fun s =>
    s.error = none ∧ s.calls = [] ∧ s.edit_doc.type = E.type
      ∧ s.edit_doc.children.length ≤ E.children.length
  let Fail : edit_state → Prop := fun s =>
    ∃ (st0 : edit_state) (p : xmlNodePtr), find_element_equiv st0.orig_doc st0.edit_doc (some p) = some none
      ∧ s = ⟨st0.orig_doc, st0.edit_doc, st0.calls,
          some (nc_err_new NC_ERR.NC_ERR_DATA_MISSING), st0.unlinked⟩
  have hreset : ∀ s, Inv s → Inv ⟨s.orig_doc, s.edit_doc, s.calls, s.error, []⟩ :=
    fun s hs => hs
  have hstep : ∀ (s s2 : edit_state) (p : xmlNodePtr), Inv s → s2.error = s.error →
      s2.calls = s.calls → edit_doc_consumed s.edit_doc s2.edit_doc p → Inv s2 := by
    intro s s2 p ⟨i1, i2, i3, i4⟩ e1 e2 ⟨c1, c2, _⟩
    exact ⟨by rw [e1, i1], by rw [e2, i2], by rw [c1, i3], Nat.le_trans c2 i4⟩
  have hdelete : ∀ s p c s2, Inv s →
      edit_operations_delete fuel false s p = outcome.done (c, s2) →
      (c = EXIT_SUCCESS ∧ Inv s2) ∨ (c ≠ EXIT_SUCCESS ∧ Fail s2) := by
    intro s p c s2 hi hb
    rcases edit_operations_delete_done fuel s s2 p c hb with ⟨h1, h2, h3, h4, _⟩ | ⟨h1, h2, h3⟩
    · exact Or.inl ⟨h1, hstep s s2 p hi h2 h3 h4⟩
    · exact Or.inr ⟨by rw [h1]; decide, s, p, h2, h3⟩
  have hremove : ∀ s p c s2, Inv s →
      outcome.of_option (edit_remove s p false) = outcome.done (c, s2) →
      (c = EXIT_SUCCESS ∧ Inv s2) ∨ (c ≠ EXIT_SUCCESS ∧ False) := by
    intro s p c s2 hi hb
    cases hr : edit_remove s p false with
    | none => rw [hr] at hb; simp [outcome.of_option] at hb
    | some r =>
      rw [hr] at hb
      simp only [outcome.of_option, outcome.done.injEq] at hb
      subst hb
      obtain ⟨h1, h2, h3, h4⟩ := edit_remove_canonical_done s s2 p c hr
      exact Or.inl ⟨h1, hstep s s2 p hi h2 h3 h4⟩
  have hreplace : ∀ s p c s2, Inv s →
      edit_replace fuel s (some p) false = outcome.done (c, s2) →
      (c = EXIT_SUCCESS ∧ Inv s2) ∨ (c ≠ EXIT_SUCCESS ∧ False) := by
    intro s p c s2 hi hb
    obtain ⟨h1, h2, h3, h4⟩ := edit_replace_canonical_done fuel s s2 p c hb
    exact Or.inl ⟨h1, hstep s s2 p hi h2 h3 h4⟩
  have hcreate : ∀ s p c s2, Inv s →
      edit_create fuel s p false = outcome.done (c, s2) →
      (c = EXIT_SUCCESS ∧ Inv s2) ∨ (c ≠ EXIT_SUCCESS ∧ False) := by
    intro s p c s2 hi hb
    obtain ⟨h1, h2, h3, h4⟩ := edit_create_canonical_done fuel s s2 p c hb
    exact Or.inl ⟨h1, hstep s s2 p hi h2 h3 h4⟩
  have hmerge : ∀ s p c s2, Inv s →
      edit_merge fuel s p false = outcome.done (c, s2) →
      (c = EXIT_SUCCESS ∧ Inv s2) ∨ (c ≠ EXIT_SUCCESS ∧ False) := by
    intro s p c s2 hi hb
    obtain ⟨h1, h2, h3, h4⟩ := edit_merge_canonical_done fuel s s2 p c hb
    exact Or.inl ⟨h1, hstep s s2 p hi h2 h3 h4⟩
  have h0 : Inv ⟨T, E, [], none, []⟩ := ⟨rfl, rfl, rfl, Nat.le_refl _⟩
  unfold edit_operations at h
  rw [if_neg hd] at h
  simp only [] at h
  -- the delete phase
  rcases phase_then_cases _ _ _ h with ⟨c, s, hr, hc, hx⟩ | ⟨s2, hr, h⟩
  · rcases run_phase_invariant NC_EDIT_OP_DELETE _ Inv Fail hreset hdelete _ s c h0 hr with
      ⟨hc1, _⟩ | ⟨_, hf⟩
    · exact absurd hc1 hc
    · obtain ⟨st0, p, hfind, hs⟩ := hf
      right
      rw [edit_operations_error_of_some s (nc_err_new NC_ERR.NC_ERR_DATA_MISSING)
        (by rw [hs])] at hx
      simp only [Prod.mk.injEq] at hx
      exact ⟨hx.1, st0, p, hfind, by rw [hx.2, hs]⟩
  have h2 : Inv s2 := by
    rcases run_phase_invariant NC_EDIT_OP_DELETE _ Inv Fail hreset hdelete _ s2 _ h0 hr with
      ⟨_, hi⟩ | ⟨hc1, _⟩
    · exact hi
    · exact absurd hc1 (by decide)
  -- the remove phase
  rcases phase_then_cases _ _ _ h with ⟨c, s, hr, hc, hx⟩ | ⟨s3, hr, h⟩
  · rcases run_phase_invariant NC_EDIT_OP_REMOVE _ Inv (fun _ => False) hreset hremove _ s c h2
      hr with ⟨hc1, _⟩ | ⟨_, hf⟩
    · exact absurd hc1 hc
    · exact absurd hf id
  have h3 : Inv s3 := by
    rcases run_phase_invariant NC_EDIT_OP_REMOVE _ Inv (fun _ => False) hreset hremove _ s3 _ h2
      hr with ⟨_, hi⟩ | ⟨_, hf⟩
    · exact hi
    · exact absurd hf id
  -- the replace phase
  rcases phase_then_cases _ _ _ h with ⟨c, s, hr, hc, hx⟩ | ⟨s4, hr, h⟩
  · rcases run_phase_invariant NC_EDIT_OP_REPLACE _ Inv (fun _ => False) hreset hreplace _ s c
      h3 hr with ⟨hc1, _⟩ | ⟨_, hf⟩
    · exact absurd hc1 hc
    · exact absurd hf id
  have h4 : Inv s4 := by
    rcases run_phase_invariant NC_EDIT_OP_REPLACE _ Inv (fun _ => False) hreset hreplace _ s4 _
      h3 hr with ⟨_, hi⟩ | ⟨_, hf⟩
    · exact hi
    · exact absurd hf id
  -- the create phase
  rcases phase_then_cases _ _ _ h with ⟨c, s, hr, hc, hx⟩ | ⟨s5, hr, h⟩
  · rcases run_phase_invariant NC_EDIT_OP_CREATE _ Inv (fun _ => False) hreset hcreate _ s c
      h4 hr with ⟨hc1, _⟩ | ⟨_, hf⟩
    · exact absurd hc1 hc
    · exact absurd hf id
  have h5 : Inv s5 := by
    rcases run_phase_invariant NC_EDIT_OP_CREATE _ Inv (fun _ => False) hreset hcreate _ s5 _
      h4 hr with ⟨_, hi⟩ | ⟨_, hf⟩
    · exact hi
    · exact absurd hf id
  -- the merge phase
  rcases phase_then_cases _ _ _ h with ⟨c, s, hr, hc, hx⟩ | ⟨s6, hr, h⟩
  · rcases run_phase_invariant NC_EDIT_OP_MERGE _ Inv (fun _ => False) hreset hmerge _ s c
      h5 hr with ⟨hc1, _⟩ | ⟨_, hf⟩
    · exact absurd hc1 hc
    · exact absurd hf id
  have h6 : Inv s6 := by
    rcases run_phase_invariant NC_EDIT_OP_MERGE _ Inv (fun _ => False) hreset hmerge _ s6 _
      h5 hr with ⟨_, hi⟩ | ⟨_, hf⟩
    · exact hi
    · exact absurd hf id
  -- the default operation
  by_cases hdm : defop = NC_EDIT_DEFOP_MERGE ∨ defop = NC_EDIT_DEFOP_NOTSET
  · rw [if_pos hdm] at h
    rcases phase_then_cases _ _ _ h with ⟨c, s, hr, hc, hx⟩ | ⟨s7, hr, h⟩
    · exact absurd (merge_all_done fuel s6 s c hr).1 hc
    · simp only [outcome.done.injEq, Prod.mk.injEq] at h
      obtain ⟨hcode, hst⟩ := h
      subst hst
      obtain ⟨_, m2, m3, m4, m5⟩ := merge_all_done fuel s6 s7 _ hr
      obtain ⟨i1, i2, i3, i4⟩ := h6
      left
      exact ⟨hcode.symm, by rw [m2, i1], by rw [m3, i2], by rw [m4, i3], by rw [m5]; simp,
        fun _ => m5⟩
  · rw [if_neg hdm] at h
    simp only [phase_then, ne_eq, not_true_eq_false, if_false, outcome.done.injEq,
      Prod.mk.injEq] at h
    obtain ⟨hcode, hst⟩ := h
    subst hst
    obtain ⟨i1, i2, i3, i4⟩ := h6
    left
    exact ⟨hcode.symm, i1, i2, i3, i4, fun hx => absurd hx hdm⟩

/-- On an edit document without top-level nodes `edit_operations` changes
nothing. -/
theorem edit_operations_empty_edit (fuel : Nat) (T E : xmlNode) (defop : NC_EDIT_OP_TYPE)
    (running : Bool) (hE : E.type = xmlElementType.XML_DOCUMENT_NODE) (hc : E.children = [])
    (hd : defop ≠ NC_EDIT_DEFOP_REPLACE) :
    edit_operations (fuel + 1) T E defop running
      = outcome.done (EXIT_SUCCESS, ⟨T, E, [], none, []⟩) := by
  have hphase : ∀ (op : NC_EDIT_OP_TYPE)
      (body : edit_state → xmlNodePtr → outcome (Int × edit_state)),
      run_phase op body ⟨T, E, [], none, []⟩
        = outcome.done (EXIT_SUCCESS, ⟨T, E, [], none, []⟩) :=
    fun op body => run_phase_empty_document op body ⟨T, E, [], none, []⟩ hE hc rfl
  unfold edit_operations
  rw [if_neg hd]
  simp only []
  rw [hphase]
  simp only [phase_then, ne_eq, not_true_eq_false, if_false]
  rw [hphase]
  simp only [phase_then, ne_eq, not_true_eq_false, if_false]
  rw [hphase]
  simp only [phase_then, ne_eq, not_true_eq_false, if_false]
  rw [hphase]
  simp only [phase_then, ne_eq, not_true_eq_false, if_false]
  rw [hphase]
  simp only [phase_then, ne_eq, not_true_eq_false, if_false]
  have hmerge : merge_all (fuel + 1) ⟨T, E, [], none, []⟩ running
      = outcome.done (EXIT_SUCCESS, ⟨T, E, [], none, []⟩) := by
    rw [merge_all]
    simp [hc]
  split_ifs
  · rw [hmerge]
    rfl
  · rfl

/-- After the loop of the default operation `replace` the run goes on as a run
with the default operation `none` on the documents the loop has left. -/
theorem edit_operations_replace_eq (fuel : Nat) (T E : xmlNode) (c : Int) (st1 : edit_state)
    (h : replace_all fuel ⟨T, E, [], none, []⟩ false = outcome.done (c, st1)) :
    edit_operations fuel T E NC_EDIT_DEFOP_REPLACE false
      = edit_operations fuel st1.orig_doc st1.edit_doc NC_EDIT_DEFOP_NONE false := by
  obtain ⟨_, r2, r3, _, _⟩ := replace_all_done fuel _ st1 c h
  obtain ⟨orig1, edit1, calls1, error1, unlinked1⟩ := st1
  simp only at r2 r3
  subst r2 r3
  have hphase : run_phase NC_EDIT_OP_DELETE (edit_operations_delete fuel false)
      ⟨orig1, edit1, [], none, unlinked1⟩
      = run_phase NC_EDIT_OP_DELETE (edit_operations_delete fuel false)
          ⟨orig1, edit1, [], none, []⟩ := by
    have hg : get_operation_elements NC_EDIT_OP_DELETE edit1
        = some (xpath_operation "delete" edit1 []) := rfl
    unfold run_phase
    simp only [hg]
  unfold edit_operations
  rw [if_pos rfl, h, if_neg (by decide)]
  simp only []
  have e1 : ¬ (NC_EDIT_DEFOP_REPLACE = NC_EDIT_DEFOP_MERGE
      ∨ NC_EDIT_DEFOP_REPLACE = NC_EDIT_DEFOP_NOTSET) := by decide
  have e2 : ¬ (NC_EDIT_DEFOP_NONE = NC_EDIT_DEFOP_MERGE
      ∨ NC_EDIT_DEFOP_NONE = NC_EDIT_DEFOP_NOTSET) := by decide
  rw [hphase]
  simp only [e1, e2, if_false]

/-- A run of `edit_operations` in the canonical mode, when it returns: it
succeeded, with no error, no store call, no more top-level nodes in the edit
document than before and none under the default operations `merge`, not set
and `replace`; or the delete phase found an edit node without equivalent and
set the error `data-missing`. -/
theorem edit_operations_canonical_done (fuel : Nat) (T E : xmlNode) (defop : NC_EDIT_OP_TYPE)
    (code : Int) (st : edit_state)
    (h : edit_operations fuel T E defop false = outcome.done (code, st)) :
    (code = EXIT_SUCCESS ∧ st.error = none ∧ st.calls = []
        ∧ st.edit_doc.children.length ≤ E.children.length
        ∧ ((defop = NC_EDIT_DEFOP_MERGE ∨ defop = NC_EDIT_DEFOP_NOTSET
            ∨ defop = NC_EDIT_DEFOP_REPLACE) → st.edit_doc.children = []))
      ∨ (code = EXIT_FAILURE
        ∧ ∃ (st0 : edit_state) (p : xmlNodePtr),
          find_element_equiv st0.orig_doc st0.edit_doc (some p) = some none
          ∧ st = ⟨st0.orig_doc, st0.edit_doc, st0.calls,
              some (nc_err_new NC_ERR.NC_ERR_DATA_MISSING), st0.unlinked⟩) := by
  by_cases hd : defop = NC_EDIT_DEFOP_REPLACE
  · subst hd
    cases hr : replace_all fuel ⟨T, E, [], none, []⟩ false with
    | fault =>
      unfold edit_operations at h
      rw [if_pos rfl, hr] at h
      simp at h
    | out_of_fuel =>
      unfold edit_operations at h
      rw [if_pos rfl, hr] at h
      simp at h
    | done r =>
      obtain ⟨c, st1⟩ := r
      rw [edit_operations_replace_eq fuel T E c st1 hr] at h
      obtain ⟨_, _, _, _, r5⟩ := replace_all_done fuel _ st1 c hr
      rcases edit_operations_phases_done fuel _ _ _ code st (by decide) h with
        ⟨h1, h2, h3, _, h5, _⟩ | hf
      · left
        rw [r5] at h5
        have hnil : st.edit_doc.children = [] := List.length_eq_zero.1 (by simpa using h5)
        exact ⟨h1, h2, h3, by rw [hnil]; simp, fun _ => hnil⟩
      · exact Or.inr hf
  · rcases edit_operations_phases_done fuel T E defop code st hd h with
      ⟨h1, h2, h3, _, h5, h6⟩ | hf
    · left
      refine ⟨h1, h2, h3, h5, fun hx => ?_⟩
      rcases hx with hx | hx | hx
      · exact h6 (Or.inl hx)
      · exact h6 (Or.inr hx)
      · exact absurd hx hd
    · exact Or.inr hf

/-- A run of `edit_operations` in the canonical mode ends within its fuel when
the fuel is at least the number of nodes of the tree and more than the number
of top-level nodes of the edit document. -/
theorem edit_operations_canonical_fuel (fuel : Nat) (T E : xmlNode) (defop : NC_EDIT_OP_TYPE)
    (hE : E.type = xmlElementType.XML_DOCUMENT_NODE) (hT : node_count T ≤ fuel)
    (hlen : E.children.length < fuel) :
    edit_operations fuel T E defop false ≠ outcome.out_of_fuel := by
  obtain ⟨f, hf⟩ : ∃ f, fuel = f + 1 := ⟨fuel - 1, by omega⟩
  subst hf
  by_cases hd : defop = NC_EDIT_DEFOP_REPLACE
  · subst hd
    cases hr : replace_all (f + 1) ⟨T, E, [], none, []⟩ false with
    | fault =>
      unfold edit_operations
      rw [if_pos rfl, hr]
      simp
    | out_of_fuel => exact absurd hr (replace_all_fuel (f + 1) _ hlen)
    | done r =>
      obtain ⟨c, st1⟩ := r
      rw [edit_operations_replace_eq (f + 1) T E c st1 hr]
      obtain ⟨_, _, _, r4, r5⟩ := replace_all_done (f + 1) _ st1 c hr
      rw [edit_operations_empty_edit f _ _ _ false (by rw [r4]; exact hE) r5 (by decide)]
      simp
  · let InvD : edit_state → Prop := fun s =>
      node_count s.orig_doc ≤ f + 1 ∧ s.edit_doc.children.length < f + 1
    let Inv : edit_state → Prop := fun s => s.edit_doc.children.length < f + 1
    have hdelete : ∀ s p c s2, InvD s →
        edit_operations_delete (f + 1) false s p = outcome.done (c, s2) →
        (c = EXIT_SUCCESS ∧ InvD s2) ∨ (c ≠ EXIT_SUCCESS ∧ True) := by
      intro s p c s2 ⟨i1, i2⟩ hb
      rcases edit_operations_delete_done (f + 1) s s2 p c hb with
        ⟨h1, _, _, ⟨_, h4, _⟩, h5⟩ | ⟨h1, _, _⟩
      · exact Or.inl ⟨h1, Nat.le_trans h5 i1, Nat.lt_of_le_of_lt h4 i2⟩
      · exact Or.inr ⟨by rw [h1]; decide, trivial⟩
    have hremove : ∀ s p c s2, Inv s →
        outcome.of_option (edit_remove s p false) = outcome.done (c, s2) →
        (c = EXIT_SUCCESS ∧ Inv s2) ∨ (c ≠ EXIT_SUCCESS ∧ True) := by
      intro s p c s2 hi hb
      cases hr : edit_remove s p false with
      | none => rw [hr] at hb; simp [outcome.of_option] at hb
      | some r =>
        rw [hr] at hb
        simp only [outcome.of_option, outcome.done.injEq] at hb
        subst hb
        obtain ⟨h1, _, _, _, h4, _⟩ := edit_remove_canonical_done s s2 p c hr
        exact Or.inl ⟨h1, Nat.lt_of_le_of_lt h4 hi⟩
    have hreplace : ∀ s p c s2, Inv s →
        edit_replace (f + 1) s (some p) false = outcome.done (c, s2) →
        (c = EXIT_SUCCESS ∧ Inv s2) ∨ (c ≠ EXIT_SUCCESS ∧ True) := by
      intro s p c s2 hi hb
      obtain ⟨h1, _, _, _, h4, _⟩ := edit_replace_canonical_done (f + 1) s s2 p c hb
      exact Or.inl ⟨h1, Nat.lt_of_le_of_lt h4 hi⟩
    have hcreate : ∀ s p c s2, Inv s →
        edit_create (f + 1) s p false = outcome.done (c, s2) →
        (c = EXIT_SUCCESS ∧ Inv s2) ∨ (c ≠ EXIT_SUCCESS ∧ True) := by
      intro s p c s2 hi hb
      obtain ⟨h1, _, _, _, h4, _⟩ := edit_create_canonical_done (f + 1) s s2 p c hb
      exact Or.inl ⟨h1, Nat.lt_of_le_of_lt h4 hi⟩
    have hmerge : ∀ s p c s2, Inv s →
        edit_merge (f + 1) s p false = outcome.done (c, s2) →
        (c = EXIT_SUCCESS ∧ Inv s2) ∨ (c ≠ EXIT_SUCCESS ∧ True) := by
      intro s p c s2 hi hb
      obtain ⟨h1, _, _, _, h4, _⟩ := edit_merge_canonical_done (f + 1) s s2 p c hb
      exact Or.inl ⟨h1, Nat.lt_of_le_of_lt h4 hi⟩
    have hresetD : ∀ s, InvD s → InvD ⟨s.orig_doc, s.edit_doc, s.calls, s.error, []⟩ :=
      fun s hs => hs
    have hreset : ∀ s, Inv s → Inv ⟨s.orig_doc, s.edit_doc, s.calls, s.error, []⟩ :=
      fun s hs => hs
    have h0 : InvD ⟨T, E, [], none, []⟩ := ⟨hT, hlen⟩
    unfold edit_operations
    rw [if_neg hd]
    simp only []
    refine phase_then_fuel _ _
      (run_phase_fuel NC_EDIT_OP_DELETE _ InvD (fun _ => True) hresetD hdelete
        (fun s p hs => edit_operations_delete_fuel (f + 1) s p hs.1) _ h0) (fun s2 hr => ?_)
    have h2 : Inv s2 := by
      rcases run_phase_invariant NC_EDIT_OP_DELETE _ InvD (fun _ => True) hresetD hdelete _ s2 _
        h0 hr with ⟨_, hi⟩ | ⟨hc1, _⟩
      · exact hi.2
      · exact absurd hc1 (by decide)
    refine phase_then_fuel _ _
      (run_phase_fuel NC_EDIT_OP_REMOVE _ Inv (fun _ => True) hreset hremove
        (fun s p _ => by cases edit_remove s p false <;> simp [outcome.of_option]) _ h2)
      (fun s3 hr => ?_)
    have h3 : Inv s3 := by
      rcases run_phase_invariant NC_EDIT_OP_REMOVE _ Inv (fun _ => True) hreset hremove _ s3 _
        h2 hr with ⟨_, hi⟩ | ⟨hc1, _⟩
      · exact hi
      · exact absurd hc1 (by decide)
    refine phase_then_fuel _ _
      (run_phase_fuel NC_EDIT_OP_REPLACE _ Inv (fun _ => True) hreset hreplace
        (fun s p _ => edit_replace_canonical_fuel f s p) _ h3) (fun s4 hr => ?_)
    have h4 : Inv s4 := by
      rcases run_phase_invariant NC_EDIT_OP_REPLACE _ Inv (fun _ => True) hreset hreplace _ s4 _
        h3 hr with ⟨_, hi⟩ | ⟨hc1, _⟩
      · exact hi
      · exact absurd hc1 (by decide)
    refine phase_then_fuel _ _
      (run_phase_fuel NC_EDIT_OP_CREATE _ Inv (fun _ => True) hreset hcreate
        (fun s p _ => edit_create_canonical_fuel f s p) _ h4) (fun s5 hr => ?_)
    have h5 : Inv s5 := by
      rcases run_phase_invariant NC_EDIT_OP_CREATE _ Inv (fun _ => True) hreset hcreate _ s5 _
        h4 hr with ⟨_, hi⟩ | ⟨hc1, _⟩
      · exact hi
      · exact absurd hc1 (by decide)
    refine phase_then_fuel _ _
      (run_phase_fuel NC_EDIT_OP_MERGE _ Inv (fun _ => True) hreset hmerge
        (fun s p _ => edit_merge_canonical_fuel f s p) _ h5) (fun s6 hr => ?_)
    have h6 : Inv s6 := by
      rcases run_phase_invariant NC_EDIT_OP_MERGE _ Inv (fun _ => True) hreset hmerge _ s6 _
        h5 hr with ⟨_, hi⟩ | ⟨hc1, _⟩
      · exact hi
      · exact absurd hc1 (by decide)
    refine phase_then_fuel _ _ ?_ (fun s7 _ => by simp)
    split_ifs
    · exact merge_all_fuel (f + 1) s6 h6
    · simp

/-! ## The edit document after a run -/

/-- C36. When `edit_operations` succeeds in the canonical mode with the default
operation `merge`, not set or `replace`, the edit document has no top-level
node left. -/
theorem edit_operations_consumes_edit_doc (fuel : Nat) (T E : xmlNode)
    (defop : NC_EDIT_OP_TYPE) (st : edit_state)
    (hd : defop = NC_EDIT_DEFOP_MERGE ∨ defop = NC_EDIT_DEFOP_NOTSET
      ∨ defop = NC_EDIT_DEFOP_REPLACE)
    (h : edit_operations fuel T E defop false = outcome.done (EXIT_SUCCESS, st)) :
    st.edit_doc.children = [] := by
  rcases edit_operations_canonical_done fuel T E defop EXIT_SUCCESS st h with
    ⟨_, _, _, _, h5⟩ | ⟨hc, _⟩
  · exact h5 hd
  · exact absurd hc (by decide)

theorem edit_operations_consumes_edit_doc_witness :
    edit_operations 1 (mk_doc []) doc_create_switch NC_EDIT_DEFOP_MERGE false
        = outcome.done (EXIT_SUCCESS, ⟨mk_doc [switch_with_id "br0"], mk_doc [], [], none, []⟩)
    ∧ (mk_doc []).children = [] :=
  ⟨edit_operations_create_switch 0 NC_EDIT_DEFOP_MERGE (by decide),
    edit_operations_consumes_edit_doc 1 (mk_doc []) doc_create_switch NC_EDIT_DEFOP_MERGE
      ⟨mk_doc [switch_with_id "br0"], mk_doc [], [], none, []⟩ (Or.inl rfl)
      (edit_operations_create_switch 0 NC_EDIT_DEFOP_MERGE (by decide))⟩

/-! ## Operation attributes in the stored configuration -/

/-- C37 (the code does not do this). The edit document
`<switch nc:operation="create"><id nc:operation="merge">br0</id></switch>`
applied to the empty canonical tree with the default operation `merge`: the
compaction leaves the document as it is, `edit_operations` succeeds, and the stored `id` still carries its attribute
`nc:operation`, because `edit_create` strips the attribute of the created node
only and copies its subtree as it is. -/
theorem edit_operations_keeps_nested_annotation (fuel : Nat) :
    all_nodes (fun n => !carries_operation n) (mk_doc []) = true
    ∧ compact_edit_operations doc_create_with_merge NC_EDIT_DEFOP_MERGE
        = some (EXIT_SUCCESS, doc_create_with_merge)
    ∧ edit_operations (fuel + 1) (mk_doc []) doc_create_with_merge NC_EDIT_DEFOP_MERGE false
        = outcome.done (EXIT_SUCCESS,
            ⟨mk_doc [mk_element "switch" (some ofc_ns)
                [element_with_operation "id" "merge" [mk_text "br0"]]],
              mk_doc [], [], none, []⟩)
    ∧ all_nodes (fun n => !carries_operation n)
        (mk_doc [mk_element "switch" (some ofc_ns)
          [element_with_operation "id" "merge" [mk_text "br0"]]]) = false
    ∧ xmlGetNsProp (element_with_operation "id" "merge" [mk_text "br0"]) "operation"
        NC_NS_BASE10 = some "merge" := by
  refine ⟨by decide, rfl, ?_, by decide, by decide⟩
  have hcreate : edit_create (fuel + 1) ⟨mk_doc [], doc_create_with_merge, [], none, []⟩ [0]
      false
      = outcome.done (EXIT_SUCCESS,
          ⟨mk_doc [mk_element "switch" (some ofc_ns)
              [element_with_operation "id" "merge" [mk_text "br0"]]],
            mk_doc [], [], none, [[0]]⟩) := by
    rw [edit_create_top_level fuel ⟨mk_doc [], doc_create_with_merge, [], none, []⟩
      (element_with_operation "switch" "create"
        [element_with_operation "id" "merge" [mk_text "br0"]])
      [] rfl rfl rfl]
    rfl
  unfold edit_operations
  rw [if_neg (by decide)]
  simp only []
  rw [run_phase_nil NC_EDIT_OP_DELETE _ _ (by decide)]
  simp only [phase_then, ne_eq, not_true_eq_false, if_false]
  rw [run_phase_nil NC_EDIT_OP_REMOVE _ _ (by decide)]
  simp only [phase_then, ne_eq, not_true_eq_false, if_false]
  rw [run_phase_nil NC_EDIT_OP_REPLACE _ _ (by decide)]
  simp only [phase_then, ne_eq, not_true_eq_false, if_false]
  rw [run_phase_singleton NC_EDIT_OP_CREATE _ _ _ [0] (by decide) hcreate]
  simp only [phase_then, ne_eq, not_true_eq_false, if_false]
  rw [run_phase_nil NC_EDIT_OP_MERGE _ _ (by decide)]
  simp only [phase_then, ne_eq, not_true_eq_false, if_false]
  have hmerge : merge_all (fuel + 1)
      ⟨mk_doc [mk_element "switch" (some ofc_ns)
          [element_with_operation "id" "merge" [mk_text "br0"]]], mk_doc [], [], none, []⟩
      false
      = outcome.done (EXIT_SUCCESS,
          ⟨mk_doc [mk_element "switch" (some ofc_ns)
              [element_with_operation "id" "merge" [mk_text "br0"]]],
            mk_doc [], [], none, []⟩) := by
    rw [merge_all]
    rfl
  split_ifs
  · rw [hmerge]
    rfl
  · rfl

/-! ## The failures of `edit_operations` -/

/-- The run of `edit_operations` for the edit document
`<switch nc:operation="create"><id>br0</id></switch>` on a tree whose
top-level element is the switch `br0`. -/
theorem edit_operations_create_existing_switch (fuel : Nat) :
    edit_operations (fuel + 1) (mk_doc [switch_with_id "br0"]) doc_create_switch
        NC_EDIT_DEFOP_MERGE false
      = outcome.done (EXIT_SUCCESS,
          ⟨mk_doc [switch_with_id "br0"], mk_doc [], [], none, []⟩) := by
  have hcreate : edit_create (fuel + 1)
      ⟨mk_doc [switch_with_id "br0"], doc_create_switch, [], none, []⟩ [0] false
      = outcome.done (EXIT_SUCCESS,
          ⟨mk_doc [switch_with_id "br0"], mk_doc [], [], none, [[0]]⟩) := by
    rw [edit_create_top_level fuel ⟨mk_doc [switch_with_id "br0"], doc_create_switch, [], none, []⟩
      (element_with_operation "switch" "create" [mk_element "id" (some ofc_ns) [mk_text "br0"]])
      [] rfl rfl rfl]
    rfl
  unfold edit_operations
  rw [if_neg (by decide)]
  simp only []
  rw [run_phase_nil NC_EDIT_OP_DELETE _ _ (by decide)]
  simp only [phase_then, ne_eq, not_true_eq_false, if_false]
  rw [run_phase_nil NC_EDIT_OP_REMOVE _ _ (by decide)]
  simp only [phase_then, ne_eq, not_true_eq_false, if_false]
  rw [run_phase_nil NC_EDIT_OP_REPLACE _ _ (by decide)]
  simp only [phase_then, ne_eq, not_true_eq_false, if_false]
  rw [run_phase_singleton NC_EDIT_OP_CREATE _ _ _ [0] (by decide) hcreate]
  simp only [phase_then, ne_eq, not_true_eq_false, if_false]
  rw [run_phase_nil NC_EDIT_OP_MERGE _ _ (by decide)]
  simp only [phase_then, ne_eq, not_true_eq_false, if_false]
  have hmerge : merge_all (fuel + 1) ⟨mk_doc [switch_with_id "br0"], mk_doc [], [], none, []⟩
      false
      = outcome.done (EXIT_SUCCESS,
          ⟨mk_doc [switch_with_id "br0"], mk_doc [], [], none, []⟩) := by
    rw [merge_all]
    rfl
  split_ifs
  · rw [hmerge]
    rfl
  · rfl

/-- C38, the code against the claim. The edit document
`<switch nc:operation="create"><id>br0</id></switch>` applied to a canonical
tree that holds the switch `br0` already, as its top-level element: the
equivalent exists, `edit_operations` succeeds, and the tree holds one switch
afterwards, not two: the copy has taken the place of the top-level element. -/
theorem edit_operations_create_existing_root :
    find_element_equiv (mk_doc [switch_with_id "br0"]) doc_create_switch (some [0])
        = some (some [0])
    ∧ edit_operations 1 (mk_doc [switch_with_id "br0"]) doc_create_switch
          NC_EDIT_DEFOP_MERGE false
        = outcome.done (EXIT_SUCCESS,
            ⟨mk_doc [switch_with_id "br0"], mk_doc [], [], none, []⟩)
    ∧ node_count (mk_doc [switch_with_id "br0"]) = 4 :=
  ⟨by decide, edit_operations_create_existing_switch 0, by decide⟩

/-- The equivalent of an element below an element is a child of an element. -/
theorem find_element_equiv_parent_element (orig_doc edit_doc : xmlNode) (k : Nat)
    (parent q : xmlNodePtr) (pn : xmlNode) (hp : deref edit_doc parent = some pn)
    (hpe : pn.type = xmlElementType.XML_ELEMENT_NODE)
    (h : find_element_equiv orig_doc edit_doc (some (k :: parent)) = some (some q)) :
    ∃ i P Pn, q = i :: P ∧ deref orig_doc P = some Pn ∧ i < Pn.children.length
      ∧ Pn.type = xmlElementType.XML_ELEMENT_NODE
      ∧ find_element_equiv orig_doc edit_doc (some parent) = some (some P) := by
  obtain ⟨i, P, Pn, r, hq, hP, hi, _, _, hnd, _⟩ :=
    find_element_equiv_cons_inv orig_doc edit_doc k parent q pn hp h
  have hfp := hnd (by rw [hpe]; decide)
  refine ⟨i, P, Pn, hq, hP, hi, ?_, hfp⟩
  cases parent with
  | nil => simp [find_element_equiv, find_element_equiv_ptr] at hfp
  | cons k2 pp =>
    obtain ⟨ppn, hppn, _⟩ := deref_parent edit_doc k2 pp pn hp
    obtain ⟨i2, P2, Pn2, r2, hq2, hP2, hi2, hm2, hr2, _, _⟩ :=
      find_element_equiv_cons_inv orig_doc edit_doc k2 pp P ppn hppn hfp
    rw [hq2] at hP
    exact (matching_elements_nonzero_element edit_doc orig_doc (k2 :: pp) (i2 :: P2) pn Pn r2
      hp hP hpe hm2 hr2).1

/-! ## Termination -/

/-- C39. In the canonical mode `edit_operations` on a tree `T` and an edit
document `E` ends, by a return or a fault, within any fuel that is at least the
number of nodes of `T` and more than the number of top-level nodes of `E`. The
measures of its loops: `edit_delete` on an equivalent takes at least one node
out of the tree, and `edit_replace` and `edit_merge` on the first top-level
node of the edit document take that node out of it. The recursion of
`find_element_equiv` on a node below an element is one call on its parent,
whose pointer is shorter by one. -/
theorem edit_operations_terminates (fuel : Nat) (T E : xmlNode) (defop : NC_EDIT_OP_TYPE)
    (hE : E.type = xmlElementType.XML_DOCUMENT_NODE) (hT : node_count T ≤ fuel)
    (hlen : E.children.length < fuel) :
    edit_operations fuel T E defop false ≠ outcome.out_of_fuel
    ∧ (∀ (s s2 : edit_state) (e q : xmlNodePtr) (c : Int),
        find_element_equiv s.orig_doc s.edit_doc (some e) = some (some q) →
        edit_delete_orig s (some q) false = some (c, s2) →
        node_count s2.orig_doc < node_count s.orig_doc)
    ∧ (∀ (f : Nat) (s s2 : edit_state) (c : Int),
        edit_replace f s (some [0]) false = outcome.done (c, s2) →
        s2.edit_doc.children.length + 1 = s.edit_doc.children.length)
    ∧ (∀ (f : Nat) (s s2 : edit_state) (c : Int),
        edit_merge f s [0] false = outcome.done (c, s2) →
        s2.edit_doc.children.length + 1 = s.edit_doc.children.length)
    ∧ (∀ (k : Nat) (parent : xmlNodePtr) (pn : xmlNode),
        deref E parent = some pn → pn.type ≠ xmlElementType.XML_DOCUMENT_NODE →
        find_element_equiv T E (some (k :: parent))
          = match find_element_equiv T E (some parent) with
            | none => none
            | some none => some none
            | some (some orig_parent) =>
              match deref T orig_parent with
              | none => none
              | some opn =>
                find_element_equiv_scan T E (k :: parent) orig_parent opn.children 0) := by
  refine ⟨edit_operations_canonical_fuel fuel T E defop hE hT hlen, ?_, ?_, ?_, ?_⟩
  · intro s s2 e q c hf hd
    obtain ⟨_, _, n, _, hq⟩ := find_element_equiv_deref _ _ _ _ hf
    obtain ⟨_, _, _, _, _, hu⟩ := edit_delete_orig_canonical s s2 q c hd
    exact xmlUnlinkNode_count_lt _ q n _ hq hu
  · intro f s s2 c h
    exact (edit_replace_canonical_done f s s2 [0] c h).2.2.2.2.2 rfl
  · intro f s s2 c h
    exact (edit_merge_canonical_done f s s2 [0] c h).2.2.2.2.2 rfl
  · intro k parent pn hp hty
    simp only [find_element_equiv]
    conv_lhs => rw [find_element_equiv_ptr]
    simp only [hp, ne_eq, hty, not_false_eq_true, if_true]

theorem edit_operations_terminates_witness :
    edit_operations 2 (mk_doc []) doc_create_switch NC_EDIT_DEFOP_MERGE false
      ≠ outcome.out_of_fuel :=
  (edit_operations_terminates 2 (mk_doc []) doc_create_switch NC_EDIT_DEFOP_MERGE rfl
    (by decide) (by decide)).1

/-! ## `nc_clrwspace`: fixed points and idempotence -/

theorem CBuf.toString_head (r : CBuf) : (CBuf.toString r).data.head? = r.at 0 := by
  unfold CBuf.toString CBuf.at
  cases r with
  | nil => simp
  | cons x xs =>
    cases x with
    | none => simp [List.takeWhile]
    | some c => simp [List.takeWhile]

theorem nc_clrwspace_first_cell (s : String) :
    cell_isspace ((strdup (nc_clrwspace s)).at 0) = false := by
  rw [strdup_at]
  have hhead : (nc_clrwspace s).data.get? 0 = (nc_clrwspace s).data.head? := by
    cases (nc_clrwspace s).data <;> rfl
  rw [hhead]
  unfold nc_clrwspace
  simp only []
  rw [CBuf.toString_head]
  by_cases hws : cell_isspace ((strdup s).at 0) = true
  · have hlen : 1 ≤ s.length := by
      rw [strdup_at] at hws
      cases hd : s.data with
      | nil => rw [hd] at hws; simp [cell_isspace] at hws
      | cons x xs => simp [String.length, hd]
    rw [if_pos hws]
    obtain ⟨n, hn⟩ : ∃ n, s.length = n + 1 := ⟨s.length - 1, by omega⟩
    have hfirst : (leading_loop s.length s.length (strdup s) 0 0).1.at 0
        = (strdup s).at (skip_isspace (strdup s) (strdup s).length 0) := by
      rw [hn]
      unfold leading_loop
      rw [if_pos (by omega)]
      simp only []
      rw [leading_loop_at_zero _ _ _ _ _ (Nat.le_refl 1)]
      unfold CBuf.at
      have hpos : 0 < (strdup s).length := by simp [strdup]
      simp [List.getD_eq_getElem?_getD, hpos]
    have hnot : cell_isspace ((leading_loop s.length s.length (strdup s) 0 0).1.at 0) = false := by
      rw [hfirst]
      exact skip_isspace_stop _ _ _ (by omega)
    rw [trailing_loop_at_zero _ _ _ hnot]
    exact hnot
  · have hws2 : cell_isspace ((strdup s).at 0) = false := by simpa using hws
    rw [if_neg hws]
    simp only []
    rw [trailing_loop_at_zero _ _ _ hws2]
    exact hws2

theorem nc_clrwspace_unchanged (s : String) (h : cell_isspace ((strdup s).at 0) = false) :
    nc_clrwspace s = s := by
  unfold nc_clrwspace
  simp only []
  have hne : ¬ cell_isspace ((strdup s).at 0) = true := by simp [h]
  rw [if_neg hne]
  simp only []
  unfold trailing_loop
  have hc : ¬ ((0 : Int) ≤ ((0 : Nat) : Int) ∧
      cell_isspace ((strdup s).at ((0 : Nat) : Int).toNat) = true) := by
    intro hx
    have := hx.2
    simp at this
    rw [h] at this
    exact Bool.noConfusion this
  rw [if_neg hc]
  exact strdup_toString s

/-- C40. `nc_clrwspace` returns its input unchanged when the first character
of the input is no white space (so trailing white space stays), the first
character of its output is never white space, and it is idempotent. -/
theorem nc_clrwspace_idempotent (s : String) :
    ((∀ c, s.data.head? = some c → isspace c = false) → nc_clrwspace s = s)
    ∧ (∀ c, (nc_clrwspace s).data.head? = some c → isspace c = false)
    ∧ nc_clrwspace (nc_clrwspace s) = nc_clrwspace s := by
  have hcell : ∀ t : String, cell_isspace ((strdup t).at 0) = false
      ↔ ∀ c, t.data.head? = some c → isspace c = false := by
    intro t
    rw [strdup_at]
    cases t.data with
    | nil => simp [cell_isspace]
    | cons x xs => simp [cell_isspace]
  refine ⟨fun h => nc_clrwspace_unchanged s ((hcell s).2 h), ?_, ?_⟩
  · exact (hcell _).1 (nc_clrwspace_first_cell s)
  · exact nc_clrwspace_unchanged _ (nc_clrwspace_first_cell s)

theorem nc_clrwspace_idempotent_witness :
    nc_clrwspace "ab \t" = "ab \t"
    ∧ nc_clrwspace " a b " = "ab"
    ∧ nc_clrwspace (nc_clrwspace " a b ") = nc_clrwspace " a b " :=
  ⟨(nc_clrwspace_idempotent "ab \t").1 (by decide), by decide,
    (nc_clrwspace_idempotent " a b ").2.2⟩

/-! ## Stored copies -/

/-- The node `edit_create` stores is a copy of the edit node without its
operation attribute. -/
theorem deep_copy_of_stored (n : xmlNode) :
    deep_copy_of
      (xmlCopyNode_deep (nc_clear_namespaces (remove_ns_prop n "operation" NC_NS_BASE10)))
      (remove_ns_prop n "operation" NC_NS_BASE10) := by
  unfold xmlCopyNode_deep nc_clear_namespaces deep_copy_of
  split_ifs <;> simp

/-- The copy that `edit_create` stores, without `xmlCopyNode_deep` spelled out. -/
theorem deep_copy_of_cleared (n : xmlNode) :
    deep_copy_of (nc_clear_namespaces (remove_ns_prop n "operation" NC_NS_BASE10))
      (remove_ns_prop n "operation" NC_NS_BASE10) :=
  deep_copy_of_stored n

/-! ## Faults of `edit_create` and the top-level case -/

/-- On an element of a well-formed edit document `edit_create_r` faults only
when the lookup of the equivalent of that element faults. -/
theorem edit_create_r_none (E T : xmlNode) (p : xmlNodePtr) (a : xmlNode)
    (hE : E.type = xmlElementType.XML_DOCUMENT_NODE)
    (ha : deref E p = some a) (hat : a.type = xmlElementType.XML_ELEMENT_NODE)
    (hanc : ∀ b ∈ element_ancestors E p, b.type = xmlElementType.XML_ELEMENT_NODE)
    (h : edit_create_r E T p = none) :
    find_element_equiv T E (some p) = none := by
  induction p generalizing a with
  | nil => rfl
  | cons k parent ih =>
    cases hf : find_element_equiv T E (some (k :: parent)) with
    | none => rfl
    | some r =>
      exfalso
      cases r with
      | some q =>
        rw [edit_create_r_found E T _ q hf] at h
        exact nomatch h
      | none =>
        obtain ⟨pn, hpn, hk⟩ := deref_parent E k parent a ha
        cases parent with
        | nil =>
          simp only [deref, Option.some.injEq] at hpn
          subst hpn
          rw [edit_create_r, hf] at h
          simp only [deref, hk, hE, if_true] at h
          exact nomatch h
        | cons k2 pp =>
          have hmem := element_ancestors_mem E k k2 pp pn hpn
          have hpt : pn.type = xmlElementType.XML_ELEMENT_NODE := hanc pn hmem.1
          have hpnd : pn.type ≠ xmlElementType.XML_DOCUMENT_NODE := by rw [hpt]; decide
          rcases edit_create_r_spec E T (k2 :: pp) pn hE hpn hpt
              (fun b hb => hanc b (hmem.2 b hb)) with hnone |
            ⟨T1, par1, parn1, hr, hd1, ht1, _⟩
          · have hpar := ih pn hpn hpt (fun b hb => hanc b (hmem.2 b hb)) hnone
            simp only [find_element_equiv] at hf hpar
            rw [find_element_equiv_ptr] at hf
            simp only [hpn, ne_eq, hpnd, not_false_eq_true, if_true, hpar] at hf
            exact nomatch hf
          · have hsh := xmlCopyNode_shallow_fields a
            have hst : (xmlCopyNode_shallow a).type = xmlElementType.XML_ELEMENT_NODE := by
              rw [hsh.1, hat]
            have hadd := xmlAddChild_element T1 par1 parn1 (xmlCopyNode_shallow a) hd1 ht1 hst
            obtain ⟨T3, hT3⟩ := replace_node_isSome T1 par1 parn1
              (set_children parn1 (parn1.children ++ [xmlCopyNode_shallow a])) hd1
            rw [hT3, Option.map_some'] at hadd
            have hdpar := deref_replace_node_self T1 par1 _ T3 hT3
            have hdret : deref T3 (parn1.children.length :: par1)
                = some (xmlCopyNode_shallow a) := by
              simp [deref, hdpar, set_children]
            obtain ⟨T4, hT4⟩ := replace_node_isSome T3 (parn1.children.length :: par1)
              (xmlCopyNode_shallow a)
              (create_r_set_ns (xmlCopyNode_shallow a) a.ns parn1.ns) hdret
            rw [edit_create_r, hf] at h
            simp only [ha, hpn, hpnd, if_false, hr, hadd, hd1, hdret, hT4] at h
            exact nomatch h

/-- The lookup of the equivalent of a node faults when the lookup for its
parent, an element, does. -/
theorem find_element_equiv_fault_of_parent (T E : xmlNode) (k : Nat) (parent : xmlNodePtr)
    (pn : xmlNode) (hpn : deref E parent = some pn)
    (hpnd : pn.type ≠ xmlElementType.XML_DOCUMENT_NODE)
    (h : find_element_equiv T E (some parent) = none) :
    find_element_equiv T E (some (k :: parent)) = none := by
  simp only [find_element_equiv] at h ⊢
  rw [find_element_equiv_ptr]
  simp only [hpn, ne_eq, hpnd, not_false_eq_true, if_true, h]

/-- The function `edit_create_r` faults when the lookup of the equivalent of
its node faults. -/
theorem edit_create_r_fault (E T : xmlNode) (p : xmlNodePtr)
    (h : find_element_equiv T E (some p) = none) : edit_create_r E T p = none := by
  cases p with
  | nil => rfl
  | cons k parent => rw [edit_create_r, h]

/-- In the canonical mode `edit_create` on a top-level element `n0` of the
edit document puts a copy of `n0`, without the operation attribute and without
the namespace declarations nothing in it uses, at the place of the first
top-level element of the original document (after its top-level nodes when it
has no element) and unlinks `n0` from the edit document. -/
theorem edit_create_top (fuel : Nat) (st : edit_state) (k : Nat) (n0 : xmlNode)
    (hEt : st.edit_doc.type = xmlElementType.XML_DOCUMENT_NODE)
    (hn : deref st.edit_doc [k] = some n0)
    (hT : st.orig_doc.type = xmlElementType.XML_DOCUMENT_NODE) :
    ∃ edit3, xmlUnlinkNode st.edit_doc [k] = some edit3
      ∧ edit_create (fuel + 1) st [k] false
        = outcome.done (EXIT_SUCCESS,
            ⟨(xmlDocSetRootElement st.orig_doc
                (nc_clear_namespaces (remove_ns_prop n0 "operation" NC_NS_BASE10))).1,
              edit3, st.calls, st.error, st.unlinked ++ [[k]]⟩) := by
  obtain ⟨edit2, he2⟩ := replace_node_isSome st.edit_doc [k] n0
    (nc_clear_namespaces (remove_ns_prop n0 "operation" NC_NS_BASE10)) hn
  obtain ⟨edit3, he3⟩ := xmlUnlinkNode_isSome st.edit_doc k [] n0 hn
  have hu2 : xmlUnlinkNode edit2 [k] = some edit3 := by
    rw [xmlUnlinkNode_replace_node st.edit_doc [k] _ edit2 he2 (by simp), he3]
  have hd : deref st.edit_doc [] = some st.edit_doc := rfl
  refine ⟨edit3, he3, ?_⟩
  rw [edit_create]
  simp only [hn, parent_ptr, he2, hd, Bool.false_eq_true, if_false, ne_eq, hEt,
    not_true_eq_false, hT, if_true, edit_create_finish, edit_delete_edit, hu2, xmlCopyNode_deep]

/-- In the canonical mode `edit_create` on a node below an element faults when
`edit_create_r` faults on the parent. -/
theorem edit_create_fault (fuel : Nat) (st : edit_state) (k : Nat) (parent : xmlNodePtr)
    (n0 pn : xmlNode)
    (hn : deref st.edit_doc (k :: parent) = some n0)
    (hpn : deref st.edit_doc parent = some pn)
    (hpt : pn.type ≠ xmlElementType.XML_DOCUMENT_NODE)
    (hr : edit_create_r st.edit_doc st.orig_doc parent = none) :
    edit_create (fuel + 1) st (k :: parent) false = outcome.fault := by
  obtain ⟨edit2, he2⟩ := replace_node_isSome st.edit_doc (k :: parent) n0
    (nc_clear_namespaces (remove_ns_prop n0 "operation" NC_NS_BASE10)) hn
  have hview := strip_same_view st.edit_doc (k :: parent) n0 edit2 hn he2
  have hr2 : edit_create_r edit2 st.orig_doc parent = none := by
    rw [edit_create_r_same_view st.edit_doc edit2 hview, hr]
  rw [edit_create]
  simp only [hn, parent_ptr, he2, hpn, Bool.false_eq_true, if_false, ne_eq, hpt,
    not_false_eq_true, if_true, hr2]

/-- The top-level nodes after `xmlDocSetRootElement` with a new root that is an
element: the new root is at the place of the first top-level element, or
after the top-level nodes when none is an element. -/
theorem xmlDocSetRootElement_children (T c : xmlNode)
    (hc : c.type = xmlElementType.XML_ELEMENT_NODE) :
    (∀ i, first_element_index T.children 0 = some i →
        i < T.children.length
        ∧ (xmlDocSetRootElement T c).1.children = T.children.set i c
        ∧ (xmlDocSetRootElement T c).2 = [i])
      ∧ (first_element_index T.children 0 = none →
        (xmlDocSetRootElement T c).1.children = T.children ++ [c]
        ∧ (xmlDocSetRootElement T c).2 = [T.children.length]) := by
  unfold xmlDocSetRootElement
  constructor
  · intro i hf
    have hi := first_element_index_spec T.children 0 i hf
    simp only [Nat.sub_zero] at hi
    refine ⟨hi.2, ?_, ?_⟩ <;> simp [hf, set_children]
  · intro hf
    simp only [hf]
    cases hch : T.children with
    | nil => simp [set_children]
    | cons c0 rest =>
      have hnt : ¬ (c0.type = xmlElementType.XML_TEXT_NODE
          ∧ c.type = xmlElementType.XML_TEXT_NODE ∧ c0.name = c.name) := by
        rw [hc]
        intro h
        exact absurd h.2.1 (by decide)
      simp [hnt, set_children]

/-! ## Unlinking a sibling -/

/-- A phase whose node set has one entry faults when its body faults on that
entry. -/
theorem run_phase_singleton_fault (op : NC_EDIT_OP_TYPE)
    (body : edit_state → xmlNodePtr → outcome (Int × edit_state)) (st : edit_state)
    (p : xmlNodePtr)
    (h : get_operation_elements op st.edit_doc = some [p])
    (hb : body ⟨st.orig_doc, st.edit_doc, st.calls, st.error, []⟩ p = outcome.fault) :
    run_phase op body st = outcome.fault := by
  unfold run_phase
  rw [h]
  simp only [phase_loop, ptr_after_unlinks, List.foldl, hb]

/-- Once a node is unlinked, a sibling of it is found one position down when
it came after the node, and where it was when it came before. -/
theorem deref_xmlUnlinkNode_sibling (doc : xmlNode) (i j : Nat) (par : xmlNodePtr)
    (pn d : xmlNode) (hp : deref doc par = some pn)
    (h : xmlUnlinkNode doc (i :: par) = some d) (hij : i ≠ j) :
    deref d ((if j < i then j else j - 1) :: par) = deref doc (j :: par) := by
  obtain ⟨hd, _⟩ := deref_xmlUnlinkNode_parent doc i par pn d hp h
  simp only [deref, hd, hp, set_children, List.get?_eq_getElem?]
  by_cases hlt : j < i
  · rw [if_pos hlt, List.getElem?_eraseIdx_of_lt _ _ _ hlt]
  · rw [if_neg hlt, List.getElem?_eraseIdx_of_ge _ _ _ (by omega)]
    congr 1
    omega

/-- Replacing a node by a node of the same type leaves the types of the nodes
on the way to it as they were. -/
theorem element_ancestors_replace_node (doc : xmlNode) (q : xmlNodePtr) (n m d : xmlNode)
    (hn : deref doc q = some n) (h : replace_node doc q m = some d) (ht : m.type = n.type)
    (k : Nat) :
    (element_ancestors d (k :: q)).map (fun b => b.type)
      = (element_ancestors doc (k :: q)).map (fun b => b.type) := by
  induction q generalizing n m k with
  | nil => rfl
  | cons k2 pp ih =>
    obtain ⟨pn, hpn, hk⟩ := deref_parent doc k2 pp n hn
    have hlt := get?_lt _ _ _ hk
    have hself := deref_replace_node_self doc (k2 :: pp) m d h
    rw [element_ancestors_cons d k k2 pp m hself, element_ancestors_cons doc k k2 pp n hn]
    simp only [replace_node, hpn, hlt, if_true] at h
    simp only [List.map_cons, ht]
    congr 1
    exact ih pn _ hpn h rfl k2

/-- Unlinking a node leaves the types of its ancestors as they were. -/
theorem element_ancestors_xmlUnlinkNode (doc : xmlNode) (i j : Nat) (par : xmlNodePtr)
    (pn d : xmlNode) (hp : deref doc par = some pn)
    (h : xmlUnlinkNode doc (i :: par) = some d) :
    (element_ancestors d (j :: par)).map (fun b => b.type)
      = (element_ancestors doc (j :: par)).map (fun b => b.type) := by
  obtain ⟨_, hrep⟩ := deref_xmlUnlinkNode_parent doc i par pn d hp h
  exact element_ancestors_replace_node doc par pn _ d hp hrep rfl j

/-! ## Node sets and unlinked nodes -/

/-- Two pointers that end in the same way after tails of the same length end
in the same index. -/
theorem ptr_append_inj (u1 u2 : xmlNodePtr) (k a : Nat) (b : xmlNodePtr)
    (h : u1 ++ k :: b = u2 ++ a :: b) : u1 = u2 ∧ k = a := by
  have hlen : u1.length = u2.length := by
    have := congrArg List.length h
    simp only [List.length_append, List.length_cons] at this
    omega
  have h2 := List.append_inj h hlen
  exact ⟨h2.1, (List.cons.inj h2.2).1⟩

/-- A pointer is not a proper tail of itself. -/
theorem ptr_append_ne (t b : xmlNodePtr) (ht : t ≠ []) : t ++ b ≠ b := by
  intro h
  have := congrArg List.length h
  simp only [List.length_append] at this
  have hpos : 0 < t.length := List.length_pos.2 ht
  omega

/-- Unlinking a node leaves the pointers of its ancestors as they are. -/
theorem ptr_after_unlink_ancestor (t b : xmlNodePtr) (ht : t ≠ []) :
    ptr_after_unlink (t ++ b) b = some b := by
  induction b generalizing t with
  | nil => rfl
  | cons j q ih =>
    have h1 : j :: q ≠ t ++ j :: q := fun h => ptr_append_ne t (j :: q) ht h.symm
    have hstep : t ++ j :: q = (t ++ [j]) ++ q := by simp
    cases t with
    | nil => exact absurd rfl ht
    | cons k t2 =>
      have h2 : q ≠ t2 ++ j :: q := by
        intro h
        have := congrArg List.length h
        simp only [List.length_append, List.length_cons] at this
        omega
      have hrec : ptr_after_unlink (k :: t2 ++ j :: q) q = some q := by
        rw [hstep]
        exact ih (k :: t2 ++ [j]) (by simp)
      simp only [List.cons_append] at hrec h1 ⊢
      rw [ptr_after_unlink]
      simp only [h1, if_false, h2, hrec]

/-- Unlinking a node frees the nodes of its subtree. -/
theorem ptr_after_unlink_inside (u : xmlNodePtr) (a : Nat) (b : xmlNodePtr) :
    ptr_after_unlink (a :: b) (u ++ a :: b) = none := by
  induction u with
  | nil => simp [ptr_after_unlink]
  | cons j u2 ih =>
    have h1 : j :: (u2 ++ a :: b) ≠ a :: b := by
      intro h
      have := congrArg List.length h
      simp only [List.length_append, List.length_cons] at this
      omega
    have h2 : u2 ++ a :: b ≠ b := by
      intro h
      have := congrArg List.length h
      simp only [List.length_append, List.length_cons] at this
      omega
    rw [List.cons_append, ptr_after_unlink]
    simp only [h1, if_false, h2, ih]

/-- Unlinking a node moves the pointers into the subtrees of its later
siblings one position down and leaves those into the earlier ones. -/
theorem ptr_after_unlink_sibling (u : xmlNodePtr) (a k : Nat) (b : xmlNodePtr) (hk : k ≠ a) :
    ptr_after_unlink (a :: b) (u ++ k :: b)
      = some (u ++ (if a < k then k - 1 else k) :: b) := by
  induction u with
  | nil =>
    have h1 : k :: b ≠ a :: b := fun h => hk (List.cons.inj h).1
    simp only [List.nil_append, ptr_after_unlink, h1, if_false, if_true]
    split_ifs <;> rfl
  | cons j u2 ih =>
    have h1 : j :: (u2 ++ k :: b) ≠ a :: b := by
      intro h
      have := congrArg List.length h
      simp only [List.length_append, List.length_cons] at this
      omega
    have h2 : u2 ++ k :: b ≠ b := by
      intro h
      have := congrArg List.length h
      simp only [List.length_append, List.length_cons] at this
      omega
    rw [List.cons_append, ptr_after_unlink]
    simp only [h1, if_false, h2, ih, List.cons_append]

/-- Unlinking a node below the child at `a` leaves the pointers into the
subtrees of the other children as they are. -/
theorem ptr_after_unlink_other (t u : xmlNodePtr) (a k : Nat) (b : xmlNodePtr) (ht : t ≠ [])
    (hk : k ≠ a) :
    ptr_after_unlink (t ++ a :: b) (u ++ k :: b) = some (u ++ k :: b) := by
  obtain ⟨i, t2, rfl⟩ : ∃ i t2, t = i :: t2 := by
    cases t with
    | nil => exact absurd rfl ht
    | cons i t2 => exact ⟨i, t2, rfl⟩
  induction u with
  | nil =>
    have h1 : k :: b ≠ i :: t2 ++ a :: b := by
      intro h
      have := congrArg List.length h
      simp only [List.length_append, List.length_cons] at this
      omega
    have h2 : b ≠ t2 ++ a :: b := by
      intro h
      have := congrArg List.length h
      simp only [List.length_append, List.length_cons] at this
      omega
    have hrec : ptr_after_unlink (i :: t2 ++ a :: b) b = some b := by
      have := ptr_after_unlink_ancestor (i :: t2 ++ [a]) b (by simp)
      simpa using this
    simp only [List.cons_append, List.nil_append] at hrec h1 ⊢
    rw [ptr_after_unlink]
    simp only [h1, if_false, h2, hrec]
  | cons j u2 ih =>
    have h1 : j :: (u2 ++ k :: b) ≠ i :: t2 ++ a :: b := by
      intro h
      have h3 : (j :: u2) ++ k :: b = (i :: t2) ++ a :: b := by simpa using h
      exact hk (ptr_append_inj _ _ _ _ _ h3).2
    have h2 : u2 ++ k :: b ≠ t2 ++ a :: b := fun h => hk (ptr_append_inj _ _ _ _ _ h).2
    simp only [List.cons_append] at ih h1 ⊢
    rw [ptr_after_unlink]
    simp only [h1, if_false, h2, ih]

/-- The node set of a subtree, by its root and its children. -/
theorem xpath_operation_eq (s : String) (n : xmlNode) (p : xmlNodePtr) :
    xpath_operation s n p
      = (if n.type = xmlElementType.XML_ELEMENT_NODE ∧ has_operation_attr s n = true then [p]
          else []) ++ xpath_operation_list s n.children p 0 := by
  cases n
  rw [xpath_operation]

mutual
/-- The node set of a subtree at a pointer is the node set of the subtree with
the pointer of its root appended. -/
theorem xpath_operation_rebase (s : String) (n : xmlNode) (p : xmlNodePtr) :
    xpath_operation s n p = (xpath_operation s n []).map (fun u => u ++ p) := by
  match n with
  | ⟨type, name, ns, nsDef, properties, content, children⟩ =>
    rw [xpath_operation_eq s _ p, xpath_operation_eq s _ []]
    simp only [List.map_append]
    rw [xpath_operation_list_rebase s children p 0]
    congr 1
    split_ifs <;> rfl
/-- The same for a list of subtrees. -/
theorem xpath_operation_list_rebase (s : String) (l : List xmlNode) (p : xmlNodePtr) (i : Nat) :
    xpath_operation_list s l p i = (xpath_operation_list s l [] i).map (fun u => u ++ p) := by
  match l with
  | [] => rfl
  | c :: rest =>
    rw [xpath_operation_list, xpath_operation_list, List.map_append,
      xpath_operation_list_rebase s rest p (i + 1), xpath_operation_rebase s c (i :: p),
      xpath_operation_rebase s c [i], List.map_map]
    congr 1
    apply List.map_congr_left
    intro u _
    simp
end

/-- The test of the operation attribute does not look at the children. -/
theorem has_operation_attr_set_children (s : String) (n : xmlNode) (l : List xmlNode) :
    has_operation_attr s (set_children n l) = has_operation_attr s n := rfl

/-- Replacing a node below the child at `a`, seen from the child. -/
theorem replace_node_append (n : xmlNode) (q : xmlNodePtr) (a : Nat) (m : xmlNode) :
    replace_node n (q ++ [a]) m
      = (n.children.get? a).bind (fun ch =>
          (replace_node ch q m).map (fun ch2 => set_children n (n.children.set a ch2))) := by
  induction q generalizing m with
  | nil =>
    simp only [List.nil_append, replace_node, deref]
    by_cases hlt : a < n.children.length
    · simp [hlt, List.get?_eq_get, set_children]
    · have hnone : n.children.get? a = none := List.get?_eq_none.2 (Nat.le_of_not_lt hlt)
      simp only [hlt, if_false, hnone, Option.none_bind]
  | cons k q2 ih =>
    rw [List.cons_append, replace_node, deref_append]
    cases ha : n.children.get? a with
    | none => simp
    | some ch =>
      simp only [Option.some_bind]
      rw [replace_node]
      cases hd : deref ch q2 with
      | none => simp
      | some pn =>
        simp only []
        by_cases hlt : k < pn.children.length
        · simp only [hlt, if_true]
          rw [ih, ha]
          rfl
        · simp [hlt]

/-- Unlinking a node below the child at `a`, seen from the child. -/
theorem xmlUnlinkNode_append (n : xmlNode) (k : Nat) (t : xmlNodePtr) (a : Nat) :
    xmlUnlinkNode n (k :: t ++ [a])
      = (n.children.get? a).bind (fun ch =>
          (xmlUnlinkNode ch (k :: t)).map
            (fun ch2 => set_children n (n.children.set a ch2))) := by
  rw [List.cons_append, xmlUnlinkNode, deref_append]
  cases ha : n.children.get? a with
  | none => simp
  | some ch =>
    simp only [Option.some_bind]
    rw [xmlUnlinkNode]
    cases hd : deref ch t with
    | none => simp
    | some pn =>
      simp only []
      by_cases hlt : k < pn.children.length
      · simp only [hlt, if_true]
        rw [replace_node_append, ha]
        rfl
      · simp [hlt]

/-- The node set of the subtree of an unlinked node is freed. -/
theorem xpath_operation_unlinked (s : String) (x : xmlNode) (a : Nat) (b : xmlNodePtr) :
    (xpath_operation s x (a :: b)).filterMap (ptr_after_unlink (a :: b)) = [] := by
  rw [xpath_operation_rebase, List.filterMap_map, List.filterMap_eq_nil_iff]
  intro u _
  exact ptr_after_unlink_inside u a b

/-- The node set of the subtree of a sibling of an unlinked node, after the
unlink. -/
theorem xpath_operation_sibling (s : String) (x : xmlNode) (a k : Nat) (b : xmlNodePtr)
    (hk : k ≠ a) :
    (xpath_operation s x (k :: b)).filterMap (ptr_after_unlink (a :: b))
      = xpath_operation s x ((if a < k then k - 1 else k) :: b) := by
  rw [xpath_operation_rebase, xpath_operation_rebase s x (_ :: b), List.filterMap_map,
    ← List.filterMap_eq_map]
  apply List.filterMap_congr
  intro u _
  exact ptr_after_unlink_sibling u a k b hk

/-- The node set of a subtree beside the one in which a node is unlinked. -/
theorem xpath_operation_other (s : String) (x : xmlNode) (t : xmlNodePtr) (a k : Nat)
    (b : xmlNodePtr) (ht : t ≠ []) (hk : k ≠ a) :
    (xpath_operation s x (k :: b)).filterMap (ptr_after_unlink (t ++ a :: b))
      = xpath_operation s x (k :: b) := by
  rw [xpath_operation_rebase, List.filterMap_map]
  conv_rhs => rw [← List.map_id ((xpath_operation s x []).map fun u => u ++ k :: b)]
  rw [List.map_map, ← List.filterMap_eq_map]
  apply List.filterMap_congr
  intro u _
  exact ptr_after_unlink_other t u a k b ht hk

/-- The node set of the children after an unlinked child moves one position
down. -/
theorem xpath_operation_list_after (s : String) (l : List xmlNode) (a : Nat) (b : xmlNodePtr)
    (i0 : Nat) (h : a < i0) :
    (xpath_operation_list s l b i0).filterMap (ptr_after_unlink (a :: b))
      = xpath_operation_list s l b (i0 - 1) := by
  induction l generalizing i0 with
  | nil => rfl
  | cons x xs ih =>
    rw [xpath_operation_list, xpath_operation_list, List.filterMap_append,
      ih (i0 + 1) (by omega), xpath_operation_sibling s x a i0 b (by omega), if_pos h]
    have h1 : i0 + 1 - 1 = i0 - 1 + 1 := by omega
    rw [h1]

/-- The node set of a list of children one of which is unlinked. -/
theorem xpath_operation_list_eraseIdx (s : String) (l : List xmlNode) (r : Nat)
    (b : xmlNodePtr) (i0 : Nat) (h : r < l.length) :
    (xpath_operation_list s l b i0).filterMap (ptr_after_unlink ((i0 + r) :: b))
      = xpath_operation_list s (l.eraseIdx r) b i0 := by
  induction l generalizing i0 r with
  | nil => simp at h
  | cons x xs ih =>
    rw [xpath_operation_list, List.filterMap_append]
    cases r with
    | zero =>
      rw [Nat.add_zero, xpath_operation_unlinked, List.nil_append, List.eraseIdx_cons_zero,
        xpath_operation_list_after s xs i0 b (i0 + 1) (by omega)]
      rfl
    | succ r2 =>
      simp only [List.length_cons] at h
      rw [List.eraseIdx_cons_succ, xpath_operation_list,
        xpath_operation_sibling s x (i0 + (r2 + 1)) i0 b (by omega), if_neg (by omega)]
      have h1 : i0 + (r2 + 1) = i0 + 1 + r2 := by omega
      rw [h1, ih r2 (i0 + 1) (by omega)]

/-- The node set of a list of children beside the subtree in which a node is
unlinked stays. -/
theorem xpath_operation_list_other (s : String) (l : List xmlNode) (t : xmlNodePtr) (a : Nat)
    (b : xmlNodePtr) (i0 : Nat) (ht : t ≠ []) (h : a < i0 ∨ i0 + l.length ≤ a) :
    (xpath_operation_list s l b i0).filterMap (ptr_after_unlink (t ++ a :: b))
      = xpath_operation_list s l b i0 := by
  induction l generalizing i0 with
  | nil => rfl
  | cons x xs ih =>
    simp only [List.length_cons] at h
    rw [xpath_operation_list, List.filterMap_append, ih (i0 + 1) (by omega),
      xpath_operation_other s x t a i0 b ht (by omega)]

/-- The node set of a list of children in one of which a node is unlinked. -/
theorem xpath_operation_list_set (s : String) (l : List xmlNode) (t : xmlNodePtr) (r : Nat)
    (b : xmlNodePtr) (i0 : Nat) (ch ch2 : xmlNode) (ht : t ≠ [])
    (hr : l.get? r = some ch)
    (hch : xpath_operation s ch2 ((i0 + r) :: b)
      = (xpath_operation s ch ((i0 + r) :: b)).filterMap
          (ptr_after_unlink (t ++ (i0 + r) :: b))) :
    (xpath_operation_list s l b i0).filterMap (ptr_after_unlink (t ++ (i0 + r) :: b))
      = xpath_operation_list s (l.set r ch2) b i0 := by
  induction l generalizing i0 r with
  | nil => simp at hr
  | cons x xs ih =>
    rw [xpath_operation_list, List.filterMap_append]
    cases r with
    | zero =>
      simp only [List.get?_cons_zero, Option.some.injEq] at hr
      subst hr
      rw [List.set_cons_zero, xpath_operation_list]
      simp only [Nat.add_zero] at hch ⊢
      rw [← hch, xpath_operation_list_other s xs t i0 b (i0 + 1) ht (by omega)]
    | succ r2 =>
      simp only [List.get?_cons_succ] at hr
      have h1 : i0 + (r2 + 1) = i0 + 1 + r2 := by omega
      rw [List.set_cons_succ, xpath_operation_list,
        xpath_operation_other s x t (i0 + (r2 + 1)) i0 b ht (by omega)]
      rw [h1] at hch ⊢
      rw [ih r2 (i0 + 1) hr hch]

/-- The node set of a subtree after a node of it was unlinked: the node set
before the call, with the pointers into the unlinked subtree dropped and the
others translated. -/
theorem xpath_operation_xmlUnlinkNode (s : String) (q : xmlNodePtr) (n n2 : xmlNode)
    (b : xmlNodePtr) (h : xmlUnlinkNode n q = some n2) :
    xpath_operation s n2 b = (xpath_operation s n b).filterMap (ptr_after_unlink (q ++ b)) := by
  induction q using List.reverseRecOn generalizing n n2 b with
  | nil => simp [xmlUnlinkNode] at h
  | append_singleton t a ih =>
    have hanc := ptr_after_unlink_ancestor (t ++ [a]) b (by simp)
    have hroot : ([b] : List xmlNodePtr).filterMap (ptr_after_unlink (t ++ [a] ++ b)) = [b] := by
      simp only [List.filterMap_cons, hanc, List.filterMap_nil]
    have hroot0 : ([] : List xmlNodePtr).filterMap (ptr_after_unlink (t ++ [a] ++ b)) = [] := rfl
    have hcond : ∀ l : List xmlNode,
        (if (set_children n l).type = xmlElementType.XML_ELEMENT_NODE
            ∧ has_operation_attr s (set_children n l) = true then [b] else [])
          = ((if n.type = xmlElementType.XML_ELEMENT_NODE ∧ has_operation_attr s n = true
              then [b] else []).filterMap (ptr_after_unlink (t ++ [a] ++ b))) := by
      intro l
      have h1 : (set_children n l).type = n.type := rfl
      rw [h1, has_operation_attr_set_children]
      split_ifs
      · exact hroot.symm
      · rfl
    cases t with
    | nil =>
      simp only [List.nil_append, xmlUnlinkNode, deref, replace_node] at h
      by_cases hlt : a < n.children.length
      · simp only [hlt, if_true, Option.some.injEq] at h
        have h2 : n2 = set_children n (n.children.eraseIdx a) := h.symm
        subst h2
        rw [xpath_operation_eq s _ b, xpath_operation_eq s n b, List.filterMap_append, hcond]
        have hl := xpath_operation_list_eraseIdx s n.children a b 0 hlt
        simp only [Nat.zero_add] at hl
        have h3 : (set_children n (n.children.eraseIdx a)).children = n.children.eraseIdx a := rfl
        rw [h3, ← hl]
        rfl
      · simp [hlt] at h
    | cons k t2 =>
      rw [xmlUnlinkNode_append] at h
      cases ha : n.children.get? a with
      | none =>
        rw [ha] at h
        simp at h
      | some ch =>
        rw [ha] at h
        simp only [Option.some_bind] at h
        cases hch2 : xmlUnlinkNode ch (k :: t2) with
        | none =>
          rw [hch2] at h
          simp at h
        | some ch2 =>
          rw [hch2] at h
          simp only [Option.map_some', Option.some.injEq] at h
          subst h
          have hih := ih ch ch2 (a :: b) hch2
          rw [xpath_operation_eq s _ b, xpath_operation_eq s n b, List.filterMap_append, hcond]
          have hl := xpath_operation_list_set s n.children (k :: t2) a b 0 ch ch2 (by simp) ha
            (by simpa [Nat.zero_add] using hih)
          simp only [Nat.zero_add] at hl
          have happ : k :: t2 ++ [a] ++ b = k :: t2 ++ a :: b := by simp
          have h3 : (set_children n (n.children.set a ch2)).children = n.children.set a ch2 := rfl
          rw [h3, ← hl, happ]

/-- The result of `get_operation_elements` on the edit document after a node of
it was unlinked. -/
theorem get_operation_elements_xmlUnlinkNode (op : NC_EDIT_OP_TYPE) (E E1 : xmlNode)
    (q : xmlNodePtr) (h : xmlUnlinkNode E q = some E1) :
    get_operation_elements op E1
      = (get_operation_elements op E).map (fun l => l.filterMap (ptr_after_unlink q)) := by
  unfold get_operation_elements
  have hx := fun s => xpath_operation_xmlUnlinkNode s q E E1 [] h
  simp only [List.append_nil] at hx
  split_ifs <;> simp [hx]

/-! ## `check_edit_ops`: a node to create that has an equivalent -/

/-- Entries of the node set that pass the `create` pass of `check_edit_ops`, in
front of entries on which the loop ends with `data-exists`, do not change how
the loop ends. -/
theorem check_edit_ops_loop_create_pass (defop : NC_EDIT_OP_TYPE) (mode : NCWD_MODE)
    (orig edit : xmlNode) (pre l : List xmlNodePtr)
    (hl : check_edit_ops_loop NC_EDIT_OP_CREATE defop mode orig edit [] l
      = some ⟨EXIT_FAILURE, some (nc_err_new NC_ERR.NC_ERR_DATA_EXISTS), orig, edit⟩)
    (hpre : ∀ e ∈ pre,
      (∃ err, check_edit_ops_hierarchy edit e defop none = some (EXIT_SUCCESS, err))
      ∧ (∃ n, deref edit e = some n)
      ∧ ∃ r, find_element_equiv orig edit (some e) = some r
        ∧ (r = none ∨ mode ≠ NCWD_MODE.NCWD_MODE_TRIM
          ∨ get_default_value edit (some e) = some none)) :
    check_edit_ops_loop NC_EDIT_OP_CREATE defop mode orig edit [] (pre ++ l)
      = some ⟨EXIT_FAILURE, some (nc_err_new NC_ERR.NC_ERR_DATA_EXISTS), orig, edit⟩ := by
  induction pre with
  | nil => exact hl
  | cons e pre2 ih =>
    obtain ⟨⟨err, hh⟩, ⟨n, hn⟩, r, hf, hr⟩ := hpre e (by simp)
    have ih2 := ih (fun e2 he2 => hpre e2 (List.mem_cons_of_mem _ he2))
    rw [List.cons_append, check_edit_ops_loop]
    simp only [ptr_after_unlinks, List.foldl, hh, hf, hn]
    have hne : ¬ NC_EDIT_OP_CREATE = NC_EDIT_OP_DELETE := by decide
    simp only [ne_eq, not_true_eq_false, if_false, hne, false_and, true_and]
    cases r with
    | none =>
      simp only [not_true_eq_false, if_false]
      exact ih2
    | some q =>
      rcases hr with hr | hr | hr
      · exact absurd hr (by simp)
      · simp [hr]
      · by_cases hm : mode = NCWD_MODE.NCWD_MODE_TRIM
        · simp [hm, hr]
        · simp [hm]

/-- C15 (refuted as stated): in `doc_create_under_delete` the `switch`
annotated `create`, at `[1, 0]`, passes the hierarchy check and has the
equivalent `[0, 0]` in `doc_capable_switch_br0`, and the with-defaults mode is
not `trim`. The `create` pass of `check_edit_ops` does not fail with
`data-exists`: the `port` annotated `create` under the `resources` annotated
`delete` comes first in the node set, fails the hierarchy check, and the pass
returns `EXIT_FAILURE` with `operation-failed`. -/
theorem check_edit_ops_create_exists_not_reached :
    get_operation_elements NC_EDIT_OP_CREATE doc_create_under_delete
        = some [[0, 0, 0], [1, 0]]
    ∧ check_edit_ops_hierarchy doc_create_under_delete [1, 0] NC_EDIT_DEFOP_MERGE none
        = some (EXIT_SUCCESS, none)
    ∧ find_element_equiv doc_capable_switch_br0 doc_create_under_delete (some [1, 0])
        = some (some [0, 0])
    ∧ check_edit_ops_hierarchy doc_create_under_delete [0, 0, 0] NC_EDIT_DEFOP_MERGE none
        = some (EXIT_FAILURE, some (nc_err_new NC_ERR.NC_ERR_OP_FAILED))
    ∧ check_edit_ops NC_EDIT_OP_CREATE NC_EDIT_DEFOP_MERGE NCWD_MODE.NCWD_MODE_ALL
          doc_capable_switch_br0 doc_create_under_delete none
        = some ⟨EXIT_FAILURE, some (nc_err_new NC_ERR.NC_ERR_OP_FAILED),
            doc_capable_switch_br0, doc_create_under_delete⟩
    ∧ nc_err_new NC_ERR.NC_ERR_OP_FAILED ≠ nc_err_new NC_ERR.NC_ERR_DATA_EXISTS :=
  ⟨by decide, by decide, by decide, by decide, rfl, by decide⟩

/-- C15 (amended): a `create` annotated edit node `p` that passes the hierarchy
check and has an equivalent in the original document makes the `create` pass
of `check_edit_ops` fail with `data-exists`, both documents unchanged, unless
the with-defaults mode is `trim` and the node has a registered default,
provided that the loop gets as far as `p` or ends in the same way before:
every node before `p` in the node set passes the hierarchy check, its lookup
returns, and if it has an equivalent itself, the mode is not `trim` or it has
no registered default. -/
theorem check_edit_ops_create_exists (defop : NC_EDIT_OP_TYPE) (mode : NCWD_MODE)
    (orig edit : xmlNode) (error : Option nc_err) (pre rest : List xmlNodePtr)
    (p q : xmlNodePtr) (node : xmlNode)
    (hset : get_operation_elements NC_EDIT_OP_CREATE edit = some (pre ++ p :: rest))
    (hpre : ∀ e ∈ pre,
      (∃ err, check_edit_ops_hierarchy edit e defop none = some (EXIT_SUCCESS, err))
      ∧ (∃ n, deref edit e = some n)
      ∧ ∃ r, find_element_equiv orig edit (some e) = some r
        ∧ (r = none ∨ mode ≠ NCWD_MODE.NCWD_MODE_TRIM
          ∨ get_default_value edit (some e) = some none))
    (hh : ∃ err, check_edit_ops_hierarchy edit p defop none = some (EXIT_SUCCESS, err))
    (hq : find_element_equiv orig edit (some p) = some (some q))
    (hnode : deref edit p = some node)
    (hd : mode ≠ NCWD_MODE.NCWD_MODE_TRIM ∨ get_default_value edit (some p) = some none) :
    check_edit_ops NC_EDIT_OP_CREATE defop mode orig edit error
      = some ⟨EXIT_FAILURE, some (nc_err_new NC_ERR.NC_ERR_DATA_EXISTS), orig, edit⟩ := by
  obtain ⟨err, hh⟩ := hh
  have hp : check_edit_ops_loop NC_EDIT_OP_CREATE defop mode orig edit [] (p :: rest)
      = some ⟨EXIT_FAILURE, some (nc_err_new NC_ERR.NC_ERR_DATA_EXISTS), orig, edit⟩ := by
    rw [check_edit_ops_loop]
    simp only [ptr_after_unlinks, List.foldl, hh, hq, hnode]
    have hne : ¬ NC_EDIT_OP_CREATE = NC_EDIT_OP_DELETE := by decide
    simp only [ne_eq, not_true_eq_false, if_false, hne, false_and, true_and]
    rcases hd with hd | hd
    · simp [hd]
    · by_cases hm : mode = NCWD_MODE.NCWD_MODE_TRIM
      · simp [hm, hd]
      · simp [hm]
  have hloop := check_edit_ops_loop_create_pass defop mode orig edit pre (p :: rest) hp hpre
  unfold check_edit_ops
  rw [hset]
  cases hpre2 : pre ++ p :: rest with
  | nil => simp at hpre2
  | cons x xs =>
    simp only []
    rw [← hpre2]
    exact hloop

/-- An instance of the amended C15: the edit
`<switch nc:operation="create"><id>br0</id></switch>` checked against the tree
`<switch><id>br0</id></switch>` fails with `data-exists` in every
with-defaults mode. So does, in the mode `trim`, the check of
`doc_create_note_and_switch` against `doc_capable_switch_br0`, where the
`note` to create comes first in the node set, passes the hierarchy check and
has no equivalent. -/
theorem check_edit_ops_create_exists_witness :
    (check_edit_ops NC_EDIT_OP_CREATE NC_EDIT_DEFOP_MERGE NCWD_MODE.NCWD_MODE_NOTSET
          (mk_doc [switch_with_id "br0"]) doc_create_switch none
        = some ⟨EXIT_FAILURE, some (nc_err_new NC_ERR.NC_ERR_DATA_EXISTS),
            mk_doc [switch_with_id "br0"], doc_create_switch⟩)
      ∧ (check_edit_ops NC_EDIT_OP_CREATE NC_EDIT_DEFOP_MERGE NCWD_MODE.NCWD_MODE_ALL
          (mk_doc [switch_with_id "br0"]) doc_create_switch none
        = some ⟨EXIT_FAILURE, some (nc_err_new NC_ERR.NC_ERR_DATA_EXISTS),
            mk_doc [switch_with_id "br0"], doc_create_switch⟩)
      ∧ (check_edit_ops NC_EDIT_OP_CREATE NC_EDIT_DEFOP_MERGE NCWD_MODE.NCWD_MODE_TRIM
          (mk_doc [switch_with_id "br0"]) doc_create_switch none
        = some ⟨EXIT_FAILURE, some (nc_err_new NC_ERR.NC_ERR_DATA_EXISTS),
            mk_doc [switch_with_id "br0"], doc_create_switch⟩)
      ∧ (check_edit_ops NC_EDIT_OP_CREATE NC_EDIT_DEFOP_MERGE NCWD_MODE.NCWD_MODE_EXPLICIT
          (mk_doc [switch_with_id "br0"]) doc_create_switch none
        = some ⟨EXIT_FAILURE, some (nc_err_new NC_ERR.NC_ERR_DATA_EXISTS),
            mk_doc [switch_with_id "br0"], doc_create_switch⟩)
      ∧ (check_edit_ops NC_EDIT_OP_CREATE NC_EDIT_DEFOP_MERGE NCWD_MODE.NCWD_MODE_ALL_TAGGED
          (mk_doc [switch_with_id "br0"]) doc_create_switch none
        = some ⟨EXIT_FAILURE, some (nc_err_new NC_ERR.NC_ERR_DATA_EXISTS),
            mk_doc [switch_with_id "br0"], doc_create_switch⟩)
      ∧ (check_edit_ops NC_EDIT_OP_CREATE NC_EDIT_DEFOP_MERGE NCWD_MODE.NCWD_MODE_TRIM
          doc_capable_switch_br0 doc_create_note_and_switch none
        = some ⟨EXIT_FAILURE, some (nc_err_new NC_ERR.NC_ERR_DATA_EXISTS),
            doc_capable_switch_br0, doc_create_note_and_switch⟩) :=
  ⟨check_edit_ops_create_exists _ _ _ _ none [] [] [0] [0]
      (element_with_operation "switch" "create" [mk_element "id" (some ofc_ns) [mk_text "br0"]])
      (by decide) (by simp) ⟨none, by decide⟩ (by decide) rfl (Or.inl (by decide)),
    check_edit_ops_create_exists _ _ _ _ none [] [] [0] [0]
      (element_with_operation "switch" "create" [mk_element "id" (some ofc_ns) [mk_text "br0"]])
      (by decide) (by simp) ⟨none, by decide⟩ (by decide) rfl (Or.inl (by decide)),
    check_edit_ops_create_exists _ _ _ _ none [] [] [0] [0]
      (element_with_operation "switch" "create" [mk_element "id" (some ofc_ns) [mk_text "br0"]])
      (by decide) (by simp) ⟨none, by decide⟩ (by decide) rfl (Or.inr (by decide)),
    check_edit_ops_create_exists _ _ _ _ none [] [] [0] [0]
      (element_with_operation "switch" "create" [mk_element "id" (some ofc_ns) [mk_text "br0"]])
      (by decide) (by simp) ⟨none, by decide⟩ (by decide) rfl (Or.inl (by decide)),
    check_edit_ops_create_exists _ _ _ _ none [] [] [0] [0]
      (element_with_operation "switch" "create" [mk_element "id" (some ofc_ns) [mk_text "br0"]])
      (by decide) (by simp) ⟨none, by decide⟩ (by decide) rfl (Or.inl (by decide)),
    check_edit_ops_create_exists _ _ _ _ none [[0, 0]] [] [1, 0] [0, 0]
      (element_with_operation "switch" "create" [mk_element "id" (some ofc_ns) [mk_text "br0"]])
      (by decide)
      (by
        intro e he
        simp only [List.mem_singleton] at he
        subst he
        exact ⟨⟨none, by decide⟩, ⟨_, rfl⟩, none, by decide, Or.inl rfl⟩)
      ⟨none, by decide⟩ (by decide) rfl (Or.inr (by decide))⟩

/-! ## Default operation replace on a document with one root -/

/-- C20 (refuted as stated): the stored configuration `doc_comment_and_root`
has a comment before its root element. Default operation replace with an edit
document of one root element succeeds, and the tree it leaves has two
top-level nodes, the first of which is the comment: the former content of the
tree is not all gone, and the tree is not the edit document, which has one
top-level node. -/
theorem edit_operations_default_replace_keeps_comment :
    (mk_doc [capable_switch_declaring_nc]).children.length = 1
    ∧ ∃ st, edit_operations 2 doc_comment_and_root (mk_doc [capable_switch_declaring_nc])
          NC_EDIT_DEFOP_REPLACE false = outcome.done (EXIT_SUCCESS, st)
        ∧ st.orig_doc.children.length = 2
        ∧ st.orig_doc.children.head? = some (mk_comment "old")
        ∧ doc_comment_and_root.children.head? = some (mk_comment "old") :=
  ⟨rfl, _, rfl, rfl, rfl, rfl⟩

/-- C20 (amended): default operation replace on the canonical tree, for an edit
document `E` whose only top-level node is `r`. When the lookup of the
equivalent of `r` faults, the run faults. When it returns, `edit_operations`
returns success with no error, with any fuel from two on, and empties `E`: in
the original document `T` the equivalent of `r`, if there is one, is unlinked;
then the first top-level element is replaced by a copy `c` of `r` without its
operation attribute (the copy is added after the top-level nodes when no
element is left). Top-level nodes of `T` that are no elements stay. When `T`
has at most one top-level node, an element, the copy is the only top-level
node of the result. -/
theorem edit_operations_default_replace (fuel : Nat) (T E r : xmlNode)
    (hT : T.type = xmlElementType.XML_DOCUMENT_NODE)
    (hEt : E.type = xmlElementType.XML_DOCUMENT_NODE)
    (hE : E.children = [r]) :
    (find_element_equiv T E (some [0]) = none →
      edit_operations (fuel + 2) T E NC_EDIT_DEFOP_REPLACE false = outcome.fault)
    ∧ (∀ old : Option xmlNodePtr, find_element_equiv T E (some [0]) = some old →
      ∃ T2 c, (match old with
          | none => some T
          | some o => xmlUnlinkNode T o) = some T2
        ∧ deep_copy_of c (remove_ns_prop r "operation" NC_NS_BASE10)
        ∧ edit_operations (fuel + 2) T E NC_EDIT_DEFOP_REPLACE false
          = outcome.done (EXIT_SUCCESS,
              ⟨(xmlDocSetRootElement T2 c).1, set_children E [], [], none, []⟩)
        ∧ (T.children.length ≤ 1
            → (∀ x ∈ T.children, x.type = xmlElementType.XML_ELEMENT_NODE)
            → (xmlDocSetRootElement T2 c).1.children = [c])) := by
  refine ⟨fun hfind => ?_, fun old hfind => ?_⟩
  · have hrep : edit_replace (fuel + 2) ⟨T, E, [], none, []⟩ (some [0]) false
        = outcome.fault := by
      simp only [edit_replace, hfind]
    unfold edit_operations
    rw [if_pos rfl, replace_all]
    simp only [hE, List.isEmpty_cons, Bool.false_eq_true, if_false, hrep]
  -- the original document once the equivalent is unlinked
  have hT2 : ∃ T2, (match old with
        | none => some T
        | some o => xmlUnlinkNode T o) = some T2
      ∧ T2.type = xmlElementType.XML_DOCUMENT_NODE
      ∧ (T.children.length ≤ 1
          → (∀ c ∈ T.children, c.type = xmlElementType.XML_ELEMENT_NODE)
          → T2.children = [] ∨ ∃ x, T2.children = [x]
              ∧ x.type = xmlElementType.XML_ELEMENT_NODE) := by
    cases old with
    | none =>
      refine ⟨T, rfl, hT, fun hlen hel => ?_⟩
      match hc : T.children with
      | [] => exact Or.inl rfl
      | [x] => exact Or.inr ⟨x, rfl, hel x (by simp [hc])⟩
      | _ :: _ :: _ => simp [hc] at hlen
    | some o =>
      obtain ⟨i, rfl, hi⟩ := find_element_equiv_top_level T E 0 o hEt hfind
      refine ⟨set_children T (T.children.eraseIdx i), xmlUnlinkNode_top_level T i hi, hT,
        fun hlen _ => Or.inl ?_⟩
      have h1 : T.children.length = 1 := by omega
      have h0 : i = 0 := by omega
      subst h0
      match hc : T.children with
      | [] => simp [hc] at h1
      | [x] => simp [set_children]
      | _ :: _ :: _ => simp [hc] at h1
  obtain ⟨T2, hold, hT2t, hsingle⟩ := hT2
  refine ⟨T2, nc_clear_namespaces (remove_ns_prop r "operation" NC_NS_BASE10), hold,
    deep_copy_of_cleared r, ?_, fun hlen hel => ?_⟩
  · -- the loop of the default operation
    have hcreate : edit_replace (fuel + 2) ⟨T, E, [], none, []⟩ (some [0]) false
        = outcome.done (EXIT_SUCCESS,
            ⟨(xmlDocSetRootElement T2
                (nc_clear_namespaces (remove_ns_prop r "operation" NC_NS_BASE10))).1,
              set_children E [], [], none, [[0]]⟩) := by
      cases old with
      | none =>
        simp only [Option.some.injEq] at hold
        subst hold
        simp only [edit_replace, hfind]
        rw [edit_create_top_level (fuel + 1) ⟨T, E, [], none, []⟩ r [] hEt hE hT]
        rfl
      | some o =>
        simp only at hold
        simp only [edit_replace, hfind, hold]
        rw [edit_create_top_level (fuel + 1) ⟨T2, E, [], none, []⟩ r [] hEt hE hT2t]
        rfl
    have hloop : replace_all (fuel + 2) ⟨T, E, [], none, []⟩ false
        = outcome.done (EXIT_SUCCESS,
            ⟨(xmlDocSetRootElement T2
                (nc_clear_namespaces (remove_ns_prop r "operation" NC_NS_BASE10))).1,
              set_children E [], [], none, [[0]]⟩) := by
      rw [replace_all]
      simp only [hE, List.isEmpty_cons, Bool.false_eq_true, if_false, hcreate]
      rw [replace_all]
      simp [set_children]
    have hphase : ∀ (op : NC_EDIT_OP_TYPE)
        (body : edit_state → xmlNodePtr → outcome (Int × edit_state)) (orig : xmlNode),
        run_phase op body ⟨orig, set_children E [], [], none, []⟩
          = outcome.done (EXIT_SUCCESS, ⟨orig, set_children E [], [], none, []⟩) :=
      fun op body orig => run_phase_empty_document op body _ hEt rfl rfl
    have hdel : run_phase NC_EDIT_OP_DELETE (edit_operations_delete (fuel + 2) false)
        ⟨(xmlDocSetRootElement T2
            (nc_clear_namespaces (remove_ns_prop r "operation" NC_NS_BASE10))).1,
          set_children E [], [], none, [[0]]⟩
        = outcome.done (EXIT_SUCCESS,
          ⟨(xmlDocSetRootElement T2
            (nc_clear_namespaces (remove_ns_prop r "operation" NC_NS_BASE10))).1,
          set_children E [], [], none, []⟩) := by
      unfold run_phase get_operation_elements
      simp only [xpath_operation_empty_document _ (set_children E []) hEt rfl]
      rfl
    unfold edit_operations
    simp only [if_true, hloop, hdel, phase_then]
    simp only [hphase]
    simp [NC_EDIT_DEFOP_REPLACE, NC_EDIT_DEFOP_MERGE, NC_EDIT_DEFOP_NOTSET, EXIT_SUCCESS]
  · rcases hsingle hlen hel with h | ⟨x, h, hx⟩
    · exact xmlDocSetRootElement_empty T2 _ h
    · exact xmlDocSetRootElement_single T2 x _ h hx

/-- An instance of the amended C20: the stored configuration
`doc_capable_switch_id`, whose root element is the equivalent of the root of
the edit document. The root element is unlinked, and the copy of the root of
the edit document is the only top-level node of the tree. -/
theorem edit_operations_default_replace_witness :
    ∃ T2 c, xmlUnlinkNode doc_capable_switch_id [0] = some T2
      ∧ deep_copy_of c (remove_ns_prop capable_switch_declaring_nc "operation" NC_NS_BASE10)
      ∧ edit_operations (0 + 2) doc_capable_switch_id (mk_doc [capable_switch_declaring_nc])
          NC_EDIT_DEFOP_REPLACE false
        = outcome.done (EXIT_SUCCESS,
            ⟨(xmlDocSetRootElement T2 c).1,
              set_children (mk_doc [capable_switch_declaring_nc]) [], [], none, []⟩)
      ∧ (xmlDocSetRootElement T2 c).1.children = [c] := by
  obtain ⟨T2, c, h1, h2, h3, h4⟩ :=
    (edit_operations_default_replace 0 doc_capable_switch_id
      (mk_doc [capable_switch_declaring_nc]) capable_switch_declaring_nc rfl rfl rfl).2
      (some [0]) (by decide)
  exact ⟨T2, c, h1, h2, h3, h4 (by decide) (by decide)⟩

/-! ## `edit_replace` on a node with an equivalent -/

/-- C25 (refuted as stated): the edit node `x` of `doc_queue_mixed_edit`, at
`[1, 0, 0, 0]`, is no root, is annotated `replace` and has the equivalent
`[0, 0, 0, 0]`, the first child of the `queue` at `[0, 0, 0]` of
`doc_queue_mixed`, which the matcher, comparing the keys `resource-id`, finds
to match the `queue` of the edit document. `edit_replace` returns success, but
the children of that `queue` are not its former children without the
equivalent followed by a copy: the `queue` keeps the text `Z` and its
`resource-id` and gets no further child. Once the equivalent is unlinked the
`queue` begins with a text and is compared by it with the `queue` of the edit
document, which begins with `Q`; it is no equivalent of the parent any more,
`edit_create_r` adds a second `queue` to `resources`, and the copy goes
there. -/
theorem edit_replace_not_as_claimed :
    find_element_equiv doc_queue_mixed doc_queue_mixed_edit (some [1, 0, 0, 0])
      = some (some [0, 0, 0, 0])
    ∧ matching_elements doc_queue_mixed_edit (some [0, 0, 0]) doc_queue_mixed (some [0, 0, 0])
      = some 1
    ∧ deref doc_queue_mixed [0, 0, 0]
      = some (mk_element "queue" (some ofc_ns)
          [mk_element "x" (some ofc_ns) [], mk_text "Z",
            mk_element "resource-id" (some ofc_ns) [mk_text "q1"]])
    ∧ (deref doc_queue_mixed [0, 0]).map (fun n => n.children.map (fun c => c.name))
      = some [some "queue"]
    ∧ ∃ st, edit_replace 1 ⟨doc_queue_mixed, doc_queue_mixed_edit, [], none, []⟩
          (some [1, 0, 0, 0]) false = outcome.done (EXIT_SUCCESS, st)
        ∧ deref st.orig_doc [0, 0, 0]
          = some (mk_element "queue" (some ofc_ns)
              [mk_text "Z", mk_element "resource-id" (some ofc_ns) [mk_text "q1"]])
        ∧ (deref st.orig_doc [0, 0]).map (fun n => n.children.map (fun c => c.name))
          = some [some "queue", some "queue"]
        ∧ (deref st.orig_doc [1, 0, 0]).map
            (fun n => n.children.map (fun c => (c.type, c.name, c.children.length)))
          = some [(xmlElementType.XML_ELEMENT_NODE, some "x", 0)] :=
  ⟨by decide, by decide, rfl, by decide, _, rfl, rfl, by decide, by decide⟩

/-- C25 (amended): `edit_replace` on the canonical tree for an element `n0` of
the edit document, below an element, whose equivalent is the child at position
`i` of the element at `P`, when `P` is still the equivalent of the parent of
`n0` once that child is unlinked (`hstill`). With any fuel but none it returns
`EXIT_SUCCESS`. The tree it leaves is the tree given with the children of `P`
replaced by the former children without the one at `i`, in their order,
followed by a copy `c` of `n0` without its operation attribute; nothing else
is replaced. `n0` is unlinked from the edit document. -/
theorem edit_replace_with_equivalent (fuel : Nat) (st : edit_state) (k : Nat)
    (parent : xmlNodePtr) (n0 pn parn orig1 : xmlNode) (i : Nat) (P : xmlNodePtr)
    (hn : deref st.edit_doc (k :: parent) = some n0)
    (hne : n0.type = xmlElementType.XML_ELEMENT_NODE)
    (hpn : deref st.edit_doc parent = some pn)
    (hpt : pn.type ≠ xmlElementType.XML_DOCUMENT_NODE)
    (hq : find_element_equiv st.orig_doc st.edit_doc (some (k :: parent))
      = some (some (i :: P)))
    (hP : deref st.orig_doc P = some parn)
    (hPt : parn.type = xmlElementType.XML_ELEMENT_NODE)
    (hu : xmlUnlinkNode st.orig_doc (i :: P) = some orig1)
    (hstill : find_element_equiv orig1 st.edit_doc (some parent) = some (some P)) :
    ∃ c orig3 edit3,
      deep_copy_of c (remove_ns_prop n0 "operation" NC_NS_BASE10)
      ∧ replace_node st.orig_doc P (set_children parn (parn.children.eraseIdx i ++ [c]))
        = some orig3
      ∧ xmlUnlinkNode st.edit_doc (k :: parent) = some edit3
      ∧ edit_replace (fuel + 1) st (some (k :: parent)) false
        = outcome.done (EXIT_SUCCESS,
            ⟨orig3, edit3, st.calls, st.error, st.unlinked ++ [k :: parent]⟩) := by
  obtain ⟨hP1, hrep⟩ := deref_xmlUnlinkNode_parent st.orig_doc i P parn orig1 hP hu
  obtain ⟨orig3, edit3, h1, h2, h3⟩ := edit_create_canonical fuel
    ⟨orig1, st.edit_doc, st.calls, st.error, st.unlinked⟩ k parent n0 pn orig1
    (set_children parn (parn.children.eraseIdx i)) P hn hne hpn hpt
    (edit_create_r_found st.edit_doc orig1 parent P hstill) hP1 hPt
  refine ⟨_, orig3, edit3, deep_copy_of_stored n0, ?_, h2, ?_⟩
  · rw [← replace_node_twice st.orig_doc P _ _ orig1 hrep]
    exact h1
  · simp only [edit_replace, hq, hu]
    exact h3

/-- An instance of the amended C25: `<id nc:operation="replace">sw1</id>`
replaces the `id` of `doc_one_note`, the first child of `capable-switch`. The
`note` after it moves up and the copy of the new `id` is the last child. -/
theorem edit_replace_with_equivalent_witness :
    ∃ c orig3 edit3,
      deep_copy_of c (remove_ns_prop (element_with_operation "id" "replace" [mk_text "sw1"])
        "operation" NC_NS_BASE10)
      ∧ replace_node doc_one_note [0]
          (set_children
            (mk_element "capable-switch" (some ofc_ns)
              [mk_element "id" (some ofc_ns) [mk_text "sw0"],
                mk_element "note" (some ofc_ns) [mk_text "b"]])
            ([mk_element "id" (some ofc_ns) [mk_text "sw0"],
                mk_element "note" (some ofc_ns) [mk_text "b"]].eraseIdx 0 ++ [c]))
        = some orig3
      ∧ xmlUnlinkNode doc_id_replace [0, 0] = some edit3
      ∧ edit_replace (0 + 1) ⟨doc_one_note, doc_id_replace, [], none, []⟩ (some [0, 0]) false
        = outcome.done (EXIT_SUCCESS, ⟨orig3, edit3, [], none, [] ++ [[0, 0]]⟩) :=
  edit_replace_with_equivalent 0 ⟨doc_one_note, doc_id_replace, [], none, []⟩ 0 [0]
    (element_with_operation "id" "replace" [mk_text "sw1"])
    (mk_element "capable-switch" (some ofc_ns)
      [element_with_operation "id" "replace" [mk_text "sw1"]])
    (mk_element "capable-switch" (some ofc_ns)
      [mk_element "id" (some ofc_ns) [mk_text "sw0"],
        mk_element "note" (some ofc_ns) [mk_text "b"]])
    (mk_doc [mk_element "capable-switch" (some ofc_ns)
      [mk_element "note" (some ofc_ns) [mk_text "b"]]])
    0 [0] rfl rfl rfl (by decide) (by decide) rfl rfl rfl (by decide)

/-! ## `edit_create` and the ancestors of the node -/

/-- C27 (refuted as stated): the `switch` annotated `create` of
`doc_create_switch` is a top-level node, at depth 1, and has no ancestors. On
the tree `doc_root_and_comment`, whose root element is followed by a comment,
`edit_create` returns success and the copy of the `switch` takes the place of
the root element: it is the first top-level node of the tree, and the last
child of the document node is still the comment. -/
theorem edit_create_top_level_not_last :
    path_names doc_create_switch [] = []
    ∧ ∃ st, edit_create 1 ⟨doc_root_and_comment, doc_create_switch, [], none, []⟩ [0] false
          = outcome.done (EXIT_SUCCESS, st)
        ∧ st.orig_doc.children.map (fun c => (c.type, c.name))
          = [(xmlElementType.XML_ELEMENT_NODE, some "switch"),
              (xmlElementType.XML_COMMENT_NODE, some "comment")]
        ∧ st.orig_doc.children.getLast? = some (mk_comment "end") :=
  ⟨rfl, _, rfl, by decide, rfl⟩

/-- C27 (amended): `edit_create` on the canonical tree for an element `n0` of a
well-formed edit document, with any fuel but none, stores a copy `c` of `n0`
without its operation attribute.

For a top-level node it returns `EXIT_SUCCESS`, and the copy takes the place of
the first top-level element of the tree, or comes after the top-level nodes
when none of them is an element.

For a node below an element the call faults when the lookup of the equivalent
of the parent faults. Otherwise it returns `EXIT_SUCCESS`: `edit_create_r`
resolves the parent to an element at `par` of the tree, as it has become
(`orig2`), the names on the way to `par` are the names of the ancestors of
`n0`, and the copy becomes the last child of that element. The tree `orig2`
has one node more than the tree given for each ancestor without equivalent and
no other new node (unless the new top-level element has taken the place of a
top-level element of the tree, which then is gone), and it is the tree given
when the parent has an equivalent: ancestors with an equivalent are used as
they are. -/
theorem edit_create_ancestors (fuel : Nat) (st : edit_state) (k : Nat) (parent : xmlNodePtr)
    (n0 : xmlNode)
    (hE : st.edit_doc.type = xmlElementType.XML_DOCUMENT_NODE)
    (hT : st.orig_doc.type = xmlElementType.XML_DOCUMENT_NODE)
    (hn : deref st.edit_doc (k :: parent) = some n0)
    (hne : n0.type = xmlElementType.XML_ELEMENT_NODE)
    (hanc : ∀ b ∈ element_ancestors st.edit_doc (k :: parent),
      b.type = xmlElementType.XML_ELEMENT_NODE) :
    ∃ c, deep_copy_of c (remove_ns_prop n0 "operation" NC_NS_BASE10)
      ∧ (parent = [] →
        ∃ edit3, xmlUnlinkNode st.edit_doc (k :: parent) = some edit3
          ∧ edit_create (fuel + 1) st (k :: parent) false
            = outcome.done (EXIT_SUCCESS,
                ⟨(xmlDocSetRootElement st.orig_doc c).1, edit3, st.calls, st.error,
                  st.unlinked ++ [k :: parent]⟩)
          ∧ deref (xmlDocSetRootElement st.orig_doc c).1 (xmlDocSetRootElement st.orig_doc c).2
            = some c
          ∧ (∀ i, first_element_index st.orig_doc.children 0 = some i →
              (xmlDocSetRootElement st.orig_doc c).1.children = st.orig_doc.children.set i c)
          ∧ (first_element_index st.orig_doc.children 0 = none →
              (xmlDocSetRootElement st.orig_doc c).1.children = st.orig_doc.children ++ [c]))
      ∧ (parent ≠ [] →
        (find_element_equiv st.orig_doc st.edit_doc (some parent) = none →
          edit_create (fuel + 1) st (k :: parent) false = outcome.fault)
        ∧ (find_element_equiv st.orig_doc st.edit_doc (some parent) ≠ none →
          ∃ orig2 par parn orig3 edit3,
            edit_create_r st.edit_doc st.orig_doc parent = some (orig2, some par)
            ∧ deref orig2 par = some parn
            ∧ parn.type = xmlElementType.XML_ELEMENT_NODE
            ∧ xmlUnlinkNode st.edit_doc (k :: parent) = some edit3
            ∧ edit_create (fuel + 1) st (k :: parent) false
              = outcome.done (EXIT_SUCCESS,
                  ⟨orig3, edit3, st.calls, st.error, st.unlinked ++ [k :: parent]⟩)
            ∧ deref orig3 par = some (set_children parn (parn.children ++ [c]))
            ∧ path_names orig3 par = path_names st.edit_doc parent
            ∧ node_count orig2
              ≤ node_count st.orig_doc + missing_ancestors st.orig_doc st.edit_doc parent
            ∧ ((missing_ancestors st.orig_doc st.edit_doc parent < parent.length
                  ∨ first_element_index st.orig_doc.children 0 = none) →
                node_count orig2
                  = node_count st.orig_doc + missing_ancestors st.orig_doc st.edit_doc parent)
            ∧ (missing_ancestors st.orig_doc st.edit_doc parent = 0 → orig2 = st.orig_doc)
            ∧ node_count orig3 = node_count orig2 + node_count n0)) := by
  have hct : (nc_clear_namespaces (remove_ns_prop n0 "operation" NC_NS_BASE10)).type
      = xmlElementType.XML_ELEMENT_NODE := by
    rw [nc_clear_namespaces_type, remove_ns_prop_type, hne]
  refine ⟨nc_clear_namespaces (remove_ns_prop n0 "operation" NC_NS_BASE10),
    deep_copy_of_cleared n0, fun hp => ?_, fun hp => ?_⟩
  · subst hp
    obtain ⟨edit3, h1, h2⟩ := edit_create_top fuel st k n0 hE hn hT
    have hch := xmlDocSetRootElement_children st.orig_doc _ hct
    refine ⟨edit3, h1, h2, ?_, fun i hi => (hch.1 i hi).2.1, fun hnone => (hch.2 hnone).1⟩
    cases hf : first_element_index st.orig_doc.children 0 with
    | some i =>
      obtain ⟨hlt, hc, hq⟩ := hch.1 i hf
      rw [hq]
      simp [deref, hc, hlt]
    | none =>
      obtain ⟨hc, hq⟩ := hch.2 hf
      rw [hq]
      simp [deref, hc]
  · obtain ⟨pn, hpn, _⟩ := deref_parent st.edit_doc k parent n0 hn
    obtain ⟨k2, pp, rfl⟩ : ∃ k2 pp, parent = k2 :: pp := by
      cases parent with
      | nil => exact absurd rfl hp
      | cons k2 pp => exact ⟨k2, pp, rfl⟩
    have hmem := element_ancestors_mem st.edit_doc k k2 pp pn hpn
    have hpt : pn.type = xmlElementType.XML_ELEMENT_NODE := hanc pn hmem.1
    have hpnd : pn.type ≠ xmlElementType.XML_DOCUMENT_NODE := by rw [hpt]; decide
    have hanc2 : ∀ b ∈ element_ancestors st.edit_doc (k2 :: pp),
        b.type = xmlElementType.XML_ELEMENT_NODE := fun b hb => hanc b (hmem.2 b hb)
    refine ⟨fun hfault => ?_, fun hnofault => ?_⟩
    · exact edit_create_fault fuel st k (k2 :: pp) n0 pn hn hpn hpnd
        (edit_create_r_fault st.edit_doc st.orig_doc (k2 :: pp) hfault)
    · rcases edit_create_r_spec st.edit_doc st.orig_doc (k2 :: pp) pn hE hpn hpt hanc2 with
        hnone | ⟨orig2, par, parn, hr, hd, ht, hname, hpath, hle, heq, hzero⟩
      · exact absurd
          (edit_create_r_none st.edit_doc st.orig_doc (k2 :: pp) pn hE hpn hpt hanc2 hnone)
          hnofault
      · obtain ⟨orig3, edit3, h1, h2, h3⟩ := edit_create_canonical fuel st k (k2 :: pp) n0 pn
          orig2 parn par hn hne hpn hpnd hr hd ht
        have hc := replace_node_count orig2 par parn _ orig3 hd h1
        refine ⟨orig2, par, parn, orig3, edit3, hr, hd, ht, h2, h3,
          deref_replace_node_self orig2 par _ orig3 h1, ?_, hle, heq, hzero, ?_⟩
        · rw [path_names_replace_node orig2 par parn _ orig3 hd h1 rfl, hpath]
        · rw [node_count_set_children, node_count_list_append, node_count_eq parn] at hc
          simp only [node_count_list] at hc
          have hcc : node_count (xmlCopyNode_deep
              (nc_clear_namespaces (remove_ns_prop n0 "operation" NC_NS_BASE10)))
              = node_count n0 := by
            rw [xmlCopyNode_deep, node_count_eq, nc_clear_namespaces_children,
              remove_ns_prop_children, ← node_count_eq]
          omega

/-- Two instances of the amended C27 on the tree `doc_capable_switch_id`. The
`port` annotated `create` of `doc_create_port` is below
`capable-switch/resources`; the tree has the `capable-switch` and no
`resources`: one element `resources` is added, and the copy of the `port` is
its last child. The `switch` annotated `create` of `doc_create_switch` is a
top-level node: its copy takes the place of the root element of the tree. -/
theorem edit_create_ancestors_witness :
    missing_ancestors doc_capable_switch_id doc_create_port [0, 0] = 1
      ∧ path_names doc_create_port [0, 0] = [some "capable-switch", some "resources"]
      ∧ (∃ c, deep_copy_of c (remove_ns_prop
          (element_with_operation "port" "create"
            [mk_element "name" (some ofc_ns) [mk_text "eth0"]]) "operation" NC_NS_BASE10)
        ∧ ∃ orig2 par parn orig3 edit3,
          edit_create_r doc_create_port doc_capable_switch_id [0, 0] = some (orig2, some par)
          ∧ deref orig2 par = some parn
          ∧ parn.type = xmlElementType.XML_ELEMENT_NODE
          ∧ xmlUnlinkNode doc_create_port [0, 0, 0] = some edit3
          ∧ edit_create (0 + 1) ⟨doc_capable_switch_id, doc_create_port, [], none, []⟩
              [0, 0, 0] false
            = outcome.done (EXIT_SUCCESS, ⟨orig3, edit3, [], none, [] ++ [[0, 0, 0]]⟩)
          ∧ deref orig3 par = some (set_children parn (parn.children ++ [c]))
          ∧ path_names orig3 par = path_names doc_create_port [0, 0]
          ∧ node_count orig2
            ≤ node_count doc_capable_switch_id
              + missing_ancestors doc_capable_switch_id doc_create_port [0, 0]
          ∧ ((missing_ancestors doc_capable_switch_id doc_create_port [0, 0] < [0, 0].length
                ∨ first_element_index doc_capable_switch_id.children 0 = none) →
              node_count orig2
                = node_count doc_capable_switch_id
                  + missing_ancestors doc_capable_switch_id doc_create_port [0, 0])
          ∧ (missing_ancestors doc_capable_switch_id doc_create_port [0, 0] = 0 →
              orig2 = doc_capable_switch_id)
          ∧ node_count orig3 = node_count orig2
              + node_count (element_with_operation "port" "create"
                  [mk_element "name" (some ofc_ns) [mk_text "eth0"]]))
      ∧ ∃ c edit3, deep_copy_of c (remove_ns_prop
            (element_with_operation "switch" "create"
              [mk_element "id" (some ofc_ns) [mk_text "br0"]]) "operation" NC_NS_BASE10)
          ∧ xmlUnlinkNode doc_create_switch [0] = some edit3
          ∧ edit_create (0 + 1) ⟨doc_capable_switch_id, doc_create_switch, [], none, []⟩ [0]
              false
            = outcome.done (EXIT_SUCCESS,
                ⟨(xmlDocSetRootElement doc_capable_switch_id c).1, edit3, [], none,
                  [] ++ [[0]]⟩)
          ∧ (xmlDocSetRootElement doc_capable_switch_id c).1.children
            = doc_capable_switch_id.children.set 0 c := by
  obtain ⟨c, hc, _, h⟩ := edit_create_ancestors 0
    ⟨doc_capable_switch_id, doc_create_port, [], none, []⟩ 0 [0, 0]
    (element_with_operation "port" "create" [mk_element "name" (some ofc_ns) [mk_text "eth0"]])
    rfl rfl rfl rfl (by decide)
  obtain ⟨c2, hc2, h2, _⟩ := edit_create_ancestors 0
    ⟨doc_capable_switch_id, doc_create_switch, [], none, []⟩ 0 []
    (element_with_operation "switch" "create" [mk_element "id" (some ofc_ns) [mk_text "br0"]])
    rfl rfl rfl rfl (by decide)
  obtain ⟨edit3, hu, hrun, _, hset, _⟩ := h2 rfl
  exact ⟨by decide, by decide, ⟨c, hc, (h (by decide)).2 (by decide)⟩,
    c2, edit3, hc2, hu, hrun, hset 0 (by decide)⟩

/-! ## Delete before create -/

/-- The scenario of C30 on the tree `doc_id_and_note`, for a default operation
that is not `replace` and any fuel from two on: in either document order the
run returns `EXIT_SUCCESS` and the tree holds the `id` and one `note` with the
text of the node to create. -/
theorem edit_operations_notes_either_order (fuel : Nat) (a c x : String)
    (defop : NC_EDIT_OP_TYPE) (hd : defop ≠ NC_EDIT_DEFOP_REPLACE) :
    (∃ E3 u3, edit_operations (fuel + 2) (doc_id_and_note x) (doc_delete_then_create a c)
          defop false
        = outcome.done (EXIT_SUCCESS, ⟨doc_id_and_note c, E3, [], none, u3⟩))
      ∧ (∃ E3 u3, edit_operations (fuel + 2) (doc_id_and_note x) (doc_create_then_delete a c)
          defop false
        = outcome.done (EXIT_SUCCESS, ⟨doc_id_and_note c, E3, [], none, u3⟩)) := by
  refine ⟨?_, ?_⟩
  · unfold edit_operations
    rw [if_neg hd]
    simp only []
    rw [run_phase_singleton NC_EDIT_OP_DELETE _ _ _ [0, 0] (by rfl)
      (edit_operations_delete_note fuel x (doc_delete_then_create a c)
        (mk_doc [mk_element "capable-switch" (some ofc_ns)
          [element_with_operation "note" "create" [mk_text c]]]) [0, 0] rfl rfl rfl)]
    simp only [phase_then, ne_eq, not_true_eq_false, if_false]
    exact edit_operations_after_delete fuel c defop _
  · unfold edit_operations
    rw [if_neg hd]
    simp only []
    rw [run_phase_singleton NC_EDIT_OP_DELETE _ _ _ [1, 0] (by rfl)
      (edit_operations_delete_note fuel x (doc_create_then_delete a c)
        (mk_doc [mk_element "capable-switch" (some ofc_ns)
          [element_with_operation "note" "create" [mk_text c]]]) [1, 0] rfl rfl rfl)]
    simp only [phase_then, ne_eq, not_true_eq_false, if_false]
    exact edit_operations_after_delete fuel c defop _

/-- C30 (refuted as stated), two inputs. With the default operation `replace`
the loop of the default operation runs before the delete phase and consumes the
whole edit document: the tree `doc_id_and_note` becomes the edit document
itself and holds both the `note` annotated `create` and the `note` annotated
`delete`, with their annotations, and not one `note` only. With the default
operation `merge` and an edit document that holds, beside the two siblings, a
node annotated `delete` that has no equivalent (`doc_create_delete_and_missing`),
`edit_operations` does not succeed: the delete phase fails with
`data-missing`. -/
theorem edit_operations_default_replace_keeps_both :
    edit_operations 2 (doc_id_and_note "x") (doc_create_then_delete "a" "c")
        NC_EDIT_DEFOP_REPLACE false
      = outcome.done (EXIT_SUCCESS,
          ⟨doc_create_then_delete "a" "c", mk_doc [], [], none, []⟩)
    ∧ (doc_create_then_delete "a" "c").children.map
        (fun r => (key_children "note" r).map (fun n => n.properties.map (fun p => p.value)))
      = [[["create"], ["delete"]]]
    ∧ find_element_equiv (doc_id_and_note "x") doc_create_delete_and_missing (some [0, 0])
      = some (some [1, 0])
    ∧ find_element_equiv (doc_id_and_note "x") doc_create_delete_and_missing (some [1, 0])
      = some (some [1, 0])
    ∧ ∃ st, edit_operations 8 (doc_id_and_note "x") doc_create_delete_and_missing
          NC_EDIT_DEFOP_MERGE false = outcome.done (EXIT_FAILURE, st)
        ∧ st.error = some (nc_err_new NC_ERR.NC_ERR_DATA_MISSING) :=
  ⟨rfl, by decide, by decide, by decide, _, rfl, rfl⟩

/-- The delete phase and the create phase of a run in the canonical mode with a
default operation that is not `replace`, on an edit document `E` whose node
set for `delete` is the node at `i :: par` alone, which has an equivalent `x`
in the tree `T`; `E1` is `E` without that node, with no node for `remove` or
`replace` and the node at position `j` (one down when it came after the node
to delete) alone for `create`; `E2` is `E1` without that node, with no node for
`merge`. The equivalents of the node to delete are unlinked first, then a copy
of the node to create becomes the last child of the element that
`edit_create_r` resolves as its parent, and the run ends with what the loop of
the default operation leaves, unless a lookup faults. -/
theorem edit_operations_delete_then_create (fuel : Nat) (T E E1 E2 : xmlNode)
    (defop : NC_EDIT_OP_TYPE) (i j : Nat) (par x : xmlNodePtr) (pn cn : xmlNode)
    (hd : defop ≠ NC_EDIT_DEFOP_REPLACE)
    (hE : E.type = xmlElementType.XML_DOCUMENT_NODE)
    (hpn : deref E par = some pn)
    (hpt : pn.type = xmlElementType.XML_ELEMENT_NODE)
    (hanc : ∀ b ∈ element_ancestors E par, b.type = xmlElementType.XML_ELEMENT_NODE)
    (hij : i ≠ j)
    (hcn : deref E (j :: par) = some cn)
    (hce : cn.type = xmlElementType.XML_ELEMENT_NODE)
    (hdel : get_operation_elements NC_EDIT_OP_DELETE E = some [i :: par])
    (hx : find_element_equiv T E (some (i :: par)) = some (some x))
    (hu1 : xmlUnlinkNode E (i :: par) = some E1)
    (hrem : get_operation_elements NC_EDIT_OP_REMOVE E1 = some [])
    (hrep : get_operation_elements NC_EDIT_OP_REPLACE E1 = some [])
    (hcre : get_operation_elements NC_EDIT_OP_CREATE E1
      = some [(if j < i then j else j - 1) :: par])
    (hu2 : xmlUnlinkNode E1 ((if j < i then j else j - 1) :: par) = some E2)
    (hmer : get_operation_elements NC_EDIT_OP_MERGE E2 = some [])
    (hfuel : node_count T ≤ fuel) (hlen : E.children.length < fuel) :
    ∃ qs T1, unlink_equivalents E (i :: par) T (x :: qs) = some T1
      ∧ ((find_element_equiv T1 E (some (i :: par)) = none
          ∧ edit_operations fuel T E defop false = outcome.fault)
        ∨ (find_element_equiv T1 E (some (i :: par)) = some none
          ∧ ((find_element_equiv T1 E1 (some par) = none
              ∧ edit_operations fuel T E defop false = outcome.fault)
            ∨ ∃ c T1c P Pn T2,
                deep_copy_of c (remove_ns_prop cn "operation" NC_NS_BASE10)
                ∧ edit_create_r E1 T1 par = some (T1c, some P)
                ∧ deref T1c P = some Pn
                ∧ Pn.type = xmlElementType.XML_ELEMENT_NODE
                ∧ path_names T1c P = path_names E1 par
                ∧ (missing_ancestors T1 E1 par = 0 → T1c = T1)
                ∧ replace_node T1c P (set_children Pn (Pn.children ++ [c])) = some T2
                ∧ node_count T2 = node_count T1c + node_count cn
                ∧ (¬ (defop = NC_EDIT_DEFOP_MERGE ∨ defop = NC_EDIT_DEFOP_NOTSET) →
                    edit_operations fuel T E defop false
                      = outcome.done (EXIT_SUCCESS, ⟨T2, E2, [], none, []⟩))
                ∧ ((defop = NC_EDIT_DEFOP_MERGE ∨ defop = NC_EDIT_DEFOP_NOTSET) →
                    (merge_all fuel ⟨T2, E2, [], none, []⟩ false = outcome.fault
                      ∧ edit_operations fuel T E defop false = outcome.fault)
                    ∨ ∃ st, merge_all fuel ⟨T2, E2, [], none, []⟩ false
                          = outcome.done (EXIT_SUCCESS, st)
                        ∧ st.error = none
                        ∧ edit_operations fuel T E defop false
                          = outcome.done (EXIT_SUCCESS, st))))) := by
  obtain ⟨f, rfl⟩ : ∃ f, fuel = f + 1 := ⟨fuel - 1, by have := node_count_pos T; omega⟩
  obtain ⟨j1, hj1⟩ : ∃ j1, j1 = (if j < i then j else j - 1) := ⟨_, rfl⟩
  rw [← hj1] at hcre hu2
  -- the edit document once the node to delete is unlinked
  have hcons1 := xmlUnlinkNode_top E (i :: par) E1 hu1
  have hE1 : E1.type = xmlElementType.XML_DOCUMENT_NODE := by rw [hcons1.1, hE]
  obtain ⟨hpn1, _⟩ := deref_xmlUnlinkNode_parent E i par pn E1 hpn hu1
  have hcn1 : deref E1 (j1 :: par) = some cn := by
    rw [hj1, deref_xmlUnlinkNode_sibling E i j par pn E1 hpn hu1 hij, hcn]
  have hanc1 : ∀ b ∈ element_ancestors E1 par, b.type = xmlElementType.XML_ELEMENT_NODE := by
    intro b hb
    cases par with
    | nil => simp [element_ancestors] at hb
    | cons k2 pp =>
      have hb2 := (element_ancestors_mem E1 0 k2 pp _ hpn1).2 b hb
      have hty : b.type ∈ (element_ancestors E1 (0 :: k2 :: pp)).map (fun b => b.type) :=
        List.mem_map.2 ⟨b, hb2, rfl⟩
      rw [element_ancestors_xmlUnlinkNode E i 0 (k2 :: pp) pn E1 hpn hu1,
        element_ancestors_cons E 0 k2 pp pn hpn] at hty
      obtain ⟨b3, hb3, hb3t⟩ := List.mem_map.1 hty
      rw [← hb3t]
      rcases List.mem_cons.1 hb3 with h | h
      · rw [h, hpt]
      · exact hanc b3 h
  have hcons2 := xmlUnlinkNode_top E1 (j1 :: par) E2 hu2
  have hlen2 : E2.children.length < f + 1 := by
    have h1 := hcons1.2.1
    have h2 := hcons2.2.1
    omega
  -- the delete phase
  have hpt1 : (set_children pn (pn.children.eraseIdx i)).type
      = xmlElementType.XML_ELEMENT_NODE := hpt
  have hpnd1 : (set_children pn (pn.children.eraseIdx i)).type
      ≠ xmlElementType.XML_DOCUMENT_NODE := by rw [hpt1]; decide
  have hqs : ∀ (qs : List xmlNodePtr) (T1 : xmlNode) (r : Option (Option xmlNodePtr)),
      unlink_equivalents E (i :: par) T qs = some T1 →
      find_element_equiv T1 E (some (i :: par)) = r → r ≠ some (some x) →
      ∃ qs2, qs = x :: qs2 := by
    intro qs T1 r hq hr hne
    cases qs with
    | nil =>
      simp only [unlink_equivalents, Option.some.injEq] at hq
      subst hq
      rw [hx] at hr
      exact absurd hr.symm hne
    | cons q qs2 =>
      rw [unlink_equivalents] at hq
      by_cases hc : find_element_equiv T E (some (i :: par)) = some (some q)
      · rw [hx] at hc
        simp only [Option.some.injEq] at hc
        exact ⟨qs2, by rw [hc]⟩
      · rw [if_neg hc] at hq
        exact nomatch hq
  rcases delete_equivalents_spec (f + 1) ⟨T, E, [], none, []⟩ (i :: par) hfuel with
    ⟨qs, T1, hq, hnone, hdone⟩ | ⟨qs, T1, hq, hfault, hdf⟩
  · simp only [] at hq hnone
    obtain ⟨qs2, rfl⟩ := hqs qs T1 _ hq hnone (by simp)
    refine ⟨qs2, T1, hq, Or.inr ⟨hnone, ?_⟩⟩
    have hbody : edit_operations_delete (f + 1) false ⟨T, E, [], none, []⟩ (i :: par)
        = outcome.done (EXIT_SUCCESS, ⟨T1, E1, [], none, [i :: par]⟩) := by
      simp only [edit_operations_delete, hx, hdone, edit_delete_edit, Bool.false_eq_true,
        if_false, hu1, outcome.of_option]
      rfl
    have hpre : edit_operations (f + 1) T E defop false
        = phase_then (run_phase NC_EDIT_OP_CREATE
            (fun st node => edit_create (f + 1) st node false) ⟨T1, E1, [], none, []⟩)
          fun st5 =>
          phase_then (run_phase NC_EDIT_OP_MERGE
            (fun st node => edit_merge (f + 1) st node false) st5)
          fun st6 =>
          phase_then (if defop = NC_EDIT_DEFOP_MERGE ∨ defop = NC_EDIT_DEFOP_NOTSET then
              merge_all (f + 1) st6 false
            else outcome.done (EXIT_SUCCESS, st6))
          fun st7 => outcome.done (EXIT_SUCCESS, st7) := by
      unfold edit_operations
      rw [if_neg hd]
      simp only []
      rw [run_phase_singleton NC_EDIT_OP_DELETE _ ⟨T, E, [], none, []⟩ _ (i :: par) hdel hbody]
      simp only [phase_then, ne_eq, not_true_eq_false, if_false]
      rw [run_phase_nil NC_EDIT_OP_REMOVE _ _ hrem]
      simp only [phase_then, ne_eq, not_true_eq_false, if_false]
      rw [run_phase_nil NC_EDIT_OP_REPLACE _ _ hrep]
      simp only [ne_eq, not_true_eq_false, if_false]
    rcases edit_create_r_spec E1 T1 par _ hE1 hpn1 hpt1 hanc1 with
      hrnone | ⟨T1c, P, Pn, hr, hdP, htP, _, hpath, _, _, hzero⟩
    · left
      refine ⟨edit_create_r_none E1 T1 par _ hE1 hpn1 hpt1 hanc1 hrnone, ?_⟩
      have hb : edit_create (f + 1) ⟨T1, E1, [], none, []⟩ (j1 :: par) false = outcome.fault :=
        edit_create_fault f ⟨T1, E1, [], none, []⟩ j1 par cn _ hcn1 hpn1 hpnd1 hrnone
      rw [hpre, run_phase_singleton_fault NC_EDIT_OP_CREATE _ ⟨T1, E1, [], none, []⟩
        (j1 :: par) hcre hb]
      rfl
    · right
      obtain ⟨T2, edit3, hT2, he3, hb⟩ := edit_create_canonical f ⟨T1, E1, [], none, []⟩ j1 par
        cn _ T1c Pn P hcn1 hce hpn1 hpnd1 hr hdP htP
      simp only [] at he3 hb
      rw [hu2, Option.some.injEq] at he3
      subst he3
      have hfinal : edit_operations (f + 1) T E defop false
          = phase_then (if defop = NC_EDIT_DEFOP_MERGE ∨ defop = NC_EDIT_DEFOP_NOTSET then
              merge_all (f + 1) ⟨T2, E2, [], none, []⟩ false
            else outcome.done (EXIT_SUCCESS, ⟨T2, E2, [], none, []⟩))
            fun st7 => outcome.done (EXIT_SUCCESS, st7) := by
        rw [hpre, run_phase_singleton NC_EDIT_OP_CREATE _ ⟨T1, E1, [], none, []⟩ _
          (j1 :: par) hcre hb]
        simp only [phase_then, ne_eq, not_true_eq_false, if_false]
        rw [run_phase_nil NC_EDIT_OP_MERGE _ _ hmer]
        simp only [ne_eq, not_true_eq_false, if_false]
      have hcount : node_count T2 = node_count T1c + node_count cn := by
        have hc := replace_node_count T1c P Pn _ T2 hdP hT2
        rw [node_count_set_children, node_count_list_append, node_count_eq Pn] at hc
        simp only [node_count_list] at hc
        have hcc : node_count (xmlCopyNode_deep
            (nc_clear_namespaces (remove_ns_prop cn "operation" NC_NS_BASE10)))
            = node_count cn := by
          rw [xmlCopyNode_deep, node_count_eq, nc_clear_namespaces_children,
            remove_ns_prop_children, ← node_count_eq]
        omega
      refine ⟨_, T1c, P, Pn, T2, deep_copy_of_stored cn, hr, hdP, htP, hpath, hzero, hT2,
        hcount, fun hno => ?_, fun hyes => ?_⟩
      · rw [hfinal, if_neg hno]
        rfl
      · rw [hfinal, if_pos hyes]
        cases hm : merge_all (f + 1) ⟨T2, E2, [], none, []⟩ false with
        | done r =>
          obtain ⟨c, s2⟩ := r
          obtain ⟨hc, herr, _⟩ := merge_all_done (f + 1) _ s2 c hm
          subst hc
          exact Or.inr ⟨s2, rfl, herr, rfl⟩
        | fault => exact Or.inl ⟨rfl, rfl⟩
        | out_of_fuel => exact absurd hm (merge_all_fuel (f + 1) _ hlen2)
  · simp only [] at hq hfault
    obtain ⟨qs2, rfl⟩ := hqs qs T1 _ hq hfault (by simp)
    refine ⟨qs2, T1, hq, Or.inl ⟨hfault, ?_⟩⟩
    have hbody : edit_operations_delete (f + 1) false ⟨T, E, [], none, []⟩ (i :: par)
        = outcome.fault := by
      simp only [edit_operations_delete, hx, hdf]
    unfold edit_operations
    rw [if_neg hd]
    simp only []
    rw [run_phase_singleton_fault NC_EDIT_OP_DELETE _ ⟨T, E, [], none, []⟩ (i :: par) hdel hbody]
    rfl

/-- C30 (amended): the canonical mode with a default operation that is not
`replace`, for every tree `T` and every edit document `E` whose only annotated
nodes are two siblings below an element, the node `dn` at `i :: par`, annotated
`delete`, which has an equivalent `x` in `T`, and the element `cn` at
`j :: par`, annotated `create`, in either order (`i < j` or `j < i`), and fuel
for the loops. `E1` is `E` without the node to delete and `E2` is `E` without
both.

The delete comes first: the equivalents of the node to delete are unlinked one
after the other, the equivalent `x` that `T` holds and then those at `qs`,
which leaves `T1`. When the lookup then faults, the run
faults; else no equivalent of the node to delete is left in `T1`, and the
create phase works on `T1`. When the lookup of the equivalent of the parent
faults there, the run faults. Else `edit_create_r` resolves the parent to an
element at `P` of the tree (`T1c`, which is `T1` when the parent has an
equivalent), the names on the way to `P` are the names on the way to the
parent, and a copy `c` of `cn` without its operation attribute becomes the
last child of `P`: this is `T2`, which has the nodes of `T1c` and those of the
copy. With the default operation `none` the run
returns `EXIT_SUCCESS` with the tree `T2`. With `merge` or not set, the loop
of the default operation works on `T2` and on `E2`, which holds neither of the
two nodes, and the run returns `EXIT_SUCCESS` with what it leaves, unless it
faults. -/
theorem edit_operations_delete_before_create (fuel : Nat) (T E : xmlNode)
    (defop : NC_EDIT_OP_TYPE) (i j : Nat) (par x : xmlNodePtr) (pn dn cn : xmlNode)
    (hd : defop ≠ NC_EDIT_DEFOP_REPLACE)
    (hE : E.type = xmlElementType.XML_DOCUMENT_NODE)
    (hpn : deref E par = some pn)
    (hpt : pn.type = xmlElementType.XML_ELEMENT_NODE)
    (hanc : ∀ b ∈ element_ancestors E par, b.type = xmlElementType.XML_ELEMENT_NODE)
    (hij : i ≠ j)
    (hdn : deref E (i :: par) = some dn)
    (hcn : deref E (j :: par) = some cn)
    (hce : cn.type = xmlElementType.XML_ELEMENT_NODE)
    (hdel : get_operation_elements NC_EDIT_OP_DELETE E = some [i :: par])
    (hrem : get_operation_elements NC_EDIT_OP_REMOVE E = some [])
    (hrep : get_operation_elements NC_EDIT_OP_REPLACE E = some [])
    (hcre : get_operation_elements NC_EDIT_OP_CREATE E = some [j :: par])
    (hmer : get_operation_elements NC_EDIT_OP_MERGE E = some [])
    (hx : find_element_equiv T E (some (i :: par)) = some (some x))
    (hfuel : node_count T ≤ fuel) (hlen : E.children.length < fuel) :
    ∃ E1 E2 qs T1, xmlUnlinkNode E (i :: par) = some E1
      ∧ xmlUnlinkNode E1 ((if j < i then j else j - 1) :: par) = some E2
      ∧ unlink_equivalents E (i :: par) T (x :: qs) = some T1
      ∧ ((find_element_equiv T1 E (some (i :: par)) = none
          ∧ edit_operations fuel T E defop false = outcome.fault)
        ∨ (find_element_equiv T1 E (some (i :: par)) = some none
          ∧ ((find_element_equiv T1 E1 (some par) = none
              ∧ edit_operations fuel T E defop false = outcome.fault)
            ∨ ∃ c T1c P Pn T2,
                deep_copy_of c (remove_ns_prop cn "operation" NC_NS_BASE10)
                ∧ edit_create_r E1 T1 par = some (T1c, some P)
                ∧ deref T1c P = some Pn
                ∧ Pn.type = xmlElementType.XML_ELEMENT_NODE
                ∧ path_names T1c P = path_names E1 par
                ∧ (missing_ancestors T1 E1 par = 0 → T1c = T1)
                ∧ replace_node T1c P (set_children Pn (Pn.children ++ [c])) = some T2
                ∧ node_count T2 = node_count T1c + node_count cn
                ∧ (¬ (defop = NC_EDIT_DEFOP_MERGE ∨ defop = NC_EDIT_DEFOP_NOTSET) →
                    edit_operations fuel T E defop false
                      = outcome.done (EXIT_SUCCESS, ⟨T2, E2, [], none, []⟩))
                ∧ ((defop = NC_EDIT_DEFOP_MERGE ∨ defop = NC_EDIT_DEFOP_NOTSET) →
                    (merge_all fuel ⟨T2, E2, [], none, []⟩ false = outcome.fault
                      ∧ edit_operations fuel T E defop false = outcome.fault)
                    ∨ ∃ st, merge_all fuel ⟨T2, E2, [], none, []⟩ false
                          = outcome.done (EXIT_SUCCESS, st)
                        ∧ st.error = none
                        ∧ edit_operations fuel T E defop false
                          = outcome.done (EXIT_SUCCESS, st))))) := by
  obtain ⟨E1, hu1⟩ := xmlUnlinkNode_isSome E i par dn hdn
  have hcn1 := deref_xmlUnlinkNode_sibling E i j par pn E1 hpn hu1 hij
  rw [hcn] at hcn1
  obtain ⟨E2, hu2⟩ := xmlUnlinkNode_isSome E1 _ par cn hcn1
  have hrem1 : get_operation_elements NC_EDIT_OP_REMOVE E1 = some [] := by
    rw [get_operation_elements_xmlUnlinkNode _ E E1 _ hu1, hrem]
    rfl
  have hrep1 : get_operation_elements NC_EDIT_OP_REPLACE E1 = some [] := by
    rw [get_operation_elements_xmlUnlinkNode _ E E1 _ hu1, hrep]
    rfl
  have hptr : ptr_after_unlink (i :: par) (j :: par)
      = some ((if j < i then j else j - 1) :: par) := by
    rw [ptr_after_unlink]
    have h1 : ¬ (j :: par = i :: par) := by
      intro h
      exact hij (List.cons.inj h).1.symm
    simp only [h1, if_false, if_true]
    by_cases hlt : i < j
    · rw [if_pos hlt, if_neg (by omega)]
    · rw [if_neg hlt, if_pos (by omega)]
  have hcre1 : get_operation_elements NC_EDIT_OP_CREATE E1
      = some [(if j < i then j else j - 1) :: par] := by
    rw [get_operation_elements_xmlUnlinkNode _ E E1 _ hu1, hcre]
    simp only [Option.map_some', List.filterMap_cons, hptr, List.filterMap_nil]
  have hmer2 : get_operation_elements NC_EDIT_OP_MERGE E2 = some [] := by
    rw [get_operation_elements_xmlUnlinkNode _ E1 E2 _ hu2,
      get_operation_elements_xmlUnlinkNode _ E E1 _ hu1, hmer]
    rfl
  obtain ⟨qs, T1, h⟩ := edit_operations_delete_then_create fuel T E E1 E2 defop i j par x pn cn
    hd hE hpn hpt hanc hij hcn hce hdel hx hu1 hrem1 hrep1 hcre1 hu2 hmer2 hfuel hlen
  exact ⟨E1, E2, qs, T1, hu1, hu2, h⟩

/-- An instance of the amended C30 for the default operation `merge`, the
tree `doc_id_and_note` and the edit document `doc_create_then_delete`, where
the node to create comes first, and the result of the same run and of the run
with `doc_delete_then_create`, where the node to delete comes first: in both
the tree is left with one `note`, which holds the text of the node to
create. -/
theorem edit_operations_delete_before_create_witness :
    (∃ E1 E2 qs T1, xmlUnlinkNode (doc_create_then_delete "a" "c") [1, 0] = some E1
      ∧ xmlUnlinkNode E1 [0, 0] = some E2
      ∧ unlink_equivalents (doc_create_then_delete "a" "c") [1, 0]
          (doc_id_and_note "x") ([1, 0] :: qs) = some T1
      ∧ ((find_element_equiv T1 (doc_create_then_delete "a" "c") (some [1, 0]) = none
          ∧ edit_operations 6 (doc_id_and_note "x") (doc_create_then_delete "a" "c")
              NC_EDIT_DEFOP_MERGE false = outcome.fault)
        ∨ (find_element_equiv T1 (doc_create_then_delete "a" "c") (some [1, 0]) = some none
          ∧ ((find_element_equiv T1 E1 (some [0]) = none
              ∧ edit_operations 6 (doc_id_and_note "x") (doc_create_then_delete "a" "c")
                  NC_EDIT_DEFOP_MERGE false = outcome.fault)
            ∨ ∃ c T1c P Pn T2,
                deep_copy_of c (remove_ns_prop
                  (element_with_operation "note" "create" [mk_text "c"])
                  "operation" NC_NS_BASE10)
                ∧ edit_create_r E1 T1 [0] = some (T1c, some P)
                ∧ deref T1c P = some Pn
                ∧ Pn.type = xmlElementType.XML_ELEMENT_NODE
                ∧ path_names T1c P = path_names E1 [0]
                ∧ (missing_ancestors T1 E1 [0] = 0 → T1c = T1)
                ∧ replace_node T1c P (set_children Pn (Pn.children ++ [c])) = some T2
                ∧ node_count T2 = node_count T1c
                  + node_count (element_with_operation "note" "create" [mk_text "c"])
                ∧ (¬ (NC_EDIT_DEFOP_MERGE = NC_EDIT_DEFOP_MERGE
                      ∨ NC_EDIT_DEFOP_MERGE = NC_EDIT_DEFOP_NOTSET) →
                    edit_operations 6 (doc_id_and_note "x") (doc_create_then_delete "a" "c")
                        NC_EDIT_DEFOP_MERGE false
                      = outcome.done (EXIT_SUCCESS,
                          ⟨T2, E2, [], none, []⟩))
                ∧ ((NC_EDIT_DEFOP_MERGE = NC_EDIT_DEFOP_MERGE
                      ∨ NC_EDIT_DEFOP_MERGE = NC_EDIT_DEFOP_NOTSET) →
                    (merge_all 6 ⟨T2, E2, [], none, []⟩ false
                        = outcome.fault
                      ∧ edit_operations 6 (doc_id_and_note "x")
                          (doc_create_then_delete "a" "c") NC_EDIT_DEFOP_MERGE false
                        = outcome.fault)
                    ∨ ∃ st, merge_all 6 ⟨T2, E2, [], none, []⟩ false
                          = outcome.done (EXIT_SUCCESS, st)
                        ∧ st.error = none
                        ∧ edit_operations 6 (doc_id_and_note "x")
                            (doc_create_then_delete "a" "c") NC_EDIT_DEFOP_MERGE false
                          = outcome.done (EXIT_SUCCESS, st))))))
    ∧ (∃ st, edit_operations 6 (doc_id_and_note "x") (doc_create_then_delete "a" "c")
          NC_EDIT_DEFOP_MERGE false = outcome.done (EXIT_SUCCESS, st)
        ∧ st.orig_doc.children.map
            (fun r => (key_children "note" r).map (fun n => n.children))
          = [[[mk_text "c"]]])
    ∧ (∃ st, edit_operations 6 (doc_id_and_note "x") (doc_delete_then_create "a" "c")
          NC_EDIT_DEFOP_MERGE false = outcome.done (EXIT_SUCCESS, st)
        ∧ st.orig_doc.children.map
            (fun r => (key_children "note" r).map (fun n => n.children))
          = [[[mk_text "c"]]]) :=
  ⟨edit_operations_delete_before_create 6 (doc_id_and_note "x") (doc_create_then_delete "a" "c")
      NC_EDIT_DEFOP_MERGE 1 0 [0] [1, 0]
      (mk_element "capable-switch" (some ofc_ns)
        [element_with_operation "note" "create" [mk_text "c"],
          element_with_operation "note" "delete" [mk_text "a"]])
      (element_with_operation "note" "delete" [mk_text "a"])
      (element_with_operation "note" "create" [mk_text "c"])
      (by decide) rfl rfl rfl (by decide) (by decide) rfl rfl rfl (by decide) (by decide)
      (by decide) (by decide) (by decide) (by decide) (by decide) (by decide),
    (edit_operations_notes_either_order 4 "a" "c" "x" NC_EDIT_DEFOP_MERGE (by decide)).2.elim
      fun E3 h => h.elim fun u3 h2 => ⟨_, h2, rfl⟩,
    (edit_operations_notes_either_order 4 "a" "c" "x" NC_EDIT_DEFOP_MERGE (by decide)).1.elim
      fun E3 h => h.elim fun u3 h2 => ⟨_, h2, rfl⟩⟩

/-! ## How a run of `edit_operations` ends -/

/-- C38, amended. In the canonical mode a run of `edit_operations` with fuel
for its loops ends in one of three ways: it faults, it returns `EXIT_SUCCESS`
with no error, or it returns `EXIT_FAILURE` from the delete phase, for an edit
node without equivalent and with the error `data-missing`. `edit_remove`,
`edit_replace`, `edit_create`, `edit_merge` and the loops of the default
operations end, and they fault or return `EXIT_SUCCESS`; they never return
`EXIT_FAILURE`. A create-annotated element whose equivalent exists is applied:
below an element, a copy of it becomes a further, last child of the parent of
the equivalent; at the top level, a copy of it takes the place of the first
top-level element of the tree. A run can fault in the create phase: with
`doc_nested_create` the second entry of the node set is freed with the
first. -/
theorem edit_operations_fails_only_by_delete (fuel : Nat) (T E : xmlNode)
    (defop : NC_EDIT_OP_TYPE)
    (hE : E.type = xmlElementType.XML_DOCUMENT_NODE) (hT : node_count T ≤ fuel)
    (hlen : E.children.length < fuel) :
    (edit_operations fuel T E defop false = outcome.fault
      ∨ (∃ st, edit_operations fuel T E defop false = outcome.done (EXIT_SUCCESS, st)
        ∧ st.error = none)
      ∨ (∃ st, edit_operations fuel T E defop false = outcome.done (EXIT_FAILURE, st)
        ∧ st.error = some (nc_err_new NC_ERR.NC_ERR_DATA_MISSING)
        ∧ ∃ (st0 : edit_state) (p : xmlNodePtr),
          find_element_equiv st0.orig_doc st0.edit_doc (some p) = some none
          ∧ st = ⟨st0.orig_doc, st0.edit_doc, st0.calls,
              some (nc_err_new NC_ERR.NC_ERR_DATA_MISSING), st0.unlinked⟩))
    ∧ (∀ (s : edit_state) (p : xmlNodePtr),
        edit_remove s p false = none
          ∨ ∃ s2, edit_remove s p false = some (EXIT_SUCCESS, s2))
    ∧ (∀ (f : Nat) (s : edit_state) (p : xmlNodePtr),
        edit_replace (f + 1) s (some p) false = outcome.fault
          ∨ ∃ s2, edit_replace (f + 1) s (some p) false = outcome.done (EXIT_SUCCESS, s2))
    ∧ (∀ (f : Nat) (s : edit_state) (p : xmlNodePtr),
        edit_create (f + 1) s p false = outcome.fault
          ∨ ∃ s2, edit_create (f + 1) s p false = outcome.done (EXIT_SUCCESS, s2))
    ∧ (∀ (f : Nat) (s : edit_state) (p : xmlNodePtr),
        edit_merge (f + 1) s p false = outcome.fault
          ∨ ∃ s2, edit_merge (f + 1) s p false = outcome.done (EXIT_SUCCESS, s2))
    ∧ (∀ (f : Nat) (s : edit_state), s.edit_doc.children.length < f →
        replace_all f s false = outcome.fault
          ∨ ∃ s2, replace_all f s false = outcome.done (EXIT_SUCCESS, s2))
    ∧ (∀ (f : Nat) (s : edit_state), s.edit_doc.children.length < f →
        merge_all f s false = outcome.fault
          ∨ ∃ s2, merge_all f s false = outcome.done (EXIT_SUCCESS, s2))
    ∧ (∀ (f : Nat) (s : edit_state) (k : Nat) (parent q : xmlNodePtr) (n0 pn : xmlNode),
        deref s.edit_doc (k :: parent) = some n0 →
        n0.type = xmlElementType.XML_ELEMENT_NODE →
        deref s.edit_doc parent = some pn →
        pn.type = xmlElementType.XML_ELEMENT_NODE →
        find_element_equiv s.orig_doc s.edit_doc (some (k :: parent)) = some (some q) →
        ∃ i P Pn c orig3 edit3, q = i :: P ∧ deref s.orig_doc P = some Pn
          ∧ i < Pn.children.length
          ∧ deep_copy_of c (remove_ns_prop n0 "operation" NC_NS_BASE10)
          ∧ edit_create (f + 1) s (k :: parent) false
            = outcome.done (EXIT_SUCCESS,
                ⟨orig3, edit3, s.calls, s.error, s.unlinked ++ [k :: parent]⟩)
          ∧ deref orig3 P = some (set_children Pn (Pn.children ++ [c])))
    ∧ (∀ (f : Nat) (s : edit_state) (r : xmlNode) (rest : List xmlNode) (i : Nat),
        s.edit_doc.type = xmlElementType.XML_DOCUMENT_NODE →
        s.edit_doc.children = r :: rest →
        s.orig_doc.type = xmlElementType.XML_DOCUMENT_NODE →
        first_element_index s.orig_doc.children 0 = some i →
        ∃ c, deep_copy_of c (remove_ns_prop r "operation" NC_NS_BASE10)
          ∧ edit_create (f + 1) s [0] false
            = outcome.done (EXIT_SUCCESS,
                ⟨set_children s.orig_doc (s.orig_doc.children.set i c),
                  set_children s.edit_doc rest, s.calls, s.error, s.unlinked ++ [[0]]⟩))
    ∧ edit_operations 10 (mk_doc []) doc_nested_create NC_EDIT_DEFOP_MERGE false
      = outcome.fault := by
  refine ⟨?_, ?_, ?_, ?_, ?_, ?_, ?_, ?_, ?_, ?_⟩
  · cases h : edit_operations fuel T E defop false with
    | done x =>
      obtain ⟨code, st⟩ := x
      rcases edit_operations_canonical_done fuel T E defop code st h with
        ⟨h1, h2, _⟩ | ⟨h1, st0, p, h2, h3⟩
      · subst h1
        exact Or.inr (Or.inl ⟨st, rfl, h2⟩)
      · subst h1
        exact Or.inr (Or.inr ⟨st, rfl, by rw [h3], st0, p, h2, h3⟩)
    | fault => exact Or.inl rfl
    | out_of_fuel => exact absurd h (edit_operations_canonical_fuel fuel T E defop hE hT hlen)
  · intro s p
    cases h : edit_remove s p false with
    | none => exact Or.inl rfl
    | some x =>
      obtain ⟨c, s2⟩ := x
      have hc := (edit_remove_canonical_done s s2 p c h).1
      subst hc
      exact Or.inr ⟨s2, rfl⟩
  · intro f s p
    cases h : edit_replace (f + 1) s (some p) false with
    | done x =>
      obtain ⟨c, s2⟩ := x
      have hc := (edit_replace_canonical_done (f + 1) s s2 p c h).1
      subst hc
      exact Or.inr ⟨s2, rfl⟩
    | fault => exact Or.inl rfl
    | out_of_fuel => exact absurd h (edit_replace_canonical_fuel f s p)
  · intro f s p
    cases h : edit_create (f + 1) s p false with
    | done x =>
      obtain ⟨c, s2⟩ := x
      have hc := (edit_create_canonical_done (f + 1) s s2 p c h).1
      subst hc
      exact Or.inr ⟨s2, rfl⟩
    | fault => exact Or.inl rfl
    | out_of_fuel => exact absurd h (edit_create_canonical_fuel f s p)
  · intro f s p
    cases h : edit_merge (f + 1) s p false with
    | done x =>
      obtain ⟨c, s2⟩ := x
      have hc := (edit_merge_canonical_done (f + 1) s s2 p c h).1
      subst hc
      exact Or.inr ⟨s2, rfl⟩
    | fault => exact Or.inl rfl
    | out_of_fuel => exact absurd h (edit_merge_canonical_fuel f s p)
  · intro f s hl
    cases h : replace_all f s false with
    | done x =>
      obtain ⟨c, s2⟩ := x
      have hc := (replace_all_done f s s2 c h).1
      subst hc
      exact Or.inr ⟨s2, rfl⟩
    | fault => exact Or.inl rfl
    | out_of_fuel => exact absurd h (replace_all_fuel f s hl)
  · intro f s hl
    cases h : merge_all f s false with
    | done x =>
      obtain ⟨c, s2⟩ := x
      have hc := (merge_all_done f s s2 c h).1
      subst hc
      exact Or.inr ⟨s2, rfl⟩
    | fault => exact Or.inl rfl
    | out_of_fuel => exact absurd h (merge_all_fuel f s hl)
  · intro f s k parent q n0 pn hn hne hpn hpe hfind
    obtain ⟨i, P, Pn, hq, hP, hi, hPt, hfp⟩ :=
      find_element_equiv_parent_element s.orig_doc s.edit_doc k parent q pn hpn hpe hfind
    obtain ⟨orig3, edit3, h1, _, h3⟩ := edit_create_canonical f s k parent n0 pn s.orig_doc Pn P
      hn hne hpn (by rw [hpe]; decide) (edit_create_r_found _ _ _ _ hfp) hP hPt
    exact ⟨i, P, Pn, _, orig3, edit3, hq, hP, hi, deep_copy_of_stored n0, h3,
      deref_replace_node_self _ _ _ _ h1⟩
  · intro f s r rest i hEt hE hT hi
    refine ⟨_, deep_copy_of_cleared r, ?_⟩
    rw [edit_create_top_level f s r rest hEt hE hT]
    simp only [xmlDocSetRootElement, hi]
  · rfl

/-- An instance of the amended C38: the run on the empty tree with a `note` to
delete ends, and a `note` annotated `create` whose equivalent exists in
`doc_one_note` is applied, its copy being a further child of
`capable-switch`. -/
theorem edit_operations_fails_only_by_delete_witness :
    (edit_operations 2 (mk_doc []) (doc_note_edit "delete") NC_EDIT_DEFOP_MERGE false
        = outcome.fault
      ∨ (∃ st, edit_operations 2 (mk_doc []) (doc_note_edit "delete") NC_EDIT_DEFOP_MERGE false
          = outcome.done (EXIT_SUCCESS, st)
        ∧ st.error = none)
      ∨ (∃ st, edit_operations 2 (mk_doc []) (doc_note_edit "delete") NC_EDIT_DEFOP_MERGE false
          = outcome.done (EXIT_FAILURE, st)
        ∧ st.error = some (nc_err_new NC_ERR.NC_ERR_DATA_MISSING)
        ∧ ∃ (st0 : edit_state) (p : xmlNodePtr),
          find_element_equiv st0.orig_doc st0.edit_doc (some p) = some none
          ∧ st = ⟨st0.orig_doc, st0.edit_doc, st0.calls,
              some (nc_err_new NC_ERR.NC_ERR_DATA_MISSING), st0.unlinked⟩))
    ∧ edit_operations 2 (mk_doc []) (doc_note_edit "delete") NC_EDIT_DEFOP_MERGE false
      = outcome.done (EXIT_FAILURE,
          ⟨mk_doc [], doc_note_edit "delete", [],
            some (nc_err_new NC_ERR.NC_ERR_DATA_MISSING), []⟩)
    ∧ (∃ i P Pn c orig3 edit3, [1, 0] = i :: P ∧ deref doc_one_note P = some Pn
        ∧ i < Pn.children.length
        ∧ deep_copy_of c (remove_ns_prop (element_with_operation "note" "create" [mk_text "a"])
            "operation" NC_NS_BASE10)
        ∧ edit_create 1 ⟨doc_one_note, doc_note_edit "create", [], none, []⟩ [0, 0] false
          = outcome.done (EXIT_SUCCESS, ⟨orig3, edit3, [], none, [] ++ [[0, 0]]⟩)
        ∧ deref orig3 P = some (set_children Pn (Pn.children ++ [c]))) :=
  ⟨(edit_operations_fails_only_by_delete 2 (mk_doc []) (doc_note_edit "delete")
      NC_EDIT_DEFOP_MERGE rfl (by decide) (by decide)).1,
    rfl,
    (edit_operations_fails_only_by_delete 2 (mk_doc []) (doc_note_edit "delete")
      NC_EDIT_DEFOP_MERGE rfl (by decide) (by decide)).2.2.2.2.2.2.2.1
      0 ⟨doc_one_note, doc_note_edit "create", [], none, []⟩ 0 [0] [1, 0]
      (element_with_operation "note" "create" [mk_text "a"])
      (mk_element "capable-switch" (some ofc_ns)
        [element_with_operation "note" "create" [mk_text "a"]])
      rfl rfl rfl rfl (by decide)⟩
